import Mathlib

/-! Verification development for qwen3-tts-cpp: tokenizer and sampler.

Shallow embedding of `src/src/utils.cpp` and `src/src/tokenizer.cpp`.

Conventions of the embedding.
* A `std::string` is a `List Nat` of byte values (each below 256 for a real
  string); `s.substr(pos, n)` is `substr s pos n`.
* A `while` loop whose trip count is not syntactically bounded is a recursion
  on a fuel argument that returns `none` when the fuel is exhausted while the
  loop condition still holds.  Theorems then show that the fuel supplied by the
  callers is always enough, i.e. the result is `some _`.
* `std::unordered_map` is an association list read with `List.lookup`;
  `m[k] = v` conses the new binding in front.
* 64-bit ids are `Int` (no arithmetic is performed on them).
-/

namespace QWEN3TTSUTILS

/-- The substring `s.substr(pos, n)` of a byte string (clamped at the end). -/
def substr (s : List Nat) (pos n : Nat) : List Nat := (s.drop pos).take n

/-- The byte `s[i]` read as `unsigned char`. -/
def byteAt (s : List Nat) (i : Nat) : Nat := s.getD i 0

/-- `AppendUtf8(cp, out)`: every pushed value is truncated to one byte by the
`static_cast<char>`. -/
def AppendUtf8 (cp : Nat) (out : List Nat) : List Nat :=
  if cp ≤ 0x7F then
    out ++ [cp % 256]
  else if cp ≤ 0x7FF then
    out ++ [(0xC0 ||| (cp >>> 6)) % 256, (0x80 ||| (cp &&& 0x3F)) % 256]
  else if cp ≤ 0xFFFF then
    out ++ [(0xE0 ||| (cp >>> 12)) % 256, (0x80 ||| ((cp >>> 6) &&& 0x3F)) % 256,
            (0x80 ||| (cp &&& 0x3F)) % 256]
  else
    out ++ [(0xF0 ||| (cp >>> 18)) % 256, (0x80 ||| ((cp >>> 12) &&& 0x3F)) % 256,
            (0x80 ||| ((cp >>> 6) &&& 0x3F)) % 256, (0x80 ||| (cp &&& 0x3F)) % 256]

/-- `DecodeUtf8At(s, i, &next_i)`: the pair (returned codepoint, value stored in
`*next_i`). -/
def DecodeUtf8At (s : List Nat) (i : Nat) : Nat × Nat :=
  if s.length ≤ i then (0, s.length)
  else
    let c0 := byteAt s i
    if c0 < 0x80 then (c0, i + 1)
    else if c0 >>> 5 = 0x6 ∧ i + 1 < s.length then
      let c1 := byteAt s (i + 1)
      (((c0 &&& 0x1F) <<< 6) ||| (c1 &&& 0x3F), i + 2)
    else if c0 >>> 4 = 0xE ∧ i + 2 < s.length then
      let c1 := byteAt s (i + 1)
      let c2 := byteAt s (i + 2)
      (((c0 &&& 0x0F) <<< 12) ||| ((c1 &&& 0x3F) <<< 6) ||| (c2 &&& 0x3F), i + 3)
    else if c0 >>> 3 = 0x1E ∧ i + 3 < s.length then
      let c1 := byteAt s (i + 1)
      let c2 := byteAt s (i + 2)
      let c3 := byteAt s (i + 3)
      (((c0 &&& 0x07) <<< 18) ||| ((c1 &&& 0x3F) <<< 12) ||| ((c2 &&& 0x3F) <<< 6)
        ||| (c3 &&& 0x3F), i + 4)
    else (63, i + 1)

/-- `IsAsciiLetter`. -/
def IsAsciiLetter (cp : Nat) : Bool :=
  (decide (97 ≤ cp) && decide (cp ≤ 122)) || (decide (65 ≤ cp) && decide (cp ≤ 90))

/-- `IsAsciiDigit`. -/
def IsAsciiDigit (cp : Nat) : Bool := decide (48 ≤ cp) && decide (cp ≤ 57)

/-- `IsNewline`: line feed or carriage return. -/
def IsNewline (cp : Nat) : Bool := decide (cp = 10) || decide (cp = 13)

/-- `IsWhitespaceNonNewline`: space, tab, vertical tab, form feed. -/
def IsWhitespaceNonNewline (cp : Nat) : Bool :=
  decide (cp = 32) || decide (cp = 9) || decide (cp = 11) || decide (cp = 12)

/-- `IsLetter`: ASCII letters, and every codepoint from 128 on. -/
def IsLetter (cp : Nat) : Bool := if cp < 128 then IsAsciiLetter cp else true

/-- `IsNumber`. -/
def IsNumber (cp : Nat) : Bool := IsAsciiDigit cp

end QWEN3TTSUTILS

namespace QWEN3TTS

open QWEN3TTSUTILS

/-- `std::tolower` on an `unsigned char` in the C locale. -/
def toLowerByte (b : Nat) : Nat := if 65 ≤ b ∧ b ≤ 90 then b + 32 else b

/-- The table `cs` of the lambda `contraction_len`:
apostrophe followed by s, t, re, ve, m, ll, d. -/
def contractionTable : List (List Nat) :=
  [[39, 115], [39, 116], [39, 114, 101], [39, 118, 101], [39, 109], [39, 108, 108], [39, 100]]

/-- The lambda `contraction_len` of `RegexLikeSplit`: length of the first table
entry that matches case-insensitively at `pos`, or 0. -/
def contraction_len (s : List Nat) (pos : Nat) : Nat :=
  match contractionTable.find? (fun c =>
      decide (pos + c.length ≤ s.length) &&
        (List.range c.length).all (fun k => toLowerByte (byteAt s (pos + k)) == c.getD k 0)) with
  | some c => c.length
  | none => 0

/-- The scanning loop used throughout `RegexLikeSplit`:
`while (e < s.size()) { cpx = DecodeUtf8At(s, e, &npos); if (!p(cpx)) break; e = npos; }`.
Returns the final `e`. -/
def scanWhile (p : Nat → Bool) (s : List Nat) : Nat → Nat → Option Nat
  | 0, e => if e < s.length then none else some e
  | fuel + 1, e =>
    if e < s.length then
      if p (DecodeUtf8At s e).1 then scanWhile p s fuel (DecodeUtf8At s e).2 else some e
    else some e

/-- The break test of the last segment of `RegexLikeSplit` (negated): the
codepoint is none of newline, whitespace, letter, number. -/
def IsOther (cp : Nat) : Bool :=
  !(IsNewline cp || IsWhitespaceNonNewline cp || IsLetter cp || IsNumber cp)

/-- One iteration of the main loop of `RegexLikeSplit` at position `i < s.size()`:
the chunk pushed onto `out` and the new value of `i`. -/
def splitStep (s : List Nat) (i : Nat) : Option (List Nat × Nat) :=
  let c_len := contraction_len s i
  if 0 < c_len then some (substr s i c_len, i + c_len)
  else
    let cp := (DecodeUtf8At s i).1
    let j := (DecodeUtf8At s i).2
    let is_l := IsLetter cp
    let is_n := IsNumber cp
    let is_nl := IsNewline cp
    let is_ws := IsWhitespaceNonNewline cp
    if (!is_nl && !is_l && !is_n) && decide (j < s.length) && IsLetter (DecodeUtf8At s j).1 then
      (scanWhile IsLetter s s.length (DecodeUtf8At s j).2).map
        (fun e => (substr s i (e - i), e))
    else if is_l then
      (scanWhile IsLetter s s.length j).map (fun e => (substr s i (e - i), e))
    else if is_n then some (substr s i (j - i), j)
    else if is_ws || is_nl then
      if is_ws then
        (scanWhile IsWhitespaceNonNewline s s.length j).bind (fun e =>
          let cpx := (DecodeUtf8At s e).1
          let npos := (DecodeUtf8At s e).2
          if decide (e < s.length) && IsNewline cpx then
            (scanWhile IsNewline s s.length npos).map (fun nle => (substr s i (nle - i), nle))
          else if decide (e < s.length) &&
              (IsLetter cpx || (!IsNewline cpx && !IsLetter cpx && !IsNumber cpx &&
                !IsWhitespaceNonNewline cpx)) && decide (1 < e - i) then
            some (substr s i ((e - i) - 1), e - 1)
          else some (substr s i (e - i), e))
      else
        (scanWhile IsNewline s s.length j).map (fun e => (substr s i (e - i), e))
    else
      (scanWhile IsOther s s.length j).bind (fun e1 =>
        (scanWhile IsNewline s s.length e1).map (fun e => (substr s i (e - i), e)))

/-- The main loop `while (i < s.size())` of `RegexLikeSplit`. -/
def RegexLikeSplitLoop (s : List Nat) : Nat → Nat → List (List Nat) → Option (List (List Nat))
  | 0, i, out => if i < s.length then none else some out
  | fuel + 1, i, out =>
    if i < s.length then
      match splitStep s i with
      | some (chunk, i') => RegexLikeSplitLoop s fuel i' (out ++ [chunk])
      | none => none
    else some out

/-- `VoiceTokenizer::RegexLikeSplit`. -/
def RegexLikeSplit (s : List Nat) : Option (List (List Nat)) :=
  RegexLikeSplitLoop s s.length 0 []

/-- Outcome of one loop iteration at `i`: a chunk was produced, the position moved
forward within the string, and the chunk is exactly the bytes skipped. -/
def StepOk (s : List Nat) (i : Nat) (r : Option (List Nat × Nat)) : Prop :=
  ∃ chunk i', r = some (chunk, i') ∧ i < i' ∧ i' ≤ s.length ∧ chunk = substr s i (i' - i)

/-- The loop of `SplitUtf8Chars`: one element per decoded codepoint. -/
def SplitUtf8CharsLoop (s : List Nat) : Nat → Nat → List (List Nat) → Option (List (List Nat))
  | 0, i, out => if i < s.length then none else some out
  | fuel + 1, i, out =>
    if i < s.length then
      SplitUtf8CharsLoop s fuel (DecodeUtf8At s i).2
        (out ++ [substr s i ((DecodeUtf8At s i).2 - i)])
    else some out

/-- `VoiceTokenizer::SplitUtf8Chars`. -/
def SplitUtf8Chars (s : List Nat) : Option (List (List Nat)) :=
  SplitUtf8CharsLoop s s.length 0 []

/-- The vectors `bs` and `cs` of `InitByteEncoder` after its first four loops. -/
def byteEncoderTables : List Nat × List Nat :=
  let bs := List.range' 33 94 ++ List.range' 161 12 ++ List.range' 174 82
  let st := (List.range 256).foldl
    (fun (st : List Nat × List Nat × Nat) b =>
      if st.1.contains b then st else (st.1 ++ [b], st.2.1 ++ [256 + st.2.2], st.2.2 + 1))
    (bs, bs, 0)
  (st.1, st.2.1)

/-- `VoiceTokenizer::InitByteEncoder`, as a function of the previous content of
the array `byte_encoder_`. -/
def InitByteEncoder (byte_encoder_ : List (List Nat)) : List (List Nat) :=
  (List.range byteEncoderTables.1.length).foldl
    (fun enc i => enc.set (byteEncoderTables.1.getD i 0)
      (AppendUtf8 (byteEncoderTables.2.getD i 0) []))
    byte_encoder_

/-- `VoiceTokenizer::ByteEncodeToken`, reading the array `byte_encoder_`. -/
def ByteEncodeToken (byte_encoder_ : List (List Nat)) (tok : List Nat) : List Nat :=
  tok.foldl (fun out b => out ++ byte_encoder_.getD b []) []

/-- The members of `VoiceTokenizer`. -/
structure VoiceTokenizer where
  vocab_ : List (List Nat × Int)
  bpe_ranks_ : List (List Nat × Int)
  bpe_cache_ : List (List Nat × List Nat)
  byte_encoder_ : List (List Nat)
  im_start_id_ : Int
  im_end_id_ : Int
  endoftext_id_ : Int
  assistant_id_ : Int
  user_id_ : Int
  newline_id_ : Int
  last_error_ : String

/-- The key `a + "\t" + b` under which `bpe_ranks_` stores the pair `(a, b)`. -/
def pairKey (a b : List Nat) : List Nat := a ++ [9] ++ b

/-- The first `for` loop in the body of the `while (true)` of `Bpe`: the pair
`(best_rank, best_i)` after scanning all adjacent pairs. -/
def bestPair (ranks : List (List Nat × Int)) (word : List (List Nat)) : Int × Int :=
  (List.range (word.length - 1)).foldl
    (fun (st : Int × Int) i =>
      match ranks.lookup (pairKey (word.getD i []) (word.getD (i + 1) [])) with
      | some r => if r < st.1 then (r, (i : Int)) else st
      | none => st)
    (2147483647, -1)

/-- The second `for` loop in the body of the `while (true)` of `Bpe`, building
`nw`; the list argument is `word` from index `i` on.  (The loop reads
`word[i + 1]` only at `i = best_i`, and `best_i + 1 < word.size()` always holds,
so a last element is never merged.) -/
def mergeAt (best_i : Int) : Nat → List (List Nat) → List (List Nat)
  | _, [] => []
  | _, [a] => [a]
  | i, a :: b :: rest =>
    if (i : Int) = best_i then (a ++ b) :: mergeAt best_i (i + 2) rest
    else a :: mergeAt best_i (i + 1) (b :: rest)

/-- The loop `while (true)` of `Bpe`. -/
def BpeLoop (ranks : List (List Nat × Int)) : Nat → List (List Nat) → Option (List (List Nat))
  | 0, _ => none
  | fuel + 1, word =>
    if (bestPair ranks word).2 < 0 then some word
    else if (mergeAt (bestPair ranks word).2 0 word).length = 1 then
      some (mergeAt (bestPair ranks word).2 0 word)
    else BpeLoop ranks fuel (mergeAt (bestPair ranks word).2 0 word)

/-- The merge loop of `Bpe` run on a sequence of units, with the fuel `Bpe` gives it. -/
def BpeUnits (ranks : List (List Nat × Int)) (word : List (List Nat)) :
    Option (List (List Nat)) :=
  BpeLoop ranks (word.length + 1) word

/-- The last loop of `Bpe`: the units joined by single spaces. -/
def joinUnits (word : List (List Nat)) : List Nat :=
  (List.range word.length).foldl
    (fun out i => (if i ≠ 0 then out ++ [32] else out) ++ word.getD i []) []

/-- `VoiceTokenizer::Bpe`: the returned string and the tokenizer with its updated
`bpe_cache_`. -/
def Bpe (t : VoiceTokenizer) (token : List Nat) : Option (List Nat × VoiceTokenizer) :=
  match t.bpe_cache_.lookup token with
  | some c => some (c, t)
  | none =>
    match SplitUtf8Chars token with
    | none => none
    | some word =>
      if word.length = 1 then
        some (token, { t with bpe_cache_ := (token, token) :: t.bpe_cache_ })
      else
        match BpeUnits t.bpe_ranks_ word with
        | none => none
        | some w =>
          some (joinUnits w, { t with bpe_cache_ := (token, joinUnits w) :: t.bpe_cache_ })

/-- The position `bpe.find(SPACE, i)` of the first space at or after `i`, replaced
by `bpe.size()` when there is none. -/
def findSpace (bpe : List Nat) (i : Nat) : Nat := i + (bpe.drop i).indexOf 32

/-- The inner `while (i < bpe.size())` of `Encode` on one merged chunk.  The
result `some none` is the early `return {}` on an out-of-vocabulary piece
without an end-of-text id. -/
def EncodeLoop (vocab : List (List Nat × Int)) (endoftext_id_ : Int) (bpe : List Nat) :
    Nat → Nat → List Int → Option (Option (List Int))
  | 0, i, ids => if i < bpe.length then none else some (some ids)
  | fuel + 1, i, ids =>
    if i < bpe.length then
      match vocab.lookup (substr bpe i (findSpace bpe i - i)) with
      | some id => EncodeLoop vocab endoftext_id_ bpe fuel (findSpace bpe i + 1) (ids ++ [id])
      | none =>
        if 0 ≤ endoftext_id_ then
          EncodeLoop vocab endoftext_id_ bpe fuel (findSpace bpe i + 1) (ids ++ [endoftext_id_])
        else some none
    else some (some ids)

/-- The loop `for (const auto& ch : chunks)` of `Encode`. -/
def EncodeChunks : VoiceTokenizer → List (List Nat) → List Int →
    Option (List Int × VoiceTokenizer)
  | t, [], ids => some (ids, t)
  | t, ch :: rest, ids =>
    match Bpe t (ByteEncodeToken t.byte_encoder_ ch) with
    | none => none
    | some (bpe, t1) =>
      match EncodeLoop t1.vocab_ t1.endoftext_id_ bpe bpe.length 0 ids with
      | none => none
      | some none => some ([], { t1 with last_error_ := "Tokenizer OOV and no unk token id" })
      | some (some ids') => EncodeChunks t1 rest ids'

/-- `VoiceTokenizer::Encode`: the returned ids and the tokenizer afterwards. -/
def Encode (t : VoiceTokenizer) (text : List Nat) : Option (List Int × VoiceTokenizer) :=
  match RegexLikeSplit text with
  | none => none
  | some chunks => EncodeChunks t chunks []

/-- `VoiceTokenizer::BuildVoiceDesignIds`: the pair `(*input_ids, *instruct_ids)`
and the tokenizer afterwards. -/
def BuildVoiceDesignIds (t : VoiceTokenizer) (text instruct : List Nat) :
    Option ((List Int × List Int) × VoiceTokenizer) :=
  match Encode t text with
  | none => none
  | some (text_ids, t1) =>
    match Encode t1 instruct with
    | none => none
    | some (instr_ids, t2) =>
      some (([t2.im_start_id_, t2.assistant_id_, t2.newline_id_] ++ text_ids ++
               [t2.im_end_id_] ++ [t2.newline_id_] ++ [t2.im_start_id_] ++
               [t2.assistant_id_] ++ [t2.newline_id_],
             [t2.im_start_id_, t2.user_id_, t2.newline_id_] ++ instr_ids ++
               [t2.im_end_id_] ++ [t2.newline_id_]), t2)

/-- `VoiceTokenizer::BuildVoiceDesignIdsSafe` called with a non-null `error`:
the returned flag, the two id vectors, the string left in `*error`, and the
tokenizer afterwards. -/
def BuildVoiceDesignIdsSafe (t : VoiceTokenizer) (text instruct : List Nat) :
    Option ((Bool × (List Int × List Int) × String) × VoiceTokenizer) :=
  match BuildVoiceDesignIds t text instruct with
  | none => none
  | some (ids, t1) =>
    if t1.last_error_ ≠ "" then some ((false, ids, t1.last_error_), t1)
    else some ((true, ids, ""), t1)

/-- The algorithm of `Bpe` with the two cache accesses removed: what `Bpe`
computes for `token` when `bpe_cache_` has no entry for it. -/
def BpeUncached (ranks : List (List Nat × Int)) (token : List Nat) : Option (List Nat) :=
  match SplitUtf8Chars token with
  | none => none
  | some word =>
    if word.length = 1 then some token else (BpeUnits ranks word).map joinUnits

/-- Every entry of the cache is the result of the uncached algorithm on its key. -/
def CacheOk (ranks : List (List Nat × Int)) (cache : List (List Nat × List Nat)) : Prop :=
  ∀ k v, cache.lookup k = some v → BpeUncached ranks k = some v

/-- The tokenizer `t'` differs from `t` at most in `bpe_cache_` and `last_error_`. -/
def SameTables (t t' : VoiceTokenizer) : Prop :=
  t'.vocab_ = t.vocab_ ∧ t'.bpe_ranks_ = t.bpe_ranks_ ∧ t'.byte_encoder_ = t.byte_encoder_ ∧
  t'.im_start_id_ = t.im_start_id_ ∧ t'.im_end_id_ = t.im_end_id_ ∧
  t'.endoftext_id_ = t.endoftext_id_ ∧ t'.assistant_id_ = t.assistant_id_ ∧
  t'.user_id_ = t.user_id_ ∧ t'.newline_id_ = t.newline_id_

/-- The strings `tok` that the inner loop of `Encode` cuts out of `bpe`, in order
(the loop of `EncodeLoop` with the vocabulary lookup left out). -/
def PiecesLoop (bpe : List Nat) : Nat → Nat → Option (List (List Nat))
  | 0, i => if i < bpe.length then none else some []
  | fuel + 1, i =>
    if i < bpe.length then
      (PiecesLoop bpe fuel (findSpace bpe i + 1)).map
        (fun r => substr bpe i (findSpace bpe i - i) :: r)
    else some []

/-- The pieces of one merged chunk. -/
def BpePieces (bpe : List Nat) : Option (List (List Nat)) := PiecesLoop bpe bpe.length 0

/-- The pieces of a list of pretokenizer chunks: each chunk is byte-encoded,
merged by the uncached algorithm, and cut at the spaces. -/
def ChunksPieces (ranks : List (List Nat × Int)) (byte_encoder_ : List (List Nat)) :
    List (List Nat) → Option (List (List Nat))
  | [] => some []
  | ch :: rest =>
    match (BpeUncached ranks (ByteEncodeToken byte_encoder_ ch)).bind BpePieces,
      ChunksPieces ranks byte_encoder_ rest with
    | some a, some b => some (a ++ b)
    | _, _ => none

/-- The BPE pieces of a text: the strings that `Encode` looks up in the vocabulary. -/
def TextPieces (ranks : List (List Nat × Int)) (byte_encoder_ : List (List Nat))
    (text : List Nat) : Option (List (List Nat)) :=
  (RegexLikeSplit text).bind (ChunksPieces ranks byte_encoder_)

/-- Every piece of the list has an entry in the vocabulary. -/
def AllInVocab (vocab : List (List Nat × Int)) (ps : List (List Nat)) : Prop :=
  ∀ p ∈ ps, vocab.lookup p ≠ none

/-- The id of a piece: its vocabulary id, or the end-of-text id on a miss. -/
def pieceId (vocab : List (List Nat × Int)) (endoftext_id_ : Int) (p : List Nat) : Int :=
  match vocab.lookup p with
  | some id => id
  | none => endoftext_id_

/-- A call made on a tokenizer after `Load`. -/
inductive Call where
  | bpe (token : List Nat)
  | encode (text : List Nat)
  | build (text instruct : List Nat)

/-- The tokenizer after one call. -/
def runCall (t : VoiceTokenizer) : Call → Option VoiceTokenizer
  | Call.bpe token => (Bpe t token).map Prod.snd
  | Call.encode text => (Encode t text).map Prod.snd
  | Call.build text instruct => (BuildVoiceDesignIdsSafe t text instruct).map Prod.snd

/-- The tokenizer after a sequence of calls, first call first. -/
def runCalls : VoiceTokenizer → List Call → Option VoiceTokenizer
  | t, [] => some t
  | t, c :: cs => (runCall t c).bind (fun t' => runCalls t' cs)

/-- A tokenizer without merge rules, with an empty cache and a vocabulary of two
pieces: the letter `a` and the display string of the line feed. -/
def plainTokenizer : VoiceTokenizer :=
  { vocab_ := [([97], 7), ([196, 138], 3)], bpe_ranks_ := [], bpe_cache_ := [],
    byte_encoder_ := InitByteEncoder (List.replicate 256 []),
    im_start_id_ := 100, im_end_id_ := 101, endoftext_id_ := 99, assistant_id_ := 102,
    user_id_ := 103, newline_id_ := 3, last_error_ := "" }

/-- The bytes that the GPT-2 scheme maps to themselves: 33..126, 161..172, 174..255. -/
def isSelfMapped (b : Nat) : Bool :=
  (decide (33 ≤ b) && decide (b ≤ 126)) || (decide (161 ≤ b) && decide (b ≤ 172)) ||
    (decide (174 ≤ b) && decide (b ≤ 255))

/-- The UTF-8 encoding of a codepoint, by the arithmetic of the standard
(one to four bytes). -/
def utf8Bytes (cp : Nat) : List Nat :=
  if cp < 0x80 then [cp]
  else if cp < 0x800 then [0xC0 + cp / 64, 0x80 + cp % 64]
  else if cp < 0x10000 then [0xE0 + cp / 4096, 0x80 + cp / 64 % 64, 0x80 + cp % 64]
  else [0xF0 + cp / 262144, 0x80 + cp / 4096 % 64, 0x80 + cp / 64 % 64, 0x80 + cp % 64]

/-- The display codepoint of a byte as the specification words it: the byte
itself when it is self-mapped, else 256 plus the number of smaller bytes that are
not self-mapped. -/
def displayCodepoint (b : Nat) : Nat :=
  if isSelfMapped b then b
  else 256 + ((List.range b).filter (fun x => !isSelfMapped x)).length

/-- The 256 display strings as the specification words them. -/
def displayTable : List (List Nat) :=
  (List.range 256).map (fun b => utf8Bytes (displayCodepoint b))

/-- The assignments `byte_encoder_[bs[i]] = utf8(cs[i])` of the last loop of
`InitByteEncoder`, in order. -/
def byteWrites : List (Nat × List Nat) :=
  (List.range byteEncoderTables.1.length).map
    (fun i => (byteEncoderTables.1.getD i 0, AppendUtf8 (byteEncoderTables.2.getD i 0) []))

/-- The value last assigned to index `b` by a list of assignments, if any. -/
def lastWrite {β : Type} : List (Nat × β) → Nat → Option β
  | [], _ => none
  | w :: ws, b =>
    match lastWrite ws b with
    | some v => some v
    | none => if w.1 = b then some w.2 else none

/-- A display string is one byte below 128, or a two-byte sequence whose lead
byte has the bit pattern 110xxxxx. -/
def isDisplayShape (e : List Nat) : Bool :=
  match e with
  | [a] => decide (a < 128)
  | [a, _] => decide (128 ≤ a) && decide (a >>> 5 = 6)
  | _ => false

/-- Every element of the list is a byte value. -/
def IsBytes (s : List Nat) : Prop := ∀ b ∈ s, b < 256

/-- The tokenizer `plainTokenizer` without an end-of-text id. -/
def strictTokenizer : VoiceTokenizer := { plainTokenizer with endoftext_id_ := -1 }

/-- The tokenizer `plainTokenizer` after `Bpe` was called on the display string of
the line feed (as `Load` does through `Encode` to resolve `newline_id_`): the
cache holds that string. -/
def loadedTokenizer : VoiceTokenizer :=
  { plainTokenizer with bpe_cache_ := [([196, 138], [196, 138])] }

/-- The tokenizer `strictTokenizer` after the same `Bpe` call. -/
def loadedStrictTokenizer : VoiceTokenizer :=
  { strictTokenizer with bpe_cache_ := [([196, 138], [196, 138])] }

end QWEN3TTS

namespace QWEN3TTSUTILS

/-! The sampler.

A `const float*` is a function from indices to scores.  Scores and the
temperature live in a linearly ordered type `α` with a zero (so the embedding
covers every score vector without NaN).  Two library behaviours that the C++
standard leaves open are parameters: `nth_element` is the rearrangement
performed by `std::nth_element`, and the random generator is represented by the
index that `std::discrete_distribution` draws for a given candidate list
(`none` is the null pointer).  The softmax weights only shape the distribution
of that draw and are not represented.
-/

/-- `Argmax(data, size)`. -/
def Argmax {α : Type} [LinearOrder α] (data : Nat → α) (size : Int) : Int :=
  ((List.range' 1 (size.toNat - 1)).foldl
    (fun (st : Int × α) i => if st.2 < data i then ((i : Int), data i) else st)
    (0, data 0)).1

/-- The flag `suppressed` computed for index `i` in `ArgmaxTalkerFirstCode` and
`SelectTalkerFirstCode`. -/
def isSuppressed (cp_vocab codec_eos_id : Int) (allow_eos : Bool) (i : Nat) : Bool :=
  decide (cp_vocab ≤ (i : Int)) && (!decide ((i : Int) = codec_eos_id) || !allow_eos)

/-- The loop of `ArgmaxTalkerFirstCode`: the triple `(has_best, best, best_val)`. -/
def ArgmaxTalkerLoop {α : Type} [LinearOrder α] [Zero α] (data : Nat → α)
    (talker_vocab cp_vocab codec_eos_id : Int) (allow_eos : Bool) : Bool × Int × α :=
  (List.range talker_vocab.toNat).foldl
    (fun (st : Bool × Int × α) i =>
      if isSuppressed cp_vocab codec_eos_id allow_eos i then st
      else if !st.1 || decide (st.2.2 < data i) then (true, (i : Int), data i) else st)
    (false, 0, 0)

/-- `ArgmaxTalkerFirstCode`. -/
def ArgmaxTalkerFirstCode {α : Type} [LinearOrder α] [Zero α] (data : Nat → α)
    (talker_vocab cp_vocab codec_eos_id : Int) (allow_eos : Bool) : Int :=
  if (ArgmaxTalkerLoop data talker_vocab cp_vocab codec_eos_id allow_eos).1 then
    (ArgmaxTalkerLoop data talker_vocab cp_vocab codec_eos_id allow_eos).2.1
  else -1

/-- `SampleFromCandidates`. -/
def SampleFromCandidates {α : Type} [LinearOrder α] [Zero α]
    (nth_element : List (α × Int) → Nat → List (α × Int))
    (candidates : List (α × Int)) (temperature : α) (top_k : Int)
    (rng : Option (List (α × Int) → Nat)) : Int :=
  match candidates with
  | [] => -1
  | c0 :: rest =>
    if temperature ≤ 0 then
      (rest.foldl (fun (st : α × Int) c => if st.1 < c.1 then (c.1, c.2) else st)
        (c0.1, c0.2)).2
    else
      let filtered :=
        if 0 < top_k ∧ top_k < ((c0 :: rest).length : Int) then
          (nth_element (c0 :: rest) top_k.toNat).take top_k.toNat
        else c0 :: rest
      match rng with
      | none => -1
      | some draw => (filtered.getD (draw filtered) c0).2

/-- The candidate list built by the loop of `SelectTalkerFirstCode`. -/
def talkerCandidates {α : Type} (data : Nat → α) (talker_vocab cp_vocab codec_eos_id : Int)
    (allow_eos : Bool) : List (α × Int) :=
  (List.range talker_vocab.toNat).foldl
    (fun cs i =>
      if isSuppressed cp_vocab codec_eos_id allow_eos i then cs else cs ++ [(data i, (i : Int))])
    []

/-- `SelectTalkerFirstCode`.  The result `none` is the `std::length_error` thrown
by `candidates.reserve` when `cp_vocab + 1` is negative. -/
def SelectTalkerFirstCode {α : Type} [LinearOrder α] [Zero α]
    (nth_element : List (α × Int) → Nat → List (α × Int))
    (data : Nat → α) (talker_vocab cp_vocab codec_eos_id : Int) (allow_eos do_sample : Bool)
    (temperature : α) (top_k : Int) (rng : Option (List (α × Int) → Nat)) : Option Int :=
  if do_sample = false ∨ temperature ≤ 0 then
    some (ArgmaxTalkerFirstCode data talker_vocab cp_vocab codec_eos_id allow_eos)
  else if cp_vocab + 1 < 0 then none
  else
    some (SampleFromCandidates nth_element
      (talkerCandidates data talker_vocab cp_vocab codec_eos_id allow_eos)
      temperature top_k rng)

/-- `SelectCpCode`.  The result `none` is the `std::length_error` thrown by
`candidates.reserve` when `cp_vocab` is negative. -/
def SelectCpCode {α : Type} [LinearOrder α] [Zero α]
    (nth_element : List (α × Int) → Nat → List (α × Int))
    (data : Nat → α) (cp_vocab : Int) (do_sample : Bool)
    (temperature : α) (top_k : Int) (rng : Option (List (α × Int) → Nat)) : Option Int :=
  if do_sample = false ∨ temperature ≤ 0 then some (Argmax data cp_vocab)
  else if cp_vocab < 0 then none
  else
    some (SampleFromCandidates nth_element
      ((List.range cp_vocab.toNat).foldl (fun cs i => cs ++ [(data i, (i : Int))]) [])
      temperature top_k rng)

/-- An implementation of `std::nth_element` for the descending comparator of
`SampleFromCandidates`: a full descending sort. -/
def nthElementSort {α : Type} [LinearOrder α] (l : List (α × Int)) (_ : Nat) : List (α × Int) :=
  l.insertionSort (fun a b => b.1 ≤ a.1)

/-- The candidate set of the first code as the specification words it: the
indices below `codecVocab`, together with `eosId` when `allowEos` holds. -/
def IsCandidate (cp_vocab codec_eos_id : Int) (allow_eos : Bool) (i : Int) : Prop :=
  (0 ≤ i ∧ i < cp_vocab) ∨ (allow_eos = true ∧ i = codec_eos_id)

/-- The index `r` is the lowest-index maximiser of the scores over the candidate set. -/
def IsFirstMaxCandidate {α : Type} [LinearOrder α] (data : Nat → α)
    (cp_vocab codec_eos_id : Int) (allow_eos : Bool) (r : Int) : Prop :=
  IsCandidate cp_vocab codec_eos_id allow_eos r ∧
  (∀ i : Int, IsCandidate cp_vocab codec_eos_id allow_eos i → data i.toNat ≤ data r.toNat) ∧
  (∀ j : Int, IsCandidate cp_vocab codec_eos_id allow_eos j → j < r →
    data j.toNat < data r.toNat)

end QWEN3TTSUTILS

namespace QWEN3TTSUTILS

/-- The postcondition of `std::nth_element(first, first + k, last, comp)` for the
comparator `a.first > b.first` of `SampleFromCandidates`, for a valid position
`k`: the result is a rearrangement of the input, and no element from position `k`
on has a greater score than an element before position `k`. -/
def NthElementSpec {α : Type} [LinearOrder α]
    (nth_element : List (α × Int) → Nat → List (α × Int)) : Prop :=
  ∀ l k, k < l.length →
    (nth_element l k).Perm l ∧
    ∀ x ∈ (nth_element l k).take k, ∀ y ∈ (nth_element l k).drop k, y.1 ≤ x.1

/-- The contract of `std::discrete_distribution`: the index drawn for a
non-empty weight list is a valid position of that list. -/
def DrawInRange {α : Type} (draw : List (α × Int) → Nat) : Prop :=
  ∀ l, l ≠ [] → draw l < l.length

/-- The value of `v.resize(n)` for a vector of 64-bit integers. -/
def resize (v : List Int) (n : Nat) : List Int := v.take n ++ List.replicate (n - v.length) 0

/-- The loop `for (int s = steps - 2; s >= 0; --s)` of `TrimRepeatingTailFrames`:
the first argument is `s + 1`, the second the current value of `run`. -/
def tailRunLoop (codes : List Int) (groups : Int) (last_first_code : Int) : Nat → Int → Int
  | 0, run => run
  | s + 1, run =>
    if codes.getD ((s : Int) * groups).toNat 0 = last_first_code then
      tailRunLoop codes groups last_first_code s (run + 1)
    else run

/-- `TrimRepeatingTailFrames(codes, groups, min_repeat, keep_last)`: the returned
frame count and the vector `*codes` afterwards.  The embedding is for `groups > 0`
and vectors of fewer than 2^31 elements, for which the conversions between
`size_t` and `int` in the source are exact. -/
def TrimRepeatingTailFrames (codes : List Int) (groups min_repeat keep_last : Int) :
    Int × List Int :=
  if min_repeat ≤ 0 then (((codes.length / groups.toNat : Nat) : Int), codes)
  else if ((codes.length / groups.toNat : Nat) : Int) ≤ 0 then (0, codes)
  else if ((codes.length / groups.toNat : Nat) : Int) ≤ keep_last then
    (((codes.length / groups.toNat : Nat) : Int), codes)
  else if ((codes.length / groups.toNat : Nat) : Int) ≤ max keep_last 8 then
    (((codes.length / groups.toNat : Nat) : Int), codes)
  else if tailRunLoop codes groups
      (codes.getD ((((codes.length / groups.toNat : Nat) : Int) - 1) * groups).toNat 0)
      (codes.length / groups.toNat - 1) 1 < min_repeat then
    (((codes.length / groups.toNat : Nat) : Int), codes)
  else if tailRunLoop codes groups
      (codes.getD ((((codes.length / groups.toNat : Nat) : Int) - 1) * groups).toNat 0)
      (codes.length / groups.toNat - 1) 1 - max keep_last 8 ≤ 0 then
    (((codes.length / groups.toNat : Nat) : Int), codes)
  else
    (((codes.length / groups.toNat : Nat) : Int) -
        (tailRunLoop codes groups
          (codes.getD ((((codes.length / groups.toNat : Nat) : Int) - 1) * groups).toNat 0)
          (codes.length / groups.toNat - 1) 1 - max keep_last 8),
      resize codes
        ((((codes.length / groups.toNat : Nat) : Int) -
          (tailRunLoop codes groups
            (codes.getD ((((codes.length / groups.toNat : Nat) : Int) - 1) * groups).toNat 0)
            (codes.length / groups.toNat - 1) 1 - max keep_last 8)) * groups).toNat)

/-- The first codes of the frames of a flat code vector, first frame first. -/
def frameFirstCodes (codes : List Int) (groups : Nat) : List Int :=
  (List.range (codes.length / groups)).map (fun s => codes.getD (s * groups) 0)

/-- The terminal run of a list of first codes: the length of its maximal suffix
whose entries all equal the last entry (0 for the empty list). -/
def terminalRun (fc : List Int) : Nat :=
  match fc.reverse with
  | [] => 0
  | x :: rest => 1 + (rest.takeWhile (fun y => decide (y = x))).length



/-!
Single-precision arithmetic.  A `float` is an IEEE 754 binary32 value: a finite value,
written as the rational number it denotes, an infinity, or a NaN.  The two zeros are
one value (no operation of `WriteWavPcm16` tells them apart in its output).  Every
arithmetic operation rounds its exact result to the nearest representable value, ties
to the even significand, with gradual underflow and overflow to infinity.
-/

/-- A value of the type `float`. -/
inductive F32 where
  | fin (q : ℚ)
  | pinf
  | ninf
  | nan
  deriving DecidableEq

/-- The loop of `ilog2`: the first argument bounds the number of halvings. -/
def ilog2Loop : Nat → Nat → Nat
  | 0, _ => 0
  | fuel + 1, n => if n < 2 then 0 else ilog2Loop fuel (n / 2) + 1

/-- The position of the leading bit of `n`: the `k` with `2^k ≤ n < 2^(k+1)` for
`n ≥ 1` (0 for `n = 0`). -/
def ilog2 (n : Nat) : Nat := ilog2Loop n n

/-- The power `2^k` for an integer exponent. -/
def pow2 (k : Int) : ℚ :=
  if 0 ≤ k then ((2 ^ k.toNat : Nat) : ℚ) else 1 / ((2 ^ (-k).toNat : Nat) : ℚ)

/-- The binary exponent of a non-zero rational `x`: the `e` with
`2^e ≤ |x| < 2^(e+1)`. -/
def binade (x : ℚ) : Int :=
  if pow2 ((ilog2 x.num.natAbs : Int) - (ilog2 x.den : Int)) ≤ |x| then
    (ilog2 x.num.natAbs : Int) - (ilog2 x.den : Int)
  else (ilog2 x.num.natAbs : Int) - (ilog2 x.den : Int) - 1

/-- The distance between neighbouring binary32 values at `x`: 24 significant bits,
smallest exponent -126. -/
def ulp (x : ℚ) : ℚ := pow2 (max (binade x) (-126) - 23)

/-- Rounding to the nearest integer, ties to the even one. -/
def roundHalfEven (y : ℚ) : Int :=
  if y - (Int.floor y : ℚ) < 1 / 2 then Int.floor y
  else if 1 / 2 < y - (Int.floor y : ℚ) then Int.floor y + 1
  else if Int.floor y % 2 = 0 then Int.floor y
  else Int.floor y + 1

/-- The binary32 value of an exact result `x`: round to nearest, ties to even;
a result of magnitude 2^128 or more is an infinity. -/
def roundF32 (x : ℚ) : F32 :=
  if x = 0 then .fin 0
  else if pow2 128 ≤ (roundHalfEven (x / ulp x) : ℚ) * ulp x then .pinf
  else if (roundHalfEven (x / ulp x) : ℚ) * ulp x ≤ -pow2 128 then .ninf
  else .fin ((roundHalfEven (x / ulp x) : ℚ) * ulp x)

/-- The comparison `a < b` of two floats (false when either is a NaN). -/
def f32Lt : F32 → F32 → Bool
  | .fin a, .fin b => decide (a < b)
  | .fin _, .pinf => true
  | .ninf, .fin _ => true
  | .ninf, .pinf => true
  | _, _ => false

/-- The value `std::abs(a)`. -/
def f32Abs : F32 → F32
  | .fin a => .fin |a|
  | .pinf => .pinf
  | .ninf => .pinf
  | .nan => .nan

/-- The product `a * b` of two floats. -/
def f32Mul : F32 → F32 → F32
  | .fin a, .fin b => roundF32 (a * b)
  | .nan, _ => .nan
  | _, .nan => .nan
  | .fin a, .pinf => if a = 0 then .nan else if 0 < a then .pinf else .ninf
  | .fin a, .ninf => if a = 0 then .nan else if 0 < a then .ninf else .pinf
  | .pinf, .fin b => if b = 0 then .nan else if 0 < b then .pinf else .ninf
  | .ninf, .fin b => if b = 0 then .nan else if 0 < b then .ninf else .pinf
  | .pinf, .pinf => .pinf
  | .pinf, .ninf => .ninf
  | .ninf, .pinf => .ninf
  | .ninf, .ninf => .pinf

/-- The difference `a - b` of two floats. -/
def f32Sub : F32 → F32 → F32
  | .fin a, .fin b => roundF32 (a - b)
  | .nan, _ => .nan
  | _, .nan => .nan
  | .fin _, .pinf => .ninf
  | .fin _, .ninf => .pinf
  | .pinf, .fin _ => .pinf
  | .ninf, .fin _ => .ninf
  | .pinf, .pinf => .nan
  | .pinf, .ninf => .pinf
  | .ninf, .pinf => .ninf
  | .ninf, .ninf => .nan

/-- The quotient `a / b` of two floats.  A zero divisor is taken as the positive
zero. -/
def f32Div : F32 → F32 → F32
  | .fin a, .fin b =>
    if b = 0 then (if a = 0 then .nan else if 0 < a then .pinf else .ninf)
    else roundF32 (a / b)
  | .nan, _ => .nan
  | _, .nan => .nan
  | .fin _, .pinf => .fin 0
  | .fin _, .ninf => .fin 0
  | .pinf, .fin b => if 0 ≤ b then .pinf else .ninf
  | .ninf, .fin b => if 0 ≤ b then .ninf else .pinf
  | .pinf, .pinf => .nan
  | .pinf, .ninf => .nan
  | .ninf, .pinf => .nan
  | .ninf, .ninf => .nan

/-- Whether a value is a binary32 value: an infinity, a NaN, or a rational that
rounding leaves unchanged. -/
def isF32 : F32 → Bool
  | .fin q => decide (roundF32 q = .fin q)
  | _ => true

/-- The value `static_cast<float>(n)` for a `size_t` value `n`. -/
def f32OfNat (n : Nat) : F32 := roundF32 (n : ℚ)

/-- The value `std::min(a, b)`, which is `(b < a) ? b : a`. -/
def f32Min (a b : F32) : F32 := if f32Lt b a then b else a

/-- The value `std::max(a, b)`, which is `(a < b) ? b : a`. -/
def f32Max (a b : F32) : F32 := if f32Lt a b then b else a

/-!
The waveform encoder.  A sample is a `float` (`F32`) and every operation on samples is
the rounded single-precision operation.  `int` and `size_t` arithmetic on `sample_rate`
follows the source, with 32-bit `int` and 64-bit `size_t`.  The file is represented by
the bytes written to it, multi-byte fields in little-endian order, and the stream is
assumed to open.
-/

/-- An `int` value: a 32-bit signed integer. -/
def IsInt32 (x : Int) : Prop := -2147483648 ≤ x ∧ x ≤ 2147483647

/-- The value of `static_cast<size_t>(x)` for an `int` or `int64_t` value `x`. -/
def toSizeT (x : Int) : Nat := (x % 18446744073709551616).toNat

/-- The value of a conversion of `x` to `uint32_t`. -/
def toU32 (x : Int) : Nat := (x % 4294967296).toNat

/-- The variable `tail_probe` of `WriteWavPcm16`:
`std::min<size_t>(processed.size(), static_cast<size_t>(sample_rate / 100))`. -/
def tailProbe (n : Nat) (sample_rate : Int) : Nat := min n (toSizeT (sample_rate.tdiv 100))

/-- The first loop of `WriteWavPcm16`: the value of `tail_peak` after it. -/
def tailPeak (processed : List F32) (tail_probe : Nat) : F32 :=
  (List.range tail_probe).foldl
    (fun tail_peak i =>
      if f32Lt tail_peak
          (f32Abs (processed.getD (processed.length - tail_probe + i) (F32.fin 0))) then
        f32Abs (processed.getD (processed.length - tail_probe + i) (F32.fin 0))
      else tail_peak)
    (F32.fin 0)

/-- The constant `0.35f`: the binary32 value nearest to 0.35. -/
def kFadeThreshold : F32 := roundF32 (7 / 20)

/-- The variable `fade_ms` of `WriteWavPcm16`: 80 if `tail_peak > 0.35f`, else 40. -/
def fadeMs (tail_peak : F32) : Nat := if f32Lt kFadeThreshold tail_peak then 80 else 40

/-- The variable `fade_samples` of `WriteWavPcm16`:
`std::min<size_t>(processed.size(), static_cast<size_t>((sample_rate * fade_ms) / 1000))`,
where the product is computed in `size_t`. -/
def fadeSamples (n : Nat) (sample_rate : Int) (fade_ms : Nat) : Nat :=
  min n ((toSizeT sample_rate * fade_ms) % 18446744073709551616 / 1000)

/-- The variable `gain` of the fade loop at index `i`, for `fade_samples` samples:
`t = static_cast<float>(i) / static_cast<float>(fade_samples - 1)` and
`gain = (1.0f - t) * (1.0f - t)`. -/
def fadeGain (i fade_samples : Nat) : F32 :=
  f32Mul (f32Sub (F32.fin 1) (f32Div (f32OfNat i) (f32OfNat (fade_samples - 1))))
    (f32Sub (F32.fin 1) (f32Div (f32OfNat i) (f32OfNat (fade_samples - 1))))

/-- The fade loop of `WriteWavPcm16`: `processed` after it. -/
def fadeTail (processed : List F32) (fade_samples : Nat) : List F32 :=
  if 1 < fade_samples then
    (List.range fade_samples).foldl
      (fun p i =>
        p.set (processed.length - fade_samples + i)
          (f32Mul (p.getD (processed.length - fade_samples + i) (F32.fin 0))
            (fadeGain i fade_samples)))
      processed
  else processed

/-- The value of `tail_peak` in `WriteWavPcm16(path, samples, sample_rate)`. -/
def probePeak (samples : List F32) (sample_rate : Int) : F32 :=
  tailPeak samples (tailProbe samples.length sample_rate)

/-- The value of `fade_samples` in `WriteWavPcm16(path, samples, sample_rate)`. -/
def fadeWindow (samples : List F32) (sample_rate : Int) : Nat :=
  fadeSamples samples.length sample_rate (fadeMs (probePeak samples sample_rate))

/-- The vector `processed` of `WriteWavPcm16` after the fade and before the pad. -/
def declick (samples : List F32) (sample_rate : Int) : List F32 :=
  fadeTail samples (fadeWindow samples sample_rate)

/-- The variable `pad_samples` of `WriteWavPcm16`:
`static_cast<size_t>((sample_rate * 30) / 1000)` with the product computed in `int`.
The result is `none` when the product overflows `int` (undefined behaviour) and when
the quotient is negative, in which case the converted count exceeds every vector
size and `insert` throws. -/
def padSamples (sample_rate : Int) : Option Nat :=
  if sample_rate * 30 < -2147483648 ∨ 2147483647 < sample_rate * 30 then none
  else if (sample_rate * 30).tdiv 1000 < 0 then none
  else some ((sample_rate * 30).tdiv 1000).toNat

/-- Truncation toward zero of a rational number. -/
def truncToZero (x : ℚ) : Int := if 0 ≤ x then Int.floor x else Int.ceil x

/-- The value `static_cast<int16_t>(a)` for a float whose truncation lies in the
`int16_t` range.  The conversion of any other float is undefined in the source and is
0 here; `WriteWavPcm16` converts only values between -32767 and 32767. -/
def f32ToInt16 : F32 → Int
  | .fin a => if -32768 ≤ truncToZero a ∧ truncToZero a ≤ 32767 then truncToZero a else 0
  | _ => 0

/-- The clipped and scaled sample of the quantisation loop of `WriteWavPcm16`:
`std::max(-1.0f, std::min(1.0f, x)) * 32767.0f`. -/
def scaleSample (x : F32) : F32 :=
  f32Mul (f32Max (F32.fin (-1)) (f32Min (F32.fin 1) x)) (F32.fin 32767)

/-- The quantisation of one sample in `WriteWavPcm16`:
`static_cast<int16_t>(std::max(-1.0f, std::min(1.0f, x)) * 32767.0f)`. -/
def quantize (x : F32) : Int := f32ToInt16 (scaleSample x)

/-- The vector `pcm` of `WriteWavPcm16`. -/
def WavPcm (samples : List F32) (sample_rate : Int) : Option (List Int) :=
  match padSamples sample_rate with
  | none => none
  | some pad_samples =>
    some ((declick samples sample_rate ++ List.replicate pad_samples (F32.fin 0)).map quantize)

/-- The two bytes of a 16-bit value in memory. -/
def le16 (x : Nat) : List Nat := [x % 256, x / 256 % 256]

/-- The four bytes of a 32-bit value in memory. -/
def le32 (x : Nat) : List Nat := [x % 256, x / 256 % 256, x / 65536 % 256, x / 16777216 % 256]

/-- The 32-bit value stored in the first four bytes of a byte list. -/
def readLe32 (l : List Nat) : Nat :=
  l.getD 0 0 + 256 * l.getD 1 0 + 65536 * l.getD 2 0 + 16777216 * l.getD 3 0

/-- `WriteWavPcm16(path, samples, sample_rate)`: the bytes written to the file, or
`none` when the call leaves by undefined behaviour or an exception (see
`padSamples`). -/
def WriteWavPcm16 (samples : List F32) (sample_rate : Int) : Option (List Nat) :=
  match WavPcm samples sample_rate with
  | none => none
  | some pcm =>
    some ([82, 73, 70, 70] ++ le32 ((36 + (pcm.length * 2) % 4294967296) % 4294967296) ++
      [87, 65, 86, 69] ++ [102, 109, 116, 32] ++ le32 16 ++ le16 1 ++ le16 1 ++
      le32 (toU32 sample_rate) ++ le32 (toU32 ((sample_rate * 1 * 16).tdiv 8)) ++
      le16 ((1 * 16 / 8) % 65536) ++ le16 16 ++ [100, 97, 116, 97] ++
      le32 ((pcm.length * 2) % 4294967296) ++
      (pcm.flatMap (fun v => le16 (v % 65536).toNat)).take ((pcm.length * 2) % 4294967296))

end QWEN3TTSUTILS

namespace QWEN3TTS

open QWEN3TTSUTILS

/-!
`Voice::generateVoice`.  The ONNX sessions are functions given by an `Engine`: the
hidden state and the key/value cache are values of abstract types `H` and `K`.  The
random generator is a family of draws indexed by the number of selection calls made
so far.  The embedding ends where the code list is handed to `WriteCodesTxtSafe` and
to the vocoder (`DecodeAudioCodesSafe`); memory is unbounded.
-/

/-- The constant `kCodeGroups`. -/
def kCodeGroups : Nat := 16

/-- The constant `kTalkerVocab`. -/
def kTalkerVocab : Int := 3072

/-- The constant `kCpVocab`. -/
def kCpVocab : Int := 2048

/-- The constant `kCodecEosId`. -/
def kCodecEosId : Int := 2150

/-- The value `std::numeric_limits<int64_t>::min()`. -/
def kInt64Min : Int := -9223372036854775808

/-- The numeric fields of `GenerationParams` that `generateVoice` reads after the ids
are built (`seed` is represented by the draws, `codes_out` by the end of the
embedding). -/
structure GenerationParams (α : Type) where
  steps : Int
  max_steps : Int
  auto_stop_first_code_run : Int
  auto_stop_min_steps : Int
  tail_stop_repeat_frames : Int
  tail_stop_min_steps : Int
  trim_tail_repeat_min : Int
  trim_tail_keep : Int
  eos_min_steps : Int
  do_sample : Bool
  temperature : α
  top_k : Int

/-- The default member initialisers of `GenerationParams`, for a given value of
the temperature `1.0f`. -/
def defaultParams {α : Type} (one : α) : GenerationParams α :=
  { steps := 0, max_steps := 0, auto_stop_first_code_run := 0, auto_stop_min_steps := 40,
    tail_stop_repeat_frames := 8, tail_stop_min_steps := 32, trim_tail_repeat_min := 24,
    trim_tail_keep := 1, eos_min_steps := 0, do_sample := false, temperature := one,
    top_k := 0 }

/-- The model sessions of a loaded `Voice`.
* `prefill_len`, `prefill_logits`, `prefill_last_hidden`, `prefill_cache`: the outputs
  of `prefill_builder_` and `talker_prefill_` for the ids of the request;
* `cp past_hidden first_code_id prev_codes g`: the logits of the code predictor at
  group step `g` (`cp_dynamic_` or `cp_steps_[g]`);
* `talker_cache codec_ids_step past cache_position`: `talker_` with the cache;
* `talker_hist codec_hist`: `talker_` without the cache, run on the whole history. -/
structure Engine (α H K : Type) where
  use_kv_cache_ : Bool
  prefill_len : Int
  prefill_logits : Nat → α
  prefill_last_hidden : H
  prefill_cache : K
  cp : H → Int → List Int → Nat → Nat → α
  talker_cache : List Int → K → Int → (Nat → α) × H × K
  talker_hist : List Int → (Nat → α) × H

/-- A way `generateVoice` ends before the vocoder: `fail_gen(code, _)`, or an
exception caught by its handlers. -/
inductive Abort where
  | fail (code : Int)
  | exception
  deriving DecidableEq, Repr

/-- The outcome of `generateVoice` up to the vocoder call: an abort, or the code list
and frame count passed to `DecodeAudioCodesSafe`. -/
inductive GenResult where
  | abort (a : Abort)
  | decoded (audio_codes : List Int) (generated_steps : Int)
  deriving DecidableEq, Repr

/-- The variables of the decode loop.  `calls` counts the selection calls made so far
(the position in the random stream) and `talker_runs` the executions of `talker_`;
neither is a variable of the source. -/
structure LoopState (H K : Type) where
  current_first_code : Int
  current_past_hidden : H
  past_cache : K
  all_codes : List Int
  prev_generated_first_code : Int
  same_first_code_run : Int
  prev_frame : List Int
  same_frame_run : Int
  calls : Nat
  talker_runs : Nat

/-- The inner loop `for (int g = 0; g < kCodeGroups - 1; ++g)`: the first argument is
the number of iterations left.  Returns `codec_ids` and the number of selection
calls. -/
def cpLoop {α H K : Type} [LinearOrder α] [Zero α]
    (nth_element : List (α × Int) → Nat → List (α × Int))
    (rng : Nat → List (α × Int) → Nat)
    (P : GenerationParams α) (E : Engine α H K) (past_hidden : H) :
    Nat → Nat → List Int → List Int → Nat → Except Abort (List Int × Nat)
  | 0, _, _, codec_ids, calls => .ok (codec_ids, calls)
  | n + 1, g, prev_codes, codec_ids, calls =>
    match SelectCpCode nth_element (E.cp past_hidden (codec_ids.getD 0 0) prev_codes g)
        kCpVocab P.do_sample P.temperature P.top_k (some (rng calls)) with
    | none => .error .exception
    | some pred =>
      if pred < 0 ∨ pred ≥ kCpVocab then .error (.fail (-1203))
      else
        cpLoop nth_element rng P E past_hidden n (g + 1)
          (if g < kCodeGroups - 2 then prev_codes.set g pred else prev_codes)
          (codec_ids.set (g + 1) pred) (calls + 1)

/-- The loop variables after a frame `codec_ids` is appended at step `s`, up to the
early-stop tests. -/
def appendFrame {H K : Type} (st : LoopState H K) (s : Nat) (codec_ids : List Int)
    (calls : Nat) : LoopState H K :=
  { st with
    all_codes := st.all_codes ++ codec_ids
    same_first_code_run :=
      if codec_ids.getD 0 0 = st.prev_generated_first_code then
        st.same_first_code_run + 1 else 1
    prev_generated_first_code := codec_ids.getD 0 0
    same_frame_run :=
      if s > 0 ∧ codec_ids = st.prev_frame then st.same_frame_run + 1 else 1
    prev_frame := codec_ids
    calls := calls }

/-- The execution of `talker_` at the end of step `s`: logits, last hidden state and
cache. -/
def runTalker {α H K : Type} (E : Engine α H K) (st : LoopState H K) (s : Nat)
    (codec_ids : List Int) : (Nat → α) × H × K :=
  if E.use_kv_cache_ then E.talker_cache codec_ids st.past_cache (E.prefill_len + (s : Int))
  else
    ((E.talker_hist (st.all_codes.drop (st.all_codes.length - (s + 1) * kCodeGroups))).1,
      (E.talker_hist (st.all_codes.drop (st.all_codes.length - (s + 1) * kCodeGroups))).2,
      st.past_cache)

/-- The loop `for (int s = 0; s < steps; ++s)` of `generateVoice`: the first argument
is `steps - s`, the number of iterations left before the loop condition fails; the
fourth is the vector `codec_ids` at the start of the iteration.  Returns the variables
at the exit of the loop. -/
def decodeLoop {α H K : Type} [LinearOrder α] [Zero α]
    (nth_element : List (α × Int) → Nat → List (α × Int))
    (rng : Nat → List (α × Int) → Nat)
    (P : GenerationParams α) (E : Engine α H K) (steps : Int) :
    Nat → Nat → List Int → LoopState H K → Except Abort (LoopState H K)
  | 0, _, _, st => .ok st
  | n + 1, s, codec_ids0, st =>
    if s > 0 ∧ st.current_first_code = kCodecEosId ∧ (s : Int) ≥ P.eos_min_steps then .ok st
    else
      match cpLoop nth_element rng P E st.current_past_hidden (kCodeGroups - 1) 0
          (List.replicate (kCodeGroups - 2) 0) (codec_ids0.set 0 st.current_first_code)
          st.calls with
      | .error a => .error a
      | .ok (codec_ids, calls) =>
        if P.tail_stop_repeat_frames > 0 ∧ ((s : Int) + 1) ≥ P.tail_stop_min_steps ∧
            (appendFrame st s codec_ids calls).same_frame_run ≥ P.tail_stop_repeat_frames then
          .ok (appendFrame st s codec_ids calls)
        else if P.auto_stop_first_code_run > 0 ∧ ((s : Int) + 1) ≥ P.auto_stop_min_steps ∧
            (appendFrame st s codec_ids calls).same_first_code_run ≥
              P.auto_stop_first_code_run then
          .ok (appendFrame st s codec_ids calls)
        else if (s : Int) = steps - 1 then .ok (appendFrame st s codec_ids calls)
        else
          match SelectTalkerFirstCode nth_element
              (runTalker E (appendFrame st s codec_ids calls) s codec_ids).1
              kTalkerVocab kCpVocab kCodecEosId (decide (((s : Int) + 1) ≥ P.eos_min_steps))
              P.do_sample P.temperature P.top_k (some (rng calls)) with
          | none => .error .exception
          | some code =>
            if code < 0 ∨ code ≥ kTalkerVocab then .error (.fail (-1204))
            else
              decodeLoop nth_element rng P E steps n (s + 1) codec_ids
                { appendFrame st s codec_ids calls with
                  current_first_code := code
                  current_past_hidden :=
                    (runTalker E (appendFrame st s codec_ids calls) s codec_ids).2.1
                  past_cache := (runTalker E (appendFrame st s codec_ids calls) s codec_ids).2.2
                  calls := calls + 1
                  talker_runs := st.talker_runs + 1 }

/-- The resolution of the step ceiling: the variable `steps` of `generateVoice`
before the test `steps <= 0`. -/
def resolveSteps {α : Type} (P : GenerationParams α) : Int :=
  if P.steps ≤ 0 then (if P.max_steps > 0 then P.max_steps else 2000) else P.steps

/-- The end of `generateVoice` after the loop: the frame count test, the trimming
and the second test. -/
def finishGeneration {α : Type} (P : GenerationParams α) (all_codes : List Int) : GenResult :=
  if ((all_codes.length / kCodeGroups : Nat) : Int) ≤ 0 then .abort (.fail (-1201))
  else if P.trim_tail_repeat_min > 0 then
    if (TrimRepeatingTailFrames all_codes (kCodeGroups : Int) P.trim_tail_repeat_min
        P.trim_tail_keep).1 ≤ 0 then .abort (.fail (-1202))
    else
      .decoded
        (TrimRepeatingTailFrames all_codes (kCodeGroups : Int) P.trim_tail_repeat_min
          P.trim_tail_keep).2
        (TrimRepeatingTailFrames all_codes (kCodeGroups : Int) P.trim_tail_repeat_min
          P.trim_tail_keep).1
  else .decoded all_codes ((all_codes.length / kCodeGroups : Nat) : Int)

/-- The part of `generateVoice` after the decode loop, for an outcome of the loop: an
abort is passed on, otherwise the codes are finished by `finishGeneration`. -/
def finishLoop {α H K : Type} (P : GenerationParams α) :
    Except Abort (LoopState H K) → GenResult
  | .error a => .abort a
  | .ok st => finishGeneration P st.all_codes

/-- `Voice::generateVoice(params)` up to the vocoder call.  `loaded` and `has_mi` are
`_loaded` and `mi_.has_value()`; `ids` is the outcome of the member
`BuildVoiceDesignIds`: its error code, or `_input_ids` and `_instruct_ids`. -/
def generateVoice {α H K : Type} [LinearOrder α] [Zero α]
    (nth_element : List (α × Int) → Nat → List (α × Int))
    (rng : Nat → List (α × Int) → Nat)
    (loaded has_mi : Bool) (ids : Except Int (List Int × List Int))
    (P : GenerationParams α) (E : Engine α H K) : GenResult :=
  if loaded = false then .abort (.fail (-1001))
  else if has_mi = false then .abort (.fail (-1002))
  else
    match ids with
    | .error code => .abort (.fail code)
    | .ok (input_ids, instruct_ids) =>
      if input_ids = [] ∨ instruct_ids = [] then .abort (.fail (-1101))
      else if P.temperature < 0 then .abort (.fail (-1102))
      else if P.top_k < 0 then .abort (.fail (-1103))
      else if P.tail_stop_repeat_frames < 0 then .abort (.fail (-1104))
      else if P.tail_stop_min_steps < 0 then .abort (.fail (-1104))
      else if P.eos_min_steps < 0 then .abort (.fail (-1105))
      else if resolveSteps P ≤ 0 then .abort (.fail (-1106))
      else
        match SelectTalkerFirstCode nth_element E.prefill_logits kTalkerVocab kCpVocab
            kCodecEosId (decide ((0 : Int) ≥ P.eos_min_steps)) P.do_sample P.temperature
            P.top_k (some (rng 0)) with
        | none => .abort .exception
        | some first_code =>
          if first_code < 0 ∨ first_code ≥ kTalkerVocab then .abort (.fail (-1204))
          else
            finishLoop P
              (decodeLoop nth_element rng P E (resolveSteps P) (resolveSteps P).toNat 0
                (List.replicate kCodeGroups 1)
                { current_first_code := first_code
                  current_past_hidden := E.prefill_last_hidden
                  past_cache := E.prefill_cache
                  all_codes := []
                  prev_generated_first_code := kInt64Min
                  same_first_code_run := 0
                  prev_frame := List.replicate kCodeGroups kInt64Min
                  same_frame_run := 0
                  calls := 1
                  talker_runs := 0 })

/-- A model whose prefill logits peak at the EOS id and whose other logits are all
zero, without cache. -/
def eosFirstEngine : Engine Int Unit Unit :=
  { use_kv_cache_ := false
    prefill_len := 1
    prefill_logits := fun i => if i = 2150 then 1 else 0
    prefill_last_hidden := ()
    prefill_cache := ()
    cp := fun _ _ _ _ _ => 0
    talker_cache := fun _ _ _ => (fun _ => 0, (), ())
    talker_hist := fun _ => (fun _ => 0, ()) }

/-- The default parameters with `steps = 2`. -/
def twoStepParams : GenerationParams Int := { defaultParams 1 with steps := 2 }

end QWEN3TTS

namespace QWEN3TTS

open QWEN3TTSUTILS

/-!
The decode loop of `generateVoice`, one iteration at a time.  `loopStep` is the body
of the loop with its four ways out kept apart, `loopRun` iterates it, and
`loopHead` gives the variables at the start of iteration `s` when the loop gets
there.  `decodeLoop` is `loopRun` with the way out forgotten.
-/

/-- The variables of the decode loop before its first iteration. -/
def initState {α H K : Type} (E : Engine α H K) (first_code : Int) : LoopState H K :=
  { current_first_code := first_code
    current_past_hidden := E.prefill_last_hidden
    past_cache := E.prefill_cache
    all_codes := []
    prev_generated_first_code := kInt64Min
    same_first_code_run := 0
    prev_frame := List.replicate kCodeGroups kInt64Min
    same_frame_run := 0
    calls := 1
    talker_runs := 0 }

/-- A way out of the decode loop, with the variables at that point:
* `done`: the loop condition `s < steps` failed;
* `eos`: the `break` of the EOS test at the top of an iteration;
* `stop`: a `break` after a frame was appended (tail-stop, auto-stop, last step);
* `abort`: `fail_gen` or an exception. -/
inductive LoopExit (H K : Type) where
  | done (st : LoopState H K)
  | eos (st : LoopState H K)
  | stop (st : LoopState H K)
  | abort (a : Abort) (st : LoopState H K)

/-- The outcome of one iteration: a way out, or the vector `codec_ids` and the
variables at the start of the next iteration. -/
inductive StepResult (H K : Type) where
  | exit (e : LoopExit H K)
  | next (codec_ids : List Int) (st : LoopState H K)

/-- The variables carried by a way out. -/
def LoopExit.state {H K : Type} : LoopExit H K → LoopState H K
  | .done st => st
  | .eos st => st
  | .stop st => st
  | .abort _ st => st

/-- The variables before the next iteration, after the talker step of iteration `s`
selected `code`. -/
def nextState {α H K : Type} (E : Engine α H K) (st : LoopState H K) (s : Nat)
    (codec_ids : List Int) (calls : Nat) (code : Int) : LoopState H K :=
  { appendFrame st s codec_ids calls with
    current_first_code := code
    current_past_hidden := (runTalker E (appendFrame st s codec_ids calls) s codec_ids).2.1
    past_cache := (runTalker E (appendFrame st s codec_ids calls) s codec_ids).2.2
    calls := calls + 1
    talker_runs := st.talker_runs + 1 }

/-- The body of the loop `for (int s = 0; s < steps; ++s)` at step `s`. -/
def loopStep {α H K : Type} [LinearOrder α] [Zero α]
    (nth_element : List (α × Int) → Nat → List (α × Int))
    (rng : Nat → List (α × Int) → Nat)
    (P : GenerationParams α) (E : Engine α H K) (steps : Int)
    (s : Nat) (codec_ids0 : List Int) (st : LoopState H K) : StepResult H K :=
  if s > 0 ∧ st.current_first_code = kCodecEosId ∧ (s : Int) ≥ P.eos_min_steps then
    .exit (.eos st)
  else
    match cpLoop nth_element rng P E st.current_past_hidden (kCodeGroups - 1) 0
        (List.replicate (kCodeGroups - 2) 0) (codec_ids0.set 0 st.current_first_code)
        st.calls with
    | .error a => .exit (.abort a st)
    | .ok (codec_ids, calls) =>
      if P.tail_stop_repeat_frames > 0 ∧ ((s : Int) + 1) ≥ P.tail_stop_min_steps ∧
          (appendFrame st s codec_ids calls).same_frame_run ≥ P.tail_stop_repeat_frames then
        .exit (.stop (appendFrame st s codec_ids calls))
      else if P.auto_stop_first_code_run > 0 ∧ ((s : Int) + 1) ≥ P.auto_stop_min_steps ∧
          (appendFrame st s codec_ids calls).same_first_code_run ≥
            P.auto_stop_first_code_run then
        .exit (.stop (appendFrame st s codec_ids calls))
      else if (s : Int) = steps - 1 then .exit (.stop (appendFrame st s codec_ids calls))
      else
        match SelectTalkerFirstCode nth_element
            (runTalker E (appendFrame st s codec_ids calls) s codec_ids).1
            kTalkerVocab kCpVocab kCodecEosId (decide (((s : Int) + 1) ≥ P.eos_min_steps))
            P.do_sample P.temperature P.top_k (some (rng calls)) with
        | none => .exit (.abort .exception (nextState E st s codec_ids calls 0))
        | some code =>
          if code < 0 ∨ code ≥ kTalkerVocab then
            .exit (.abort (.fail (-1204)) (nextState E st s codec_ids calls code))
          else .next codec_ids (nextState E st s codec_ids calls code)

/-- The decode loop as the iteration of `loopStep`: the first argument is
`steps - s`. -/
def loopRun {α H K : Type} [LinearOrder α] [Zero α]
    (nth_element : List (α × Int) → Nat → List (α × Int))
    (rng : Nat → List (α × Int) → Nat)
    (P : GenerationParams α) (E : Engine α H K) (steps : Int) :
    Nat → Nat → List Int → LoopState H K → LoopExit H K
  | 0, _, _, st => .done st
  | n + 1, s, codec_ids0, st =>
    match loopStep nth_element rng P E steps s codec_ids0 st with
    | .exit e => e
    | .next codec_ids st1 => loopRun nth_element rng P E steps n (s + 1) codec_ids st1

/-- What `decodeLoop` returns for a way out. -/
def exitResult {H K : Type} : LoopExit H K → Except Abort (LoopState H K)
  | .done st => .ok st
  | .eos st => .ok st
  | .stop st => .ok st
  | .abort a _ => .error a

/-- The vector `codec_ids` and the variables at the start of iteration `s`, when the
loop started from `st0` gets there. -/
def loopHead {α H K : Type} [LinearOrder α] [Zero α]
    (nth_element : List (α × Int) → Nat → List (α × Int))
    (rng : Nat → List (α × Int) → Nat)
    (P : GenerationParams α) (E : Engine α H K) (steps : Int) (st0 : LoopState H K) :
    Nat → Option (List Int × LoopState H K)
  | 0 => some (List.replicate kCodeGroups 1, st0)
  | s + 1 =>
    match loopHead nth_element rng P E steps st0 s with
    | none => none
    | some (codec_ids0, st) =>
      match loopStep nth_element rng P E steps s codec_ids0 st with
      | .exit _ => none
      | .next codec_ids st1 => some (codec_ids, st1)

/-- The early-stop tests made after the frame of step `s` was appended, on the
variables `st1` at that point: tail-stop, auto-stop, or last step. -/
def StopTest {α H K : Type} (P : GenerationParams α) (steps : Int) (s : Nat)
    (st1 : LoopState H K) : Prop :=
  (P.tail_stop_repeat_frames > 0 ∧ ((s : Int) + 1) ≥ P.tail_stop_min_steps ∧
      st1.same_frame_run ≥ P.tail_stop_repeat_frames) ∨
    (P.auto_stop_first_code_run > 0 ∧ ((s : Int) + 1) ≥ P.auto_stop_min_steps ∧
      st1.same_first_code_run ≥ P.auto_stop_first_code_run) ∨
    (s : Int) = steps - 1

/-- Frame `k` of a flat code vector. -/
def frameAt (codes : List Int) (k : Nat) : List Int :=
  (codes.drop (k * kCodeGroups)).take kCodeGroups

/-- The frames of a flat code vector, first frame first. -/
def framesOf (codes : List Int) : List (List Int) :=
  (List.range (codes.length / kCodeGroups)).map (frameAt codes)

/-- The terminal run of a list: the length of its maximal suffix whose entries all
equal the last entry (0 for the empty list). -/
def terminalRunOf {β : Type} [DecidableEq β] (l : List β) : Nat :=
  match l.reverse with
  | [] => 0
  | x :: rest => 1 + (rest.takeWhile (fun y => decide (y = x))).length

/-- The facts that hold of the loop variables at the start of iteration `s`, with
`c` the vector `codec_ids` at that point: sizes, counters, and the run counters as
the terminal runs of the frames emitted so far. -/
def LoopInv {H K : Type} (steps : Int) (s : Nat) (c : List Int) (st : LoopState H K) : Prop :=
  c.length = kCodeGroups ∧ st.all_codes.length = kCodeGroups * s ∧ st.talker_runs = s ∧
    (s : Int) < steps ∧ 0 ≤ st.current_first_code ∧ st.current_first_code < kTalkerVocab ∧
    (s = 0 → st.prev_generated_first_code = kInt64Min) ∧
    (0 < s →
      st.prev_frame = frameAt st.all_codes (s - 1) ∧
      st.prev_generated_first_code = st.all_codes.getD ((s - 1) * kCodeGroups) 0 ∧
      st.same_frame_run = ((terminalRunOf (framesOf st.all_codes) : Nat) : Int) ∧
      st.same_first_code_run =
        ((terminalRun (frameFirstCodes st.all_codes kCodeGroups) : Nat) : Int))

/-- A model without cache whose frames are all different up to step 4 and identical
from step 4 on: the first code of step `n` is `min n 4` and every group code is 0. -/
def repeatFromFourEngine : Engine Int Unit Unit :=
  { use_kv_cache_ := false
    prefill_len := 1
    prefill_logits := fun i => if i = 1 then 1 else 0
    prefill_last_hidden := ()
    prefill_cache := ()
    cp := fun _ _ _ _ _ => 0
    talker_cache := fun _ _ _ => (fun _ => 0, (), ())
    talker_hist := fun hist =>
      (fun i => if i = min (hist.length / kCodeGroups + 1) 4 then 1 else 0, ()) }

/-- The frame that `repeatFromFourEngine` yields at step `n` (counted from 1) under
greedy selection. -/
def repeatFrame (n : Nat) : List Int := ((min n 4 : Nat) : Int) :: List.replicate 15 0

/-- The first `n` frames of `repeatFromFourEngine`, flattened. -/
def repeatCodes (n : Nat) : List Int := (List.range n).flatMap (fun k => repeatFrame (k + 1))

/-- The loop variables at the start of iteration `s` when the greedy decode loop runs on
`repeatFromFourEngine` and has not stopped before. -/
def repeatState (s : Nat) : LoopState Unit Unit :=
  { current_first_code := ((min (s + 1) 4 : Nat) : Int)
    current_past_hidden := ()
    past_cache := ()
    all_codes := repeatCodes s
    prev_generated_first_code := if s = 0 then kInt64Min else ((min s 4 : Nat) : Int)
    same_first_code_run := if s = 0 then 0 else if s ≤ 4 then 1 else (s : Int) - 3
    prev_frame := if s = 0 then List.replicate kCodeGroups kInt64Min else repeatFrame s
    same_frame_run := if s = 0 then 0 else if s ≤ 4 then 1 else (s : Int) - 3
    calls := 1 + 16 * s
    talker_runs := s }

/-- The vector `codec_ids` at the start of iteration `s` of that run. -/
def repeatCodec (s : Nat) : List Int :=
  if s = 0 then List.replicate kCodeGroups 1 else repeatFrame s

/-- The default parameters with `tail_stop_repeat_frames = 3` and given values of
`tail_stop_min_steps`, `auto_stop_first_code_run` and `auto_stop_min_steps`. -/
def scenarioParams (tail_stop_min_steps auto_stop_first_code_run auto_stop_min_steps : Int) :
    GenerationParams Int :=
  { defaultParams 1 with
    tail_stop_repeat_frames := 3
    tail_stop_min_steps := tail_stop_min_steps
    auto_stop_first_code_run := auto_stop_first_code_run
    auto_stop_min_steps := auto_stop_min_steps }

/-- The default parameters with `tail_stop_repeat_frames = 3` and a given
`tail_stop_min_steps`. -/
def tailStopParams (tail_stop_min_steps : Int) : GenerationParams Int :=
  { defaultParams 1 with tail_stop_repeat_frames := 3, tail_stop_min_steps := tail_stop_min_steps }

/-!
`VoiceTokenizer::Load`.  The embedding starts from what `Load` obtains from the three
files: the reading and parsing of `vocab.json` and `merges.txt` and the searches of
`FindAddedTokenId` in `tokenizer_config.json` are not embedded.
-/

/-- What `Load` obtains from the tokenizer files.
* `vocab_entries`: the content of `vocab_` when the parse of `vocab.json` ends;
* `vocab_error`: the message with which that parse returned early, if it did;
* `merges_open`: whether `merges.txt` could be opened, `merges`: `bpe_ranks_` after it
  was read;
* `config_read`: whether `tokenizer_config.json` was read and is not empty;
* `find_im_start`, `find_im_end`, `find_endoftext`: the values of the three calls of
  `FindAddedTokenId` (-1 when the token is absent), `none` when the call throws. -/
structure TokenizerFiles where
  vocab_entries : List (List Nat × Int)
  vocab_error : Option String
  merges_open : Bool
  merges : List (List Nat × Int)
  config_read : Bool
  find_im_start : Option Int
  find_im_end : Option Int
  find_endoftext : Option Int

/-- `VoiceTokenizer::Load`: the tokenizer afterwards; `none` when a call of
`FindAddedTokenId` throws. -/
def Load (t : VoiceTokenizer) (f : TokenizerFiles) : Option VoiceTokenizer :=
  match f.vocab_error with
  | some e =>
    some { t with
      last_error_ := e
      byte_encoder_ := InitByteEncoder t.byte_encoder_
      vocab_ := f.vocab_entries
      bpe_ranks_ := []
      bpe_cache_ := [] }
  | none =>
    if f.merges_open = false then
      some { t with
        last_error_ := "Failed to open merges.txt"
        byte_encoder_ := InitByteEncoder t.byte_encoder_
        vocab_ := f.vocab_entries
        bpe_ranks_ := []
        bpe_cache_ := [] }
    else if f.config_read = false then
      some { t with
        last_error_ := "Failed to read tokenizer_config.json"
        byte_encoder_ := InitByteEncoder t.byte_encoder_
        vocab_ := f.vocab_entries
        bpe_ranks_ := f.merges
        bpe_cache_ := [] }
    else
      match f.find_im_start, f.find_im_end, f.find_endoftext with
      | some im_start, some im_end, some endoftext =>
        match Encode
            { t with
              last_error_ := ""
              byte_encoder_ := InitByteEncoder t.byte_encoder_
              vocab_ := f.vocab_entries
              bpe_ranks_ := f.merges
              bpe_cache_ := []
              im_start_id_ := im_start
              im_end_id_ := im_end
              endoftext_id_ := endoftext
              assistant_id_ :=
                match f.vocab_entries.lookup [97, 115, 115, 105, 115, 116, 97, 110, 116] with
                | some id => id
                | none => t.assistant_id_
              user_id_ :=
                match f.vocab_entries.lookup [117, 115, 101, 114] with
                | some id => id
                | none => t.user_id_ }
            [10] with
        | none => none
        | some (newline_ids, t1) =>
          if newline_ids = [] then
            some { t1 with last_error_ := "Failed to encode newline token" }
          else if t1.im_start_id_ < 0 ∨ t1.im_end_id_ < 0 ∨ t1.assistant_id_ < 0 ∨
              t1.user_id_ < 0 ∨ newline_ids.getD 0 0 < 0 then
            some { t1 with
              newline_id_ := newline_ids.getD 0 0
              last_error_ := "Tokenizer special ids resolution failed" }
          else some { t1 with newline_id_ := newline_ids.getD 0 0 }
      | _, _, _ => none

/-- `VoiceTokenizer::LoadSafe` called with a non-null `error`: the returned flag, the
string left in `*error`, and the tokenizer afterwards. -/
def LoadSafe (t : VoiceTokenizer) (f : TokenizerFiles) :
    Option ((Bool × String) × VoiceTokenizer) :=
  match Load t f with
  | none => none
  | some t1 =>
    if t1.last_error_ ≠ "" then some ((false, t1.last_error_), t1) else some ((true, ""), t1)

/-- A default-constructed `VoiceTokenizer`. -/
def freshTokenizer : VoiceTokenizer :=
  { vocab_ := [], bpe_ranks_ := [], bpe_cache_ := [],
    byte_encoder_ := List.replicate 256 [],
    im_start_id_ := -1, im_end_id_ := -1, endoftext_id_ := -1, assistant_id_ := -1,
    user_id_ := -1, newline_id_ := -1, last_error_ := "" }

/-- Tokenizer files with a complete vocabulary: `assistant`, `user`, the letter `a`
and the display string of the line feed; no merges; the three added tokens in the
config. -/
def completeFiles : TokenizerFiles :=
  { vocab_entries :=
      [([97, 115, 115, 105, 115, 116, 97, 110, 116], 102), ([117, 115, 101, 114], 103),
        ([97], 7), ([196, 138], 3)]
    vocab_error := none
    merges_open := true
    merges := []
    config_read := true
    find_im_start := some 100
    find_im_end := some 101
    find_endoftext := some 99 }

/-- The files `completeFiles` without the line-feed token in the vocabulary. -/
def noNewlineFiles : TokenizerFiles :=
  { completeFiles with
    vocab_entries :=
      [([97, 115, 115, 105, 115, 116, 97, 110, 116], 102), ([117, 115, 101, 114], 103),
        ([97], 7)] }

/-- The files `completeFiles` without `assistant` and `user` in the vocabulary. -/
def noRoleFiles : TokenizerFiles :=
  { completeFiles with vocab_entries := [([97], 7), ([196, 138], 3)] }

end QWEN3TTS

namespace QWEN3TTS

open QWEN3TTSUTILS

/-- The UTF-8 bytes of a sequence of codepoints, each written by `AppendUtf8`. -/
def utf8String (cps : List Nat) : List Nat := cps.flatMap (fun cp => AppendUtf8 cp [])

/-- The string `c` is one of the seven contraction suffixes up to letter case. -/
def IsContraction (c : List Nat) : Prop := c.map toLowerByte ∈ contractionTable

instance (c : List Nat) : Decidable (IsContraction c) := by
  unfold IsContraction
  infer_instance

/-- The rank that `bpe_ranks_` stores for the adjacent pair of units at position `i`
of `word`, if any. -/
def pairRank (ranks : List (List Nat × Int)) (word : List (List Nat)) (i : Nat) : Option Int :=
  ranks.lookup (pairKey (word.getD i []) (word.getD (i + 1) []))

/-- Every rank of the table is below `INT_MAX`, as for a table filled by `Load` (which
numbers the merges from 0 with an `int`). -/
def RanksBelowMax (ranks : List (List Nat × Int)) : Prop :=
  ∀ k r, ranks.lookup k = some r → r < 2147483647

/-- One pass of the body of the `while (true)` of `Bpe` that gets past the test
`best_i < 0`: the vector `nw` with which `word` is replaced. -/
def bpeStep (ranks : List (List Nat × Int)) (word : List (List Nat)) : List (List Nat) :=
  mergeAt (bestPair ranks word).2 0 word

/-- The unit list from which `Bpe` builds its result for a token that is not in the
cache: the codepoints of the token when there is exactly one, else the outcome of the
merge loop. -/
def BpeUnitsOf (ranks : List (List Nat × Int)) (token : List Nat) :
    Option (List (List Nat)) :=
  match SplitUtf8Chars token with
  | none => none
  | some word => if word.length = 1 then some word else BpeUnits ranks word

/-- The parameters `P` with the tail stop switched off:
`tail_stop_repeat_frames = 0`, every other field as in `P`. -/
def withoutTailStop {α : Type} (P : GenerationParams α) : GenerationParams α :=
  { P with tail_stop_repeat_frames := 0 }

end QWEN3TTS
namespace QWEN3TTS
open QWEN3TTSUTILS

theorem DecodeUtf8At_next (s : List Nat) (i : Nat) (h : i < s.length) :
    i < (DecodeUtf8At s i).2 ∧ (DecodeUtf8At s i).2 ≤ s.length := by
  unfold DecodeUtf8At
  simp only [Nat.not_le.mpr h, if_false]
  split_ifs <;> simp <;> omega

theorem scanWhile_some (p : Nat → Bool) (s : List Nat) :
    ∀ (fuel e : Nat), e ≤ s.length → s.length - e ≤ fuel →
      ∃ r, scanWhile p s fuel e = some r ∧ e ≤ r ∧ r ≤ s.length := by
  intro fuel
  induction fuel with
  | zero =>
    intro e he hf
    have : ¬ e < s.length := by omega
    exact ⟨e, by simp [scanWhile, this], le_refl _, he⟩
  | succ f ih =>
    intro e he hf
    unfold scanWhile
    by_cases hlt : e < s.length
    · simp only [hlt, if_true]
      by_cases hp : p (DecodeUtf8At s e).1 = true
      · simp only [hp, if_true]
        obtain ⟨h1, h2⟩ := DecodeUtf8At_next s e hlt
        obtain ⟨r, hr, hr1, hr2⟩ := ih (DecodeUtf8At s e).2 h2 (by omega)
        exact ⟨r, hr, by omega, hr2⟩
      · simp only [hp]
        exact ⟨e, by simp, le_refl _, he⟩
    · simp only [hlt, if_false]
      exact ⟨e, rfl, le_refl _, he⟩

theorem contraction_len_le (s : List Nat) (pos : Nat) (h : 0 < contraction_len s pos) :
    pos + contraction_len s pos ≤ s.length := by
  unfold contraction_len at h ⊢
  split
  · rename_i c hc
    have := List.find?_some hc
    simp only [Bool.and_eq_true, decide_eq_true_eq] at this
    exact this.1
  · rename_i hc
    rw [hc] at h
    exact absurd h (by decide)

theorem substr_step (s : List Nat) (i i' : Nat) (h1 : i < i') (h2 : i' ≤ s.length) :
    substr s i (i' - i) ≠ [] ∧ s.take i ++ substr s i (i' - i) = s.take i' := by
  constructor
  · intro h
    have := congrArg List.length h
    simp [substr] at this
    omega
  · unfold substr
    rw [← List.take_add]
    congr 1
    omega

theorem StepOk_ite (s : List Nat) (i : Nat) (c : Prop) [Decidable c]
    (a b : Option (List Nat × Nat)) (ha : c → StepOk s i a) (hb : ¬ c → StepOk s i b) :
    StepOk s i (if c then a else b) := by
  by_cases hc : c
  · rw [if_pos hc]; exact ha hc
  · rw [if_neg hc]; exact hb hc

theorem StepOk_scan (s : List Nat) (i : Nat) (p : Nat → Bool) (e : Nat) (h1 : i < e)
    (h2 : e ≤ s.length) :
    StepOk s i ((scanWhile p s s.length e).map (fun e => (substr s i (e - i), e))) := by
  obtain ⟨r, hr, hr1, hr2⟩ := scanWhile_some p s s.length e h2 (by omega)
  exact ⟨_, r, by rw [hr]; rfl, by omega, hr2, rfl⟩

theorem splitStep_spec (s : List Nat) (i : Nat) (h : i < s.length) :
    StepOk s i (splitStep s i) := by
  obtain ⟨hj1, hj2⟩ := DecodeUtf8At_next s i h
  unfold splitStep
  dsimp only
  apply StepOk_ite
  · intro h1
    exact ⟨_, _, rfl, by omega, contraction_len_le s i h1, by simp⟩
  intro _
  apply StepOk_ite
  · intro h2
    simp only [Bool.and_eq_true, decide_eq_true_eq] at h2
    obtain ⟨hk1, hk2⟩ := DecodeUtf8At_next s _ h2.1.2
    exact StepOk_scan s i _ _ (by omega) hk2
  intro _
  apply StepOk_ite
  · intro _
    exact StepOk_scan s i _ _ hj1 hj2
  intro _
  apply StepOk_ite
  · intro _
    exact ⟨_, _, rfl, hj1, hj2, rfl⟩
  intro _
  apply StepOk_ite
  · intro _
    apply StepOk_ite
    · intro _
      obtain ⟨e, he, he1, he2⟩ :=
        scanWhile_some IsWhitespaceNonNewline s s.length _ hj2 (by omega)
      rw [he, Option.some_bind]
      apply StepOk_ite
      · intro h7
        simp only [Bool.and_eq_true, decide_eq_true_eq] at h7
        obtain ⟨hk1, hk2⟩ := DecodeUtf8At_next s _ h7.1
        exact StepOk_scan s i _ _ (by omega) hk2
      intro _
      apply StepOk_ite
      · intro h8
        simp only [Bool.and_eq_true, decide_eq_true_eq] at h8
        refine ⟨_, _, rfl, by omega, by omega, ?_⟩
        congr 1
        omega
      · intro _
        exact ⟨_, _, rfl, by omega, he2, rfl⟩
    · intro _
      exact StepOk_scan s i _ _ hj1 hj2
  · intro _
    obtain ⟨e1, he, he1, he2⟩ := scanWhile_some IsOther s s.length _ hj2 (by omega)
    rw [he, Option.some_bind]
    exact StepOk_scan s i _ _ (by omega) he2

theorem RegexLikeSplitLoop_spec (s : List Nat) :
    ∀ (fuel i : Nat) (out : List (List Nat)), i ≤ s.length → s.length - i ≤ fuel →
      out.flatten = s.take i → (∀ c ∈ out, c ≠ []) →
      ∃ chunks, RegexLikeSplitLoop s fuel i out = some chunks ∧
        (∀ c ∈ chunks, c ≠ []) ∧ chunks.flatten = s := by
  intro fuel
  induction fuel with
  | zero =>
    intro i out hi hf hj hne
    have hi' : i = s.length := by omega
    refine ⟨out, by simp [RegexLikeSplitLoop, hi'], hne, ?_⟩
    rw [hj, hi', List.take_length]
  | succ f ih =>
    intro i out hi hf hj hne
    unfold RegexLikeSplitLoop
    by_cases hlt : i < s.length
    · simp only [hlt, if_true]
      obtain ⟨chunk, i', hs, h1, h2, hc⟩ := splitStep_spec s i hlt
      rw [hs]
      simp only []
      obtain ⟨hn, ht⟩ := substr_step s i i' h1 h2
      apply ih i' (out ++ [chunk]) h2 (by omega)
      · rw [List.flatten_append, hj, hc]
        simpa using ht
      · intro c hcm
        rcases List.mem_append.mp hcm with hcm | hcm
        · exact hne c hcm
        · rw [List.mem_singleton.mp hcm, hc]
          exact hn
    · simp only [hlt, if_false]
      have hi' : i = s.length := by omega
      refine ⟨out, rfl, hne, ?_⟩
      rw [hj, hi', List.take_length]

theorem RegexLikeSplit_chunks (s : List Nat) :
    ∃ chunks, RegexLikeSplit s = some chunks ∧ (∀ c ∈ chunks, c ≠ []) ∧ chunks.flatten = s :=
  RegexLikeSplitLoop_spec s s.length 0 [] (Nat.zero_le _) (by omega) (by simp) (by simp)


/-! ### Termination of the tokenizer loops -/

theorem SplitUtf8CharsLoop_some (s : List Nat) :
    ∀ (fuel i : Nat) (out : List (List Nat)), i ≤ s.length → s.length - i ≤ fuel →
      ∃ w, SplitUtf8CharsLoop s fuel i out = some w := by
  intro fuel
  induction fuel with
  | zero =>
    intro i out hi hf
    have : ¬ i < s.length := by omega
    exact ⟨out, by simp [SplitUtf8CharsLoop, this]⟩
  | succ f ih =>
    intro i out hi hf
    unfold SplitUtf8CharsLoop
    by_cases hlt : i < s.length
    · rw [if_pos hlt]
      obtain ⟨h1, h2⟩ := DecodeUtf8At_next s i hlt
      exact ih _ _ h2 (by omega)
    · rw [if_neg hlt]
      exact ⟨out, rfl⟩

theorem SplitUtf8Chars_some (s : List Nat) : ∃ w, SplitUtf8Chars s = some w :=
  SplitUtf8CharsLoop_some s s.length 0 [] (Nat.zero_le _) (by omega)

theorem bestPair_bounds (ranks : List (List Nat × Int)) (word : List (List Nat)) :
    (bestPair ranks word).2 = -1 ∨
      (0 ≤ (bestPair ranks word).2 ∧ (bestPair ranks word).2 + 1 < word.length) := by
  unfold bestPair
  have key : ∀ (l : List Nat) (st : Int × Int),
      (∀ i ∈ l, i + 1 < word.length) →
      (st.2 = -1 ∨ (0 ≤ st.2 ∧ st.2 + 1 < word.length)) →
      ((l.foldl (fun (st : Int × Int) i =>
          match ranks.lookup (pairKey (word.getD i []) (word.getD (i + 1) [])) with
          | some r => if r < st.1 then (r, (i : Int)) else st
          | none => st) st).2 = -1 ∨
        (0 ≤ (l.foldl (fun (st : Int × Int) i =>
          match ranks.lookup (pairKey (word.getD i []) (word.getD (i + 1) [])) with
          | some r => if r < st.1 then (r, (i : Int)) else st
          | none => st) st).2 ∧
         (l.foldl (fun (st : Int × Int) i =>
          match ranks.lookup (pairKey (word.getD i []) (word.getD (i + 1) [])) with
          | some r => if r < st.1 then (r, (i : Int)) else st
          | none => st) st).2 + 1 < word.length)) := by
    intro l
    induction l with
    | nil => intro st _ h; simpa using h
    | cons a l ih =>
      intro st hl h
      rw [List.foldl_cons]
      apply ih
      · intro i hi; exact hl i (List.mem_cons_of_mem _ hi)
      · have ha := hl a (List.mem_cons_self _ _)
        cases hlk : ranks.lookup (pairKey (word.getD a []) (word.getD (a + 1) [])) with
        | none => simpa using h
        | some r =>
          simp only []
          by_cases hr : r < st.1
          · rw [if_pos hr]; right; simp; omega
          · rw [if_neg hr]; exact h
  apply key
  · intro i hi
    have := List.mem_range.mp hi
    omega
  · left; rfl

theorem mergeAt_length (b : Int) :
    ∀ (n i : Nat) (l : List (List Nat)), l.length ≤ n → (i : Int) ≤ b →
      b + 1 < (i : Int) + l.length → (mergeAt b i l).length + 1 = l.length := by
  intro n
  induction n with
  | zero =>
    intro i l hl h1 h2
    have : l.length = 0 := by omega
    rw [this] at h2
    simp at h2
    omega
  | succ n ih =>
    intro i l hl h1 h2
    match l with
    | [] => simp at h2; omega
    | [a] => simp at h2; omega
    | a :: c :: rest =>
      unfold mergeAt
      by_cases hb : (i : Int) = b
      · rw [if_pos hb]
        have hrest : ∀ (j : Nat) (r : List (List Nat)), b < (j : Int) →
            mergeAt b j r = r := by
          intro j r
          induction r using List.rec generalizing j with
          | nil => intro _; simp [mergeAt]
          | cons x r ihr =>
            intro hj
            match r with
            | [] => simp [mergeAt]
            | y :: r' =>
              unfold mergeAt
              have : ¬ (j : Int) = b := by omega
              rw [if_neg this]
              rw [ihr (j + 1) (by push_cast; omega)]
        rw [hrest (i + 2) rest (by push_cast; omega)]
        simp
      · rw [if_neg hb]
        simp only [List.length_cons]
        have := ih (i + 1) (c :: rest) (by simp at hl ⊢; omega) (by push_cast; omega)
          (by push_cast; simp at h2 ⊢; omega)
        simp at this ⊢
        omega

theorem BpeLoop_some (ranks : List (List Nat × Int)) :
    ∀ (fuel : Nat) (word : List (List Nat)), word.length < fuel →
      ∃ r, BpeLoop ranks fuel word = some r ∧ (bestPair ranks r).2 < 0 := by
  intro fuel
  induction fuel with
  | zero => intro word h; omega
  | succ f ih =>
    intro word h
    unfold BpeLoop
    by_cases hb : (bestPair ranks word).2 < 0
    · rw [if_pos hb]; exact ⟨word, rfl, hb⟩
    · rw [if_neg hb]
      rcases bestPair_bounds ranks word with h1 | ⟨h1, h2⟩
      · omega
      · have hlen := mergeAt_length (bestPair ranks word).2 word.length 0 word (le_refl _)
          (by simpa using h1) (by simpa using h2)
        by_cases h1' : (mergeAt (bestPair ranks word).2 0 word).length = 1
        · rw [if_pos h1']
          refine ⟨_, rfl, ?_⟩
          rcases bestPair_bounds ranks (mergeAt (bestPair ranks word).2 0 word) with h3 | ⟨h3, h4⟩
          · omega
          · rw [h1'] at h4; omega
        · rw [if_neg h1']
          exact ih _ (by omega)

theorem BpeUnits_some (ranks : List (List Nat × Int)) (word : List (List Nat)) :
    ∃ r, BpeUnits ranks word = some r ∧ (bestPair ranks r).2 < 0 :=
  BpeLoop_some ranks (word.length + 1) word (Nat.lt_succ_self _)

theorem BpeLoop_fixed (ranks : List (List Nat × Int)) (fuel : Nat) (r : List (List Nat))
    (h : (bestPair ranks r).2 < 0) : BpeLoop ranks (fuel + 1) r = some r := by
  unfold BpeLoop
  rw [if_pos h]

theorem BpeUncached_some (ranks : List (List Nat × Int)) (token : List Nat) :
    ∃ v, BpeUncached ranks token = some v := by
  unfold BpeUncached
  obtain ⟨w, hw⟩ := SplitUtf8Chars_some token
  rw [hw]
  by_cases h1 : w.length = 1
  · exact ⟨token, by simp [h1]⟩
  · obtain ⟨r, hr, _⟩ := BpeUnits_some ranks w
    exact ⟨joinUnits r, by simp [h1, hr]⟩


/-! ### The BPE cache -/

theorem SameTables_refl (t : VoiceTokenizer) : SameTables t t :=
  ⟨rfl, rfl, rfl, rfl, rfl, rfl, rfl, rfl, rfl⟩

theorem SameTables_trans {a b c : VoiceTokenizer} (h1 : SameTables a b) (h2 : SameTables b c) :
    SameTables a c := by
  obtain ⟨a1, a2, a3, a4, a5, a6, a7, a8, a9⟩ := h1
  obtain ⟨b1, b2, b3, b4, b5, b6, b7, b8, b9⟩ := h2
  exact ⟨b1.trans a1, b2.trans a2, b3.trans a3, b4.trans a4, b5.trans a5, b6.trans a6,
    b7.trans a7, b8.trans a8, b9.trans a9⟩

theorem CacheOk_nil (ranks : List (List Nat × Int)) : CacheOk ranks [] := by
  intro k v h
  simp at h

theorem CacheOk_cons (ranks : List (List Nat × Int)) (cache : List (List Nat × List Nat))
    (token v : List Nat) (hc : CacheOk ranks cache) (hv : BpeUncached ranks token = some v) :
    CacheOk ranks ((token, v) :: cache) := by
  intro k w h
  rw [List.lookup_cons] at h
  by_cases hk : k = token
  · subst hk
    simp at h
    rw [← h]; exact hv
  · have : (k == token) = false := by simpa using hk
    rw [this] at h
    exact hc k w h

theorem Bpe_spec (t : VoiceTokenizer) (token : List Nat)
    (hc : CacheOk t.bpe_ranks_ t.bpe_cache_) :
    ∃ v t', Bpe t token = some (v, t') ∧ BpeUncached t.bpe_ranks_ token = some v ∧
      SameTables t t' ∧ CacheOk t'.bpe_ranks_ t'.bpe_cache_ ∧
      t'.last_error_ = t.last_error_ := by
  unfold Bpe
  cases hl : t.bpe_cache_.lookup token with
  | some c =>
    exact ⟨c, t, rfl, hc token c hl, SameTables_refl t, hc, rfl⟩
  | none =>
    simp only []
    obtain ⟨v, hv⟩ := BpeUncached_some t.bpe_ranks_ token
    have hv' := hv
    unfold BpeUncached at hv
    obtain ⟨w, hw⟩ := SplitUtf8Chars_some token
    rw [hw] at hv ⊢
    simp only [] at hv ⊢
    by_cases h1 : w.length = 1
    · rw [if_pos h1] at hv ⊢
      have hv2 : v = token := by simpa using hv.symm
      subst hv2
      exact ⟨v, _, rfl, hv', SameTables_refl _, CacheOk_cons _ _ _ _ hc hv', rfl⟩
    · rw [if_neg h1] at hv ⊢
      obtain ⟨r, hr, _⟩ := BpeUnits_some t.bpe_ranks_ w
      rw [hr] at hv ⊢
      simp only [Option.map_some'] at hv
      have hv2 : v = joinUnits r := by simpa using hv.symm
      subst hv2
      exact ⟨_, _, rfl, hv', SameTables_refl _, CacheOk_cons _ _ _ _ hc hv', rfl⟩

/-! ### The lookup loop of `Encode` -/

theorem findSpace_ge (bpe : List Nat) (i : Nat) : i ≤ findSpace bpe i := by
  unfold findSpace; omega

theorem EncodeLoop_spec (vocab : List (List Nat × Int)) (eot : Int) (bpe : List Nat) :
    ∀ (fuel i : Nat) (ids : List Int), bpe.length - i ≤ fuel →
      ∃ ps, PiecesLoop bpe fuel i = some ps ∧
        ((0 ≤ eot ∨ AllInVocab vocab ps) →
          EncodeLoop vocab eot bpe fuel i ids = some (some (ids ++ ps.map (pieceId vocab eot)))) ∧
        (¬ (0 ≤ eot ∨ AllInVocab vocab ps) →
          EncodeLoop vocab eot bpe fuel i ids = some none) := by
  intro fuel
  induction fuel with
  | zero =>
    intro i ids hf
    have : ¬ i < bpe.length := by omega
    refine ⟨[], by simp [PiecesLoop, this], ?_, ?_⟩
    · intro _; simp [EncodeLoop, this]
    · intro h; exact absurd (Or.inr (fun p hp => by simp at hp)) h
  | succ f ih =>
    intro i ids hf
    unfold PiecesLoop EncodeLoop
    by_cases hlt : i < bpe.length
    · rw [if_pos hlt, if_pos hlt]
      have hge := findSpace_ge bpe i
      cases hl : vocab.lookup (substr bpe i (findSpace bpe i - i)) with
      | some id =>
        simp only []
        obtain ⟨ps, hps, h1, h2⟩ := ih (findSpace bpe i + 1) (ids ++ [id]) (by omega)
        refine ⟨_ :: ps, by rw [hps]; rfl, ?_, ?_⟩
        · intro h
          rw [h1 ?_]
          · simp [pieceId, hl]
          · rcases h with h | h
            · exact Or.inl h
            · exact Or.inr (fun p hp => h p (List.mem_cons_of_mem _ hp))
        · intro h
          apply h2
          intro h'
          apply h
          rcases h' with h' | h'
          · exact Or.inl h'
          · right
            intro p hp
            rcases List.mem_cons.mp hp with hp | hp
            · rw [hp, hl]; simp
            · exact h' p hp
      | none =>
        simp only []
        obtain ⟨ps, hps, h1, h2⟩ := ih (findSpace bpe i + 1) (ids ++ [eot]) (by omega)
        refine ⟨_ :: ps, by rw [hps]; rfl, ?_, ?_⟩
        · intro h
          have h0 : 0 ≤ eot := by
            rcases h with h | h
            · exact h
            · exact absurd hl (h _ (List.mem_cons_self _ _))
          rw [if_pos h0, h1 (Or.inl h0)]
          simp [pieceId, hl]
        · intro h
          have h0 : ¬ 0 ≤ eot := fun h0 => h (Or.inl h0)
          rw [if_neg h0]
    · rw [if_neg hlt, if_neg hlt]
      refine ⟨[], rfl, ?_, ?_⟩
      · intro _; simp
      · intro h; exact absurd (Or.inr (fun p hp => by simp at hp)) h

theorem AllInVocab_append (vocab : List (List Nat × Int)) (a b : List (List Nat)) :
    AllInVocab vocab (a ++ b) ↔ AllInVocab vocab a ∧ AllInVocab vocab b := by
  unfold AllInVocab
  constructor
  · intro h
    exact ⟨fun p hp => h p (List.mem_append_left _ hp),
      fun p hp => h p (List.mem_append_right _ hp)⟩
  · rintro ⟨h1, h2⟩ p hp
    rcases List.mem_append.mp hp with hp | hp
    · exact h1 p hp
    · exact h2 p hp

theorem ChunksPieces_some (ranks : List (List Nat × Int)) (enc : List (List Nat))
    (chunks : List (List Nat)) : ∃ ps, ChunksPieces ranks enc chunks = some ps := by
  induction chunks with
  | nil => exact ⟨[], rfl⟩
  | cons ch rest ih =>
    obtain ⟨ps, hps⟩ := ih
    obtain ⟨v, hv⟩ := BpeUncached_some ranks (ByteEncodeToken enc ch)
    obtain ⟨p1, hp1, _, _⟩ := EncodeLoop_spec [] 0 v v.length 0 [] (by omega)
    refine ⟨p1 ++ ps, ?_⟩
    unfold ChunksPieces
    rw [hv, hps]
    simp only [Option.some_bind, BpePieces, hp1]

theorem EncodeChunks_spec :
    ∀ (chunks : List (List Nat)) (t : VoiceTokenizer) (ids : List Int),
      CacheOk t.bpe_ranks_ t.bpe_cache_ →
      ∃ ps t', ChunksPieces t.bpe_ranks_ t.byte_encoder_ chunks = some ps ∧
        SameTables t t' ∧ CacheOk t'.bpe_ranks_ t'.bpe_cache_ ∧
        ((0 ≤ t.endoftext_id_ ∨ AllInVocab t.vocab_ ps) →
          EncodeChunks t chunks ids =
              some (ids ++ ps.map (pieceId t.vocab_ t.endoftext_id_), t') ∧
            t'.last_error_ = t.last_error_) ∧
        (¬ (0 ≤ t.endoftext_id_ ∨ AllInVocab t.vocab_ ps) →
          EncodeChunks t chunks ids = some ([], t') ∧
            t'.last_error_ = "Tokenizer OOV and no unk token id") := by
  intro chunks
  induction chunks with
  | nil =>
    intro t ids hc
    refine ⟨[], t, rfl, SameTables_refl t, hc, ?_, ?_⟩
    · intro _; simp [EncodeChunks]
    · intro h; exact absurd (Or.inr (fun p hp => by simp at hp)) h
  | cons ch rest ih =>
    intro t ids hc
    obtain ⟨bpe, t1, hb, hu, hs, hc1, he1⟩ := Bpe_spec t (ByteEncodeToken t.byte_encoder_ ch) hc
    obtain ⟨p1, hp1, hl1, hl2⟩ :=
      EncodeLoop_spec t1.vocab_ t1.endoftext_id_ bpe bpe.length 0 ids (by omega)
    have hs' := hs
    obtain ⟨s1, s2, s3, s4, s5, s6, s7, s8, s9⟩ := hs
    rw [s1, s6] at hl1 hl2
    have hcp : (BpeUncached t.bpe_ranks_ (ByteEncodeToken t.byte_encoder_ ch)).bind BpePieces
        = some p1 := by
      rw [hu]; exact hp1
    by_cases hcond : 0 ≤ t.endoftext_id_ ∨ AllInVocab t.vocab_ p1
    · obtain ⟨ps, t', hps, hst, hct, hA, hB⟩ := ih t1 (ids ++ p1.map (pieceId t.vocab_ t.endoftext_id_)) hc1
      simp only [s1, s2, s3, s6] at hps hA hB
      refine ⟨p1 ++ ps, t', ?_, SameTables_trans hs' hst, hct, ?_, ?_⟩
      · unfold ChunksPieces; rw [hcp, hps]
      · intro h
        have h' : 0 ≤ t.endoftext_id_ ∨ AllInVocab t.vocab_ ps := by
          rcases h with h | h
          · exact Or.inl h
          · exact Or.inr ((AllInVocab_append _ _ _).mp h).2
        obtain ⟨hA1, hA2⟩ := hA h'
        unfold EncodeChunks
        rw [hb]
        simp only []
        rw [s1, s6, hl1 hcond]
        simp only []
        rw [hA1, hA2, he1]
        simp
      · intro h
        have h' : ¬ (0 ≤ t.endoftext_id_ ∨ AllInVocab t.vocab_ ps) := by
          intro h'
          apply h
          rcases h' with h' | h'
          · exact Or.inl h'
          · rcases hcond with h0 | h0
            · exact Or.inl h0
            · exact Or.inr ((AllInVocab_append _ _ _).mpr ⟨h0, h'⟩)
        obtain ⟨hB1, hB2⟩ := hB h'
        unfold EncodeChunks
        rw [hb]
        simp only []
        rw [s1, s6, hl1 hcond]
        simp only []
        exact ⟨hB1, hB2⟩
    · obtain ⟨ps, hps⟩ := ChunksPieces_some t.bpe_ranks_ t.byte_encoder_ rest
      refine ⟨p1 ++ ps, { t1 with last_error_ := "Tokenizer OOV and no unk token id" }, ?_,
        ⟨s1, s2, s3, s4, s5, s6, s7, s8, s9⟩, hc1, ?_, ?_⟩
      · unfold ChunksPieces; rw [hcp, hps]
      · intro h
        exfalso
        apply hcond
        rcases h with h | h
        · exact Or.inl h
        · exact Or.inr ((AllInVocab_append _ _ _).mp h).1
      · intro _
        unfold EncodeChunks
        rw [hb]
        simp only []
        rw [s1, s6, hl2 hcond]
        exact ⟨rfl, trivial⟩


/-! ### `Encode` and `BuildVoiceDesignIds` -/

theorem Encode_spec (t : VoiceTokenizer) (text : List Nat)
    (hc : CacheOk t.bpe_ranks_ t.bpe_cache_) :
    ∃ ps t', TextPieces t.bpe_ranks_ t.byte_encoder_ text = some ps ∧
      SameTables t t' ∧ CacheOk t'.bpe_ranks_ t'.bpe_cache_ ∧
      ((0 ≤ t.endoftext_id_ ∨ AllInVocab t.vocab_ ps) →
        Encode t text = some (ps.map (pieceId t.vocab_ t.endoftext_id_), t') ∧
          t'.last_error_ = t.last_error_) ∧
      (¬ (0 ≤ t.endoftext_id_ ∨ AllInVocab t.vocab_ ps) →
        Encode t text = some ([], t') ∧
          t'.last_error_ = "Tokenizer OOV and no unk token id") := by
  obtain ⟨chunks, hch, _, _⟩ := RegexLikeSplit_chunks text
  obtain ⟨ps, t', h1, h2, h3, h4, h5⟩ := EncodeChunks_spec chunks t [] hc
  refine ⟨ps, t', ?_, h2, h3, ?_, ?_⟩
  · unfold TextPieces; rw [hch]; exact h1
  · intro h
    unfold Encode
    rw [hch]
    simpa using h4 h
  · intro h
    unfold Encode
    rw [hch]
    exact h5 h

theorem Encode_indep (t1 t2 : VoiceTokenizer) (text : List Nat)
    (hc1 : CacheOk t1.bpe_ranks_ t1.bpe_cache_) (hc2 : CacheOk t2.bpe_ranks_ t2.bpe_cache_)
    (hs : SameTables t1 t2) :
    ∃ ids ta tb, Encode t1 text = some (ids, ta) ∧ Encode t2 text = some (ids, tb) ∧
      SameTables t1 ta ∧ CacheOk ta.bpe_ranks_ ta.bpe_cache_ ∧
      SameTables t2 tb ∧ CacheOk tb.bpe_ranks_ tb.bpe_cache_ := by
  obtain ⟨ps, ta, hp, hsa, hca, hA, hB⟩ := Encode_spec t1 text hc1
  obtain ⟨qs, tb, hq, hsb, hcb, hA', hB'⟩ := Encode_spec t2 text hc2
  obtain ⟨s1, s2, s3, s4, s5, s6, s7, s8, s9⟩ := hs
  rw [s1, s6] at hA' hB'
  rw [s2, s3, hp] at hq
  have hpq : ps = qs := by simpa using hq
  subst hpq
  by_cases hcond : 0 ≤ t1.endoftext_id_ ∨ AllInVocab t1.vocab_ ps
  · exact ⟨_, ta, tb, (hA hcond).1, (hA' hcond).1, hsa, hca, hsb, hcb⟩
  · exact ⟨_, ta, tb, (hB hcond).1, (hB' hcond).1, hsa, hca, hsb, hcb⟩

theorem Encode_empty (t : VoiceTokenizer) : Encode t [] = some ([], t) := rfl

theorem BuildVoiceDesignIds_spec (t : VoiceTokenizer) (text instruct : List Nat)
    (hc : CacheOk t.bpe_ranks_ t.bpe_cache_) :
    ∃ text_ids instr_ids t1 t2 t3,
      Encode t text = some (text_ids, t1) ∧ Encode t instruct = some (instr_ids, t2) ∧
      Encode t1 instruct = some (instr_ids, t3) ∧
      SameTables t t3 ∧ CacheOk t3.bpe_ranks_ t3.bpe_cache_ ∧
      BuildVoiceDesignIds t text instruct =
        some (([t.im_start_id_, t.assistant_id_, t.newline_id_] ++ text_ids ++
                [t.im_end_id_, t.newline_id_, t.im_start_id_, t.assistant_id_, t.newline_id_],
               [t.im_start_id_, t.user_id_, t.newline_id_] ++ instr_ids ++
                [t.im_end_id_, t.newline_id_]), t3) := by
  obtain ⟨text_ids, t1, _, h1, _, hs1, hc1, _, _⟩ := Encode_indep t t text hc hc (SameTables_refl t)
  obtain ⟨instr_ids, t2, t3, h2, h3, _, _, hs3, hc3⟩ := Encode_indep t t1 instruct hc hc1 hs1
  have hs := SameTables_trans hs1 hs3
  refine ⟨text_ids, instr_ids, t1, t2, t3, h1, h2, h3, hs, hc3, ?_⟩
  obtain ⟨s1, s2, s3, s4, s5, s6, s7, s8, s9⟩ := hs
  unfold BuildVoiceDesignIds
  rw [h1]
  simp only []
  rw [h3]
  simp only [s4, s5, s7, s8, s9, List.append_assoc, List.singleton_append, List.cons_append,
    List.nil_append]

theorem BuildVoiceDesignIdsSafe_spec (t : VoiceTokenizer) (text instruct : List Nat)
    (hc : CacheOk t.bpe_ranks_ t.bpe_cache_) :
    ∃ r t', BuildVoiceDesignIdsSafe t text instruct = some (r, t') ∧
      SameTables t t' ∧ CacheOk t'.bpe_ranks_ t'.bpe_cache_ := by
  obtain ⟨a, b, t1, t2, t3, _, _, _, hs, hc3, hb⟩ := BuildVoiceDesignIds_spec t text instruct hc
  unfold BuildVoiceDesignIdsSafe
  rw [hb]
  simp only []
  by_cases he : t3.last_error_ ≠ ""
  · rw [if_pos he]; exact ⟨_, _, rfl, hs, hc3⟩
  · rw [if_neg he]; exact ⟨_, _, rfl, hs, hc3⟩

theorem runCalls_spec :
    ∀ (calls : List Call) (t : VoiceTokenizer), CacheOk t.bpe_ranks_ t.bpe_cache_ →
      ∃ t', runCalls t calls = some t' ∧ SameTables t t' ∧
        CacheOk t'.bpe_ranks_ t'.bpe_cache_ := by
  intro calls
  induction calls with
  | nil => intro t hc; exact ⟨t, rfl, SameTables_refl t, hc⟩
  | cons c cs ih =>
    intro t hc
    have hstep : ∃ t1, runCall t c = some t1 ∧ SameTables t t1 ∧
        CacheOk t1.bpe_ranks_ t1.bpe_cache_ := by
      cases c with
      | bpe token =>
        obtain ⟨v, t1, h1, _, hs, hc1, _⟩ := Bpe_spec t token hc
        exact ⟨t1, by simp [runCall, h1], hs, hc1⟩
      | encode text =>
        obtain ⟨ids, t1, _, h1, _, hs, hc1, _, _⟩ :=
          Encode_indep t t text hc hc (SameTables_refl t)
        exact ⟨t1, by simp [runCall, h1], hs, hc1⟩
      | build text instruct =>
        obtain ⟨r, t1, h1, hs, hc1⟩ := BuildVoiceDesignIdsSafe_spec t text instruct hc
        exact ⟨t1, by simp [runCall, h1], hs, hc1⟩
    obtain ⟨t1, h1, hs1, hc1⟩ := hstep
    obtain ⟨t', h', hs', hc'⟩ := ih t1 hc1
    refine ⟨t', ?_, SameTables_trans hs1 hs', hc'⟩
    unfold runCalls
    rw [h1]
    exact h'


theorem Bpe_repeat (t t' : VoiceTokenizer) (token v : List Nat)
    (h : Bpe t token = some (v, t')) : Bpe t' token = some (v, t') := by
  have hhit : t'.bpe_cache_.lookup token = some v → Bpe t' token = some (v, t') := by
    intro hl
    unfold Bpe
    rw [hl]
  apply hhit
  unfold Bpe at h
  cases hl : t.bpe_cache_.lookup token with
  | some c =>
    rw [hl] at h
    simp only [Option.some.injEq, Prod.mk.injEq] at h
    rw [← h.2, ← h.1]; exact hl
  | none =>
    rw [hl] at h
    simp only [] at h
    cases hw : SplitUtf8Chars token with
    | none => rw [hw] at h; simp at h
    | some w =>
      rw [hw] at h
      simp only [] at h
      by_cases h1 : w.length = 1
      · rw [if_pos h1] at h
        simp only [Option.some.injEq, Prod.mk.injEq] at h
        rw [← h.2, ← h.1]
        simp [List.lookup_cons]
      · rw [if_neg h1] at h
        cases hu : BpeUnits t.bpe_ranks_ w with
        | none => rw [hu] at h; simp at h
        | some r =>
          rw [hu] at h
          simp only [Option.some.injEq, Prod.mk.injEq] at h
          rw [← h.2, ← h.1]
          simp [List.lookup_cons]

theorem Safe_of_Encode (t t1 t2 : VoiceTokenizer) (text instruct : List Nat) (a b : List Int)
    (h1 : Encode t text = some (a, t1)) (h2 : Encode t1 instruct = some (b, t2)) :
    (t2.last_error_ = "" → ∃ ids, BuildVoiceDesignIdsSafe t text instruct =
        some ((true, ids, ""), t2)) ∧
    (t2.last_error_ ≠ "" → ∃ ids, BuildVoiceDesignIdsSafe t text instruct =
        some ((false, ids, t2.last_error_), t2)) := by
  unfold BuildVoiceDesignIdsSafe BuildVoiceDesignIds
  rw [h1]
  simp only []
  rw [h2]
  simp only []
  constructor
  · intro he
    rw [if_neg (by simpa using he)]
    exact ⟨_, rfl⟩
  · intro he
    rw [if_pos he]
    exact ⟨_, rfl⟩

theorem runCalls_newline_plain :
    runCalls plainTokenizer [Call.bpe [196, 138]] = some loadedTokenizer := by
  rfl

theorem runCalls_newline_strict :
    runCalls strictTokenizer [Call.bpe [196, 138]] = some loadedStrictTokenizer := by
  rfl

/-! ### The claims about the tokenizer -/

/-- C1: for every byte string `s`, `RegexLikeSplit s` terminates with a list of
chunks, every chunk is non-empty, and the concatenation of the chunks in order is
`s` itself (no assumption of valid UTF-8 is made). -/
theorem RegexLikeSplit_lossless (s : List Nat) :
    ∃ chunks, RegexLikeSplit s = some chunks ∧ (∀ c ∈ chunks, c ≠ []) ∧ chunks.flatten = s :=
  RegexLikeSplitLoop_spec s s.length 0 [] (Nat.zero_le _) (by omega) (by simp) (by simp)

/-- C2: on a loaded tokenizer (a tokenizer whose cache was cleared, after any
sequence of calls), `BuildVoiceDesignIds` returns
`input_ids = [im_start, assistant, newline] ++ Encode(text) ++
[im_end, newline, im_start, assistant, newline]` and
`instruct_ids = [im_start, user, newline] ++ Encode(instruct) ++ [im_end, newline]`;
their lengths are `|Encode(text)| + 8` and `|Encode(instruct)| + 5`, an empty
instruct gives exactly the five framing ids, and neither vector is empty. -/
theorem BuildVoiceDesignIds_framing (t0 t : VoiceTokenizer) (calls : List Call)
    (text instruct : List Nat) (h0 : t0.bpe_cache_ = [])
    (hr : runCalls t0 calls = some t) :
    ∃ text_ids instr_ids t1 t2 t3 input_ids instruct_ids,
      Encode t text = some (text_ids, t1) ∧ Encode t instruct = some (instr_ids, t2) ∧
      BuildVoiceDesignIds t text instruct = some ((input_ids, instruct_ids), t3) ∧
      input_ids = [t.im_start_id_, t.assistant_id_, t.newline_id_] ++ text_ids ++
        [t.im_end_id_, t.newline_id_, t.im_start_id_, t.assistant_id_, t.newline_id_] ∧
      instruct_ids = [t.im_start_id_, t.user_id_, t.newline_id_] ++ instr_ids ++
        [t.im_end_id_, t.newline_id_] ∧
      input_ids.length = text_ids.length + 8 ∧
      instruct_ids.length = instr_ids.length + 5 ∧
      (instruct = [] → instruct_ids =
        [t.im_start_id_, t.user_id_, t.newline_id_, t.im_end_id_, t.newline_id_]) ∧
      input_ids ≠ [] ∧ instruct_ids ≠ [] := by
  have hc : CacheOk t.bpe_ranks_ t.bpe_cache_ := by
    obtain ⟨t', hr', _, hc'⟩ := runCalls_spec calls t0 (by rw [h0]; exact CacheOk_nil _)
    rw [hr] at hr'
    simp only [Option.some.injEq] at hr'
    rw [hr']; exact hc'
  obtain ⟨a, b, t1, t2, t3, h1, h2, _, _, _, hb⟩ := BuildVoiceDesignIds_spec t text instruct hc
  refine ⟨a, b, t1, t2, t3, _, _, h1, h2, hb, rfl, rfl, ?_, ?_, ?_, ?_, ?_⟩
  · simp
  · simp
  · intro hi
    subst hi
    rw [Encode_empty] at h2
    simp only [Option.some.injEq, Prod.mk.injEq] at h2
    rw [← h2.1]
    rfl
  · simp
  · simp

/-- Witness for C2: the framing theorem applied to a concrete tokenizer after the
`Bpe` call on the display string of the line feed (the one `Load` makes through
`Encode`), with the text `a` and the empty instruct. -/
theorem BuildVoiceDesignIds_framing_witness :
    (plainTokenizer.bpe_cache_ = [] ∧
      runCalls plainTokenizer [Call.bpe [196, 138]] = some loadedTokenizer) ∧
    ∃ text_ids instr_ids t1 t2 t3 input_ids instruct_ids,
      Encode loadedTokenizer [97] = some (text_ids, t1) ∧
      Encode loadedTokenizer [] = some (instr_ids, t2) ∧
      BuildVoiceDesignIds loadedTokenizer [97] [] = some ((input_ids, instruct_ids), t3) ∧
      input_ids = [loadedTokenizer.im_start_id_, loadedTokenizer.assistant_id_,
          loadedTokenizer.newline_id_] ++ text_ids ++
        [loadedTokenizer.im_end_id_, loadedTokenizer.newline_id_,
          loadedTokenizer.im_start_id_, loadedTokenizer.assistant_id_,
          loadedTokenizer.newline_id_] ∧
      instruct_ids = [loadedTokenizer.im_start_id_, loadedTokenizer.user_id_,
          loadedTokenizer.newline_id_] ++ instr_ids ++
        [loadedTokenizer.im_end_id_, loadedTokenizer.newline_id_] ∧
      input_ids.length = text_ids.length + 8 ∧
      instruct_ids.length = instr_ids.length + 5 ∧
      (([] : List Nat) = [] → instruct_ids =
        [loadedTokenizer.im_start_id_, loadedTokenizer.user_id_, loadedTokenizer.newline_id_,
          loadedTokenizer.im_end_id_, loadedTokenizer.newline_id_]) ∧
      input_ids ≠ [] ∧ instruct_ids ≠ [] :=
  ⟨⟨rfl, runCalls_newline_plain⟩,
    BuildVoiceDesignIds_framing plainTokenizer loadedTokenizer [Call.bpe [196, 138]] [97] [] rfl
      runCalls_newline_plain⟩

/-- C5, counterexample: with no merge rules and an empty cache, `Bpe` maps the
two-letter chunk `ab` to `a b`, and maps that output to `a   b` (the joining space
has become a unit of its own), whether or not the cache of the first call is kept;
so `Bpe(Bpe(c))` differs from `Bpe(c)`. -/
theorem Bpe_string_not_idempotent :
    (Bpe plainTokenizer [97, 98]).map Prod.fst = some [97, 32, 98] ∧
    ((Bpe plainTokenizer [97, 98]).bind (fun r => Bpe r.2 r.1)).map Prod.fst =
      some [97, 32, 32, 32, 98] ∧
    (Bpe plainTokenizer [97, 32, 98]).map Prod.fst = some [97, 32, 32, 32, 98] ∧
    ((Bpe plainTokenizer [97, 98]).bind (fun r => Bpe r.2 r.1)).map Prod.fst ≠
      (Bpe plainTokenizer [97, 98]).map Prod.fst := by
  refine ⟨by decide, by decide, by decide, by decide⟩

/-- C5, amended: for every merge-rank table and every sequence of units, the merge
loop of `Bpe` terminates, and run again on the units it produced it returns them
unchanged. -/
theorem BpeUnits_idempotent (ranks : List (List Nat × Int)) (word : List (List Nat)) :
    ∃ r, BpeUnits ranks word = some r ∧ BpeUnits ranks r = some r := by
  obtain ⟨r, hr, hfix⟩ := BpeUnits_some ranks word
  exact ⟨r, hr, BpeLoop_fixed ranks r.length r hfix⟩

/-- C6: for every merge-rank table, every sequence of earlier calls on a tokenizer
whose cache was empty, and every chunk that `SplitUtf8Chars` splits into exactly
one codepoint, `Bpe` returns the chunk unchanged. -/
theorem Bpe_single_codepoint (t : VoiceTokenizer) (calls : List Call) (token u : List Nat)
    (h0 : t.bpe_cache_ = []) (h1 : SplitUtf8Chars token = some [u]) :
    ∃ t' t'', runCalls t calls = some t' ∧ Bpe t' token = some (token, t'') := by
  have hc : CacheOk t.bpe_ranks_ t.bpe_cache_ := by rw [h0]; exact CacheOk_nil _
  obtain ⟨t', hr, hs, hc'⟩ := runCalls_spec calls t hc
  obtain ⟨v, t'', hb, hu, _, _, _⟩ := Bpe_spec t' token hc'
  unfold BpeUncached at hu
  rw [h1] at hu
  simp only [List.length_singleton, if_true, Option.some.injEq] at hu
  rw [← hu] at hb
  exact ⟨t', t'', hr, hb⟩

/-- Witness for C6: the two-byte codepoint `C3 A9` after an earlier call that
encoded the text `a`. -/
theorem Bpe_single_codepoint_witness :
    plainTokenizer.bpe_cache_ = [] ∧ SplitUtf8Chars [195, 169] = some [[195, 169]] ∧
    ∃ t' t'', runCalls plainTokenizer [Call.encode [97]] = some t' ∧
      Bpe t' [195, 169] = some ([195, 169], t'') :=
  ⟨rfl, by decide,
    Bpe_single_codepoint plainTokenizer [Call.encode [97]] [195, 169] [195, 169] rfl
      (by decide)⟩

/-- C7: on a tokenizer whose cache was empty (as `Load` leaves it), after any
sequence of earlier calls, `Bpe` returns for `token` the string the uncached
algorithm computes, a repeated call returns the same string again, and the ids
returned by `Encode` and by `BuildVoiceDesignIds` are those returned when
nothing was encoded before. -/
theorem Bpe_memoization_transparent (t : VoiceTokenizer) (calls : List Call)
    (token text instruct : List Nat) (h0 : t.bpe_cache_ = []) :
    ∃ t', runCalls t calls = some t' ∧
      (∃ v t'', BpeUncached t.bpe_ranks_ token = some v ∧ Bpe t' token = some (v, t'') ∧
        Bpe t'' token = some (v, t'')) ∧
      (∃ ids ta tb, Encode t text = some (ids, ta) ∧ Encode t' text = some (ids, tb)) ∧
      (∃ ids ta tb, BuildVoiceDesignIds t text instruct = some (ids, ta) ∧
        BuildVoiceDesignIds t' text instruct = some (ids, tb)) := by
  have hc : CacheOk t.bpe_ranks_ t.bpe_cache_ := by rw [h0]; exact CacheOk_nil _
  obtain ⟨t', hr, hs, hc'⟩ := runCalls_spec calls t hc
  refine ⟨t', hr, ?_, ?_, ?_⟩
  · obtain ⟨v, t'', hb, hu, _, _, _⟩ := Bpe_spec t' token hc'
    rw [hs.2.1] at hu
    exact ⟨v, t'', hu, hb, Bpe_repeat t' t'' token v hb⟩
  · obtain ⟨ids, ta, tb, h1, h2, _⟩ := Encode_indep t t' text hc hc' hs
    exact ⟨ids, ta, tb, h1, h2⟩
  · obtain ⟨a, b, t1, t2, t3, h1, h2, _, _, _, hb⟩ :=
      BuildVoiceDesignIds_spec t text instruct hc
    obtain ⟨a', b', t1', t2', t3', h1', h2', _, _, _, hb'⟩ :=
      BuildVoiceDesignIds_spec t' text instruct hc'
    obtain ⟨ia, _, _, e1, e2, _⟩ := Encode_indep t t' text hc hc' hs
    obtain ⟨ib, _, _, e3, e4, _⟩ := Encode_indep t t' instruct hc hc' hs
    rw [h1] at e1; rw [h1'] at e2; rw [h2] at e3; rw [h2'] at e4
    simp only [Option.some.injEq, Prod.mk.injEq] at e1 e2 e3 e4
    obtain ⟨s1, s2, s3, s4, s5, s6, s7, s8, s9⟩ := hs
    refine ⟨_, t3, t3', hb, ?_⟩
    rw [hb', s4, s5, s7, s8, s9, e1.1, e2.1, e3.1, e4.1]

/-- Witness for C7: a tokenizer with one merge rule, after encoding `ab cab` and
building the ids of (`b`, `ab`). -/
theorem Bpe_memoization_transparent_witness :
    ({ plainTokenizer with bpe_ranks_ := [(pairKey [97] [98], 0)] }).bpe_cache_ = [] ∧
    ∃ t', runCalls { plainTokenizer with bpe_ranks_ := [(pairKey [97] [98], 0)] }
        [Call.encode [97, 98, 32, 99, 97, 98], Call.build [98] [97, 98]] = some t' ∧
      (∃ v t'', BpeUncached
          ({ plainTokenizer with bpe_ranks_ := [(pairKey [97] [98], 0)] }).bpe_ranks_
          [99, 97, 98] = some v ∧
        Bpe t' [99, 97, 98] = some (v, t'') ∧ Bpe t'' [99, 97, 98] = some (v, t'')) ∧
      (∃ ids ta tb,
        Encode { plainTokenizer with bpe_ranks_ := [(pairKey [97] [98], 0)] } [97, 98] =
          some (ids, ta) ∧
        Encode t' [97, 98] = some (ids, tb)) ∧
      (∃ ids ta tb,
        BuildVoiceDesignIds { plainTokenizer with bpe_ranks_ := [(pairKey [97] [98], 0)] }
          [97, 98] [99] = some (ids, ta) ∧
        BuildVoiceDesignIds t' [97, 98] [99] = some (ids, tb)) :=
  ⟨rfl, Bpe_memoization_transparent
    { plainTokenizer with bpe_ranks_ := [(pairKey [97] [98], 0)] }
    [Call.encode [97, 98, 32, 99, 97, 98], Call.build [98] [97, 98]] [99, 97, 98] [97, 98] [99]
    rfl⟩

/-- C8: on a loaded tokenizer (cache cleared, then any sequence of calls) with no
earlier error, let `ps` and `qs` be the BPE pieces of
`text` and `instruct`.  If an end-of-text id is configured, `Encode` returns for
each piece its vocabulary id, or the end-of-text id when the piece is missing, and
`BuildVoiceDesignIdsSafe` returns true (leaving an empty error string).  If none is
configured, `Encode` of a string with a missing piece returns the empty sequence
and records an error, and when `text` or `instruct` has a missing piece
`BuildVoiceDesignIdsSafe` returns false with a non-empty error message. -/
theorem Encode_oov_handling (t0 t : VoiceTokenizer) (calls : List Call)
    (text instruct : List Nat) (h0 : t0.bpe_cache_ = [])
    (hr : runCalls t0 calls = some t) (he : t.last_error_ = "") :
    ∃ ps qs, TextPieces t.bpe_ranks_ t.byte_encoder_ text = some ps ∧
      TextPieces t.bpe_ranks_ t.byte_encoder_ instruct = some qs ∧
      (0 ≤ t.endoftext_id_ →
        (∃ t1, Encode t text = some (ps.map (pieceId t.vocab_ t.endoftext_id_), t1)) ∧
        (∃ t2, Encode t instruct = some (qs.map (pieceId t.vocab_ t.endoftext_id_), t2)) ∧
        (∃ ids t3, BuildVoiceDesignIdsSafe t text instruct = some ((true, ids, ""), t3))) ∧
      (t.endoftext_id_ < 0 →
        (¬ AllInVocab t.vocab_ ps →
          ∃ t1, Encode t text = some ([], t1) ∧ t1.last_error_ ≠ "") ∧
        (¬ AllInVocab t.vocab_ qs →
          ∃ t2, Encode t instruct = some ([], t2) ∧ t2.last_error_ ≠ "") ∧
        (¬ AllInVocab t.vocab_ ps ∨ ¬ AllInVocab t.vocab_ qs →
          ∃ ids msg t3, BuildVoiceDesignIdsSafe t text instruct =
            some ((false, ids, msg), t3) ∧ msg ≠ "")) := by
  have hc : CacheOk t.bpe_ranks_ t.bpe_cache_ := by
    obtain ⟨t', hr', _, hc'⟩ := runCalls_spec calls t0 (by rw [h0]; exact CacheOk_nil _)
    rw [hr] at hr'
    simp only [Option.some.injEq] at hr'
    rw [hr']; exact hc'
  obtain ⟨ps, t1, hps, hs1, hc1, hA1, hB1⟩ := Encode_spec t text hc
  obtain ⟨qs, t2, hqs, hs2, hc2, hA2, hB2⟩ := Encode_spec t instruct hc
  obtain ⟨qs', t3, hqs', hs3, hc3, hA3, hB3⟩ := Encode_spec t1 instruct hc1
  have hs1' := hs1
  obtain ⟨s1, s2, s3, s4, s5, s6, s7, s8, s9⟩ := hs1'
  rw [s2, s3, hqs] at hqs'
  have hq : qs = qs' := by simpa using hqs'
  subst hq
  rw [s1, s6] at hA3 hB3
  have hmsg : "Tokenizer OOV and no unk token id" ≠ "" := by decide
  refine ⟨ps, qs, hps, hqs, ?_, ?_⟩
  · intro h0
    obtain ⟨e1, l1⟩ := hA1 (Or.inl h0)
    obtain ⟨e2, l2⟩ := hA2 (Or.inl h0)
    obtain ⟨e3, l3⟩ := hA3 (Or.inl h0)
    refine ⟨⟨t1, e1⟩, ⟨t2, e2⟩, ?_⟩
    obtain ⟨ids, hids⟩ := (Safe_of_Encode t t1 t3 text instruct _ _ e1 e3).1
      (by rw [l3, l1, he])
    exact ⟨ids, t3, hids⟩
  · intro h0
    have h0' : ¬ 0 ≤ t.endoftext_id_ := by omega
    refine ⟨?_, ?_, ?_⟩
    · intro hm
      obtain ⟨e1, l1⟩ := hB1 (by rintro (h | h); exact h0' h; exact hm h)
      exact ⟨t1, e1, by rw [l1]; exact hmsg⟩
    · intro hm
      obtain ⟨e2, l2⟩ := hB2 (by rintro (h | h); exact h0' h; exact hm h)
      exact ⟨t2, e2, by rw [l2]; exact hmsg⟩
    · intro hm
      have hex : ∃ a b, Encode t text = some (a, t1) ∧ Encode t1 instruct = some (b, t3) ∧
          t3.last_error_ ≠ "" := by
        by_cases hp : 0 ≤ t.endoftext_id_ ∨ AllInVocab t.vocab_ ps
        · have hpa : AllInVocab t.vocab_ ps := by
            rcases hp with h | h
            · exact absurd h h0'
            · exact h
          have hq : ¬ (0 ≤ t.endoftext_id_ ∨ AllInVocab t.vocab_ qs) := by
            rintro (h | h)
            · exact h0' h
            · rcases hm with hm | hm
              · exact hm hpa
              · exact hm h
          exact ⟨_, _, (hA1 hp).1, (hB3 hq).1, by rw [(hB3 hq).2]; exact hmsg⟩
        · by_cases hq : 0 ≤ t.endoftext_id_ ∨ AllInVocab t.vocab_ qs
          · exact ⟨_, _, (hB1 hp).1, (hA3 hq).1, by
              rw [(hA3 hq).2, (hB1 hp).2]; exact hmsg⟩
          · exact ⟨_, _, (hB1 hp).1, (hB3 hq).1, by rw [(hB3 hq).2]; exact hmsg⟩
      obtain ⟨a, b, e1, e3, l3⟩ := hex
      obtain ⟨ids, hids⟩ := (Safe_of_Encode t t1 t3 text instruct a b e1 e3).2 l3
      exact ⟨ids, _, t3, hids, l3⟩


/-- Witness for C8: a tokenizer without end-of-text id, after the `Bpe` call on the
display string of the line feed, whose vocabulary knows the piece `a` but not the
piece `b`. -/
theorem Encode_oov_handling_witness :
    (strictTokenizer.bpe_cache_ = [] ∧
      runCalls strictTokenizer [Call.bpe [196, 138]] = some loadedStrictTokenizer ∧
      loadedStrictTokenizer.last_error_ = "") ∧
    ∃ ps qs, TextPieces loadedStrictTokenizer.bpe_ranks_ loadedStrictTokenizer.byte_encoder_ [97] = some ps ∧
      TextPieces loadedStrictTokenizer.bpe_ranks_ loadedStrictTokenizer.byte_encoder_ [98] = some qs ∧
      (0 ≤ loadedStrictTokenizer.endoftext_id_ →
        (∃ t1, Encode loadedStrictTokenizer [97] =
          some (ps.map (pieceId loadedStrictTokenizer.vocab_ loadedStrictTokenizer.endoftext_id_), t1)) ∧
        (∃ t2, Encode loadedStrictTokenizer [98] =
          some (qs.map (pieceId loadedStrictTokenizer.vocab_ loadedStrictTokenizer.endoftext_id_), t2)) ∧
        (∃ ids t3, BuildVoiceDesignIdsSafe loadedStrictTokenizer [97] [98] =
          some ((true, ids, ""), t3))) ∧
      (loadedStrictTokenizer.endoftext_id_ < 0 →
        (¬ AllInVocab loadedStrictTokenizer.vocab_ ps →
          ∃ t1, Encode loadedStrictTokenizer [97] = some ([], t1) ∧ t1.last_error_ ≠ "") ∧
        (¬ AllInVocab loadedStrictTokenizer.vocab_ qs →
          ∃ t2, Encode loadedStrictTokenizer [98] = some ([], t2) ∧ t2.last_error_ ≠ "") ∧
        (¬ AllInVocab loadedStrictTokenizer.vocab_ ps ∨ ¬ AllInVocab loadedStrictTokenizer.vocab_ qs →
          ∃ ids msg t3, BuildVoiceDesignIdsSafe loadedStrictTokenizer [97] [98] =
            some ((false, ids, msg), t3) ∧ msg ≠ "")) :=
  ⟨⟨rfl, runCalls_newline_strict, rfl⟩,
    Encode_oov_handling strictTokenizer loadedStrictTokenizer [Call.bpe [196, 138]] [97] [98] rfl
      runCalls_newline_strict rfl⟩

/-! ### The byte codec -/

theorem foldl_set_spec {β : Type} (ws : List (Nat × β)) :
    ∀ enc : List β, (ws.foldl (fun e w => e.set w.1 w.2) enc).length = enc.length ∧
      ∀ b d, b < enc.length →
        (ws.foldl (fun e w => e.set w.1 w.2) enc).getD b d =
          (lastWrite ws b).getD (enc.getD b d) := by
  induction ws with
  | nil => intro enc; simp [lastWrite]
  | cons w ws ih =>
    intro enc
    rw [List.foldl_cons]
    obtain ⟨h1, h2⟩ := ih (enc.set w.1 w.2)
    refine ⟨by rw [h1]; simp, ?_⟩
    intro b d hb
    rw [h2 b d (by simpa using hb)]
    have e : lastWrite (w :: ws) b =
        match lastWrite ws b with
        | some v => some v
        | none => if w.1 = b then some w.2 else none := rfl
    rw [e]
    cases hl : lastWrite ws b with
    | some v => simp
    | none =>
      simp only [Option.getD_none]
      by_cases hw : w.1 = b
      · rw [if_pos hw]
        subst hw
        simp [List.getD_eq_getElem?_getD, List.getElem?_set, hb]
      · rw [if_neg hw]
        simp [List.getD_eq_getElem?_getD, List.getElem?_set, hw]

theorem InitByteEncoder_eq_writes (enc0 : List (List Nat)) :
    InitByteEncoder enc0 = byteWrites.foldl (fun e w => e.set w.1 w.2) enc0 := by
  unfold InitByteEncoder byteWrites
  rw [List.foldl_map]

set_option maxRecDepth 100000 in
theorem byteWrites_last :
    ∀ b, b < 256 → lastWrite byteWrites b = some (utf8Bytes (displayCodepoint b)) := by
  decide!

set_option maxRecDepth 100000 in
theorem byteWrites_append :
    ∀ b, b < 256 → AppendUtf8 (displayCodepoint b) [] = utf8Bytes (displayCodepoint b) := by
  decide!

set_option maxRecDepth 100000 in
theorem displayTable_nodup : displayTable.Nodup := by
  decide!

set_option maxRecDepth 100000 in
theorem displayTable_shape :
    ∀ b, b < 256 → isDisplayShape (displayTable.getD b []) = true := by
  decide!

set_option maxRecDepth 100000 in
theorem displayTable_single :
    ∀ b, b < 256 → SplitUtf8Chars (displayTable.getD b []) = some [displayTable.getD b []] := by
  decide!

theorem displayTable_length : displayTable.length = 256 := by
  simp [displayTable]

theorem displayTable_getD (b : Nat) (hb : b < 256) :
    displayTable.getD b [] = utf8Bytes (displayCodepoint b) := by
  simp [displayTable, List.getD_eq_getElem?_getD, hb]

theorem InitByteEncoder_eq_displayTable (enc0 : List (List Nat)) (h : enc0.length = 256) :
    InitByteEncoder enc0 = displayTable := by
  rw [InitByteEncoder_eq_writes]
  obtain ⟨h1, h2⟩ := foldl_set_spec byteWrites enc0
  apply List.ext_getElem?
  intro n
  by_cases hn : n < 256
  · have e1 := h2 n [] (by omega)
    rw [byteWrites_last n hn, Option.getD_some, ← displayTable_getD n hn] at e1
    have l1 : n < (byteWrites.foldl (fun e w => e.set w.1 w.2) enc0).length := by omega
    have l2 : n < displayTable.length := by rw [displayTable_length]; exact hn
    rw [List.getD_eq_getElem?_getD, List.getD_eq_getElem?_getD, List.getElem?_eq_getElem l1,
      List.getElem?_eq_getElem l2] at e1
    rw [List.getElem?_eq_getElem l1, List.getElem?_eq_getElem l2]
    simpa using e1
  · rw [List.getElem?_eq_none (by omega), List.getElem?_eq_none (by rw [displayTable_length]; omega)]

theorem ByteEncodeToken_eq_flatMap (enc : List (List Nat)) (tok : List Nat) :
    ByteEncodeToken enc tok = tok.flatMap (fun b => enc.getD b []) := by
  unfold ByteEncodeToken
  have key : ∀ (l : List Nat) (init : List Nat),
      l.foldl (fun out b => out ++ enc.getD b []) init =
        init ++ l.flatMap (fun b => enc.getD b []) := by
    intro l
    induction l with
    | nil => intro init; simp
    | cons a l ih => intro init; rw [List.foldl_cons, ih]; simp
  simpa using key tok []

theorem DecodeUtf8At_display (p e r : List Nat) (he : isDisplayShape e = true) :
    (DecodeUtf8At (p ++ (e ++ r)) p.length).2 = p.length + e.length ∧ 0 < e.length := by
  unfold isDisplayShape at he
  match e, he with
  | [a], he =>
    have ha : a < 128 := by simpa using he
    unfold DecodeUtf8At
    have h1 : ¬ (p ++ ([a] ++ r)).length ≤ p.length := by simp
    have h2 : byteAt (p ++ ([a] ++ r)) p.length = a := by
      unfold byteAt
      rw [List.getD_append_right _ _ _ _ (le_refl _)]
      simp
    rw [if_neg h1]
    simp only [h2]
    rw [if_pos (by omega)]
    simp
  | [a, c], he =>
    simp only [Bool.and_eq_true, decide_eq_true_eq] at he
    obtain ⟨ha, ha'⟩ := he
    unfold DecodeUtf8At
    have h1 : ¬ (p ++ ([a, c] ++ r)).length ≤ p.length := by simp
    have h2 : byteAt (p ++ ([a, c] ++ r)) p.length = a := by
      unfold byteAt
      rw [List.getD_append_right _ _ _ _ (le_refl _)]
      simp
    rw [if_neg h1]
    simp only [h2]
    rw [if_neg (by omega), if_pos ⟨ha', by simp⟩]
    simp

theorem substr_middle (p e r : List Nat) : substr (p ++ (e ++ r)) p.length e.length = e := by
  simp [substr]

theorem SplitUtf8CharsLoop_display (E : Nat → List Nat) :
    ∀ (t : List Nat), (∀ b ∈ t, isDisplayShape (E b) = true) →
      ∀ (p : List Nat) (out : List (List Nat)) (fuel : Nat), (t.flatMap E).length ≤ fuel →
        SplitUtf8CharsLoop (p ++ t.flatMap E) fuel p.length out = some (out ++ t.map E) := by
  intro t
  induction t with
  | nil =>
    intro _ p out fuel _
    cases fuel <;> simp [SplitUtf8CharsLoop]
  | cons b t ih =>
    intro hE p out fuel hf
    obtain ⟨hd, hpos⟩ := DecodeUtf8At_display p (E b) (t.flatMap E)
      (hE b (List.mem_cons_self _ _))
    rw [List.flatMap_cons] at hf ⊢
    rw [List.length_append] at hf
    cases fuel with
    | zero => omega
    | succ f =>
      unfold SplitUtf8CharsLoop
      rw [if_pos (by simp; omega), hd]
      have hs : p.length + (E b).length - p.length = (E b).length := by omega
      rw [hs, substr_middle]
      have := ih (fun x hx => hE x (List.mem_cons_of_mem _ hx)) (p ++ E b) (out ++ [E b]) f
        (by omega)
      rw [List.append_assoc, List.length_append] at this
      rw [this]
      simp

theorem SplitUtf8Chars_display (E : Nat → List Nat) (t : List Nat)
    (hE : ∀ b ∈ t, isDisplayShape (E b) = true) :
    SplitUtf8Chars (t.flatMap E) = some (t.map E) := by
  have := SplitUtf8CharsLoop_display E t hE [] [] (t.flatMap E).length (le_refl _)
  simpa [SplitUtf8Chars] using this

theorem displayTable_injective (a b : Nat) (ha : a < 256) (hb : b < 256)
    (h : displayTable.getD a [] = displayTable.getD b []) : a = b := by
  have la : a < displayTable.length := by rw [displayTable_length]; exact ha
  have lb : b < displayTable.length := by rw [displayTable_length]; exact hb
  rw [List.getD_eq_getElem?_getD, List.getD_eq_getElem?_getD, List.getElem?_eq_getElem la,
    List.getElem?_eq_getElem lb] at h
  simp only [Option.getD_some] at h
  exact (List.Nodup.getElem_inj_iff displayTable_nodup).mp h

theorem map_display_injective :
    ∀ (t t' : List Nat), IsBytes t → IsBytes t' →
      t.map (fun b => displayTable.getD b []) = t'.map (fun b => displayTable.getD b []) →
      t = t' := by
  intro t
  induction t with
  | nil =>
    intro t' _ _ h
    cases t' with
    | nil => rfl
    | cons _ _ => simp at h
  | cons a t ih =>
    intro t' ht ht' h
    cases t' with
    | nil => simp at h
    | cons a' t' =>
      simp only [List.map_cons, List.cons.injEq] at h
      have e1 := displayTable_injective a a' (ht a (List.mem_cons_self _ _))
        (ht' a' (List.mem_cons_self _ _)) h.1
      have e2 := ih t' (fun x hx => ht x (List.mem_cons_of_mem _ hx))
        (fun x hx => ht' x (List.mem_cons_of_mem _ hx)) h.2
      rw [e1, e2]

theorem SplitUtf8Chars_encoded (t : List Nat) (ht : IsBytes t) :
    SplitUtf8Chars (ByteEncodeToken displayTable t) =
      some (t.map (fun b => displayTable.getD b [])) := by
  rw [ByteEncodeToken_eq_flatMap]
  exact SplitUtf8Chars_display _ t (fun b hb => displayTable_shape b (ht b hb))

/-- C3: after `InitByteEncoder` (whatever the array held before), the display
string of every byte in 33..126, 161..172 or 174..255 is the UTF-8 encoding of the
codepoint equal to the byte, and the display string of any other byte is the UTF-8
encoding of 256 plus the number of smaller bytes outside those ranges; the bytes
0, 32, 127, 160 and 173 get the codepoints 256, 288, 289, 322 and 323. -/
theorem InitByteEncoder_display (enc0 : List (List Nat)) (h : enc0.length = 256) :
    (InitByteEncoder enc0).length = 256 ∧
    (∀ b, b < 256 → isSelfMapped b = true →
      (InitByteEncoder enc0).getD b [] = utf8Bytes b ∧
      (InitByteEncoder enc0).getD b [] = AppendUtf8 b []) ∧
    (∀ b, b < 256 → isSelfMapped b = false →
      (InitByteEncoder enc0).getD b [] =
        utf8Bytes (256 + ((List.range b).filter (fun x => !isSelfMapped x)).length) ∧
      (InitByteEncoder enc0).getD b [] =
        AppendUtf8 (256 + ((List.range b).filter (fun x => !isSelfMapped x)).length) []) ∧
    (InitByteEncoder enc0).getD 0 [] = utf8Bytes 256 ∧
    (InitByteEncoder enc0).getD 32 [] = utf8Bytes 288 ∧
    (InitByteEncoder enc0).getD 127 [] = utf8Bytes 289 ∧
    (InitByteEncoder enc0).getD 160 [] = utf8Bytes 322 ∧
    (InitByteEncoder enc0).getD 173 [] = utf8Bytes 323 := by
  rw [InitByteEncoder_eq_displayTable enc0 h]
  refine ⟨displayTable_length, ?_, ?_, by decide, by decide, by decide, by decide, by decide⟩
  · intro b hb hs
    have e := displayTable_getD b hb
    have e' := byteWrites_append b hb
    unfold displayCodepoint at e e'
    rw [if_pos hs] at e e'
    exact ⟨e, by rw [e']; exact e⟩
  · intro b hb hs
    have e := displayTable_getD b hb
    have e' := byteWrites_append b hb
    unfold displayCodepoint at e e'
    rw [if_neg (by simp [hs])] at e e'
    exact ⟨e, by rw [e']; exact e⟩

/-- Witness for C3: the theorem applied to the array of 256 empty strings that a
freshly constructed tokenizer holds. -/
theorem InitByteEncoder_display_witness :
    (List.replicate 256 ([] : List Nat)).length = 256 ∧
    (InitByteEncoder (List.replicate 256 [])).getD 32 [] = utf8Bytes 288 ∧
    (InitByteEncoder (List.replicate 256 [])).getD 65 [] = utf8Bytes 65 :=
  ⟨List.length_replicate _ _,
    (InitByteEncoder_display (List.replicate 256 []) (List.length_replicate _ _)).2.2.2.2.1,
    ((InitByteEncoder_display (List.replicate 256 []) (List.length_replicate _ _)).2.1 65 (by decide)
      (by decide)).1⟩

/-- C4: the 256 display strings built by `InitByteEncoder` are pairwise distinct,
each one is split by `SplitUtf8Chars` into exactly one codepoint, `ByteEncodeToken`
is injective on byte strings, and `SplitUtf8Chars (ByteEncodeToken t)` is the list
of the display strings of the bytes of `t`, in order (so it has `|t|` elements). -/
theorem byte_codec_bijection (enc0 : List (List Nat)) (h : enc0.length = 256) :
    (InitByteEncoder enc0).length = 256 ∧
    (InitByteEncoder enc0).Nodup ∧
    (∀ b, b < 256 → SplitUtf8Chars ((InitByteEncoder enc0).getD b []) =
      some [(InitByteEncoder enc0).getD b []]) ∧
    (∀ t t', IsBytes t → IsBytes t' →
      ByteEncodeToken (InitByteEncoder enc0) t = ByteEncodeToken (InitByteEncoder enc0) t' →
      t = t') ∧
    (∀ t, IsBytes t →
      SplitUtf8Chars (ByteEncodeToken (InitByteEncoder enc0) t) =
        some (t.map (fun b => (InitByteEncoder enc0).getD b [])) ∧
      (t.map (fun b => (InitByteEncoder enc0).getD b [])).length = t.length) := by
  rw [InitByteEncoder_eq_displayTable enc0 h]
  refine ⟨displayTable_length, displayTable_nodup, displayTable_single, ?_, ?_⟩
  · intro t t' ht ht' he
    have e1 := SplitUtf8Chars_encoded t ht
    have e2 := SplitUtf8Chars_encoded t' ht'
    rw [he, e2] at e1
    simp only [Option.some.injEq] at e1
    exact map_display_injective t t' ht ht' e1.symm
  · intro t ht
    exact ⟨SplitUtf8Chars_encoded t ht, by simp⟩

/-- Witness for C4: the theorem applied to the array of 256 empty strings. -/
theorem byte_codec_bijection_witness :
    (List.replicate 256 ([] : List Nat)).length = 256 ∧
    (InitByteEncoder (List.replicate 256 [])).length = 256 ∧
    (InitByteEncoder (List.replicate 256 [])).Nodup :=
  ⟨List.length_replicate _ _, (byte_codec_bijection (List.replicate 256 []) (List.length_replicate _ _)).1,
    (byte_codec_bijection (List.replicate 256 []) (List.length_replicate _ _)).2.1⟩

end QWEN3TTS

namespace QWEN3TTSUTILS

/-! ### Greedy selection -/

theorem Argmax_loop {α : Type} [LinearOrder α] (data : Nat → α) :
    ∀ m : Nat, ∃ r : Nat,
      (List.range' 1 m).foldl
        (fun (st : Int × α) i => if st.2 < data i then ((i : Int), data i) else st)
        (0, data 0) = ((r : Int), data r) ∧
      r < m + 1 ∧ (∀ i, i < m + 1 → data i ≤ data r) ∧ (∀ j, j < r → data j < data r) := by
  intro m
  induction m with
  | zero =>
    refine ⟨0, rfl, by omega, ?_, ?_⟩
    · intro i hi
      have : i = 0 := by omega
      rw [this]
    · intro j hj; omega
  | succ m ih =>
    obtain ⟨r, hr, h1, h2, h3⟩ := ih
    rw [List.range'_1_concat, List.foldl_append, hr]
    simp only [List.foldl_cons, List.foldl_nil]
    by_cases hlt : data r < data (1 + m)
    · rw [if_pos hlt]
      refine ⟨1 + m, rfl, by omega, ?_, ?_⟩
      · intro i hi
        by_cases hi' : i < m + 1
        · exact le_of_lt (lt_of_le_of_lt (h2 i hi') hlt)
        · have : i = 1 + m := by omega
          rw [this]
      · intro j hj
        exact lt_of_le_of_lt (h2 j (by omega)) hlt
    · rw [if_neg hlt]
      refine ⟨r, rfl, by omega, ?_, h3⟩
      intro i hi
      by_cases hi' : i < m + 1
      · exact h2 i hi'
      · have : i = 1 + m := by omega
        rw [this]
        exact not_lt.mp hlt

theorem ArgmaxTalkerLoop_inv {α : Type} [LinearOrder α] [Zero α] (data : Nat → α)
    (cp_vocab codec_eos_id : Int) (allow_eos : Bool) :
    ∀ k : Nat,
      (((List.range k).foldl
          (fun (st : Bool × Int × α) i =>
            if isSuppressed cp_vocab codec_eos_id allow_eos i then st
            else if !st.1 || decide (st.2.2 < data i) then (true, (i : Int), data i) else st)
          (false, 0, 0)).1 = false ∧
        ∀ i, i < k → isSuppressed cp_vocab codec_eos_id allow_eos i = true) ∨
      ∃ r : Nat,
        (List.range k).foldl
          (fun (st : Bool × Int × α) i =>
            if isSuppressed cp_vocab codec_eos_id allow_eos i then st
            else if !st.1 || decide (st.2.2 < data i) then (true, (i : Int), data i) else st)
          (false, 0, 0) = (true, (r : Int), data r) ∧
        r < k ∧ isSuppressed cp_vocab codec_eos_id allow_eos r = false ∧
        (∀ i, i < k → isSuppressed cp_vocab codec_eos_id allow_eos i = false →
          data i ≤ data r) ∧
        (∀ j, j < r → isSuppressed cp_vocab codec_eos_id allow_eos j = false →
          data j < data r) := by
  intro k
  induction k with
  | zero =>
    left
    exact ⟨rfl, fun i hi => by omega⟩
  | succ k ih =>
    rw [List.range_succ, List.foldl_append]
    simp only [List.foldl_cons, List.foldl_nil]
    by_cases hs : isSuppressed cp_vocab codec_eos_id allow_eos k = true
    · rw [if_pos hs]
      rcases ih with ⟨h1, h2⟩ | ⟨r, hr, h1, h2, h3, h4⟩
      · left
        refine ⟨h1, fun i hi => ?_⟩
        by_cases hi' : i < k
        · exact h2 i hi'
        · have : i = k := by omega
          rw [this]; exact hs
      · right
        refine ⟨r, hr, by omega, h2, ?_, h4⟩
        intro i hi hsi
        by_cases hi' : i < k
        · exact h3 i hi' hsi
        · have : i = k := by omega
          rw [this] at hsi
          rw [hs] at hsi
          exact absurd hsi (by decide)
    · rw [if_neg hs]
      have hs' : isSuppressed cp_vocab codec_eos_id allow_eos k = false := by
        simpa using hs
      right
      rcases ih with ⟨h1, h2⟩ | ⟨r, hr, h1, h2, h3, h4⟩
      · rw [h1]
        simp only [Bool.not_false, Bool.true_or, if_true]
        refine ⟨k, rfl, by omega, hs', ?_, ?_⟩
        · intro i hi hsi
          by_cases hi' : i < k
          · rw [h2 i hi'] at hsi
            exact absurd hsi (by decide)
          · have : i = k := by omega
            rw [this]
        · intro j hj hsj
          rw [h2 j hj] at hsj
          exact absurd hsj (by decide)
      · rw [hr]
        simp only [Bool.not_true, Bool.false_or, decide_eq_true_eq]
        by_cases hlt : data r < data k
        · rw [if_pos hlt]
          refine ⟨k, rfl, by omega, hs', ?_, ?_⟩
          · intro i hi hsi
            by_cases hi' : i < k
            · exact le_of_lt (lt_of_le_of_lt (h3 i hi' hsi) hlt)
            · have : i = k := by omega
              rw [this]
          · intro j hj hsj
            exact lt_of_le_of_lt (h3 j hj hsj) hlt
        · rw [if_neg hlt]
          refine ⟨r, rfl, by omega, h2, ?_, h4⟩
          intro i hi hsi
          by_cases hi' : i < k
          · exact h3 i hi' hsi
          · have : i = k := by omega
            rw [this]
            exact not_lt.mp hlt

theorem isSuppressed_false_iff (cp_vocab codec_eos_id : Int) (allow_eos : Bool) (i : Nat) :
    isSuppressed cp_vocab codec_eos_id allow_eos i = false ↔
      IsCandidate cp_vocab codec_eos_id allow_eos (i : Int) := by
  unfold isSuppressed IsCandidate
  cases allow_eos
  · simp
  · simp; omega

/-- C9: for every score function and every size `n >= 1`, `Argmax` returns an
index `r` with `0 <= r < n` whose score is at least every score below `n` and
strictly greater than every score at a smaller index. -/
theorem Argmax_first_max {α : Type} [LinearOrder α] (data : Nat → α) (size : Int)
    (h : 1 ≤ size) :
    ∃ r : Nat, Argmax data size = (r : Int) ∧ (r : Int) < size ∧
      (∀ i : Nat, (i : Int) < size → data i ≤ data r) ∧
      (∀ j : Nat, j < r → data j < data r) := by
  obtain ⟨r, hr, h1, h2, h3⟩ := Argmax_loop data (size.toNat - 1)
  refine ⟨r, ?_, by omega, ?_, h3⟩
  · unfold Argmax
    rw [hr]
  · intro i hi
    exact h2 i (by omega)

/-- Witness for C9: the score vector 1, 5, 3, 5, 2. -/
theorem Argmax_first_max_witness :
    (1 : Int) ≤ 5 ∧
    ∃ r : Nat, Argmax (fun i => [1, 5, 3, 5, 2].getD i (0 : Int)) 5 = (r : Int) ∧
      (r : Int) < 5 ∧
      (∀ i : Nat, (i : Int) < 5 →
        (fun i => [1, 5, 3, 5, 2].getD i (0 : Int)) i ≤
          (fun i => [1, 5, 3, 5, 2].getD i (0 : Int)) r) ∧
      (∀ j : Nat, j < r →
        (fun i => [1, 5, 3, 5, 2].getD i (0 : Int)) j <
          (fun i => [1, 5, 3, 5, 2].getD i (0 : Int)) r) :=
  ⟨by decide, Argmax_first_max (fun i => [1, 5, 3, 5, 2].getD i (0 : Int)) 5 (by decide)⟩

/-- C10, counterexample: in non-sampling mode with `talkerVocab = 1`,
`codecVocab = 0`, `eosId = 0` and `allow_eos = false` (so `codecVocab <= talkerVocab`
and `0 <= eosId < talkerVocab`), `SelectTalkerFirstCode` returns -1, which is not a
member of the candidate set. -/
theorem SelectTalkerFirstCode_empty_candidates :
    (0 : Int) ≤ 1 ∧ (0 : Int) ≤ 0 ∧ (0 : Int) < 1 ∧
    SelectTalkerFirstCode nthElementSort (fun _ => (0 : Int)) 1 0 0 false false 0 0 none =
      some (-1) ∧
    ¬ IsCandidate 0 0 false (-1) ∧
    ¬ IsFirstMaxCandidate (fun _ => (0 : Int)) 0 0 false (-1) := by
  refine ⟨by decide, by decide, by decide, by decide, ?_, ?_⟩
  · unfold IsCandidate; simp
  · unfold IsFirstMaxCandidate IsCandidate; simp

/-- C10, amended: in non-sampling mode (`do_sample` false or `temperature <= 0`),
for `codecVocab <= talkerVocab` and `0 <= eosId < talkerVocab`, when the candidate
set is non-empty (`codecVocab >= 1` or `allow_eos`) `SelectTalkerFirstCode` returns
the lowest-index maximiser of the scores over the candidate set (the indices below
`codecVocab`, together with `eosId` exactly when `allow_eos` holds), hence a member
of that set; when the candidate set is empty it returns -1. -/
theorem SelectTalkerFirstCode_greedy {α : Type} [LinearOrder α] [Zero α]
    (nth_element : List (α × Int) → Nat → List (α × Int))
    (data : Nat → α) (talker_vocab cp_vocab codec_eos_id : Int) (allow_eos do_sample : Bool)
    (temperature : α) (top_k : Int) (rng : Option (List (α × Int) → Nat))
    (hmode : do_sample = false ∨ temperature ≤ 0)
    (hcv : cp_vocab ≤ talker_vocab) (he0 : 0 ≤ codec_eos_id)
    (he1 : codec_eos_id < talker_vocab) :
    ((0 < cp_vocab ∨ allow_eos = true) →
      ∃ r, SelectTalkerFirstCode nth_element data talker_vocab cp_vocab codec_eos_id
          allow_eos do_sample temperature top_k rng = some r ∧
        IsFirstMaxCandidate data cp_vocab codec_eos_id allow_eos r) ∧
    (¬ (0 < cp_vocab ∨ allow_eos = true) →
      SelectTalkerFirstCode nth_element data talker_vocab cp_vocab codec_eos_id
          allow_eos do_sample temperature top_k rng = some (-1)) := by
  have hsel : SelectTalkerFirstCode nth_element data talker_vocab cp_vocab codec_eos_id
      allow_eos do_sample temperature top_k rng =
      some (ArgmaxTalkerFirstCode data talker_vocab cp_vocab codec_eos_id allow_eos) := by
    unfold SelectTalkerFirstCode
    rw [if_pos hmode]
  rw [hsel]
  have hin : ∀ i : Int, IsCandidate cp_vocab codec_eos_id allow_eos i →
      0 ≤ i ∧ i < talker_vocab := by
    intro i hi
    rcases hi with ⟨h1, h2⟩ | ⟨_, h2⟩
    · omega
    · omega
  unfold ArgmaxTalkerFirstCode ArgmaxTalkerLoop
  rcases ArgmaxTalkerLoop_inv data cp_vocab codec_eos_id allow_eos talker_vocab.toNat with
    ⟨h1, h2⟩ | ⟨r, hr, h1, h2, h3, h4⟩
  · have hnone : ∀ i : Int, ¬ IsCandidate cp_vocab codec_eos_id allow_eos i := by
      intro i hi
      obtain ⟨hi0, hi1⟩ := hin i hi
      have hs := h2 i.toNat (by omega)
      have hc := (isSuppressed_false_iff cp_vocab codec_eos_id allow_eos i.toNat).mpr
        (by rw [Int.toNat_of_nonneg hi0]; exact hi)
      rw [hs] at hc
      exact absurd hc (by decide)
    constructor
    · intro hne
      exfalso
      rcases hne with hne | hne
      · exact hnone 0 (Or.inl ⟨le_refl _, hne⟩)
      · exact hnone codec_eos_id (Or.inr ⟨hne, rfl⟩)
    · intro _
      rw [h1]
      simp
  · constructor
    · intro _
      rw [hr]
      simp only [if_true]
      refine ⟨(r : Int), rfl, ?_, ?_, ?_⟩
      · exact (isSuppressed_false_iff _ _ _ r).mp h2
      · intro i hi
        obtain ⟨hi0, hi1⟩ := hin i hi
        have := h3 i.toNat (by omega)
          ((isSuppressed_false_iff _ _ _ i.toNat).mpr
            (by rw [Int.toNat_of_nonneg hi0]; exact hi))
        simpa using this
      · intro j hj hjr
        obtain ⟨hj0, hj1⟩ := hin j hj
        have := h4 j.toNat (by omega)
          ((isSuppressed_false_iff _ _ _ j.toNat).mpr
            (by rw [Int.toNat_of_nonneg hj0]; exact hj))
        simpa using this
    · intro hne
      exfalso
      have hc := (isSuppressed_false_iff cp_vocab codec_eos_id allow_eos r).mp h2
      rcases hc with ⟨_, hc⟩ | ⟨hc, _⟩
      · exact hne (Or.inl (by omega))
      · exact hne (Or.inr hc)

/-- Witness for C10: scores 1, 5, 3, 9, 20 with `talkerVocab = 5`, `codecVocab = 3`,
`eosId = 4`, end of sequence admitted, sampling switched off. -/
theorem SelectTalkerFirstCode_greedy_witness :
    ((false = false ∨ (1 : Int) ≤ 0) ∧ (3 : Int) ≤ 5 ∧ (0 : Int) ≤ 4 ∧ (4 : Int) < 5) ∧
    (((0 : Int) < 3 ∨ true = true) →
      ∃ r, SelectTalkerFirstCode nthElementSort (fun i => [1, 5, 3, 9, 20].getD i (0 : Int))
          5 3 4 true false 1 2 none = some r ∧
        IsFirstMaxCandidate (fun i => [1, 5, 3, 9, 20].getD i (0 : Int)) 3 4 true r) ∧
    (¬ ((0 : Int) < 3 ∨ true = true) →
      SelectTalkerFirstCode nthElementSort (fun i => [1, 5, 3, 9, 20].getD i (0 : Int))
          5 3 4 true false 1 2 none = some (-1)) :=
  ⟨⟨Or.inl rfl, by decide, by decide, by decide⟩,
    SelectTalkerFirstCode_greedy nthElementSort (fun i => [1, 5, 3, 9, 20].getD i (0 : Int))
      5 3 4 true false 1 2 none (Or.inl rfl) (by decide) (by decide) (by decide)⟩

end QWEN3TTSUTILS

namespace QWEN3TTSUTILS

/-! ### Sampling -/

theorem getD_mem_or {β : Type} (l : List β) (i : Nat) (d : β) :
    l.getD i d = d ∨ l.getD i d ∈ l := by
  rw [List.getD_eq_getElem?_getD]
  cases h : l[i]? with
  | none => left; rfl
  | some x => right; exact List.getElem?_mem h

theorem greedyPick_mem {α : Type} [LinearOrder α] (rest : List (α × Int)) :
    ∀ c0 : α × Int, ∃ c ∈ c0 :: rest,
      rest.foldl (fun (st : α × Int) c => if st.1 < c.1 then (c.1, c.2) else st)
        (c0.1, c0.2) = c := by
  induction rest with
  | nil => intro c0; exact ⟨c0, List.mem_cons_self _ _, rfl⟩
  | cons a rest ih =>
    intro c0
    rw [List.foldl_cons]
    by_cases h : c0.1 < a.1
    · simp only [h, if_true]
      obtain ⟨c, hc, he⟩ := ih a
      refine ⟨c, ?_, he⟩
      rcases List.mem_cons.mp hc with hc | hc
      · rw [hc]; simp
      · exact List.mem_cons_of_mem _ (List.mem_cons_of_mem _ hc)
    · simp only [h, if_false]
      obtain ⟨c, hc, he⟩ := ih c0
      refine ⟨c, ?_, he⟩
      rcases List.mem_cons.mp hc with hc | hc
      · rw [hc]; simp
      · exact List.mem_cons_of_mem _ (List.mem_cons_of_mem _ hc)

theorem SampleFromCandidates_mem {α : Type} [LinearOrder α] [Zero α]
    (nth_element : List (α × Int) → Nat → List (α × Int)) (hnth : NthElementSpec nth_element)
    (candidates : List (α × Int)) (temperature : α) (top_k : Int)
    (rng : Option (List (α × Int) → Nat)) :
    SampleFromCandidates nth_element candidates temperature top_k rng = -1 ∨
      ∃ c ∈ candidates, SampleFromCandidates nth_element candidates temperature top_k rng = c.2 := by
  unfold SampleFromCandidates
  cases candidates with
  | nil => left; rfl
  | cons c0 rest =>
    simp only []
    by_cases ht : temperature ≤ 0
    · rw [if_pos ht]
      right
      obtain ⟨c, hc, he⟩ := greedyPick_mem rest c0
      exact ⟨c, hc, by rw [he]⟩
    · rw [if_neg ht]
      cases rng with
      | none => left; rfl
      | some draw =>
        right
        simp only []
        by_cases hk : 0 < top_k ∧ top_k < ((c0 :: rest).length : Int)
        · rw [if_pos hk]
          have hlt : top_k.toNat < (c0 :: rest).length := by omega
          obtain ⟨hperm, _⟩ := hnth (c0 :: rest) top_k.toNat hlt
          rcases getD_mem_or ((nth_element (c0 :: rest) top_k.toNat).take top_k.toNat)
            (draw ((nth_element (c0 :: rest) top_k.toNat).take top_k.toNat)) c0 with h | h
          · exact ⟨c0, List.mem_cons_self _ _, by rw [h]⟩
          · exact ⟨_, hperm.subset (List.mem_of_mem_take h), rfl⟩
        · rw [if_neg hk]
          rcases getD_mem_or (c0 :: rest) (draw (c0 :: rest)) c0 with h | h
          · exact ⟨c0, List.mem_cons_self _ _, by rw [h]⟩
          · exact ⟨_, h, rfl⟩

theorem talkerCandidates_mem {α : Type} (data : Nat → α)
    (talker_vocab cp_vocab codec_eos_id : Int) (allow_eos : Bool) :
    ∀ c ∈ talkerCandidates data talker_vocab cp_vocab codec_eos_id allow_eos,
      ∃ i : Nat, i < talker_vocab.toNat ∧ c = (data i, (i : Int)) ∧
        isSuppressed cp_vocab codec_eos_id allow_eos i = false := by
  unfold talkerCandidates
  generalize talker_vocab.toNat = n
  induction n with
  | zero => intro c hc; simp at hc
  | succ n ih =>
    intro c hc
    rw [List.range_succ, List.foldl_append] at hc
    simp only [List.foldl_cons, List.foldl_nil] at hc
    by_cases hs : isSuppressed cp_vocab codec_eos_id allow_eos n = true
    · rw [if_pos hs] at hc
      obtain ⟨i, hi, h1, h2⟩ := ih c hc
      exact ⟨i, by omega, h1, h2⟩
    · rw [if_neg hs] at hc
      rcases List.mem_append.mp hc with hc | hc
      · obtain ⟨i, hi, h1, h2⟩ := ih c hc
        exact ⟨i, by omega, h1, h2⟩
      · exact ⟨n, by omega, List.mem_singleton.mp hc, by simpa using hs⟩

theorem nthElementSort_spec {α : Type} [LinearOrder α] :
    NthElementSpec (nthElementSort : List (α × Int) → Nat → List (α × Int)) := by
  intro l k _
  unfold nthElementSort
  refine ⟨List.perm_insertionSort _ l, ?_⟩
  intro x hx y hy
  haveI : IsTotal (α × Int) (fun a b => b.1 ≤ a.1) := ⟨fun a b => le_total b.1 a.1⟩
  haveI : IsTrans (α × Int) (fun a b => b.1 ≤ a.1) := ⟨fun a b c h1 h2 => le_trans h2 h1⟩
  have hs := List.sorted_insertionSort (fun (a b : α × Int) => b.1 ≤ a.1) l
  rw [← List.take_append_drop k (List.insertionSort (fun (a b : α × Int) => b.1 ≤ a.1) l)] at hs
  exact (List.pairwise_append.mp hs).2.2 x hx y hy

end QWEN3TTSUTILS

namespace QWEN3TTSUTILS

theorem countP_lt_length_of_mem {β : Type} (p : β → Bool) (l : List β) (x : β) (hx : x ∈ l)
    (hp : p x = false) : l.countP p < l.length := by
  have h1 := List.countP_le_length p (l := l)
  have h2 : l.countP p ≠ l.length := by
    intro h
    have := (List.countP_eq_length.mp h) x hx
    rw [hp] at this
    exact absurd this (by decide)
  omega

/-- C11, counterexample: with `talkerVocab = 2`, `codecVocab = 2`, `eosId = 1`,
scores 0 and 5, `allow_eos = false` and sampling switched off, the function
returns 1, which is `eosId`. -/
theorem SelectTalkerFirstCode_returns_eos :
    SelectTalkerFirstCode nthElementSort (fun i => if i = 1 then (5 : Int) else 0)
      2 2 1 false false 0 0 none = some 1 := by
  decide

/-- C11, amended: when the end-of-sequence id lies outside the codec range
(`0 <= eosId` and `codecVocab <= eosId`, as for the constants 2048 and 2150 of the
decode loop), `SelectTalkerFirstCode` called with `allow_eos = false` never returns
`eosId`, for every score vector, every `talkerVocab`, and every sampling
configuration (greedy or sampling, any temperature, `top_k` and random draw). -/
theorem SelectTalkerFirstCode_never_eos {α : Type} [LinearOrder α] [Zero α]
    (nth_element : List (α × Int) → Nat → List (α × Int)) (hnth : NthElementSpec nth_element)
    (data : Nat → α) (talker_vocab cp_vocab codec_eos_id : Int) (do_sample : Bool)
    (temperature : α) (top_k : Int) (rng : Option (List (α × Int) → Nat))
    (h0 : 0 ≤ codec_eos_id) (h1 : cp_vocab ≤ codec_eos_id) :
    SelectTalkerFirstCode nth_element data talker_vocab cp_vocab codec_eos_id false
      do_sample temperature top_k rng ≠ some codec_eos_id := by
  have hcand : ∀ i : Nat, isSuppressed cp_vocab codec_eos_id false i = false →
      (i : Int) ≠ codec_eos_id := by
    intro i hi
    have hc := (isSuppressed_false_iff cp_vocab codec_eos_id false i).mp hi
    rcases hc with ⟨_, hc⟩ | ⟨hc, _⟩
    · omega
    · exact absurd hc (by decide)
  unfold SelectTalkerFirstCode
  by_cases hmode : do_sample = false ∨ temperature ≤ 0
  · rw [if_pos hmode]
    unfold ArgmaxTalkerFirstCode ArgmaxTalkerLoop
    rcases ArgmaxTalkerLoop_inv data cp_vocab codec_eos_id false talker_vocab.toNat with
      ⟨h, _⟩ | ⟨r, hr, _, h2, _, _⟩
    · rw [h]
      simp only [Bool.false_eq_true, if_false, ne_eq, Option.some.injEq]
      omega
    · rw [hr]
      simp only [if_true, ne_eq, Option.some.injEq]
      exact hcand r h2
  · rw [if_neg hmode]
    by_cases hneg : cp_vocab + 1 < 0
    · rw [if_pos hneg]; simp
    · rw [if_neg hneg]
      simp only [ne_eq, Option.some.injEq]
      rcases SampleFromCandidates_mem nth_element hnth
        (talkerCandidates data talker_vocab cp_vocab codec_eos_id false) temperature top_k rng
        with h | ⟨c, hc, h⟩
      · rw [h]; omega
      · rw [h]
        obtain ⟨i, _, hci, hs⟩ := talkerCandidates_mem data talker_vocab cp_vocab codec_eos_id
          false c hc
        rw [hci]
        exact hcand i hs

/-- Witness for C11: the constants of the decode loop (vocabularies 3072 and 2048,
end-of-sequence id 2150) in sampling mode with `top_k = 2`. -/
theorem SelectTalkerFirstCode_never_eos_witness :
    (NthElementSpec (nthElementSort : List (Int × Int) → Nat → List (Int × Int)) ∧
      (0 : Int) ≤ 2150 ∧ (2048 : Int) ≤ 2150) ∧
    SelectTalkerFirstCode nthElementSort (fun i => if i = 2150 then (9 : Int) else 0)
      3072 2048 2150 false true 1 2 (some (fun _ => 0)) ≠ some 2150 :=
  ⟨⟨nthElementSort_spec, by decide, by decide⟩,
    SelectTalkerFirstCode_never_eos nthElementSort nthElementSort_spec
      (fun i => if i = 2150 then (9 : Int) else 0) 3072 2048 2150 true 1 2
      (some (fun _ => 0)) (by decide) (by decide)⟩

/-- C12, evaluation at the failing input: in greedy mode `SelectCpCode` with
`cp_vocab = 0` (and with `cp_vocab = -1`) returns index 0, not -1; the sibling
paths return -1 on an empty candidate set (`SelectCpCode` in sampling mode with
`cp_vocab = 0`, `SelectTalkerFirstCode` in both modes, `SampleFromCandidates` on
the empty list in both modes), and `SelectCpCode` in sampling mode with
`cp_vocab = -1` returns nothing because `reserve` throws. -/
theorem SelectCpCode_empty_greedy :
    SelectCpCode nthElementSort (fun _ => (0 : Int)) 0 false 1 0 none = some 0 ∧
    SelectCpCode nthElementSort (fun _ => (0 : Int)) (-1) false 1 0 none = some 0 ∧
    SelectCpCode nthElementSort (fun _ => (0 : Int)) 0 true 1 0 (some (fun _ => 0)) =
      some (-1) ∧
    SelectCpCode nthElementSort (fun _ => (0 : Int)) (-1) true 1 0 (some (fun _ => 0)) = none ∧
    SelectTalkerFirstCode nthElementSort (fun _ => (0 : Int)) 4 0 2 false false 1 0 none =
      some (-1) ∧
    SelectTalkerFirstCode nthElementSort (fun _ => (0 : Int)) 4 0 2 false true 1 0
      (some (fun _ => 0)) = some (-1) ∧
    SampleFromCandidates nthElementSort ([] : List (Int × Int)) 0 0 none = -1 ∧
    SampleFromCandidates nthElementSort ([] : List (Int × Int)) 1 0 (some (fun _ => 0)) = -1 := by
  refine ⟨by decide, by decide, by decide, by decide, by decide, by decide, by decide,
    by decide⟩

theorem Argmax_congr {α : Type} [LinearOrder α] (data1 data2 : Nat → α) (size : Int)
    (h : ∀ i : Nat, (i : Int) < size → data1 i = data2 i) :
    Argmax data1 size = Argmax data2 size := by
  unfold Argmax
  by_cases hs : size ≤ 1
  · have : size.toNat - 1 = 0 := by omega
    rw [this]
    rfl
  · rw [h 0 (by omega)]
    congr 1
    apply List.foldl_ext
    intro st i hi
    have hi' := List.mem_range'_1.mp hi
    rw [h i (by omega)]

theorem ArgmaxTalkerFirstCode_congr {α : Type} [LinearOrder α] [Zero α]
    (data1 data2 : Nat → α) (talker_vocab cp_vocab codec_eos_id : Int) (allow_eos : Bool)
    (h : ∀ i : Nat, (i : Int) < talker_vocab → data1 i = data2 i) :
    ArgmaxTalkerFirstCode data1 talker_vocab cp_vocab codec_eos_id allow_eos =
      ArgmaxTalkerFirstCode data2 talker_vocab cp_vocab codec_eos_id allow_eos := by
  have hl : ArgmaxTalkerLoop data1 talker_vocab cp_vocab codec_eos_id allow_eos =
      ArgmaxTalkerLoop data2 talker_vocab cp_vocab codec_eos_id allow_eos := by
    unfold ArgmaxTalkerLoop
    apply List.foldl_ext
    intro st i hi
    have hi' := List.mem_range.mp hi
    rw [h i (by omega)]
  unfold ArgmaxTalkerFirstCode
  rw [hl]

/-- C13: with `do_sample = false`, two calls of `SelectTalkerFirstCode` that agree
on the scores below `talkerVocab`, on the vocabulary sizes, on `eosId` and on
`allow_eos` return the same index, and two calls of `SelectCpCode` that agree on the
scores below `cp_vocab` and on `cp_vocab` return the same index, whatever the
temperature, `top_k`, random generator and `nth_element` behaviour of each call. -/
theorem greedy_selection_deterministic {α : Type} [LinearOrder α] [Zero α]
    (nth1 nth2 : List (α × Int) → Nat → List (α × Int)) (data1 data2 : Nat → α)
    (talker_vocab cp_vocab codec_eos_id : Int) (allow_eos : Bool)
    (temperature1 temperature2 : α) (top_k1 top_k2 : Int)
    (rng1 rng2 : Option (List (α × Int) → Nat)) :
    ((∀ i : Nat, (i : Int) < talker_vocab → data1 i = data2 i) →
      SelectTalkerFirstCode nth1 data1 talker_vocab cp_vocab codec_eos_id allow_eos false
          temperature1 top_k1 rng1 =
        SelectTalkerFirstCode nth2 data2 talker_vocab cp_vocab codec_eos_id allow_eos false
          temperature2 top_k2 rng2) ∧
    ((∀ i : Nat, (i : Int) < cp_vocab → data1 i = data2 i) →
      SelectCpCode nth1 data1 cp_vocab false temperature1 top_k1 rng1 =
        SelectCpCode nth2 data2 cp_vocab false temperature2 top_k2 rng2) := by
  constructor
  · intro h
    unfold SelectTalkerFirstCode
    rw [if_pos (Or.inl rfl), if_pos (Or.inl rfl),
      ArgmaxTalkerFirstCode_congr data1 data2 talker_vocab cp_vocab codec_eos_id allow_eos h]
  · intro h
    unfold SelectCpCode
    rw [if_pos (Or.inl rfl), if_pos (Or.inl rfl), Argmax_congr data1 data2 cp_vocab h]

/-- C14, counterexample: in sampling mode (temperature 1, generator present) on the
empty candidate list `SampleFromCandidates` returns -1, which is not the index of
a given candidate. -/
theorem SampleFromCandidates_empty_sampling :
    SampleFromCandidates nthElementSort ([] : List (Int × Int)) 1 0 (some (fun _ => 0)) = -1 ∧
    ¬ ∃ c ∈ ([] : List (Int × Int)),
      SampleFromCandidates nthElementSort ([] : List (Int × Int)) 1 0 (some (fun _ => 0)) =
        c.2 := by
  refine ⟨by decide, ?_⟩
  rintro ⟨c, hc, _⟩
  simp at hc

/-- C14, amended: in sampling mode (temperature > 0, random generator present), on a
non-empty candidate list, for every rearrangement `std::nth_element` may produce
and every index the distribution may draw, `SampleFromCandidates` returns the index
of one of the given candidates, and when `0 < top_k < |candidates|` fewer than
`top_k` candidates have a strictly greater score than the returned one. -/
theorem SampleFromCandidates_top_k {α : Type} [LinearOrder α] [Zero α]
    (nth_element : List (α × Int) → Nat → List (α × Int)) (hnth : NthElementSpec nth_element)
    (candidates : List (α × Int)) (temperature : α) (top_k : Int)
    (draw : List (α × Int) → Nat) (hdraw : DrawInRange draw)
    (hne : candidates ≠ []) (ht : 0 < temperature) :
    ∃ c ∈ candidates,
      SampleFromCandidates nth_element candidates temperature top_k (some draw) = c.2 ∧
      (0 < top_k → top_k < (candidates.length : Int) →
        ((candidates.countP (fun x => decide (c.1 < x.1)) : Nat) : Int) < top_k) := by
  unfold SampleFromCandidates
  cases candidates with
  | nil => exact absurd rfl hne
  | cons c0 rest =>
    simp only []
    rw [if_neg (not_le.mpr ht)]
    by_cases hk : 0 < top_k ∧ top_k < ((c0 :: rest).length : Int)
    · rw [if_pos hk]
      have hlt : top_k.toNat < (c0 :: rest).length := by omega
      obtain ⟨hperm, hpart⟩ := hnth (c0 :: rest) top_k.toNat hlt
      have hlen : ((nth_element (c0 :: rest) top_k.toNat).take top_k.toNat).length =
          top_k.toNat := by
        rw [List.length_take, hperm.length_eq]
        omega
      have hne' : (nth_element (c0 :: rest) top_k.toNat).take top_k.toNat ≠ [] := by
        intro h
        rw [h] at hlen
        simp at hlen
        omega
      have hd := hdraw _ hne'
      have hget : ((nth_element (c0 :: rest) top_k.toNat).take top_k.toNat).getD
          (draw ((nth_element (c0 :: rest) top_k.toNat).take top_k.toNat)) c0 ∈
          (nth_element (c0 :: rest) top_k.toNat).take top_k.toNat := by
        rw [List.getD_eq_getElem?_getD, List.getElem?_eq_getElem hd]
        simp only [Option.getD_some]
        exact List.getElem_mem _
      refine ⟨_, hperm.subset (List.mem_of_mem_take hget), rfl, ?_⟩
      intro _ _
      rw [← hperm.countP_eq, ← List.take_append_drop top_k.toNat
        (nth_element (c0 :: rest) top_k.toNat), List.countP_append]
      have hdrop : List.countP (fun x => decide
          ((((nth_element (c0 :: rest) top_k.toNat).take top_k.toNat).getD
            (draw ((nth_element (c0 :: rest) top_k.toNat).take top_k.toNat)) c0).1 < x.1))
          (((nth_element (c0 :: rest) top_k.toNat).take top_k.toNat ++
              (nth_element (c0 :: rest) top_k.toNat).drop top_k.toNat).drop top_k.toNat) = 0 := by
        rw [List.take_append_drop]
        apply List.countP_eq_zero.mpr
        intro y hy
        simp only [decide_eq_true_eq, not_lt]
        exact hpart _ hget y hy
      have htake := countP_lt_length_of_mem (fun x => decide
          ((((nth_element (c0 :: rest) top_k.toNat).take top_k.toNat).getD
            (draw ((nth_element (c0 :: rest) top_k.toNat).take top_k.toNat)) c0).1 < x.1))
          _ _ hget (by simp)
      rw [List.take_append_drop] at hdrop ⊢
      rw [hlen] at htake
      omega
    · rw [if_neg hk]
      have hd := hdraw (c0 :: rest) (by simp)
      refine ⟨(c0 :: rest).getD (draw (c0 :: rest)) c0, ?_, rfl, ?_⟩
      · rw [List.getD_eq_getElem?_getD, List.getElem?_eq_getElem hd]
        simp only [Option.getD_some]
        exact List.getElem_mem _
      · intro h1 h2
        exact absurd ⟨h1, h2⟩ hk

/-- Witness for C14: five candidates with scores 1, 5, 3, 9, 2, `top_k = 2`, the
descending sort as `nth_element`, and a generator that draws position 1. -/
theorem SampleFromCandidates_top_k_witness :
    (NthElementSpec (nthElementSort : List (Int × Int) → Nat → List (Int × Int)) ∧
      DrawInRange (fun l : List (Int × Int) => l.length - 1) ∧
      [((1 : Int), (0 : Int)), (5, 1), (3, 2), (9, 3), (2, 4)] ≠ [] ∧ (0 : Int) < 1) ∧
    ∃ c ∈ [((1 : Int), (0 : Int)), (5, 1), (3, 2), (9, 3), (2, 4)],
      SampleFromCandidates nthElementSort [((1 : Int), (0 : Int)), (5, 1), (3, 2), (9, 3), (2, 4)]
        1 2 (some (fun l : List (Int × Int) => l.length - 1)) = c.2 ∧
      ((0 : Int) < 2 →
        (2 : Int) < (([((1 : Int), (0 : Int)), (5, 1), (3, 2), (9, 3), (2, 4)].length : Nat) : Int) →
        (([((1 : Int), (0 : Int)), (5, 1), (3, 2), (9, 3), (2, 4)].countP
          (fun x => decide (c.1 < x.1)) : Nat) : Int) < 2) :=
  ⟨⟨nthElementSort_spec, fun l hl => by
      have : 0 < l.length := List.length_pos.mpr hl
      show l.length - 1 < l.length
      omega, by decide, by decide⟩,
    SampleFromCandidates_top_k nthElementSort nthElementSort_spec
      [((1 : Int), (0 : Int)), (5, 1), (3, 2), (9, 3), (2, 4)] 1 2
      (fun l : List (Int × Int) => l.length - 1)
      (fun l hl => by
        have : 0 < l.length := List.length_pos.mpr hl
        show l.length - 1 < l.length
        omega)
      (by decide) (by decide)⟩

end QWEN3TTSUTILS

namespace QWEN3TTSUTILS

/-! ### Tail trimming -/

theorem toNat_mul_cast (s g : Nat) : ((s : Int) * (g : Int)).toNat = s * g := by
  have : ((s : Int) * (g : Int)) = ((s * g : Nat) : Int) := by push_cast; rfl
  rw [this, Int.toNat_natCast]

theorem tailRunLoop_eq (codes : List Int) (g : Nat) (c : Int) :
    ∀ (n : Nat) (run : Int),
      tailRunLoop codes (g : Int) c n run =
        run + (((((List.range n).map (fun s => codes.getD (s * g) 0)).reverse.takeWhile
          (fun y => decide (y = c))).length : Nat) : Int) := by
  intro n
  induction n with
  | zero => intro run; simp [tailRunLoop]
  | succ n ih =>
    intro run
    unfold tailRunLoop
    rw [toNat_mul_cast, List.range_succ, List.map_append, List.reverse_append]
    simp only [List.map_cons, List.map_nil, List.reverse_cons, List.reverse_nil,
      List.nil_append, List.singleton_append]
    by_cases h : codes.getD (n * g) 0 = c
    · rw [if_pos h, ih, List.takeWhile_cons_of_pos (by simpa using h)]
      simp only [List.length_cons]
      push_cast
      ring
    · rw [if_neg h, List.takeWhile_cons_of_neg (by simpa using h)]
      simp

theorem terminalRun_le (fc : List Int) : terminalRun fc ≤ fc.length := by
  unfold terminalRun
  have hl : fc.reverse.length = fc.length := List.length_reverse fc
  cases h : fc.reverse with
  | nil => simp
  | cons x rest =>
    rw [h] at hl
    simp only [List.length_cons] at hl
    have := (List.takeWhile_sublist (l := rest) (fun y => decide (y = x))).length_le
    simp only []
    omega

theorem terminalRun_pos (fc : List Int) (h : fc ≠ []) : 1 ≤ terminalRun fc := by
  unfold terminalRun
  cases hr : fc.reverse with
  | nil => exact absurd (List.reverse_eq_nil_iff.mp hr) h
  | cons x rest => simp only []; omega

theorem tailRun_terminal (codes : List Int) (g steps : Nat) (hs : 1 ≤ steps)
    (hlen : codes.length / g = steps) :
    tailRunLoop codes (g : Int) (codes.getD (((steps : Int) - 1) * (g : Int)).toNat 0)
        (steps - 1) 1 =
      ((terminalRun (frameFirstCodes codes g) : Nat) : Int) := by
  obtain ⟨m, rfl⟩ : ∃ m, steps = m + 1 := ⟨steps - 1, by omega⟩
  have h1 : (((m + 1 : Nat) : Int) - 1) * (g : Int) = (m : Int) * (g : Int) := by
    push_cast; ring
  rw [h1, toNat_mul_cast, tailRunLoop_eq]
  unfold terminalRun frameFirstCodes
  rw [hlen, List.range_succ, List.map_append, List.reverse_append]
  simp only [List.map_cons, List.map_nil, List.reverse_cons, List.reverse_nil,
    List.nil_append, List.singleton_append, Nat.add_sub_cancel]
  push_cast
  ring

theorem resize_shrink (codes : List Int) (n : Nat) (h : n ≤ codes.length) :
    resize codes n = codes.take n := by
  unfold resize
  have : n - codes.length = 0 := by omega
  rw [this]
  simp

theorem TrimRepeatingTailFrames_char (codes : List Int) (groups steps : Nat)
    (min_repeat keep_last : Int) (hg : 0 < groups) (hlen : codes.length = steps * groups) :
    TrimRepeatingTailFrames codes (groups : Int) min_repeat keep_last =
      if 0 < min_repeat ∧ min_repeat ≤ ((terminalRun (frameFirstCodes codes groups) : Nat) : Int) ∧
          0 < ((terminalRun (frameFirstCodes codes groups) : Nat) : Int) - max keep_last 8 then
        ((steps : Int) -
            (((terminalRun (frameFirstCodes codes groups) : Nat) : Int) - max keep_last 8),
          codes.take (((steps : Int) -
            (((terminalRun (frameFirstCodes codes groups) : Nat) : Int) - max keep_last 8)).toNat *
              groups))
      else ((steps : Int), codes) := by
  have hdiv : codes.length / groups = steps := by
    rw [hlen]; exact Nat.mul_div_cancel _ hg
  have hfc : (frameFirstCodes codes groups).length = steps := by
    simp [frameFirstCodes, hdiv]
  have hrun_le := terminalRun_le (frameFirstCodes codes groups)
  rw [hfc] at hrun_le
  have hk8 : (8 : Int) ≤ max keep_last 8 := le_max_right _ _
  have hkl : keep_last ≤ max keep_last 8 := le_max_left _ _
  unfold TrimRepeatingTailFrames
  simp only [Int.toNat_natCast, hdiv]
  by_cases h1 : min_repeat ≤ 0
  · rw [if_pos h1, if_neg (by omega)]
  rw [if_neg h1]
  by_cases h2 : (steps : Int) ≤ 0
  · rw [if_pos h2, if_neg (by omega)]
    have : steps = 0 := by omega
    rw [this]; rfl
  rw [if_neg h2]
  by_cases h3 : (steps : Int) ≤ keep_last
  · rw [if_pos h3, if_neg (by omega)]
  rw [if_neg h3]
  by_cases h4 : (steps : Int) ≤ max keep_last 8
  · rw [if_pos h4, if_neg (by omega)]
  rw [if_neg h4]
  rw [tailRun_terminal codes groups steps (by omega) hdiv]
  by_cases h5 : ((terminalRun (frameFirstCodes codes groups) : Nat) : Int) < min_repeat
  · rw [if_pos h5, if_neg (by omega)]
  rw [if_neg h5]
  by_cases h6 : ((terminalRun (frameFirstCodes codes groups) : Nat) : Int) - max keep_last 8 ≤ 0
  · rw [if_pos h6, if_neg (by omega)]
  rw [if_neg h6, if_pos ⟨by omega, by omega, by omega⟩]
  congr 1
  have hnn : 0 ≤ (steps : Int) -
      (((terminalRun (frameFirstCodes codes groups) : Nat) : Int) - max keep_last 8) := by omega
  obtain ⟨m, hm⟩ := Int.eq_ofNat_of_zero_le hnn
  rw [hm, toNat_mul_cast, Int.toNat_natCast]
  apply resize_shrink
  rw [hlen]
  apply Nat.mul_le_mul_right
  omega

/-- C15: for `groups > 0` and a code vector of `steps` whole frames,
`TrimRepeatingTailFrames` leaves a prefix of the input and returns its frame count;
the count is `steps` when `min_repeat <= 0` or the terminal run is shorter than
`min_repeat`, and `steps - max(0, run - max(keep_last, 8))` otherwise; the number of
removed frames is never more than the run. -/
theorem TrimRepeatingTailFrames_result (codes : List Int) (groups steps : Nat)
    (min_repeat keep_last : Int) (hg : 0 < groups) (hlen : codes.length = steps * groups) :
    (TrimRepeatingTailFrames codes (groups : Int) min_repeat keep_last).2 =
      codes.take ((TrimRepeatingTailFrames codes (groups : Int) min_repeat keep_last).1.toNat *
        groups) ∧
    0 ≤ (TrimRepeatingTailFrames codes (groups : Int) min_repeat keep_last).1 ∧
    (TrimRepeatingTailFrames codes (groups : Int) min_repeat keep_last).2.length =
      (TrimRepeatingTailFrames codes (groups : Int) min_repeat keep_last).1.toNat * groups ∧
    ((min_repeat ≤ 0 ∨
        ((terminalRun (frameFirstCodes codes groups) : Nat) : Int) < min_repeat) →
      (TrimRepeatingTailFrames codes (groups : Int) min_repeat keep_last).1 = (steps : Int)) ∧
    (¬ (min_repeat ≤ 0 ∨
        ((terminalRun (frameFirstCodes codes groups) : Nat) : Int) < min_repeat) →
      (TrimRepeatingTailFrames codes (groups : Int) min_repeat keep_last).1 =
        (steps : Int) -
          max 0 (((terminalRun (frameFirstCodes codes groups) : Nat) : Int) - max keep_last 8)) ∧
    0 ≤ (steps : Int) - (TrimRepeatingTailFrames codes (groups : Int) min_repeat keep_last).1 ∧
    (steps : Int) - (TrimRepeatingTailFrames codes (groups : Int) min_repeat keep_last).1 ≤
      ((terminalRun (frameFirstCodes codes groups) : Nat) : Int) := by
  have hdiv : codes.length / groups = steps := by
    rw [hlen]; exact Nat.mul_div_cancel _ hg
  have hfc : (frameFirstCodes codes groups).length = steps := by
    simp [frameFirstCodes, hdiv]
  have hrun_le := terminalRun_le (frameFirstCodes codes groups)
  rw [hfc] at hrun_le
  have hk8 : (8 : Int) ≤ max keep_last 8 := le_max_right _ _
  rw [TrimRepeatingTailFrames_char codes groups steps min_repeat keep_last hg hlen]
  by_cases hc : 0 < min_repeat ∧
      min_repeat ≤ ((terminalRun (frameFirstCodes codes groups) : Nat) : Int) ∧
      0 < ((terminalRun (frameFirstCodes codes groups) : Nat) : Int) - max keep_last 8
  · rw [if_pos hc]
    simp only []
    have hnn : 0 ≤ (steps : Int) -
        (((terminalRun (frameFirstCodes codes groups) : Nat) : Int) - max keep_last 8) := by
      omega
    obtain ⟨m, hm⟩ := Int.eq_ofNat_of_zero_le hnn
    have hmle : m ≤ steps := by omega
    refine ⟨by first | rfl | trivial, hnn, ?_, ?_, ?_, by omega, by omega⟩
    · rw [hm, Int.toNat_natCast, List.length_take, hlen]
      have := Nat.mul_le_mul_right groups hmle
      omega
    · intro h; omega
    · intro _
      rw [max_eq_right (a := (0 : Int))
        (b := ((terminalRun (frameFirstCodes codes groups) : Nat) : Int) - max keep_last 8)
        (by omega)]
  · rw [if_neg hc]
    simp only [Int.toNat_natCast]
    refine ⟨?_, by omega, hlen, fun _ => by first | rfl | trivial, ?_, by omega, by omega⟩
    · rw [← hlen, List.take_length]
    · intro h
      have : ((terminalRun (frameFirstCodes codes groups) : Nat) : Int) - max keep_last 8 ≤ 0 := by
        by_contra h'
        exact hc ⟨by omega, by omega, by omega⟩
      rw [max_eq_left this]
      ring

/-- Witness for C15: twelve frames of two codes whose first codes are 1, 2 and
then ten times 3, with `min_repeat = 3` and `keep_last = 1`. -/
theorem TrimRepeatingTailFrames_result_witness :
    ((0 : Nat) < 2 ∧
      [(1 : Int), 0, 2, 0, 3, 0, 3, 0, 3, 0, 3, 0, 3, 0, 3, 0, 3, 0, 3, 0, 3, 0, 3, 0].length =
        12 * 2) ∧
    (TrimRepeatingTailFrames
        [(1 : Int), 0, 2, 0, 3, 0, 3, 0, 3, 0, 3, 0, 3, 0, 3, 0, 3, 0, 3, 0, 3, 0, 3, 0]
        ((2 : Nat) : Int) 3 1).1 = 10 :=
  ⟨⟨by decide, by decide⟩,
    ((TrimRepeatingTailFrames_result
      [(1 : Int), 0, 2, 0, 3, 0, 3, 0, 3, 0, 3, 0, 3, 0, 3, 0, 3, 0, 3, 0, 3, 0, 3, 0]
      2 12 3 1 (by decide) (by decide)).2.2.2.2.1 (by decide)).trans (by decide)⟩

/-- C16: for `groups > 0` and a code vector of `steps` whole frames, whatever
`min_repeat` and `keep_last` are, a vector of more than 8 frames keeps at least 8
frames, and a vector whose terminal run of equal first codes is shorter than
`min_repeat` is returned unchanged. -/
theorem TrimRepeatingTailFrames_floor (codes : List Int) (groups steps : Nat)
    (min_repeat keep_last : Int) (hg : 0 < groups) (hlen : codes.length = steps * groups) :
    (8 < steps →
      8 ≤ (TrimRepeatingTailFrames codes (groups : Int) min_repeat keep_last).1 ∧
      8 * groups ≤ (TrimRepeatingTailFrames codes (groups : Int) min_repeat keep_last).2.length) ∧
    (((terminalRun (frameFirstCodes codes groups) : Nat) : Int) < min_repeat →
      TrimRepeatingTailFrames codes (groups : Int) min_repeat keep_last =
        ((steps : Int), codes)) := by
  have hdiv : codes.length / groups = steps := by
    rw [hlen]; exact Nat.mul_div_cancel _ hg
  have hfc : (frameFirstCodes codes groups).length = steps := by
    simp [frameFirstCodes, hdiv]
  have hrun_le := terminalRun_le (frameFirstCodes codes groups)
  rw [hfc] at hrun_le
  have hk8 : (8 : Int) ≤ max keep_last 8 := le_max_right _ _
  rw [TrimRepeatingTailFrames_char codes groups steps min_repeat keep_last hg hlen]
  by_cases hc : 0 < min_repeat ∧
      min_repeat ≤ ((terminalRun (frameFirstCodes codes groups) : Nat) : Int) ∧
      0 < ((terminalRun (frameFirstCodes codes groups) : Nat) : Int) - max keep_last 8
  · rw [if_pos hc]
    simp only []
    have hnn : 0 ≤ (steps : Int) -
        (((terminalRun (frameFirstCodes codes groups) : Nat) : Int) - max keep_last 8) := by
      omega
    obtain ⟨m, hm⟩ := Int.eq_ofNat_of_zero_le hnn
    constructor
    · intro _
      refine ⟨by omega, ?_⟩
      rw [hm, Int.toNat_natCast, List.length_take, hlen]
      have h8 : 8 ≤ m := by omega
      have hms : m ≤ steps := by omega
      have := Nat.mul_le_mul_right groups h8
      have := Nat.mul_le_mul_right groups hms
      omega
    · intro h; omega
  · rw [if_neg hc]
    simp only []
    constructor
    · intro h8
      refine ⟨by omega, ?_⟩
      rw [hlen]
      exact Nat.mul_le_mul_right groups (by omega)
    · intro _; first | rfl | trivial

/-- Witness for C16: the same twelve frames, trimmed to ten. -/
theorem TrimRepeatingTailFrames_floor_witness :
    ((0 : Nat) < 2 ∧
      [(1 : Int), 0, 2, 0, 3, 0, 3, 0, 3, 0, 3, 0, 3, 0, 3, 0, 3, 0, 3, 0, 3, 0, 3, 0].length =
        12 * 2) ∧
    8 ≤ (TrimRepeatingTailFrames
        [(1 : Int), 0, 2, 0, 3, 0, 3, 0, 3, 0, 3, 0, 3, 0, 3, 0, 3, 0, 3, 0, 3, 0, 3, 0]
        ((2 : Nat) : Int) 3 1).1 :=
  ⟨⟨by decide, by decide⟩,
    ((TrimRepeatingTailFrames_floor
      [(1 : Int), 0, 2, 0, 3, 0, 3, 0, 3, 0, 3, 0, 3, 0, 3, 0, 3, 0, 3, 0, 3, 0, 3, 0]
      2 12 3 1 (by decide) (by decide)).1 (by decide)).1⟩

end QWEN3TTSUTILS
namespace QWEN3TTSUTILS

theorem ilog2Loop_spec : ∀ (fuel n : Nat), 1 ≤ n → n ≤ fuel →
    2 ^ ilog2Loop fuel n ≤ n ∧ n < 2 ^ (ilog2Loop fuel n + 1) := by
  intro fuel
  induction fuel with
  | zero => intro n h1 h2; omega
  | succ fuel ih =>
    intro n h1 h2
    rw [ilog2Loop]
    by_cases h : n < 2
    · rw [if_pos h]
      have : n = 1 := by omega
      subst this
      decide
    · rw [if_neg h]
      obtain ⟨l, u⟩ := ih (n / 2) (by omega) (by omega)
      rw [Nat.pow_succ] at u ⊢
      rw [Nat.pow_succ]
      constructor <;> omega

theorem ilog2_spec (n : Nat) (h : 1 ≤ n) : 2 ^ ilog2 n ≤ n ∧ n < 2 ^ (ilog2 n + 1) :=
  ilog2Loop_spec n n h (Nat.le_refl n)

theorem pow2_eq (k : Int) : pow2 k = (2 : ℚ) ^ k := by
  unfold pow2
  by_cases h : 0 ≤ k
  · rw [if_pos h]
    obtain ⟨n, rfl⟩ := Int.eq_ofNat_of_zero_le h
    rw [Int.toNat_ofNat, zpow_natCast]
    push_cast
    rfl
  · rw [if_neg h]
    obtain ⟨n, hn⟩ : ∃ n : Nat, k = -(n : Int) := ⟨(-k).toNat, by omega⟩
    subst hn
    rw [neg_neg, Int.toNat_ofNat, zpow_neg, zpow_natCast]
    push_cast
    rw [one_div]

theorem pow2_pos (k : Int) : 0 < pow2 k := by
  rw [pow2_eq]
  positivity

theorem pow2_add (a b : Int) : pow2 (a + b) = pow2 a * pow2 b := by
  rw [pow2_eq, pow2_eq, pow2_eq, zpow_add₀ (by norm_num)]

theorem pow2_le (a b : Int) (h : a ≤ b) : pow2 a ≤ pow2 b := by
  rw [pow2_eq, pow2_eq]
  exact zpow_le_zpow_right₀ (by norm_num) h

theorem pow2_lt (a b : Int) (h : a < b) : pow2 a < pow2 b := by
  rw [pow2_eq, pow2_eq]
  exact zpow_lt_zpow_right₀ (by norm_num) h

theorem pow2_lt_inv (a b : Int) (h : pow2 a < pow2 b) : a < b := by
  by_contra hn
  exact absurd (pow2_le b a (by omega)) (not_le.mpr h)

theorem pow2_nat (n : Nat) : pow2 (n : Int) = ((2 ^ n : Nat) : ℚ) := by
  unfold pow2
  rw [if_pos (by omega), Int.toNat_ofNat]

theorem binade_spec (x : ℚ) (hx : x ≠ 0) :
    pow2 (binade x) ≤ |x| ∧ |x| < pow2 (binade x + 1) := by
  unfold binade
  have hN : 1 ≤ x.num.natAbs := by
    have : x.num ≠ 0 := Rat.num_ne_zero.mpr hx
    omega
  have hD : 1 ≤ x.den := x.den_pos
  obtain ⟨a1, a2⟩ := ilog2_spec x.num.natAbs hN
  obtain ⟨b1, b2⟩ := ilog2_spec x.den hD
  have habs : |x| = (x.num.natAbs : ℚ) / (x.den : ℚ) := by
    conv_lhs => rw [← Rat.num_div_den x]
    rw [abs_div, Nat.abs_cast]
    congr 1
    rw [← Int.cast_abs]
    exact (Nat.cast_natAbs (α := ℚ) x.num).symm
  have hDpos : (0 : ℚ) < (x.den : ℚ) := by exact_mod_cast hD
  have ha1 : pow2 (ilog2 x.num.natAbs : Int) ≤ (x.num.natAbs : ℚ) := by
    rw [pow2_nat]; exact_mod_cast a1
  have ha2 : (x.num.natAbs : ℚ) < pow2 ((ilog2 x.num.natAbs : Int) + 1) := by
    have : ((ilog2 x.num.natAbs : Int) + 1) = ((ilog2 x.num.natAbs + 1 : Nat) : Int) := by
      push_cast; rfl
    rw [this, pow2_nat]; exact_mod_cast a2
  have hb1 : pow2 (ilog2 x.den : Int) ≤ (x.den : ℚ) := by
    rw [pow2_nat]; exact_mod_cast b1
  have hb2 : (x.den : ℚ) < pow2 ((ilog2 x.den : Int) + 1) := by
    have : ((ilog2 x.den : Int) + 1) = ((ilog2 x.den + 1 : Nat) : Int) := by
      push_cast; rfl
    rw [this, pow2_nat]; exact_mod_cast b2
  generalize (ilog2 x.num.natAbs : Int) = a at ha1 ha2 ⊢
  generalize (ilog2 x.den : Int) = b at hb1 hb2 ⊢
  have hup : |x| < pow2 (a - b + 1) := by
    rw [habs, div_lt_iff₀ hDpos]
    have : pow2 (a + 1) = pow2 (a - b + 1) * pow2 b := by
      rw [← pow2_add]; congr 1; omega
    calc (x.num.natAbs : ℚ) < pow2 (a + 1) := ha2
      _ = pow2 (a - b + 1) * pow2 b := this
      _ ≤ pow2 (a - b + 1) * (x.den : ℚ) :=
          mul_le_mul_of_nonneg_left hb1 (le_of_lt (pow2_pos _))
  have hlo : pow2 (a - b - 1) ≤ |x| := by
    rw [habs, le_div_iff₀ hDpos]
    have : pow2 a = pow2 (a - b - 1) * pow2 (b + 1) := by
      rw [← pow2_add]; congr 1; omega
    calc pow2 (a - b - 1) * (x.den : ℚ) ≤ pow2 (a - b - 1) * pow2 (b + 1) :=
          mul_le_mul_of_nonneg_left (le_of_lt hb2) (le_of_lt (pow2_pos _))
      _ = pow2 a := this.symm
      _ ≤ (x.num.natAbs : ℚ) := ha1
  by_cases h : pow2 (a - b) ≤ |x|
  · rw [if_pos h]
    exact ⟨h, hup⟩
  · rw [if_neg h]
    refine ⟨hlo, ?_⟩
    rw [show a - b - 1 + 1 = a - b by omega]
    exact not_le.mp h

theorem roundHalfEven_le (y : ℚ) (K : Int) (h : y ≤ (K : ℚ)) : roundHalfEven y ≤ K := by
  have hf : Int.floor y ≤ K := by
    have h2 : ((Int.floor y : Int) : ℚ) ≤ (K : ℚ) := le_trans (Int.floor_le y) h
    exact_mod_cast h2
  unfold roundHalfEven
  by_cases h1 : y - (Int.floor y : ℚ) < 1 / 2
  · rw [if_pos h1]; exact hf
  · rw [if_neg h1]
    have hne : Int.floor y ≠ K := by
      intro he
      rw [he] at h1
      exact h1 (by linarith)
    have : Int.floor y + 1 ≤ K := by omega
    by_cases h2 : 1 / 2 < y - (Int.floor y : ℚ)
    · rw [if_pos h2]; exact this
    · rw [if_neg h2]
      by_cases h3 : Int.floor y % 2 = 0
      · rw [if_pos h3]; exact hf
      · rw [if_neg h3]; exact this

theorem le_roundHalfEven (y : ℚ) (K : Int) (h : (K : ℚ) ≤ y) : K ≤ roundHalfEven y := by
  have hf : K ≤ Int.floor y := Int.le_floor.mpr h
  unfold roundHalfEven
  by_cases h1 : y - (Int.floor y : ℚ) < 1 / 2
  · rw [if_pos h1]; exact hf
  · rw [if_neg h1]
    by_cases h2 : 1 / 2 < y - (Int.floor y : ℚ)
    · rw [if_pos h2]; omega
    · rw [if_neg h2]
      by_cases h3 : Int.floor y % 2 = 0
      · rw [if_pos h3]; exact hf
      · rw [if_neg h3]; omega

theorem roundHalfEven_err (y : ℚ) : |(roundHalfEven y : ℚ) - y| ≤ 1 / 2 := by
  have h0 := Int.floor_le y
  have h1 := Int.lt_floor_add_one y
  unfold roundHalfEven
  by_cases c1 : y - (Int.floor y : ℚ) < 1 / 2
  · rw [if_pos c1, abs_le]
    constructor <;> linarith
  · rw [if_neg c1]
    by_cases c2 : 1 / 2 < y - (Int.floor y : ℚ)
    · rw [if_pos c2, abs_le]
      push_cast
      constructor <;> linarith
    · rw [if_neg c2]
      by_cases c3 : Int.floor y % 2 = 0
      · rw [if_pos c3, abs_le]
        constructor <;> linarith
      · rw [if_neg c3, abs_le]
        push_cast
        constructor <;> linarith

theorem roundHalfEven_int (K : Int) : roundHalfEven (K : ℚ) = K :=
  le_antisymm (roundHalfEven_le _ K (le_refl _)) (le_roundHalfEven _ K (le_refl _))

theorem pow2_zero : pow2 0 = 1 := by decide!

theorem pow2_neg_mul (k : Int) (hk : k ≤ 0) : ((2 ^ (-k).toNat : Nat) : ℚ) * pow2 k = 1 := by
  rw [← pow2_nat, ← pow2_add, show (((-k).toNat : Nat) : Int) + k = 0 by omega, pow2_zero]

theorem roundF32_zero : roundF32 0 = .fin 0 := by
  unfold roundF32
  rw [if_pos rfl]

theorem roundF32_of_bounds (x : ℚ) (hx : x ≠ 0) (lo hi : Int)
    (h1 : (lo : ℚ) * ulp x ≤ x) (h2 : x ≤ (hi : ℚ) * ulp x)
    (h3 : -pow2 128 < (lo : ℚ) * ulp x) (h4 : (hi : ℚ) * ulp x < pow2 128) :
    roundF32 x = .fin ((roundHalfEven (x / ulp x) : ℚ) * ulp x) ∧
      (lo : ℚ) * ulp x ≤ (roundHalfEven (x / ulp x) : ℚ) * ulp x ∧
      (roundHalfEven (x / ulp x) : ℚ) * ulp x ≤ (hi : ℚ) * ulp x := by
  have hu : 0 < ulp x := pow2_pos _
  have a1 : lo ≤ roundHalfEven (x / ulp x) :=
    le_roundHalfEven _ lo ((le_div_iff₀ hu).mpr h1)
  have a2 : roundHalfEven (x / ulp x) ≤ hi :=
    roundHalfEven_le _ hi ((div_le_iff₀ hu).mpr h2)
  have b1 : (lo : ℚ) * ulp x ≤ (roundHalfEven (x / ulp x) : ℚ) * ulp x :=
    mul_le_mul_of_nonneg_right (by exact_mod_cast a1) (le_of_lt hu)
  have b2 : (roundHalfEven (x / ulp x) : ℚ) * ulp x ≤ (hi : ℚ) * ulp x :=
    mul_le_mul_of_nonneg_right (by exact_mod_cast a2) (le_of_lt hu)
  refine ⟨?_, b1, b2⟩
  unfold roundF32
  rw [if_neg hx, if_neg (by linarith), if_neg (by linarith)]

theorem roundF32_nat_bound (x : ℚ) (N : Nat) (hN : N < 16777216) (h : |x| ≤ (N : ℚ)) :
    ∃ y, roundF32 x = .fin y ∧ -(N : ℚ) ≤ y ∧ y ≤ (N : ℚ) := by
  by_cases hx : x = 0
  · rw [hx, roundF32_zero]
    exact ⟨0, rfl, by simp, by simp⟩
  · obtain ⟨e1, _⟩ := binade_spec x hx
    have he : binade x < 24 := by
      apply pow2_lt_inv
      have h24 : pow2 24 = 16777216 := by decide!
      rw [h24]
      calc pow2 (binade x) ≤ |x| := e1
        _ ≤ (N : ℚ) := h
        _ < 16777216 := by exact_mod_cast hN
    have hk : max (binade x) (-126) - 23 ≤ 0 := by omega
    have hmul := pow2_neg_mul _ hk
    have hu : ulp x = pow2 (max (binade x) (-126) - 23) := rfl
    have hhi : (((N * 2 ^ (-(max (binade x) (-126) - 23)).toNat : Nat) : Int) : ℚ) * ulp x =
        (N : ℚ) := by
      rw [hu]
      push_cast
      push_cast at hmul
      rw [mul_assoc, hmul, mul_one]
    have hlo : ((-((N * 2 ^ (-(max (binade x) (-126) - 23)).toNat : Nat) : Int) : Int) : ℚ) *
        ulp x = -(N : ℚ) := by
      rw [Int.cast_neg, neg_mul, hhi]
    have hN2 : (N : ℚ) < pow2 128 := by
      have h128 : (16777216 : ℚ) < pow2 128 := by decide!
      have : (N : ℚ) < 16777216 := by exact_mod_cast hN
      linarith
    obtain ⟨a, b⟩ := abs_le.mp h
    obtain ⟨r1, r2, r3⟩ := roundF32_of_bounds x hx _ _ (by rw [hlo]; exact a)
      (by rw [hhi]; exact b) (by rw [hlo]; linarith) (by rw [hhi]; exact hN2)
    rw [hlo] at r2
    rw [hhi] at r3
    exact ⟨_, r1, r2, r3⟩

theorem roundF32_ge_one (x : ℚ) (h1 : 1 ≤ x) (h2 : x ≤ 18446744073709551616) :
    ∃ y, roundF32 x = .fin y ∧ 1 ≤ y ∧ y ≤ 18446744073709551616 := by
  have hx : x ≠ 0 := by linarith
  have habs : |x| = x := abs_of_pos (by linarith)
  obtain ⟨e1, e2⟩ := binade_spec x hx
  rw [habs] at e1 e2
  have h64 : pow2 64 = 18446744073709551616 := by decide!
  have he0 : 0 ≤ binade x := by
    have : pow2 0 < pow2 (binade x + 1) := by
      rw [pow2_zero]
      linarith
    have := pow2_lt_inv _ _ this
    omega
  have he64 : binade x ≤ 64 := by
    by_contra hc
    have : pow2 65 ≤ pow2 (binade x) := pow2_le _ _ (by omega)
    have h65 : pow2 64 < pow2 65 := pow2_lt _ _ (by decide)
    linarith
  have hu : ulp x = pow2 (binade x - 23) := by
    unfold ulp
    rw [max_eq_left (by omega)]
  have hlo : (((2 ^ 23 : Nat) : Int) : ℚ) * ulp x = pow2 (binade x) := by
    rw [hu]
    have : (((2 ^ 23 : Nat) : Int) : ℚ) = pow2 ((23 : Nat) : Int) := by
      rw [pow2_nat]
      norm_cast
    rw [this, ← pow2_add]
    congr 1
    omega
  have hhi : (((2 ^ (87 - binade x).toNat : Nat) : Int) : ℚ) * ulp x = pow2 64 := by
    rw [hu]
    have : (((2 ^ (87 - binade x).toNat : Nat) : Int) : ℚ) =
        pow2 (((87 - binade x).toNat : Nat) : Int) := by
      rw [pow2_nat]
      norm_cast
    rw [this, ← pow2_add]
    congr 1
    omega
  have h128 : pow2 64 < pow2 128 := pow2_lt _ _ (by decide)
  have hp0 := pow2_pos (binade x)
  have hp128 := pow2_pos 128
  obtain ⟨r1, r2, r3⟩ := roundF32_of_bounds x hx _ _ (by rw [hlo]; exact e1)
    (by rw [hhi, h64]; exact h2) (by rw [hlo]; linarith) (by rw [hhi]; exact h128)
  rw [hlo] at r2
  rw [hhi, h64] at r3
  refine ⟨_, r1, ?_, r3⟩
  have : pow2 0 ≤ pow2 (binade x) := pow2_le _ _ he0
  rw [pow2_zero] at this
  linarith

theorem roundF32_one : roundF32 1 = .fin 1 := by decide!

theorem f32OfNat_pos (k : Nat) (h1 : 1 ≤ k) (h2 : k ≤ 18446744073709551616) :
    ∃ y, f32OfNat k = .fin y ∧ 1 ≤ y := by
  obtain ⟨y, hy, hy1, _⟩ := roundF32_ge_one (k : ℚ) (by exact_mod_cast h1)
    (by exact_mod_cast h2)
  exact ⟨y, hy, hy1⟩

theorem f32OfNat_zero : f32OfNat 0 = .fin 0 := by
  unfold f32OfNat
  rw [Nat.cast_zero, roundF32_zero]

theorem f32Lt_irrefl (a : F32) : f32Lt a a = false := by
  cases a <;> simp [f32Lt]

theorem f32Lt_trans (a b c : F32) (h1 : f32Lt a b = true) (h2 : f32Lt b c = true) :
    f32Lt a c = true := by
  cases a <;> cases b <;> cases c <;> simp [f32Lt] at h1 h2 ⊢
  exact lt_trans h1 h2

theorem fadeLoop_spec (orig : List F32) (start : Nat) (gain : Nat → F32) :
    ∀ k, start + k ≤ orig.length →
      ((List.range k).foldl
          (fun p i => p.set (start + i) (f32Mul (p.getD (start + i) (F32.fin 0)) (gain i)))
          orig).length = orig.length ∧
      ∀ j, ((List.range k).foldl
          (fun p i => p.set (start + i) (f32Mul (p.getD (start + i) (F32.fin 0)) (gain i)))
          orig).getD j (F32.fin 0) =
        if start ≤ j ∧ j < start + k then
          f32Mul (orig.getD j (F32.fin 0)) (gain (j - start))
        else orig.getD j (F32.fin 0) := by
  intro k
  induction k with
  | zero =>
    intro _
    refine ⟨rfl, fun j => ?_⟩
    rw [if_neg (by omega)]
    rfl
  | succ k ih =>
    intro hk
    obtain ⟨hl, hg⟩ := ih (by omega)
    rw [List.range_succ, List.foldl_append]
    simp only [List.foldl_cons, List.foldl_nil]
    refine ⟨by rw [List.length_set]; exact hl, ?_⟩
    intro j
    rw [List.getD_eq_getElem?_getD, List.getElem?_set]
    by_cases hj : start + k = j
    · subst hj
      rw [if_pos rfl, if_pos (by omega), if_pos (by omega), hg, if_neg (by omega)]
      simp
    · rw [if_neg hj, ← List.getD_eq_getElem?_getD, hg]
      by_cases h2 : start ≤ j ∧ j < start + k
      · rw [if_pos h2, if_pos (by omega)]
      · rw [if_neg h2, if_neg (by omega)]

theorem fadeTail_length (processed : List F32) (F : Nat) :
    (fadeTail processed F).length = processed.length := by
  unfold fadeTail
  by_cases h : 1 < F
  · rw [if_pos h]
    have : ∀ (l : List Nat) (p : List F32) (f : List F32 → Nat → Nat)
        (g : List F32 → Nat → F32),
        (l.foldl (fun p i => p.set (f p i) (g p i)) p).length = p.length := by
      intro l
      induction l with
      | nil => intro p f g; rfl
      | cons a l ih => intro p f g; rw [List.foldl_cons, ih, List.length_set]
    exact this (List.range F) processed (fun _ i => processed.length - F + i)
      (fun p i => f32Mul (p.getD (processed.length - F + i) (F32.fin 0)) (fadeGain i F))
  · rw [if_neg h]

theorem declick_length (samples : List F32) (sample_rate : Int) :
    (declick samples sample_rate).length = samples.length := by
  unfold declick
  exact fadeTail_length _ _

theorem truncToZero_bounds (y : ℚ) (N : Int) (h1 : -(N : ℚ) ≤ y) (h2 : y ≤ (N : ℚ)) :
    -N ≤ truncToZero y ∧ truncToZero y ≤ N := by
  unfold truncToZero
  by_cases h : 0 ≤ y
  · rw [if_pos h]
    constructor
    · have := Int.floor_nonneg.mpr h
      have hN : (0 : ℚ) ≤ (N : ℚ) := le_trans h h2
      have : (0 : Int) ≤ N := by exact_mod_cast hN
      omega
    · have h3 := Int.floor_le y
      have h4 : ((Int.floor y : Int) : ℚ) ≤ (N : ℚ) := le_trans h3 h2
      exact_mod_cast h4
  · rw [if_neg h]
    constructor
    · have h3 := Int.le_ceil y
      have h4 : ((-N : Int) : ℚ) ≤ ((Int.ceil y : Int) : ℚ) := by
        push_cast; linarith
      exact_mod_cast h4
    · apply Int.ceil_le.mpr
      have : y < 0 := not_le.mp h
      have hN : (0 : ℚ) ≤ (N : ℚ) := by linarith
      linarith

theorem clip_spec (x : F32) :
    ∃ c : ℚ, f32Max (F32.fin (-1)) (f32Min (F32.fin 1) x) = .fin c ∧ -1 ≤ c ∧ c ≤ 1 := by
  cases x with
  | fin a =>
    by_cases h1 : a < 1
    · by_cases h2 : -1 < a
      · exact ⟨a, by simp [f32Max, f32Min, f32Lt, h1, h2], le_of_lt h2, le_of_lt h1⟩
      · exact ⟨-1, by simp [f32Max, f32Min, f32Lt, h1, h2], le_refl _, by norm_num⟩
    · exact ⟨1, by simp [f32Max, f32Min, f32Lt, h1], by norm_num, le_refl _⟩
  | pinf => exact ⟨1, by simp [f32Max, f32Min, f32Lt], by norm_num, le_refl _⟩
  | ninf => exact ⟨-1, by simp [f32Max, f32Min, f32Lt], le_refl _, by norm_num⟩
  | nan => exact ⟨1, by simp [f32Max, f32Min, f32Lt], by norm_num, le_refl _⟩

theorem scaleSample_spec (x : F32) :
    ∃ q : ℚ, scaleSample x = .fin q ∧ -32767 ≤ q ∧ q ≤ 32767 ∧
      quantize x = truncToZero q ∧ -32767 ≤ truncToZero q ∧ truncToZero q ≤ 32767 := by
  obtain ⟨c, hc, c1, c2⟩ := clip_spec x
  have habs : |c * 32767| ≤ ((32767 : Nat) : ℚ) := by
    rw [abs_le]
    push_cast
    constructor <;> linarith
  obtain ⟨y, hy, y1, y2⟩ := roundF32_nat_bound (c * 32767) 32767 (by decide) habs
  push_cast at y1 y2
  have hs : scaleSample x = .fin y := by
    unfold scaleSample
    rw [hc]
    exact hy
  obtain ⟨t1, t2⟩ := truncToZero_bounds y 32767 (by push_cast; exact y1) (by push_cast; exact y2)
  refine ⟨y, hs, y1, y2, ?_, t1, t2⟩
  unfold quantize
  rw [hs]
  show (if -32768 ≤ truncToZero y ∧ truncToZero y ≤ 32767 then truncToZero y else 0) = _
  rw [if_pos ⟨by omega, t2⟩]

theorem quantize_bounds (x : F32) : -32767 ≤ quantize x ∧ quantize x ≤ 32767 := by
  obtain ⟨q, _, _, _, hq, t1, t2⟩ := scaleSample_spec x
  rw [hq]
  exact ⟨t1, t2⟩

theorem quantize_zero : quantize (F32.fin 0) = 0 := by decide!

theorem flatMap_le16_length (pcm : List Int) :
    (pcm.flatMap (fun v => le16 (v % 65536).toNat)).length = 2 * pcm.length := by
  induction pcm with
  | nil => rfl
  | cons a l ih =>
    rw [List.flatMap_cons, List.length_append, ih, List.length_cons]
    simp only [le16, List.length_cons, List.length_nil]
    omega

theorem readLe32_le32 (x : Nat) (h : x < 4294967296) (rest : List Nat) :
    readLe32 (le32 x ++ rest) = x := by
  unfold readLe32 le32
  simp only [List.cons_append, List.getD_cons_zero, List.getD_cons_succ]
  omega

theorem padSamples_pos (sample_rate : Int) (h0 : 0 ≤ sample_rate)
    (h1 : sample_rate * 30 ≤ 2147483647) :
    padSamples sample_rate = some (sample_rate * 30 / 1000).toNat := by
  unfold padSamples
  rw [if_neg (by omega), Int.tdiv_eq_ediv (by omega) (by decide), if_neg (by omega)]

/-- C17 (counterexample): 71582789 is a positive sample rate, yet the product
`sample_rate * 30` leaves the `int` range there and the call produces neither a PCM
vector nor a byte stream, so the stated sample count does not hold for every
positive sample rate. -/
theorem WriteWavPcm16_rate_overflow :
    0 < (71582789 : Int) ∧ IsInt32 71582789 ∧ ¬ IsInt32 (71582789 * 30) ∧
      WavPcm [] 71582789 = none ∧ WriteWavPcm16 [] 71582789 = none := by
  unfold IsInt32
  decide

/-- C17 (amended): for n input samples and a positive sample rate with
`sample_rate * 30` inside the `int` range and `36 + 2 * (n + pad)` below 2^32, where
pad = floor(sample_rate * 30 / 1000), `WriteWavPcm16` produces exactly n + pad PCM
samples (n + 720 at 24000 Hz), whatever the fade did; the byte stream is a 44-byte
header (`RIFF`, size, `WAVEfmt `, ..., `data`, size) followed by the 2 * (n + pad)
bytes of the PCM samples; the RIFF size field holds 36 + data bytes and the data size
field holds the data bytes. -/
theorem WriteWavPcm16_layout (samples : List F32) (sample_rate : Int)
    (h0 : 0 < sample_rate) (h1 : sample_rate * 30 ≤ 2147483647)
    (h2 : 36 + 2 * (samples.length + (sample_rate * 30 / 1000).toNat) < 4294967296) :
    ∃ pcm bytes, WavPcm samples sample_rate = some pcm ∧
      WriteWavPcm16 samples sample_rate = some bytes ∧
      pcm.length = samples.length + (sample_rate * 30 / 1000).toNat ∧
      (sample_rate = 24000 → pcm.length = samples.length + 720) ∧
      bytes.length = 44 + 2 * pcm.length ∧
      bytes.take 4 = [82, 73, 70, 70] ∧
      readLe32 (bytes.drop 4) = 36 + 2 * pcm.length ∧
      (bytes.drop 8).take 8 = [87, 65, 86, 69, 102, 109, 116, 32] ∧
      (bytes.drop 36).take 4 = [100, 97, 116, 97] ∧
      readLe32 (bytes.drop 40) = 2 * pcm.length ∧
      bytes.drop 44 = pcm.flatMap (fun v => le16 (v % 65536).toNat) := by
  have hpad := padSamples_pos sample_rate (le_of_lt h0) h1
  have hpcm : WavPcm samples sample_rate =
      some ((declick samples sample_rate ++
        List.replicate (sample_rate * 30 / 1000).toNat (F32.fin 0)).map quantize) := by
    unfold WavPcm
    rw [hpad]
  have hlen : ((declick samples sample_rate ++
        List.replicate (sample_rate * 30 / 1000).toNat (F32.fin 0)).map quantize).length =
      samples.length + (sample_rate * 30 / 1000).toNat := by
    rw [List.length_map, List.length_append, declick_length, List.length_replicate]
  generalize ((declick samples sample_rate ++
        List.replicate (sample_rate * 30 / 1000).toNat (F32.fin 0)).map quantize) = pcm
    at hpcm hlen
  have hd : (pcm.length * 2) % 4294967296 = 2 * pcm.length := by omega
  have hr : (36 + 2 * pcm.length) % 4294967296 = 36 + 2 * pcm.length := by omega
  have hb : WriteWavPcm16 samples sample_rate =
      some ([82, 73, 70, 70] ++ le32 (36 + 2 * pcm.length) ++
        [87, 65, 86, 69] ++ [102, 109, 116, 32] ++ le32 16 ++ le16 1 ++ le16 1 ++
        le32 (toU32 sample_rate) ++ le32 (toU32 ((sample_rate * 1 * 16).tdiv 8)) ++
        le16 ((1 * 16 / 8) % 65536) ++ le16 16 ++ [100, 97, 116, 97] ++
        le32 (2 * pcm.length) ++
        pcm.flatMap (fun v => le16 (v % 65536).toNat)) := by
    unfold WriteWavPcm16
    rw [hpcm]
    simp only []
    rw [hd, hr, List.take_of_length_le (by rw [flatMap_le16_length])]
  have hdl := flatMap_le16_length pcm
  generalize hdata : pcm.flatMap (fun v => le16 (v % 65536).toNat) = data at hb hdl
  have h36 := readLe32_le32 (36 + 2 * pcm.length) (by omega)
  have h40 := readLe32_le32 (2 * pcm.length) (by omega) data
  simp only [le32, le16, List.cons_append, List.nil_append, List.append_assoc] at hb h36 h40
  refine ⟨pcm, _, hpcm, hb, hlen, ?_, ?_, ?_, ?_, ?_, ?_, ?_, ?_⟩
  · intro h
    rw [hlen, h]
    rfl
  · simp only [List.length_cons, hdl]
    omega
  · rfl
  · simp only [List.drop_succ_cons, List.drop_zero]
    exact h36 _
  · rfl
  · rfl
  · simp only [List.drop_succ_cons, List.drop_zero]
    exact h40
  · simp only [List.drop_succ_cons, List.drop_zero]
    exact hdata.symm

/-- C17 (witness): three samples at 24000 Hz. -/
theorem WriteWavPcm16_layout_witness :
    ∃ pcm bytes, WavPcm [.fin 1, .fin (-2), .fin (1 / 2)] 24000 = some pcm ∧
      WriteWavPcm16 [.fin 1, .fin (-2), .fin (1 / 2)] 24000 = some bytes ∧
      pcm.length = [F32.fin 1, .fin (-2), .fin (1 / 2)].length +
        ((24000 : Int) * 30 / 1000).toNat ∧
      ((24000 : Int) = 24000 →
        pcm.length = [F32.fin 1, .fin (-2), .fin (1 / 2)].length + 720) ∧
      bytes.length = 44 + 2 * pcm.length ∧
      bytes.take 4 = [82, 73, 70, 70] ∧
      readLe32 (bytes.drop 4) = 36 + 2 * pcm.length ∧
      (bytes.drop 8).take 8 = [87, 65, 86, 69, 102, 109, 116, 32] ∧
      (bytes.drop 36).take 4 = [100, 97, 116, 97] ∧
      readLe32 (bytes.drop 40) = 2 * pcm.length ∧
      bytes.drop 44 = pcm.flatMap (fun v => le16 (v % 65536).toNat) :=
  WriteWavPcm16_layout [.fin 1, .fin (-2), .fin (1 / 2)] 24000 (by decide) (by decide)
    (by decide)

/-- C18: for every float `x`, finite or not, the clipped and scaled sample
`max(-1, min(1, x)) * 32767`, computed in single precision, is a finite value between
-32767 and 32767, so its conversion to `int16_t` is defined and `quantize x` lies in
[-32767, 32767]; infinities and NaN quantise to 32767, -32767 and 32767; whenever
`WriteWavPcm16` builds its PCM vector, every value of it lies in that range, the
vector is the quantised faded input followed by the pad, and every pad sample
quantises to 0. -/
theorem WavPcm_int16_range (samples : List F32) (sample_rate : Int) (pcm : List Int)
    (h : WavPcm samples sample_rate = some pcm) :
    (∀ x : F32, ∃ q : ℚ, scaleSample x = .fin q ∧ -32767 ≤ q ∧ q ≤ 32767 ∧
        quantize x = truncToZero q) ∧
      (∀ x : F32, -32767 ≤ quantize x ∧ quantize x ≤ 32767) ∧
      (quantize .pinf = 32767 ∧ quantize .ninf = -32767 ∧ quantize .nan = 32767) ∧
      (∀ v ∈ pcm, -32768 ≤ v ∧ -32767 ≤ v ∧ v ≤ 32767) ∧
      pcm = (declick samples sample_rate).map quantize ++
        List.replicate (pcm.length - samples.length) 0 ∧
      ∀ i, samples.length ≤ i → pcm.getD i 0 = 0 := by
  unfold WavPcm at h
  cases hp : padSamples sample_rate with
  | none => rw [hp] at h; exact absurd h (by simp)
  | some pad =>
    rw [hp] at h
    simp only [Option.some.injEq] at h
    have hshape : pcm = (declick samples sample_rate).map quantize ++ List.replicate pad 0 := by
      rw [← h, List.map_append, List.map_replicate, quantize_zero]
    have hlen : pcm.length - samples.length = pad := by
      rw [hshape, List.length_append, List.length_map, declick_length, List.length_replicate]
      omega
    refine ⟨fun x => ?_, quantize_bounds, ⟨by decide!, by decide!, by decide!⟩, ?_, ?_, ?_⟩
    · obtain ⟨q, h1, h2, h3, h4, _⟩ := scaleSample_spec x
      exact ⟨q, h1, h2, h3, h4⟩
    · intro v hv
      rw [← h] at hv
      obtain ⟨x, _, rfl⟩ := List.mem_map.mp hv
      have := quantize_bounds x
      omega
    · rw [hlen]
      exact hshape
    · intro i hi
      rw [hshape, List.getD_append_right _ _ _ _
        (by rw [List.length_map, declick_length]; exact hi),
        List.getD_eq_getElem?_getD]
      cases hg : (List.replicate pad (0 : Int))[i -
          ((declick samples sample_rate).map quantize).length]? with
      | none => rfl
      | some v =>
        have := List.getElem?_mem hg
        rw [List.mem_replicate] at this
        rw [this.2]
        rfl

/-- C18 (witness): samples far outside [-1, 1], the infinities, a NaN, and the sample
32769 / 2^30, whose scaled value 1 - 2^-30 rounds to 1 in single precision, at 34 Hz
(no fade, one pad sample). -/
theorem WavPcm_int16_range_witness :
    WavPcm [.fin 1000, .fin (-1000), .pinf, .ninf, .nan, .fin (32769 / 1073741824)] 34 =
        some [32767, -32767, 32767, -32767, 32767, 1, 0] ∧
      (∀ v ∈ [32767, -32767, 32767, -32767, 32767, 1, (0 : Int)],
        -32768 ≤ v ∧ -32767 ≤ v ∧ v ≤ 32767) ∧
      ∀ i, [F32.fin 1000, .fin (-1000), .pinf, .ninf, .nan,
          .fin (32769 / 1073741824)].length ≤ i →
        [32767, -32767, 32767, -32767, 32767, 1, (0 : Int)].getD i 0 = 0 :=
  have h := WavPcm_int16_range
    [.fin 1000, .fin (-1000), .pinf, .ninf, .nan, .fin (32769 / 1073741824)] 34
    [32767, -32767, 32767, -32767, 32767, 1, 0] (by decide!)
  ⟨by decide!, h.2.2.2.1, h.2.2.2.2.2⟩

theorem tailProbe_eq (n : Nat) (sample_rate : Int) (h0 : 0 ≤ sample_rate)
    (h1 : sample_rate ≤ 2147483647) :
    tailProbe n sample_rate = min n (sample_rate / 100).toNat := by
  unfold tailProbe toSizeT
  rw [Int.tdiv_eq_ediv h0 (by decide)]
  congr 1
  omega

theorem fadeSamples_eq (n : Nat) (sample_rate : Int) (ms : Nat) (hms : ms = 40 ∨ ms = 80)
    (h0 : 0 ≤ sample_rate) (h1 : sample_rate ≤ 2147483647) :
    ((fadeSamples n sample_rate ms : Nat) : Int) = min (n : Int) (sample_rate * (ms : Int) / 1000) := by
  unfold fadeSamples toSizeT
  rw [Int.emod_eq_of_lt h0 (by omega)]
  obtain ⟨k, rfl⟩ := Int.eq_ofNat_of_zero_le h0
  have hk : k ≤ 2147483647 := by omega
  rw [Int.toNat_ofNat, Nat.mod_eq_of_lt (by rcases hms with rfl | rfl <;> omega)]
  push_cast
  rfl

theorem fadeSamples_lt (n : Nat) (sample_rate : Int) (ms : Nat) :
    fadeSamples n sample_rate ms < 18446744073709551616 := by
  unfold fadeSamples
  have : (toSizeT sample_rate * ms) % 18446744073709551616 / 1000 < 18446744073709551616 := by
    omega
  exact lt_of_le_of_lt (min_le_right _ _) this

theorem fadeTail_spec (p : List F32) (F : Nat) (h1 : 1 < F) (hF : F ≤ p.length) (j : Nat) :
    (fadeTail p F).getD j (F32.fin 0) =
      if p.length - F ≤ j ∧ j < p.length then
        f32Mul (p.getD j (F32.fin 0)) (fadeGain (j - (p.length - F)) F)
      else p.getD j (F32.fin 0) := by
  unfold fadeTail
  rw [if_pos h1]
  have h := (fadeLoop_spec p (p.length - F) (fun i => fadeGain i F) F (by omega)).2 j
  rw [h]
  by_cases hj : p.length - F ≤ j ∧ j < p.length
  · rw [if_pos hj, if_pos (by omega)]
  · rw [if_neg hj, if_neg (by omega)]

theorem peakFold_spec (g : Nat → F32) :
    ∀ k,
      (∀ i, i < k →
        f32Lt ((List.range k).foldl (fun peak i => if f32Lt peak (g i) then g i else peak)
          (F32.fin 0)) (g i) = false) ∧
      ((List.range k).foldl (fun peak i => if f32Lt peak (g i) then g i else peak)
          (F32.fin 0) = .fin 0 ∨
        ∃ i, i < k ∧
          (List.range k).foldl (fun peak i => if f32Lt peak (g i) then g i else peak)
            (F32.fin 0) = g i) ∧
      (List.range k).foldl (fun peak i => if f32Lt peak (g i) then g i else peak)
          (F32.fin 0) ≠ .nan ∧
      (List.range k).foldl (fun peak i => if f32Lt peak (g i) then g i else peak)
          (F32.fin 0) ≠ .ninf := by
  intro k
  induction k with
  | zero =>
    exact ⟨fun i hi => absurd hi (Nat.not_lt_zero i), Or.inl rfl,
      fun h => F32.noConfusion h, fun h => F32.noConfusion h⟩
  | succ k ih =>
    obtain ⟨hub, hat, hnan, hninf⟩ := ih
    rw [List.range_succ, List.foldl_append]
    simp only [List.foldl_cons, List.foldl_nil]
    generalize (List.range k).foldl (fun peak i => if f32Lt peak (g i) then g i else peak)
      (F32.fin 0) = p at hub hat hnan hninf
    by_cases hlt : f32Lt p (g k) = true
    · rw [if_pos hlt]
      refine ⟨fun i hi => ?_, Or.inr ⟨k, Nat.lt_succ_self k, rfl⟩, ?_, ?_⟩
      · by_cases hik : i = k
        · rw [hik]; exact f32Lt_irrefl _
        · cases hc : f32Lt (g k) (g i) with
          | false => rfl
          | true =>
            have := f32Lt_trans p (g k) (g i) hlt hc
            rw [hub i (by omega)] at this
            exact Bool.noConfusion this
      · intro h
        rw [h] at hlt
        cases p <;> simp [f32Lt] at hlt
      · intro h
        rw [h] at hlt
        cases p <;> simp [f32Lt] at hlt
    · rw [if_neg hlt]
      refine ⟨fun i hi => ?_, ?_, hnan, hninf⟩
      · by_cases hik : i = k
        · rw [hik]
          exact Bool.eq_false_iff.mpr hlt
        · exact hub i (by omega)
      · rcases hat with h | ⟨i, hi, h⟩
        · exact Or.inl h
        · exact Or.inr ⟨i, by omega, h⟩

theorem tailPeak_spec (samples : List F32) (probe : Nat) (hp : probe ≤ samples.length) :
    (∀ j, samples.length - probe ≤ j → j < samples.length →
        f32Lt (tailPeak samples probe) (f32Abs (samples.getD j (F32.fin 0))) = false) ∧
      (tailPeak samples probe = .fin 0 ∨
        ∃ j, samples.length - probe ≤ j ∧ j < samples.length ∧
          tailPeak samples probe = f32Abs (samples.getD j (F32.fin 0))) ∧
      tailPeak samples probe ≠ .nan ∧ tailPeak samples probe ≠ .ninf := by
  obtain ⟨h1, h2, h3, h4⟩ := peakFold_spec
    (fun i => f32Abs (samples.getD (samples.length - probe + i) (F32.fin 0))) probe
  refine ⟨fun j hj1 hj2 => ?_, ?_, h3, h4⟩
  · have := h1 (j - (samples.length - probe)) (by omega)
    rw [show samples.length - probe + (j - (samples.length - probe)) = j by omega] at this
    exact this
  · rcases h2 with h | ⟨i, hi, h⟩
    · exact Or.inl h
    · exact Or.inr ⟨samples.length - probe + i, by omega, by omega, h⟩

theorem kFadeThreshold_eq : kFadeThreshold = .fin (11744051 / 33554432) := by decide!

theorem isF32_grid (q : ℚ) (h : isF32 (.fin q) = true) (hq : 1 / 4 ≤ |q|) :
    ∃ M : Int, q = (M : ℚ) / 33554432 := by
  have hr : roundF32 q = .fin q := of_decide_eq_true h
  have hx : q ≠ 0 := by
    intro h0
    rw [h0] at hq
    norm_num at hq
  have hy : q = (roundHalfEven (q / ulp q) : ℚ) * ulp q := by
    unfold roundF32 at hr
    rw [if_neg hx] at hr
    by_cases c1 : pow2 128 ≤ (roundHalfEven (q / ulp q) : ℚ) * ulp q
    · rw [if_pos c1] at hr
      exact F32.noConfusion hr
    · rw [if_neg c1] at hr
      by_cases c2 : (roundHalfEven (q / ulp q) : ℚ) * ulp q ≤ -pow2 128
      · rw [if_pos c2] at hr
        exact F32.noConfusion hr
      · rw [if_neg c2] at hr
        injection hr with hr
        exact hr.symm
  obtain ⟨_, e2⟩ := binade_spec q hx
  have he : -2 ≤ binade q := by
    have h4 : pow2 (-2) = 1 / 4 := by decide!
    have : pow2 (-2) < pow2 (binade q + 1) := by
      rw [h4]
      exact lt_of_le_of_lt hq e2
    have := pow2_lt_inv _ _ this
    omega
  have hu : ulp q = ((2 ^ (binade q + 2).toNat : Nat) : ℚ) / 33554432 := by
    unfold ulp
    rw [max_eq_left (by omega), ← pow2_nat,
      show binade q - 23 = (((binade q + 2).toNat : Nat) : Int) + (-25) by omega, pow2_add]
    have h25 : pow2 (-25) = 1 / 33554432 := by decide!
    rw [h25]
    ring
  generalize roundHalfEven (q / ulp q) = m at hy
  refine ⟨m * ((2 ^ (binade q + 2).toNat : Nat) : Int), ?_⟩
  calc q = (m : ℚ) * ulp q := hy
    _ = ((m * ((2 ^ (binade q + 2).toNat : Nat) : Int) : Int) : ℚ) / 33554432 := by
      rw [hu]
      push_cast
      ring

theorem fadeMs_decimal (p : F32) (hp : p = .fin 0 ∨ ∃ x, isF32 x = true ∧ p = f32Abs x) :
    fadeMs p = if f32Lt (F32.fin (7 / 20)) p then 80 else 40 := by
  unfold fadeMs
  rw [kFadeThreshold_eq]
  have key : ∀ a : ℚ, isF32 (.fin a) = true →
      (f32Lt (F32.fin (11744051 / 33554432)) (.fin |a|) =
        f32Lt (F32.fin (7 / 20)) (.fin |a|)) := by
    intro a ha
    show decide ((11744051 / 33554432 : ℚ) < |a|) = decide ((7 / 20 : ℚ) < |a|)
    by_cases h1 : (7 / 20 : ℚ) < |a|
    · rw [decide_eq_true h1, decide_eq_true (by linarith)]
    · rw [decide_eq_false h1]
      by_cases h2 : (11744051 / 33554432 : ℚ) < |a|
      · exfalso
        obtain ⟨M, hM⟩ := isF32_grid a ha (by linarith)
        have habs : |a| = ((|M| : Int) : ℚ) / 33554432 := by
          rw [hM, abs_div, Int.cast_abs]
          norm_num
        rw [habs] at h1 h2
        have h3 : (11744051 : ℚ) < ((|M| : Int) : ℚ) := by
          by_contra hc
          have := div_le_div_of_nonneg_right (not_lt.mp hc)
            (by norm_num : (0 : ℚ) ≤ 33554432)
          linarith
        have h4 : (11744051 : Int) < |M| := by exact_mod_cast h3
        have h5 : (11744052 : Int) ≤ |M| := by omega
        have h6 : (11744052 : ℚ) ≤ ((|M| : Int) : ℚ) := by exact_mod_cast h5
        apply h1
        rw [lt_div_iff₀ (by norm_num)]
        linarith
      · rw [decide_eq_false h2]
  rcases hp with h | ⟨x, hx, h⟩
  · rw [h]
    have h1 : f32Lt (F32.fin (11744051 / 33554432)) (F32.fin 0) = false := by decide!
    have h2 : f32Lt (F32.fin (7 / 20)) (F32.fin 0) = false := by decide!
    rw [h1, h2]
  · rw [h]
    cases x with
    | fin a =>
      show (if f32Lt (F32.fin (11744051 / 33554432)) (.fin |a|) = true then 80 else 40) =
        if f32Lt (F32.fin (7 / 20)) (.fin |a|) = true then 80 else 40
      rw [key a hx]
    | pinf => rfl
    | ninf => rfl
    | nan => rfl

theorem fadeGain_zero (F : Nat) (h1 : 1 < F) (h2 : F ≤ 18446744073709551616) :
    fadeGain 0 F = .fin 1 := by
  obtain ⟨y, hy, hy1⟩ := f32OfNat_pos (F - 1) (by omega) (by omega)
  have hne : y ≠ 0 := by linarith
  unfold fadeGain
  rw [f32OfNat_zero, hy]
  show f32Mul (f32Sub (F32.fin 1) (if y = 0 then _ else roundF32 (0 / y)))
    (f32Sub (F32.fin 1) (if y = 0 then _ else roundF32 (0 / y))) = _
  rw [if_neg hne, zero_div, roundF32_zero]
  decide!

theorem fadeGain_last (F : Nat) (h1 : 1 < F) (h2 : F ≤ 18446744073709551616) :
    fadeGain (F - 1) F = .fin 0 := by
  obtain ⟨y, hy, hy1⟩ := f32OfNat_pos (F - 1) (by omega) (by omega)
  have hne : y ≠ 0 := by linarith
  unfold fadeGain
  rw [hy]
  show f32Mul (f32Sub (F32.fin 1) (if y = 0 then _ else roundF32 (y / y)))
    (f32Sub (F32.fin 1) (if y = 0 then _ else roundF32 (y / y))) = _
  rw [if_neg hne, div_self hne, roundF32_one]
  decide!

theorem f32Mul_zero (q : ℚ) : f32Mul (.fin q) (.fin 0) = .fin 0 := by
  show roundF32 (q * 0) = _
  rw [mul_zero, roundF32_zero]

theorem roundF32_err (x : ℚ) (hx : |x| ≤ pow2 127) :
    ∃ y, roundF32 x = .fin y ∧
      |y - x| ≤ |x| / 16777216 + 1 / 1427247692705959881058285969449495136382746624 ∧
      (pow2 (-126) ≤ |x| → |y - x| ≤ |x| / 16777216) := by
  by_cases h0 : x = 0
  · rw [h0, roundF32_zero]
    refine ⟨0, rfl, by norm_num, fun _ => by norm_num⟩
  · have hu : 0 < ulp x := pow2_pos _
    obtain ⟨e1, e2⟩ := binade_spec x h0
    have herr : |(roundHalfEven (x / ulp x) : ℚ) * ulp x - x| ≤ ulp x / 2 := by
      have h := roundHalfEven_err (x / ulp x)
      have : (roundHalfEven (x / ulp x) : ℚ) * ulp x - x =
          ((roundHalfEven (x / ulp x) : ℚ) - x / ulp x) * ulp x := by
        field_simp
      rw [this, abs_mul, abs_of_pos hu]
      calc |(roundHalfEven (x / ulp x) : ℚ) - x / ulp x| * ulp x ≤ 1 / 2 * ulp x :=
            mul_le_mul_of_nonneg_right h (le_of_lt hu)
        _ = ulp x / 2 := by ring
    have hnorm : -126 ≤ binade x → ulp x / 2 ≤ |x| / 16777216 := by
      intro he
      have : ulp x = pow2 (binade x) * pow2 (-23) := by
        unfold ulp
        rw [max_eq_left he, ← pow2_add]
        rfl
      have h23 : pow2 (-23) = 1 / 8388608 := by decide!
      rw [this, h23]
      linarith
    have hsub : binade x < -126 →
        ulp x / 2 = 1 / 1427247692705959881058285969449495136382746624 := by
      intro he
      have : ulp x = pow2 (-149) := by
        unfold ulp
        rw [max_eq_right (by omega)]
        rfl
      have h149 : pow2 (-149) = 1 / 713623846352979940529142984724747568191373312 := by
        decide!
      rw [this, h149]
      norm_num
    have hall : ulp x / 2 ≤
        |x| / 16777216 + 1 / 1427247692705959881058285969449495136382746624 := by
      have hx0 : 0 ≤ |x| := abs_nonneg x
      by_cases he : -126 ≤ binade x
      · have := hnorm he
        have : (0 : ℚ) ≤ 1 / 1427247692705959881058285969449495136382746624 := by norm_num
        linarith
      · have := hsub (by omega)
        have : (0 : ℚ) ≤ |x| / 16777216 := by positivity
        linarith
    have h127 : pow2 127 = 170141183460469231731687303715884105728 := by decide!
    have h128 : pow2 128 = 340282366920938463463374607431768211456 := by decide!
    have hy : |(roundHalfEven (x / ulp x) : ℚ) * ulp x| < pow2 128 := by
      have t1 : |(roundHalfEven (x / ulp x) : ℚ) * ulp x| ≤
          |(roundHalfEven (x / ulp x) : ℚ) * ulp x - x| + |x| := by
        have := abs_add ((roundHalfEven (x / ulp x) : ℚ) * ulp x - x) x
        rw [sub_add_cancel] at this
        exact this
      rw [h127] at hx
      rw [h128]
      have : |x| / 16777216 ≤ 170141183460469231731687303715884105728 / 16777216 :=
        div_le_div_of_nonneg_right hx (by norm_num)
      have : (1 : ℚ) / 1427247692705959881058285969449495136382746624 ≤ 1 := by norm_num
      linarith
    obtain ⟨y1, y2⟩ := abs_lt.mp hy
    refine ⟨(roundHalfEven (x / ulp x) : ℚ) * ulp x, ?_, le_trans herr hall, fun hn => ?_⟩
    · unfold roundF32
      rw [if_neg h0, if_neg (not_le.mpr y2), if_neg (by linarith)]
    · apply le_trans herr
      apply hnorm
      have : pow2 (-126) < pow2 (binade x + 1) := lt_of_le_of_lt hn e2
      have := pow2_lt_inv _ _ this
      omega

theorem f32OfNat_err (k : Nat) (h1 : 1 ≤ k) (h2 : k ≤ 18446744073709551616) :
    ∃ y, f32OfNat k = .fin y ∧ |y - (k : ℚ)| ≤ (k : ℚ) / 16777216 := by
  have hk1 : (1 : ℚ) ≤ (k : ℚ) := by exact_mod_cast h1
  have hk2 : (k : ℚ) ≤ 18446744073709551616 := by exact_mod_cast h2
  have habs : |(k : ℚ)| = (k : ℚ) := abs_of_pos (by linarith)
  have h127 : pow2 127 = 170141183460469231731687303715884105728 := by decide!
  have h126 : pow2 (-126) = 1 / 85070591730234615865843651857942052864 := by decide!
  obtain ⟨y, hy, _, hn⟩ := roundF32_err (k : ℚ) (by rw [habs, h127]; linarith)
  have := hn (by rw [habs, h126]; linarith)
  rw [habs] at this
  exact ⟨y, hy, this⟩

theorem quotient_err (A B iq kq : ℚ) (hi1 : 1 ≤ iq) (hik : iq ≤ kq)
    (hk : kq ≤ 18446744073709551616)
    (hA : |A - iq| ≤ iq / 16777216) (hB : |B - kq| ≤ kq / 16777216) :
    0 < B ∧ iq / kq - 3 / 16777216 ≤ A / B ∧ A / B ≤ iq / kq + 3 / 16777216 ∧
      1 / 85070591730234615865843651857942052864 ≤ A / B := by
  obtain ⟨a1, a2⟩ := abs_le.mp hA
  obtain ⟨b1, b2⟩ := abs_le.mp hB
  have hkpos : 0 < kq := by linarith
  have hBpos : 0 < B := by linarith
  have ht0 : 0 ≤ iq / kq := div_nonneg (by linarith) (le_of_lt hkpos)
  have htk : iq / kq * kq = iq := div_mul_cancel₀ iq (ne_of_gt hkpos)
  refine ⟨hBpos, ?_, ?_, ?_⟩
  · rw [le_div_iff₀ hBpos]
    by_cases hneg : iq / kq - 3 / 16777216 ≤ 0
    · have : (iq / kq - 3 / 16777216) * B ≤ 0 :=
        mul_nonpos_of_nonpos_of_nonneg hneg (le_of_lt hBpos)
      linarith
    · have hpos : 0 ≤ iq / kq - 3 / 16777216 := le_of_lt (not_le.mp hneg)
      have h1 : (iq / kq - 3 / 16777216) * B ≤
          (iq / kq - 3 / 16777216) * (kq + kq / 16777216) :=
        mul_le_mul_of_nonneg_left (by linarith) hpos
      have h2 : (iq / kq - 3 / 16777216) * (kq + kq / 16777216) =
          (iq - 3 / 16777216 * kq) * (1 + 1 / 16777216) := by
        have : (iq / kq - 3 / 16777216) * (kq + kq / 16777216) =
            (iq / kq * kq - 3 / 16777216 * kq) * (1 + 1 / 16777216) := by ring
        rw [this, htk]
      rw [h2] at h1
      have h3 : (iq - 3 / 16777216 * kq) * (1 + 1 / 16777216) ≤ iq - iq / 16777216 := by
        have : (iq - 3 / 16777216 * kq) * (1 + 1 / 16777216) =
            iq + iq / 16777216 - 3 / 16777216 * kq - 3 / 16777216 / 16777216 * kq := by ring
        rw [this]
        have : 0 ≤ 3 / 16777216 / 16777216 * kq := by positivity
        linarith
      linarith
  · rw [div_le_iff₀ hBpos]
    have hpos : 0 ≤ iq / kq + 3 / 16777216 := by linarith
    have h1 : (iq / kq + 3 / 16777216) * (kq - kq / 16777216) ≤
        (iq / kq + 3 / 16777216) * B :=
      mul_le_mul_of_nonneg_left (by linarith) hpos
    have h2 : (iq / kq + 3 / 16777216) * (kq - kq / 16777216) =
        (iq + 3 / 16777216 * kq) * (1 - 1 / 16777216) := by
      have : (iq / kq + 3 / 16777216) * (kq - kq / 16777216) =
          (iq / kq * kq + 3 / 16777216 * kq) * (1 - 1 / 16777216) := by ring
      rw [this, htk]
    rw [h2] at h1
    have h3 : iq + iq / 16777216 ≤ (iq + 3 / 16777216 * kq) * (1 - 1 / 16777216) := by
      have : (iq + 3 / 16777216 * kq) * (1 - 1 / 16777216) =
          iq - iq / 16777216 + 3 / 16777216 * kq - 3 / 16777216 / 16777216 * kq := by ring
      rw [this]
      have : 3 / 16777216 / 16777216 * kq ≤ 1 / 16777216 * kq := by
        apply mul_le_mul_of_nonneg_right (by norm_num) (le_of_lt hkpos)
      linarith
    linarith
  · have hA2 : (1 : ℚ) / 2 ≤ A := by linarith
    have hB2 : B ≤ 36893488147419103232 := by linarith
    calc (1 : ℚ) / 85070591730234615865843651857942052864
        ≤ (1 / 2) / 36893488147419103232 := by norm_num
      _ ≤ A / B := div_le_div₀ (by linarith) hA2 hBpos hB2

theorem fadeGain_accuracy (i F : Nat) (h1 : 1 < F) (hi : i < F)
    (h2 : F ≤ 18446744073709551616) :
    ∃ g : ℚ, fadeGain i F = .fin g ∧
      |g - (1 - (i : ℚ) / ((F - 1 : Nat) : ℚ)) ^ 2| ≤ 1 / 1048576 := by
  by_cases hi0 : i = 0
  · subst hi0
    refine ⟨1, fadeGain_zero F h1 h2, ?_⟩
    norm_num
  · obtain ⟨A, hA, hAe⟩ := f32OfNat_err i (by omega) (by omega)
    obtain ⟨B, hB, hBe⟩ := f32OfNat_err (F - 1) (by omega) (by omega)
    have hi1 : (1 : ℚ) ≤ (i : ℚ) := by exact_mod_cast (show 1 ≤ i by omega)
    have hik : (i : ℚ) ≤ ((F - 1 : Nat) : ℚ) := by exact_mod_cast (show i ≤ F - 1 by omega)
    have hk : ((F - 1 : Nat) : ℚ) ≤ 18446744073709551616 := by
      exact_mod_cast (show F - 1 ≤ 18446744073709551616 by omega)
    obtain ⟨hBpos, q1, q2, q3⟩ := quotient_err A B _ _ hi1 hik hk hAe hBe
    have hkpos : (0 : ℚ) < ((F - 1 : Nat) : ℚ) := by linarith
    have ht0 : 0 ≤ (i : ℚ) / ((F - 1 : Nat) : ℚ) := div_nonneg (by linarith) (le_of_lt hkpos)
    have ht1 : (i : ℚ) / ((F - 1 : Nat) : ℚ) ≤ 1 := (div_le_one hkpos).mpr hik
    generalize (i : ℚ) / ((F - 1 : Nat) : ℚ) = τ at q1 q2 ht0 ht1 ⊢
    have h127 : pow2 127 = 170141183460469231731687303715884105728 := by decide!
    have h126 : pow2 (-126) = 1 / 85070591730234615865843651857942052864 := by decide!
    have hQpos : 0 < A / B := by linarith
    have hQabs : |A / B| = A / B := abs_of_pos hQpos
    obtain ⟨t, ht, _, htn⟩ := roundF32_err (A / B) (by rw [hQabs, h127]; linarith)
    have hte := htn (by rw [hQabs, h126]; exact q3)
    rw [hQabs] at hte
    obtain ⟨t1, t2⟩ := abs_le.mp hte
    have hT1 : τ - 5 / 16777216 ≤ t := by linarith
    have hT2 : t ≤ τ + 5 / 16777216 := by linarith
    have h1t : |1 - t| ≤ 1 + 5 / 16777216 := by
      rw [abs_le]
      constructor <;> linarith
    obtain ⟨s, hs, hse, _⟩ := roundF32_err (1 - t) (by rw [h127]; linarith)
    obtain ⟨s1, s2⟩ := abs_le.mp hse
    have hS1 : 1 - τ - 7 / 16777216 ≤ s := by linarith
    have hS2 : s ≤ 1 - τ + 7 / 16777216 := by linarith
    have hsabs : |s| ≤ 1 + 7 / 16777216 := by
      rw [abs_le]
      constructor <;> linarith
    have hss : s * s ≤ 1 + 15 / 16777216 := by
      have := abs_mul_abs_self s
      have h3 : |s| * |s| ≤ (1 + 7 / 16777216) * (1 + 7 / 16777216) :=
        mul_le_mul hsabs hsabs (abs_nonneg s) (by norm_num)
      have h4 : (1 + 7 / 16777216 : ℚ) * (1 + 7 / 16777216) ≤ 1 + 15 / 16777216 := by
        norm_num
      linarith
    have hss0 : 0 ≤ s * s := mul_self_nonneg s
    have hssabs : |s * s| = s * s := abs_of_nonneg hss0
    obtain ⟨g, hg, hge, _⟩ := roundF32_err (s * s) (by rw [hssabs, h127]; linarith)
    rw [hssabs] at hge
    obtain ⟨g1, g2⟩ := abs_le.mp hge
    have hprod : |s * s - (1 - τ) ^ 2| ≤ 29 / 33554432 := by
      have hfac : s * s - (1 - τ) ^ 2 = (s - (1 - τ)) * (s + (1 - τ)) := by ring
      rw [hfac, abs_mul]
      have ha : |s - (1 - τ)| ≤ 7 / 16777216 := by
        rw [abs_le]
        constructor <;> linarith
      have hb : |s + (1 - τ)| ≤ 2 + 7 / 16777216 := by
        rw [abs_le]
        constructor <;> linarith
      calc |s - (1 - τ)| * |s + (1 - τ)| ≤ 7 / 16777216 * (2 + 7 / 16777216) :=
            mul_le_mul ha hb (abs_nonneg _) (by norm_num)
        _ ≤ 29 / 33554432 := by norm_num
    obtain ⟨p1, p2⟩ := abs_le.mp hprod
    refine ⟨g, ?_, ?_⟩
    · unfold fadeGain
      rw [hA, hB]
      show f32Mul (f32Sub (F32.fin 1) (if B = 0 then _ else roundF32 (A / B)))
        (f32Sub (F32.fin 1) (if B = 0 then _ else roundF32 (A / B))) = _
      rw [if_neg (ne_of_gt hBpos), ht]
      show f32Mul (roundF32 (1 - t)) (roundF32 (1 - t)) = _
      rw [hs]
      exact hg
    · rw [abs_le]
      constructor <;> linarith

theorem fadeMs_cases (p : F32) : fadeMs p = 40 ∨ fadeMs p = 80 := by
  unfold fadeMs
  by_cases h : f32Lt kFadeThreshold p = true
  · rw [if_pos h]; exact Or.inr rfl
  · rw [if_neg h]; exact Or.inl rfl

theorem isF32_getD (samples : List F32) (h : ∀ x ∈ samples, isF32 x = true) (j : Nat) :
    isF32 (samples.getD j (F32.fin 0)) = true := by
  rw [List.getD_eq_getElem?_getD]
  cases hg : samples[j]? with
  | none => decide!
  | some x => exact h x (List.getElem?_mem hg)

/-- C19 (counterexample): six samples at 100 Hz.  The window is the whole signal
(F = 6) and the sample at index 1 is 1, so the claim gives it the value
(1 - 1/5)^2 = 16/25; that number is not a binary32 value, its nearest binary32 value
is 10737418 / 2^24, and the code, which computes `t`, the gain and the product in
single precision, stores 10737419 / 2^24. -/
theorem declick_gain_rounded :
    (0 : Int) ≤ 100 ∧
      fadeWindow [.fin 1, .fin 1, .fin 1, .fin 1, .fin 1, .fin (1 / 2)] 100 = 6 ∧
      ([F32.fin 1, .fin 1, .fin 1, .fin 1, .fin 1, .fin (1 / 2)].getD 1 (F32.fin 0)) = .fin 1 ∧
      (1 : ℚ) * (1 - (1 : ℚ) / ((6 - 1 : Nat) : ℚ)) ^ 2 = 16 / 25 ∧
      isF32 (.fin (16 / 25)) = false ∧
      roundF32 (16 / 25) = .fin (10737418 / 16777216) ∧
      (declick [.fin 1, .fin 1, .fin 1, .fin 1, .fin 1, .fin (1 / 2)] 100).getD 1 (F32.fin 0) =
        .fin (10737419 / 16777216) ∧
      (declick [.fin 1, .fin 1, .fin 1, .fin 1, .fin 1, .fin (1 / 2)] 100).getD 1 (F32.fin 0) ≠
        .fin (16 / 25) := by
  decide!

/-- C19 (amended): for a sample rate that is not negative, (1) the probe is the last
min(n, floor(sample_rate / 100)) samples and the peak measured by the code is the
largest absolute value among them (0 when there is none); (2) for binary32 samples
the fade lasts 80 ms if the peak exceeds 0.35 and 40 ms otherwise; (3) the number of
faded samples is F = min(n, floor(sample_rate * ms / 1000)) and the length is unchanged;
(4) when F > 1 the i-th sample of the last F is multiplied, in single precision, by the
gain `(1 - t) * (1 - t)` with `t = i / (F - 1)` computed in single precision, which is
a finite value within 2^-20 of (1 - i / (F - 1))^2, equal to 1 at i = 0 and to 0 at
i = F - 1, so a finite last sample becomes exactly 0, and an infinite or NaN last
sample becomes NaN; (5) every sample before the window is unchanged, and when F ≤ 1
nothing changes. -/
theorem declick_fade (samples : List F32) (sample_rate : Int)
    (h0 : 0 ≤ sample_rate) (h1 : sample_rate ≤ 2147483647) :
    ((tailProbe samples.length sample_rate : Nat) : Int) =
        min (samples.length : Int) (sample_rate / 100) ∧
      (∀ j, samples.length - tailProbe samples.length sample_rate ≤ j → j < samples.length →
        f32Lt (probePeak samples sample_rate) (f32Abs (samples.getD j (F32.fin 0))) = false) ∧
      (probePeak samples sample_rate = .fin 0 ∨
        ∃ j, samples.length - tailProbe samples.length sample_rate ≤ j ∧ j < samples.length ∧
          probePeak samples sample_rate = f32Abs (samples.getD j (F32.fin 0))) ∧
      ((∀ x ∈ samples, isF32 x = true) →
        fadeMs (probePeak samples sample_rate) =
          if f32Lt (F32.fin (7 / 20)) (probePeak samples sample_rate) then 80 else 40) ∧
      ((fadeWindow samples sample_rate : Nat) : Int) =
        min (samples.length : Int)
          (sample_rate * (fadeMs (probePeak samples sample_rate) : Int) / 1000) ∧
      (declick samples sample_rate).length = samples.length ∧
      (1 < fadeWindow samples sample_rate →
        (∀ i, i < fadeWindow samples sample_rate →
          (declick samples sample_rate).getD
              (samples.length - fadeWindow samples sample_rate + i) (F32.fin 0) =
            f32Mul
              (samples.getD (samples.length - fadeWindow samples sample_rate + i) (F32.fin 0))
              (fadeGain i (fadeWindow samples sample_rate)) ∧
          ∃ g : ℚ, fadeGain i (fadeWindow samples sample_rate) = .fin g ∧
            |g - (1 - (i : ℚ) / ((fadeWindow samples sample_rate - 1 : Nat) : ℚ)) ^ 2| ≤
              1 / 1048576) ∧
        fadeGain 0 (fadeWindow samples sample_rate) = .fin 1 ∧
        fadeGain (fadeWindow samples sample_rate - 1) (fadeWindow samples sample_rate) =
          .fin 0 ∧
        (∀ q : ℚ, samples.getD (samples.length - 1) (F32.fin 0) = .fin q →
          (declick samples sample_rate).getD (samples.length - 1) (F32.fin 0) = .fin 0) ∧
        ((∀ q : ℚ, samples.getD (samples.length - 1) (F32.fin 0) ≠ .fin q) →
          (declick samples sample_rate).getD (samples.length - 1) (F32.fin 0) = .nan)) ∧
      (∀ j, j + fadeWindow samples sample_rate < samples.length →
        (declick samples sample_rate).getD j (F32.fin 0) = samples.getD j (F32.fin 0)) ∧
      (fadeWindow samples sample_rate ≤ 1 → declick samples sample_rate = samples) := by
  have hprobe := tailProbe_eq samples.length sample_rate h0 h1
  have hple : tailProbe samples.length sample_rate ≤ samples.length := by
    rw [hprobe]; exact min_le_left _ _
  obtain ⟨p1, p2, _, _⟩ := tailPeak_spec samples (tailProbe samples.length sample_rate) hple
  have hW : ((fadeWindow samples sample_rate : Nat) : Int) =
      min (samples.length : Int)
        (sample_rate * (fadeMs (probePeak samples sample_rate) : Int) / 1000) :=
    fadeSamples_eq _ _ _ (fadeMs_cases _) h0 h1
  have hle : fadeWindow samples sample_rate ≤ samples.length := by
    unfold fadeWindow fadeSamples
    exact min_le_left _ _
  have hlt : fadeWindow samples sample_rate < 18446744073709551616 := fadeSamples_lt _ _ _
  refine ⟨?_, p1, p2, fun hall => ?_, hW, declick_length _ _, fun hgt => ⟨fun i hi => ⟨?_, ?_⟩,
    fadeGain_zero _ hgt (le_of_lt hlt), fadeGain_last _ hgt (le_of_lt hlt), fun q hq => ?_,
    fun hq => ?_⟩, fun j hj => ?_, fun hle1 => ?_⟩
  · rw [hprobe]
    have : 0 ≤ sample_rate / 100 := Int.ediv_nonneg h0 (by decide)
    omega
  · apply fadeMs_decimal
    rcases p2 with h | ⟨j, _, _, h⟩
    · exact Or.inl h
    · exact Or.inr ⟨_, isF32_getD samples hall j, h⟩
  · unfold declick
    rw [fadeTail_spec _ _ hgt hle, if_pos (by omega)]
    congr 2
    omega
  · exact fadeGain_accuracy i _ hgt hi (le_of_lt hlt)
  · unfold declick
    rw [fadeTail_spec _ _ hgt hle, if_pos (by omega), hq,
      show samples.length - 1 - (samples.length - fadeWindow samples sample_rate) =
        fadeWindow samples sample_rate - 1 by omega,
      fadeGain_last _ hgt (le_of_lt hlt)]
    exact f32Mul_zero q
  · unfold declick
    rw [fadeTail_spec _ _ hgt hle, if_pos (by omega),
      show samples.length - 1 - (samples.length - fadeWindow samples sample_rate) =
        fadeWindow samples sample_rate - 1 by omega,
      fadeGain_last _ hgt (le_of_lt hlt)]
    cases hx : samples.getD (samples.length - 1) (F32.fin 0) with
    | fin q => exact absurd hx (hq q)
    | pinf => decide!
    | ninf => decide!
    | nan => rfl
  · unfold declick
    by_cases hgt2 : 1 < fadeWindow samples sample_rate
    · rw [fadeTail_spec _ _ hgt2 hle, if_neg (by omega)]
    · unfold fadeTail
      rw [if_neg hgt2]
  · unfold declick fadeTail
    rw [if_neg (by omega)]

/-- C19 (witness): six samples at 100 Hz; the tail peak 1/2 exceeds 0.35, so the
window is min(6, 8) = 6 samples; the gains are the single-precision values of
(1 - i / 5)^2 and the last sample becomes 0. -/
theorem declick_fade_witness :
    (0 ≤ (100 : Int) ∧ (100 : Int) ≤ 2147483647) ∧
      fadeWindow [.fin 1, .fin 1, .fin 1, .fin 1, .fin 1, .fin (1 / 2)] 100 = 6 ∧
      declick [.fin 1, .fin 1, .fin 1, .fin 1, .fin 1, .fin (1 / 2)] 100 =
        [.fin 1, .fin (10737419 / 16777216), .fin (3019899 / 8388608),
          .fin (10737417 / 67108864), .fin (10737417 / 268435456), .fin 0] ∧
      (declick [.fin 1, .fin 1, .fin 1, .fin 1, .fin 1, .fin (1 / 2)] 100).length =
        [F32.fin 1, .fin 1, .fin 1, .fin 1, .fin 1, .fin (1 / 2)].length ∧
      (declick [.fin 1, .fin 1, .fin 1, .fin 1, .fin 1, .fin (1 / 2)] 100).getD
        ([F32.fin 1, .fin 1, .fin 1, .fin 1, .fin 1, .fin (1 / 2)].length - 1) (F32.fin 0) =
          .fin 0 :=
  have h := declick_fade [.fin 1, .fin 1, .fin 1, .fin 1, .fin 1, .fin (1 / 2)] 100
    (by decide) (by decide)
  ⟨⟨by decide, by decide⟩, by decide!, by decide!, h.2.2.2.2.2.1,
    (h.2.2.2.2.2.2.1 (by decide!)).2.2.2.1 (1 / 2) rfl⟩

end QWEN3TTSUTILS

namespace QWEN3TTSUTILS

theorem Argmax_const {α : Type} [LinearOrder α] (data : Nat → α) (size : Int)
    (h : ∀ i, data i = data 0) : Argmax data size = 0 := by
  unfold Argmax
  obtain ⟨r, hr, _, _, hlt⟩ := Argmax_loop data (size.toNat - 1)
  rw [hr]
  by_cases h0 : r = 0
  · rw [h0]; rfl
  · have := hlt 0 (by omega)
    rw [h r] at this
    exact absurd this (lt_irrefl _)

theorem ArgmaxTalkerFirstCode_const {α : Type} [LinearOrder α] [Zero α] (data : Nat → α)
    (talker_vocab cp_vocab codec_eos_id : Int) (allow_eos : Bool)
    (h : ∀ i, data i = data 0) (h1 : 0 < talker_vocab) (h2 : 0 < cp_vocab) :
    ArgmaxTalkerFirstCode data talker_vocab cp_vocab codec_eos_id allow_eos = 0 := by
  have hs0 : isSuppressed cp_vocab codec_eos_id allow_eos 0 = false := by
    unfold isSuppressed
    have : ¬ cp_vocab ≤ 0 := by omega
    simp [this]
  unfold ArgmaxTalkerFirstCode ArgmaxTalkerLoop
  rcases ArgmaxTalkerLoop_inv data cp_vocab codec_eos_id allow_eos talker_vocab.toNat with
    ⟨_, hall⟩ | ⟨r, hr, _, _, _, hlt⟩
  · have := hall 0 (by omega)
    rw [hs0] at this
    exact absurd this (by simp)
  · rw [hr]
    by_cases h0 : r = 0
    · rw [h0]; rfl
    · have := hlt 0 (by omega) hs0
      rw [h r] at this
      exact absurd this (lt_irrefl _)

theorem ArgmaxTalkerFirstCode_peak (talker_vocab cp_vocab : Int) (e : Nat)
    (h1 : (e : Int) < talker_vocab) :
    ArgmaxTalkerFirstCode (fun i => if i = e then (1 : Int) else 0) talker_vocab cp_vocab
      (e : Int) true = (e : Int) := by
  have hse : isSuppressed cp_vocab (e : Int) true e = false := by
    unfold isSuppressed
    simp
  unfold ArgmaxTalkerFirstCode ArgmaxTalkerLoop
  rcases ArgmaxTalkerLoop_inv (fun i => if i = e then (1 : Int) else 0) cp_vocab (e : Int) true
      talker_vocab.toNat with ⟨_, hall⟩ | ⟨r, hr, _, _, hmax, _⟩
  · have := hall e (by omega)
    rw [hse] at this
    exact absurd this (by simp)
  · rw [hr]
    have := hmax e (by omega) hse
    by_cases hre : r = e
    · rw [hre]; rfl
    · simp only [if_neg hre, if_true] at this
      omega

end QWEN3TTSUTILS

namespace QWEN3TTS

open QWEN3TTSUTILS

theorem SelectCpCode_zero_logits (nth_element : List (Int × Int) → Nat → List (Int × Int))
    (temperature : Int) (top_k : Int) (rng : Option (List (Int × Int) → Nat)) :
    SelectCpCode nth_element (fun _ => (0 : Int)) kCpVocab false temperature top_k rng =
      some 0 := by
  unfold SelectCpCode
  rw [if_pos (Or.inl rfl), Argmax_const (fun _ => (0 : Int)) _ (fun _ => rfl)]

theorem SelectTalkerFirstCode_zero_logits
    (nth_element : List (Int × Int) → Nat → List (Int × Int)) (allow_eos : Bool)
    (temperature : Int) (top_k : Int) (rng : Option (List (Int × Int) → Nat)) :
    SelectTalkerFirstCode nth_element (fun _ => (0 : Int)) kTalkerVocab kCpVocab kCodecEosId
      allow_eos false temperature top_k rng = some 0 := by
  unfold SelectTalkerFirstCode
  rw [if_pos (Or.inl rfl), ArgmaxTalkerFirstCode_const (fun _ => (0 : Int)) _ _ _ _
    (fun _ => rfl) (by decide) (by decide)]

theorem SelectTalkerFirstCode_eos_logits
    (nth_element : List (Int × Int) → Nat → List (Int × Int))
    (temperature : Int) (top_k : Int) (rng : Option (List (Int × Int) → Nat)) :
    SelectTalkerFirstCode nth_element (fun i => if i = 2150 then (1 : Int) else 0)
      kTalkerVocab kCpVocab kCodecEosId true false temperature top_k rng = some 2150 := by
  unfold SelectTalkerFirstCode
  rw [if_pos (Or.inl rfl)]
  exact congrArg some (ArgmaxTalkerFirstCode_peak kTalkerVocab kCpVocab 2150 (by decide))

theorem cpLoop_step {α H K : Type} [LinearOrder α] [Zero α]
    (nth_element : List (α × Int) → Nat → List (α × Int))
    (rng : Nat → List (α × Int) → Nat)
    (P : GenerationParams α) (E : Engine α H K) (past_hidden : H)
    (n g : Nat) (prev_codes codec_ids : List Int) (calls : Nat) (pred : Int)
    (hsel : SelectCpCode nth_element (E.cp past_hidden (codec_ids.getD 0 0) prev_codes g)
        kCpVocab P.do_sample P.temperature P.top_k (some (rng calls)) = some pred)
    (hr : ¬ (pred < 0 ∨ pred ≥ kCpVocab)) :
    cpLoop nth_element rng P E past_hidden (n + 1) g prev_codes codec_ids calls =
      cpLoop nth_element rng P E past_hidden n (g + 1)
        (if g < kCodeGroups - 2 then prev_codes.set g pred else prev_codes)
        (codec_ids.set (g + 1) pred) (calls + 1) := by
  rw [cpLoop, hsel]
  simp only []
  rw [if_neg hr]

theorem generateVoice_run {α H K : Type} [LinearOrder α] [Zero α]
    (nth_element : List (α × Int) → Nat → List (α × Int))
    (rng : Nat → List (α × Int) → Nat)
    (input_ids instruct_ids : List Int) (P : GenerationParams α) (E : Engine α H K)
    (first_code : Int) (n : Nat)
    (hi : input_ids ≠ []) (hn : instruct_ids ≠ []) (ht : ¬ P.temperature < 0)
    (hk : ¬ P.top_k < 0) (h1 : ¬ P.tail_stop_repeat_frames < 0)
    (h2 : ¬ P.tail_stop_min_steps < 0) (h3 : ¬ P.eos_min_steps < 0)
    (h4 : ¬ resolveSteps P ≤ 0)
    (hsel : SelectTalkerFirstCode nth_element E.prefill_logits kTalkerVocab kCpVocab
        kCodecEosId (decide ((0 : Int) ≥ P.eos_min_steps)) P.do_sample P.temperature
        P.top_k (some (rng 0)) = some first_code)
    (hr : ¬ (first_code < 0 ∨ first_code ≥ kTalkerVocab))
    (hfuel : (resolveSteps P).toNat = n) :
    generateVoice nth_element rng true true (.ok (input_ids, instruct_ids)) P E =
      finishLoop P
        (decodeLoop nth_element rng P E (resolveSteps P) n 0 (List.replicate kCodeGroups 1)
          { current_first_code := first_code
            current_past_hidden := E.prefill_last_hidden
            past_cache := E.prefill_cache
            all_codes := []
            prev_generated_first_code := kInt64Min
            same_first_code_run := 0
            prev_frame := List.replicate kCodeGroups kInt64Min
            same_frame_run := 0
            calls := 1
            talker_runs := 0 }) := by
  unfold generateVoice
  rw [if_neg (by simp), if_neg (by simp)]
  simp only []
  rw [if_neg (not_or.mpr ⟨hi, hn⟩), if_neg ht, if_neg hk, if_neg h1, if_neg h2, if_neg h3,
    if_neg h4, hsel]
  simp only []
  rw [if_neg hr, hfuel]

theorem decodeLoop_emit {α H K : Type} [LinearOrder α] [Zero α]
    (nth_element : List (α × Int) → Nat → List (α × Int))
    (rng : Nat → List (α × Int) → Nat)
    (P : GenerationParams α) (E : Engine α H K) (steps : Int)
    (n s : Nat) (codec_ids0 : List Int) (st : LoopState H K)
    (codec_ids : List Int) (calls : Nat)
    (heos : ¬ (s > 0 ∧ st.current_first_code = kCodecEosId ∧ (s : Int) ≥ P.eos_min_steps))
    (hcp : cpLoop nth_element rng P E st.current_past_hidden (kCodeGroups - 1) 0
        (List.replicate (kCodeGroups - 2) 0) (codec_ids0.set 0 st.current_first_code)
        st.calls = .ok (codec_ids, calls))
    (htail : ¬ (P.tail_stop_repeat_frames > 0 ∧ ((s : Int) + 1) ≥ P.tail_stop_min_steps ∧
        (appendFrame st s codec_ids calls).same_frame_run ≥ P.tail_stop_repeat_frames))
    (hauto : ¬ (P.auto_stop_first_code_run > 0 ∧ ((s : Int) + 1) ≥ P.auto_stop_min_steps ∧
        (appendFrame st s codec_ids calls).same_first_code_run ≥
          P.auto_stop_first_code_run)) :
    decodeLoop nth_element rng P E steps (n + 1) s codec_ids0 st =
      if (s : Int) = steps - 1 then .ok (appendFrame st s codec_ids calls)
      else
        match SelectTalkerFirstCode nth_element
            (runTalker E (appendFrame st s codec_ids calls) s codec_ids).1
            kTalkerVocab kCpVocab kCodecEosId (decide (((s : Int) + 1) ≥ P.eos_min_steps))
            P.do_sample P.temperature P.top_k (some (rng calls)) with
        | none => .error .exception
        | some code =>
          if code < 0 ∨ code ≥ kTalkerVocab then .error (.fail (-1204))
          else
            decodeLoop nth_element rng P E steps n (s + 1) codec_ids
              { appendFrame st s codec_ids calls with
                current_first_code := code
                current_past_hidden :=
                  (runTalker E (appendFrame st s codec_ids calls) s codec_ids).2.1
                past_cache := (runTalker E (appendFrame st s codec_ids calls) s codec_ids).2.2
                calls := calls + 1
                talker_runs := st.talker_runs + 1 } := by
  rw [decodeLoop, if_neg heos, hcp]
  simp only []
  rw [if_neg htail, if_neg hauto]

theorem decodeLoop_last {α H K : Type} [LinearOrder α] [Zero α]
    (nth_element : List (α × Int) → Nat → List (α × Int))
    (rng : Nat → List (α × Int) → Nat)
    (P : GenerationParams α) (E : Engine α H K) (steps : Int)
    (n s : Nat) (codec_ids0 : List Int) (st : LoopState H K)
    (codec_ids : List Int) (calls : Nat) (st1 : LoopState H K)
    (heos : ¬ (s > 0 ∧ st.current_first_code = kCodecEosId ∧ (s : Int) ≥ P.eos_min_steps))
    (hcp : cpLoop nth_element rng P E st.current_past_hidden (kCodeGroups - 1) 0
        (List.replicate (kCodeGroups - 2) 0) (codec_ids0.set 0 st.current_first_code)
        st.calls = .ok (codec_ids, calls))
    (htail : ¬ (P.tail_stop_repeat_frames > 0 ∧ ((s : Int) + 1) ≥ P.tail_stop_min_steps ∧
        (appendFrame st s codec_ids calls).same_frame_run ≥ P.tail_stop_repeat_frames))
    (hauto : ¬ (P.auto_stop_first_code_run > 0 ∧ ((s : Int) + 1) ≥ P.auto_stop_min_steps ∧
        (appendFrame st s codec_ids calls).same_first_code_run ≥
          P.auto_stop_first_code_run))
    (hlast : (s : Int) = steps - 1)
    (hst : appendFrame st s codec_ids calls = st1) :
    decodeLoop nth_element rng P E steps (n + 1) s codec_ids0 st = .ok st1 := by
  rw [decodeLoop_emit nth_element rng P E steps n s codec_ids0 st codec_ids calls heos hcp
    htail hauto, if_pos hlast, hst]

theorem decodeLoop_continue {α H K : Type} [LinearOrder α] [Zero α]
    (nth_element : List (α × Int) → Nat → List (α × Int))
    (rng : Nat → List (α × Int) → Nat)
    (P : GenerationParams α) (E : Engine α H K) (steps : Int)
    (n s : Nat) (codec_ids0 : List Int) (st : LoopState H K)
    (codec_ids : List Int) (calls : Nat) (code : Int) (st1 : LoopState H K)
    (heos : ¬ (s > 0 ∧ st.current_first_code = kCodecEosId ∧ (s : Int) ≥ P.eos_min_steps))
    (hcp : cpLoop nth_element rng P E st.current_past_hidden (kCodeGroups - 1) 0
        (List.replicate (kCodeGroups - 2) 0) (codec_ids0.set 0 st.current_first_code)
        st.calls = .ok (codec_ids, calls))
    (htail : ¬ (P.tail_stop_repeat_frames > 0 ∧ ((s : Int) + 1) ≥ P.tail_stop_min_steps ∧
        (appendFrame st s codec_ids calls).same_frame_run ≥ P.tail_stop_repeat_frames))
    (hauto : ¬ (P.auto_stop_first_code_run > 0 ∧ ((s : Int) + 1) ≥ P.auto_stop_min_steps ∧
        (appendFrame st s codec_ids calls).same_first_code_run ≥
          P.auto_stop_first_code_run))
    (hlast : ¬ (s : Int) = steps - 1)
    (hsel : SelectTalkerFirstCode nth_element
        (runTalker E (appendFrame st s codec_ids calls) s codec_ids).1
        kTalkerVocab kCpVocab kCodecEosId (decide (((s : Int) + 1) ≥ P.eos_min_steps))
        P.do_sample P.temperature P.top_k (some (rng calls)) = some code)
    (hr : ¬ (code < 0 ∨ code ≥ kTalkerVocab))
    (hst : ({ appendFrame st s codec_ids calls with
          current_first_code := code
          current_past_hidden :=
            (runTalker E (appendFrame st s codec_ids calls) s codec_ids).2.1
          past_cache := (runTalker E (appendFrame st s codec_ids calls) s codec_ids).2.2
          calls := calls + 1
          talker_runs := st.talker_runs + 1 } : LoopState H K) = st1) :
    decodeLoop nth_element rng P E steps (n + 1) s codec_ids0 st =
      decodeLoop nth_element rng P E steps n (s + 1) codec_ids st1 := by
  rw [decodeLoop_emit nth_element rng P E steps n s codec_ids0 st codec_ids calls heos hcp
    htail hauto, if_neg hlast, hsel]
  simp only []
  rw [if_neg hr, hst]

theorem cpLoop_zero_engine (first : Int) (codec_ids : List Int) (calls : Nat)
    (h : codec_ids = first :: List.replicate 15 (codec_ids.getD 1 0)) :
    cpLoop nthElementSort (fun _ _ => 0) twoStepParams eosFirstEngine () 15 0
        (List.replicate 14 0) codec_ids calls =
      .ok (first :: List.replicate 15 0, calls + 15) := by
  rw [h]
  iterate 15 rw [cpLoop_step nthElementSort (fun _ _ => 0) twoStepParams eosFirstEngine ()
    _ _ _ _ _ 0 (SelectCpCode_zero_logits _ _ _ _) (by decide)]
  rfl

/-- C20 (counterexample): with `eos_min_steps = 0` (all parameters at their defaults,
`steps = 2`) and a model whose prefill logits select the EOS first code 2150,
`generateVoice` does not report error -1201: the loop emits frame 0 with first code
2150, runs the talker again, emits a second frame, and hands both frames to the
trimmer and the vocoder. -/
theorem generateVoice_eos_at_prefill :
    twoStepParams.eos_min_steps = 0 ∧
      SelectTalkerFirstCode nthElementSort eosFirstEngine.prefill_logits kTalkerVocab kCpVocab
        kCodecEosId true twoStepParams.do_sample twoStepParams.temperature
        twoStepParams.top_k (some (fun _ => 0)) = some 2150 ∧
      generateVoice nthElementSort (fun _ _ => 0) true true (.ok ([1], [2]))
        twoStepParams eosFirstEngine = .decoded (2150 :: List.replicate 31 0) 2 ∧
      generateVoice nthElementSort (fun _ _ => 0) true true (.ok ([1], [2]))
        twoStepParams eosFirstEngine ≠ .abort (.fail (-1201)) := by
  have key : generateVoice nthElementSort (fun _ _ => 0) true true (.ok ([1], [2]))
        twoStepParams eosFirstEngine = .decoded (2150 :: List.replicate 31 0) 2 := by
    rw [generateVoice_run nthElementSort (fun _ _ => 0) [1] [2] twoStepParams eosFirstEngine
      2150 (1 + 1) (by decide) (by decide) (by decide) (by decide) (by decide) (by decide)
      (by decide) (by decide) (SelectTalkerFirstCode_eos_logits _ _ _ _) (by decide)
      (by decide)]
    rw [decodeLoop_continue nthElementSort (fun _ _ => 0) twoStepParams eosFirstEngine
      (resolveSteps twoStepParams) 1 0 (List.replicate kCodeGroups 1)
      { current_first_code := 2150
        current_past_hidden := eosFirstEngine.prefill_last_hidden
        past_cache := eosFirstEngine.prefill_cache
        all_codes := []
        prev_generated_first_code := kInt64Min
        same_first_code_run := 0
        prev_frame := List.replicate kCodeGroups kInt64Min
        same_frame_run := 0
        calls := 1
        talker_runs := 0 }
      (2150 :: List.replicate 15 0) 16 0
      { current_first_code := 0
        current_past_hidden := ()
        past_cache := ()
        all_codes := 2150 :: List.replicate 15 0
        prev_generated_first_code := 2150
        same_first_code_run := 1
        prev_frame := 2150 :: List.replicate 15 0
        same_frame_run := 1
        calls := 17
        talker_runs := 1 }
      (by decide) (cpLoop_zero_engine 2150 _ 1 rfl) (by decide) (by decide) (by decide)
      (SelectTalkerFirstCode_zero_logits _ _ _ _ _) (by decide) rfl]
    rw [decodeLoop_last nthElementSort (fun _ _ => 0) twoStepParams eosFirstEngine
      (resolveSteps twoStepParams) 0 (0 + 1) (2150 :: List.replicate 15 0)
      { current_first_code := 0
        current_past_hidden := ()
        past_cache := ()
        all_codes := 2150 :: List.replicate 15 0
        prev_generated_first_code := 2150
        same_first_code_run := 1
        prev_frame := 2150 :: List.replicate 15 0
        same_frame_run := 1
        calls := 17
        talker_runs := 1 }
      (0 :: List.replicate 15 0) 32
      { current_first_code := 0
        current_past_hidden := ()
        past_cache := ()
        all_codes := 2150 :: List.replicate 31 0
        prev_generated_first_code := 0
        same_first_code_run := 1
        prev_frame := 0 :: List.replicate 15 0
        same_frame_run := 1
        calls := 32
        talker_runs := 1 }
      (by decide) (cpLoop_zero_engine 0 _ 17 rfl) (by decide) (by decide) (by decide) rfl]
    rfl
  refine ⟨rfl, SelectTalkerFirstCode_eos_logits _ _ _ _, key, ?_⟩
  rw [key]
  exact fun h => GenResult.noConfusion h

end QWEN3TTS

namespace QWEN3TTSUTILS

/-- C29 (counterexample): the lead byte 0xC3 followed by the non-continuation byte
0x41 is decoded as the codepoint 193 with `next_i = 2`, not as `?` with `next_i = 1`. -/
theorem DecodeUtf8At_no_continuation_check :
    (0 : Nat) < [0xC3, 0x41].length ∧ ¬ (0x80 ≤ 0x41 ∧ 0x41 < 0xC0) ∧
      DecodeUtf8At [0xC3, 0x41] 0 = (193, 2) ∧ DecodeUtf8At [0xC3, 0x41] 0 ≠ (63, 1) := by
  decide

/-- C29 (amended): for every byte string `s` and index `i < |s|`, `DecodeUtf8At`
returns the codepoint `?` (63) with `next_i = i + 1` when the byte at `i` is a stray
continuation byte (0x80..0xBF), a byte from 0xF8 on, or a lead byte of a 2-, 3- or
4-byte sequence with too few bytes left; a lead byte with enough bytes left is
decoded from the low bits of the following bytes and `next_i` advances by the sequence
length, whether or not those bytes are continuation bytes. -/
theorem DecodeUtf8At_malformed (s : List Nat) (i : Nat) (hi : i < s.length)
    (hb : byteAt s i < 256) :
    (((0x80 ≤ byteAt s i ∧ byteAt s i < 0xC0) ∨ 0xF8 ≤ byteAt s i ∨
        (0xC0 ≤ byteAt s i ∧ byteAt s i < 0xE0 ∧ s.length ≤ i + 1) ∨
        (0xE0 ≤ byteAt s i ∧ byteAt s i < 0xF0 ∧ s.length ≤ i + 2) ∨
        (0xF0 ≤ byteAt s i ∧ byteAt s i < 0xF8 ∧ s.length ≤ i + 3)) →
      DecodeUtf8At s i = (63, i + 1)) ∧
    (0xC0 ≤ byteAt s i ∧ byteAt s i < 0xE0 ∧ i + 1 < s.length →
      DecodeUtf8At s i =
        (((byteAt s i &&& 0x1F) <<< 6) ||| (byteAt s (i + 1) &&& 0x3F), i + 2)) ∧
    (0xE0 ≤ byteAt s i ∧ byteAt s i < 0xF0 ∧ i + 2 < s.length →
      DecodeUtf8At s i =
        (((byteAt s i &&& 0x0F) <<< 12) ||| ((byteAt s (i + 1) &&& 0x3F) <<< 6) |||
          (byteAt s (i + 2) &&& 0x3F), i + 3)) ∧
    (0xF0 ≤ byteAt s i ∧ byteAt s i < 0xF8 ∧ i + 3 < s.length →
      DecodeUtf8At s i =
        (((byteAt s i &&& 0x07) <<< 18) ||| ((byteAt s (i + 1) &&& 0x3F) <<< 12) |||
          ((byteAt s (i + 2) &&& 0x3F) <<< 6) ||| (byteAt s (i + 3) &&& 0x3F), i + 4)) := by
  have e5 : byteAt s i >>> 5 = byteAt s i / 32 := by rw [Nat.shiftRight_eq_div_pow]
  have e4 : byteAt s i >>> 4 = byteAt s i / 16 := by rw [Nat.shiftRight_eq_div_pow]
  have e3 : byteAt s i >>> 3 = byteAt s i / 8 := by rw [Nat.shiftRight_eq_div_pow]
  unfold DecodeUtf8At
  rw [if_neg (by omega)]
  dsimp only
  rw [e5, e4, e3]
  refine ⟨?_, ?_, ?_, ?_⟩
  · intro h
    rw [if_neg (by omega), if_neg (by omega), if_neg (by omega), if_neg (by omega)]
  · intro h
    rw [if_neg (by omega), if_pos (by omega)]
  · intro h
    rw [if_neg (by omega), if_neg (by omega), if_pos (by omega)]
  · intro h
    rw [if_neg (by omega), if_neg (by omega), if_neg (by omega), if_pos (by omega)]

/-- C29 (witness): a stray continuation byte followed by a letter. -/
theorem DecodeUtf8At_malformed_witness :
    DecodeUtf8At [0x80, 0x41] 0 = (63, 0 + 1) :=
  (DecodeUtf8At_malformed [0x80, 0x41] 0 (by decide) (by decide)).1 (Or.inl (by decide))

end QWEN3TTSUTILS

namespace QWEN3TTS

open QWEN3TTSUTILS

theorem contraction_len_of_not_apostrophe (s : List Nat) (pos : Nat)
    (h : toLowerByte (byteAt s pos) ≠ 39) : contraction_len s pos = 0 := by
  unfold contraction_len
  have hn : contractionTable.find? (fun c =>
      decide (pos + c.length ≤ s.length) &&
        (List.range c.length).all (fun k => toLowerByte (byteAt s (pos + k)) == c.getD k 0))
      = none := by
    rw [List.find?_eq_none]
    intro c hc
    unfold contractionTable at hc
    simp only [List.mem_cons, List.mem_singleton, List.not_mem_nil, or_false] at hc
    rcases hc with rfl | rfl | rfl | rfl | rfl | rfl | rfl <;>
      simp [List.range_succ, h]
  rw [hn]

theorem splitStep_digit (s : List Nat) (i : Nat) (hi : i < s.length)
    (hd : IsAsciiDigit (byteAt s i) = true) :
    splitStep s i = some ([byteAt s i], i + 1) := by
  unfold IsAsciiDigit at hd
  simp only [Bool.and_eq_true, decide_eq_true_eq] at hd
  have hc : contraction_len s i = 0 :=
    contraction_len_of_not_apostrophe s i (by unfold toLowerByte; split_ifs <;> omega)
  have hdec : DecodeUtf8At s i = (byteAt s i, i + 1) := by
    unfold DecodeUtf8At
    rw [if_neg (by omega)]
    dsimp only
    rw [if_pos (by omega)]
  have hl : IsLetter (byteAt s i) = false := by
    unfold IsLetter IsAsciiLetter
    rw [if_pos (by omega)]
    simp
    omega
  have hn : IsNumber (byteAt s i) = true := by
    unfold IsNumber IsAsciiDigit
    simp
    omega
  have hsub : substr s i (i + 1 - i) = [byteAt s i] := by
    unfold substr byteAt
    rw [show i + 1 - i = 1 by omega, List.getD_eq_getElem?_getD]
    rw [List.getElem?_eq_getElem hi]
    rw [List.drop_eq_getElem_cons hi]
    rfl
  unfold splitStep
  dsimp only
  rw [hc, hdec]
  dsimp only
  rw [if_neg (by omega), hl, hn]
  simp only [Bool.not_false, Bool.not_true, Bool.and_false, Bool.false_and, Bool.false_eq_true,
    if_false, if_true]
  rw [hsub]

theorem RegexLikeSplitLoop_digits (s : List Nat) (hs : ∀ d ∈ s, IsAsciiDigit d = true) :
    ∀ (fuel i : Nat) (out : List (List Nat)), i ≤ s.length → s.length - i ≤ fuel →
      RegexLikeSplitLoop s fuel i out = some (out ++ (s.drop i).map (fun d => [d])) := by
  intro fuel
  induction fuel with
  | zero =>
    intro i out hi hf
    have hi' : i = s.length := by omega
    unfold RegexLikeSplitLoop
    rw [if_neg (by omega), hi', List.drop_length]
    simp
  | succ f ih =>
    intro i out hi hf
    unfold RegexLikeSplitLoop
    by_cases hlt : i < s.length
    · have hb : byteAt s i = s[i] := by
        unfold byteAt
        rw [List.getD_eq_getElem?_getD, List.getElem?_eq_getElem hlt]
        rfl
      have hd : IsAsciiDigit (byteAt s i) = true := by
        rw [hb]
        exact hs _ (List.getElem_mem hlt)
      rw [if_pos hlt, splitStep_digit s i hlt hd]
      simp only []
      rw [ih (i + 1) _ (by omega) (by omega), hb]
      conv_rhs => rw [List.drop_eq_getElem_cons hlt]
      rw [List.map_cons, List.append_assoc]
      rfl
    · have hi' : i = s.length := by omega
      rw [if_neg hlt, hi', List.drop_length]
      simp

/-- C30 (counterexample): the two-digit input `12` is split into the two chunks `1`
and `2`, not into the single chunk `12`. -/
theorem RegexLikeSplit_two_digits :
    IsAsciiDigit 49 = true ∧ IsAsciiDigit 50 = true ∧
      RegexLikeSplit [49, 50] = some [[49], [50]] ∧
      RegexLikeSplit [49, 50] ≠ some [[49, 50]] := by
  decide

/-- C30 (amended): a chunk that starts at an ASCII digit consists of that digit
alone, so for every input that is a run of ASCII digits `RegexLikeSplit` returns one
chunk per digit, in order (a single chunk only for a single digit); a digit run
inside a text is likewise emitted digit by digit. -/
theorem RegexLikeSplit_digits (s : List Nat) (hs : ∀ d ∈ s, IsAsciiDigit d = true) :
    RegexLikeSplit s = some (s.map (fun d => [d])) ∧
      (s.length = 1 → RegexLikeSplit s = some [s]) ∧
      ∀ (t : List Nat) (i : Nat), i < t.length → IsAsciiDigit (byteAt t i) = true →
        splitStep t i = some ([byteAt t i], i + 1) := by
  have h := RegexLikeSplitLoop_digits s hs s.length 0 [] (Nat.zero_le _) (by omega)
  rw [List.nil_append, List.drop_zero] at h
  refine ⟨h, ?_, fun t i hi hd => splitStep_digit t i hi hd⟩
  intro h1
  unfold RegexLikeSplit
  rw [h]
  match s, h1 with
  | [d], _ => rfl

/-- C30 (witness): the input `123`. -/
theorem RegexLikeSplit_digits_witness :
    RegexLikeSplit [49, 50, 51] = some ([49, 50, 51].map (fun d => [d])) :=
  (RegexLikeSplit_digits [49, 50, 51] (by decide)).1

end QWEN3TTS

namespace QWEN3TTS

open QWEN3TTSUTILS

set_option maxRecDepth 1000000 in
/-- C28 (failing inputs): (a) on a fresh tokenizer, files whose vocabulary lacks the
newline token (the display string of the line feed) but whose config declares
`<|endoftext|>` are accepted: `LoadSafe` returns true with an empty error and
`newline_id_` is the end-of-text id, taken from the out-of-vocabulary fallback of
`Encode`; (b) on a tokenizer that was loaded before, files whose vocabulary lacks
`assistant` and `user` are accepted and `assistant_id_`, `user_id_` keep the ids of the
earlier load, while the same files are rejected on a fresh tokenizer. -/
theorem LoadSafe_unresolved_ids_accepted :
    ByteEncodeToken (InitByteEncoder freshTokenizer.byte_encoder_) [10] = [196, 138] ∧
      noNewlineFiles.vocab_entries.lookup [196, 138] = none ∧
      (LoadSafe freshTokenizer noNewlineFiles).map
          (fun r => (r.1, r.2.newline_id_, r.2.endoftext_id_)) =
        some ((true, ""), 99, 99) ∧
      noRoleFiles.vocab_entries.lookup [97, 115, 115, 105, 115, 116, 97, 110, 116] = none ∧
      noRoleFiles.vocab_entries.lookup [117, 115, 101, 114] = none ∧
      ((Load freshTokenizer completeFiles).bind (fun t => LoadSafe t noRoleFiles)).map
          (fun r => (r.1, r.2.assistant_id_, r.2.user_id_)) =
        some ((true, ""), 102, 103) ∧
      (LoadSafe freshTokenizer noRoleFiles).map (fun r => r.1) =
        some (false, "Tokenizer special ids resolution failed") := by
  decide!

end QWEN3TTS

namespace QWEN3TTS

open QWEN3TTSUTILS

/-! ### The decode loop, one iteration at a time -/

theorem decodeLoop_eq_loopRun {α H K : Type} [LinearOrder α] [Zero α]
    (nth_element : List (α × Int) → Nat → List (α × Int))
    (rng : Nat → List (α × Int) → Nat)
    (P : GenerationParams α) (E : Engine α H K) (steps : Int) :
    ∀ (fuel s : Nat) (codec_ids0 : List Int) (st : LoopState H K),
      decodeLoop nth_element rng P E steps fuel s codec_ids0 st =
        exitResult (loopRun nth_element rng P E steps fuel s codec_ids0 st) := by
  intro fuel
  induction fuel with
  | zero => intro s c st; rfl
  | succ n ih =>
    intro s c st
    rw [decodeLoop, loopRun, loopStep]
    by_cases heos : s > 0 ∧ st.current_first_code = kCodecEosId ∧ (s : Int) ≥ P.eos_min_steps
    · rw [if_pos heos, if_pos heos]
      rfl
    · rw [if_neg heos, if_neg heos]
      cases hcp : cpLoop nth_element rng P E st.current_past_hidden (kCodeGroups - 1) 0
          (List.replicate (kCodeGroups - 2) 0) (c.set 0 st.current_first_code) st.calls with
      | error a => rfl
      | ok r =>
        obtain ⟨codec_ids, calls⟩ := r
        simp only []
        by_cases htail : P.tail_stop_repeat_frames > 0 ∧
            ((s : Int) + 1) ≥ P.tail_stop_min_steps ∧
            (appendFrame st s codec_ids calls).same_frame_run ≥ P.tail_stop_repeat_frames
        · rw [if_pos htail, if_pos htail]
          rfl
        · rw [if_neg htail, if_neg htail]
          by_cases hauto : P.auto_stop_first_code_run > 0 ∧
              ((s : Int) + 1) ≥ P.auto_stop_min_steps ∧
              (appendFrame st s codec_ids calls).same_first_code_run ≥
                P.auto_stop_first_code_run
          · rw [if_pos hauto, if_pos hauto]
            rfl
          · rw [if_neg hauto, if_neg hauto]
            by_cases hlast : (s : Int) = steps - 1
            · rw [if_pos hlast, if_pos hlast]
              rfl
            · rw [if_neg hlast, if_neg hlast]
              cases hsel : SelectTalkerFirstCode nth_element
                  (runTalker E (appendFrame st s codec_ids calls) s codec_ids).1
                  kTalkerVocab kCpVocab kCodecEosId
                  (decide (((s : Int) + 1) ≥ P.eos_min_steps))
                  P.do_sample P.temperature P.top_k (some (rng calls)) with
              | none => rfl
              | some code =>
                simp only []
                by_cases hr : code < 0 ∨ code ≥ kTalkerVocab
                · rw [if_pos hr, if_pos hr]
                  rfl
                · rw [if_neg hr, if_neg hr]
                  exact ih (s + 1) codec_ids _

theorem loopStep_cases {α H K : Type} [LinearOrder α] [Zero α]
    (nth_element : List (α × Int) → Nat → List (α × Int))
    (rng : Nat → List (α × Int) → Nat)
    (P : GenerationParams α) (E : Engine α H K) (steps : Int)
    (s : Nat) (c : List Int) (st : LoopState H K) :
    ((s > 0 ∧ st.current_first_code = kCodecEosId ∧ (s : Int) ≥ P.eos_min_steps) ∧
        loopStep nth_element rng P E steps s c st = .exit (.eos st)) ∨
      (¬ (s > 0 ∧ st.current_first_code = kCodecEosId ∧ (s : Int) ≥ P.eos_min_steps) ∧
        ((∃ a, cpLoop nth_element rng P E st.current_past_hidden (kCodeGroups - 1) 0
              (List.replicate (kCodeGroups - 2) 0) (c.set 0 st.current_first_code) st.calls =
              .error a ∧
            loopStep nth_element rng P E steps s c st = .exit (.abort a st)) ∨
          ∃ codec_ids calls,
            cpLoop nth_element rng P E st.current_past_hidden (kCodeGroups - 1) 0
              (List.replicate (kCodeGroups - 2) 0) (c.set 0 st.current_first_code) st.calls =
              .ok (codec_ids, calls) ∧
            ((StopTest P steps s (appendFrame st s codec_ids calls) ∧
                loopStep nth_element rng P E steps s c st =
                  .exit (.stop (appendFrame st s codec_ids calls))) ∨
              (¬ StopTest P steps s (appendFrame st s codec_ids calls) ∧
                ((SelectTalkerFirstCode nth_element
                      (runTalker E (appendFrame st s codec_ids calls) s codec_ids).1
                      kTalkerVocab kCpVocab kCodecEosId
                      (decide (((s : Int) + 1) ≥ P.eos_min_steps))
                      P.do_sample P.temperature P.top_k (some (rng calls)) = none ∧
                    loopStep nth_element rng P E steps s c st =
                      .exit (.abort .exception (nextState E st s codec_ids calls 0))) ∨
                  ∃ code,
                    SelectTalkerFirstCode nth_element
                      (runTalker E (appendFrame st s codec_ids calls) s codec_ids).1
                      kTalkerVocab kCpVocab kCodecEosId
                      (decide (((s : Int) + 1) ≥ P.eos_min_steps))
                      P.do_sample P.temperature P.top_k (some (rng calls)) = some code ∧
                    (((code < 0 ∨ code ≥ kTalkerVocab) ∧
                        loopStep nth_element rng P E steps s c st =
                          .exit (.abort (.fail (-1204))
                            (nextState E st s codec_ids calls code))) ∨
                      (¬ (code < 0 ∨ code ≥ kTalkerVocab) ∧
                        loopStep nth_element rng P E steps s c st =
                          .next codec_ids (nextState E st s codec_ids calls code)))))))) := by
  unfold loopStep StopTest
  by_cases heos : s > 0 ∧ st.current_first_code = kCodecEosId ∧ (s : Int) ≥ P.eos_min_steps
  · left
    exact ⟨heos, by rw [if_pos heos]⟩
  · right
    refine ⟨heos, ?_⟩
    rw [if_neg heos]
    cases hcp : cpLoop nth_element rng P E st.current_past_hidden (kCodeGroups - 1) 0
        (List.replicate (kCodeGroups - 2) 0) (c.set 0 st.current_first_code) st.calls with
    | error a => left; exact ⟨a, rfl, rfl⟩
    | ok r =>
      obtain ⟨codec_ids, calls⟩ := r
      right
      refine ⟨codec_ids, calls, rfl, ?_⟩
      simp only []
      by_cases htail : P.tail_stop_repeat_frames > 0 ∧
          ((s : Int) + 1) ≥ P.tail_stop_min_steps ∧
          (appendFrame st s codec_ids calls).same_frame_run ≥ P.tail_stop_repeat_frames
      · left
        exact ⟨Or.inl htail, by rw [if_pos htail]⟩
      · rw [if_neg htail]
        by_cases hauto : P.auto_stop_first_code_run > 0 ∧
            ((s : Int) + 1) ≥ P.auto_stop_min_steps ∧
            (appendFrame st s codec_ids calls).same_first_code_run ≥
              P.auto_stop_first_code_run
        · left
          exact ⟨Or.inr (Or.inl hauto), by rw [if_pos hauto]⟩
        · rw [if_neg hauto]
          by_cases hlast : (s : Int) = steps - 1
          · left
            exact ⟨Or.inr (Or.inr hlast), by rw [if_pos hlast]⟩
          · rw [if_neg hlast]
            right
            refine ⟨fun h => ?_, ?_⟩
            · rcases h with h | h | h
              · exact htail h
              · exact hauto h
              · exact hlast h
            · cases hsel : SelectTalkerFirstCode nth_element
                  (runTalker E (appendFrame st s codec_ids calls) s codec_ids).1
                  kTalkerVocab kCpVocab kCodecEosId
                  (decide (((s : Int) + 1) ≥ P.eos_min_steps))
                  P.do_sample P.temperature P.top_k (some (rng calls)) with
              | none => left; exact ⟨rfl, rfl⟩
              | some code =>
                right
                refine ⟨code, rfl, ?_⟩
                simp only []
                by_cases hr : code < 0 ∨ code ≥ kTalkerVocab
                · left
                  exact ⟨hr, by rw [if_pos hr]⟩
                · right
                  exact ⟨hr, by rw [if_neg hr]⟩

theorem getD_set_eq (l : List Int) (i j : Nat) (a : Int) :
    (l.set i a).getD j 0 = if i = j ∧ i < l.length then a else l.getD j 0 := by
  rw [List.getD_eq_getElem?_getD, List.getElem?_set, List.getD_eq_getElem?_getD]
  by_cases h : i = j
  · rw [if_pos h]
    by_cases h2 : i < l.length
    · rw [if_pos h2, if_pos ⟨h, h2⟩]
      rfl
    · rw [if_neg h2, if_neg (fun hh => h2 hh.2)]
      subst h
      rw [List.getElem?_eq_none (by omega)]
  · rw [if_neg h, if_neg (fun hh => h hh.1)]

theorem cpLoop_ok_spec {α H K : Type} [LinearOrder α] [Zero α]
    (nth_element : List (α × Int) → Nat → List (α × Int))
    (rng : Nat → List (α × Int) → Nat)
    (P : GenerationParams α) (E : Engine α H K) (past_hidden : H) :
    ∀ (n g : Nat) (prev_codes codec_ids : List Int) (calls : Nat) (codec_out : List Int)
      (calls_out : Nat),
      cpLoop nth_element rng P E past_hidden n g prev_codes codec_ids calls =
        .ok (codec_out, calls_out) →
      codec_out.length = codec_ids.length ∧ calls_out = calls + n ∧
        (∀ j, j ≤ g ∨ g + n < j → codec_out.getD j 0 = codec_ids.getD j 0) ∧
        (∀ j, g < j → j ≤ g + n → j < codec_ids.length →
          0 ≤ codec_out.getD j 0 ∧ codec_out.getD j 0 < kCpVocab) := by
  intro n
  induction n with
  | zero =>
    intro g prev codec calls co cao h
    rw [cpLoop] at h
    injection h with h
    injection h with h1 h2
    subst h1
    subst h2
    exact ⟨rfl, rfl, fun _ _ => rfl, fun j h1 h2 _ => by omega⟩
  | succ n ih =>
    intro g prev codec calls co cao h
    rw [cpLoop] at h
    cases hsel : SelectCpCode nth_element (E.cp past_hidden (codec.getD 0 0) prev g)
        kCpVocab P.do_sample P.temperature P.top_k (some (rng calls)) with
    | none =>
      rw [hsel] at h
      exact absurd h (by simp)
    | some pred =>
      rw [hsel] at h
      simp only [] at h
      by_cases hr : pred < 0 ∨ pred ≥ kCpVocab
      · rw [if_pos hr] at h
        exact absurd h (by simp)
      · rw [if_neg hr] at h
        obtain ⟨h1, h2, h3, h4⟩ := ih _ _ _ _ _ _ h
        rw [List.length_set] at h1 h4
        refine ⟨h1, by omega, ?_, ?_⟩
        · intro j hj
          rw [h3 j (by omega), getD_set_eq, if_neg (by omega)]
        · intro j hj1 hj2 hj3
          by_cases hj : j = g + 1
          · rw [h3 j (by omega), getD_set_eq, if_pos ⟨by omega, by omega⟩]
            omega
          · exact h4 j (by omega) (by omega) hj3

/-! ### Frames and terminal runs -/

theorem frameAt_append_left (all codec : List Int) (s k : Nat)
    (hl : all.length = kCodeGroups * s) (hk : k < s) :
    frameAt (all ++ codec) k = frameAt all k := by
  unfold frameAt
  unfold kCodeGroups at hl ⊢
  have h1 : k * 16 ≤ all.length := by omega
  rw [List.drop_append_of_le_length h1, List.take_append_of_le_length]
  rw [List.length_drop]
  omega

theorem frameAt_append_right (all codec : List Int) (s : Nat)
    (hl : all.length = kCodeGroups * s) (hc : codec.length = kCodeGroups) :
    frameAt (all ++ codec) s = codec := by
  unfold frameAt
  rw [List.drop_left' (by rw [hl, Nat.mul_comm]), List.take_of_length_le (by omega)]

theorem framesOf_append (all codec : List Int) (s : Nat)
    (hl : all.length = kCodeGroups * s) (hc : codec.length = kCodeGroups) :
    framesOf (all ++ codec) = framesOf all ++ [codec] := by
  unfold framesOf
  have h1 : (all ++ codec).length / kCodeGroups = s + 1 := by
    rw [List.length_append, hl, hc]
    unfold kCodeGroups
    omega
  have h2 : all.length / kCodeGroups = s := by
    rw [hl]
    unfold kCodeGroups
    omega
  rw [h1, h2, List.range_succ, List.map_append, List.map_singleton,
    frameAt_append_right all codec s hl hc]
  congr 1
  apply List.map_congr_left
  intro k hk
  exact frameAt_append_left all codec s k hl (List.mem_range.mp hk)

theorem frameFirstCodes_append (all codec : List Int) (s : Nat)
    (hl : all.length = kCodeGroups * s) (hc : codec.length = kCodeGroups) :
    frameFirstCodes (all ++ codec) kCodeGroups =
      frameFirstCodes all kCodeGroups ++ [codec.getD 0 0] := by
  unfold frameFirstCodes
  have h1 : (all ++ codec).length / kCodeGroups = s + 1 := by
    rw [List.length_append, hl, hc]
    unfold kCodeGroups
    omega
  have h2 : all.length / kCodeGroups = s := by
    rw [hl]
    unfold kCodeGroups
    omega
  rw [h1, h2, List.range_succ, List.map_append, List.map_singleton]
  congr 1
  · apply List.map_congr_left
    intro k hk
    have hk' := List.mem_range.mp hk
    rw [List.getD_append _ _ _ _ (by rw [hl]; unfold kCodeGroups; omega)]
  · rw [List.getD_append_right _ _ _ _ (by rw [hl, Nat.mul_comm])]
    congr 2
    rw [hl, Nat.mul_comm]
    omega

theorem terminalRunOf_concat {β : Type} [DecidableEq β] (fs : List β) (f : β) :
    terminalRunOf (fs ++ [f]) = if fs.getLast? = some f then terminalRunOf fs + 1 else 1 := by
  rcases List.eq_nil_or_concat fs with rfl | ⟨init, x, rfl⟩
  · rfl
  · rw [List.concat_eq_append, List.getLast?_concat]
    unfold terminalRunOf
    simp only [List.reverse_append, List.reverse_cons, List.reverse_nil, List.nil_append,
      List.singleton_append]
    by_cases hx : x = f
    · subst hx
      rw [if_pos rfl, List.takeWhile_cons_of_pos (by simp)]
      simp only [List.length_cons]
      omega
    · rw [if_neg (fun h => hx (Option.some.inj h)), List.takeWhile_cons_of_neg (by simpa using hx)]
      rfl

theorem getLast?_map_range {β : Type} (f : Nat → β) (s : Nat) (hs : 0 < s) :
    ((List.range s).map f).getLast? = some (f (s - 1)) := by
  obtain ⟨n, rfl⟩ : ∃ n, s = n + 1 := ⟨s - 1, by omega⟩
  rw [List.range_succ, List.map_append, List.map_singleton, List.getLast?_concat]
  rfl

theorem terminalRun_eq (l : List Int) : terminalRun l = terminalRunOf l := by
  unfold terminalRun terminalRunOf
  cases l.reverse with
  | nil => rfl
  | cons x rest => simp only []

/-! ### The invariant of the decode loop -/

theorem loopStep_next_inv {α H K : Type} [LinearOrder α] [Zero α]
    (nth_element : List (α × Int) → Nat → List (α × Int))
    (rng : Nat → List (α × Int) → Nat)
    (P : GenerationParams α) (E : Engine α H K) (steps : Int)
    (s : Nat) (c : List Int) (st : LoopState H K) (c1 : List Int) (st1 : LoopState H K)
    (h : loopStep nth_element rng P E steps s c st = .next c1 st1) :
    ¬ (s > 0 ∧ st.current_first_code = kCodecEosId ∧ (s : Int) ≥ P.eos_min_steps) ∧
      ∃ calls code,
        cpLoop nth_element rng P E st.current_past_hidden (kCodeGroups - 1) 0
          (List.replicate (kCodeGroups - 2) 0) (c.set 0 st.current_first_code) st.calls =
          .ok (c1, calls) ∧
        ¬ StopTest P steps s (appendFrame st s c1 calls) ∧
        SelectTalkerFirstCode nth_element
          (runTalker E (appendFrame st s c1 calls) s c1).1
          kTalkerVocab kCpVocab kCodecEosId (decide (((s : Int) + 1) ≥ P.eos_min_steps))
          P.do_sample P.temperature P.top_k (some (rng calls)) = some code ∧
        ¬ (code < 0 ∨ code ≥ kTalkerVocab) ∧ st1 = nextState E st s c1 calls code := by
  rcases loopStep_cases nth_element rng P E steps s c st with
    ⟨_, h1⟩ | ⟨hne, ⟨a, _, h1⟩ | ⟨codec, calls, hcp, ⟨_, h1⟩ | ⟨hns, ⟨_, h1⟩ |
      ⟨code, hsel, ⟨_, h1⟩ | ⟨hr, h1⟩⟩⟩⟩⟩
  · rw [h1] at h; exact StepResult.noConfusion h
  · rw [h1] at h; exact StepResult.noConfusion h
  · rw [h1] at h; exact StepResult.noConfusion h
  · rw [h1] at h; exact StepResult.noConfusion h
  · rw [h1] at h; exact StepResult.noConfusion h
  · rw [h1] at h
    injection h with h2 h3
    subst h2
    exact ⟨hne, calls, code, hcp, hns, hsel, hr, h3.symm⟩

theorem appendFrame_runs {α H K : Type} [LinearOrder α] [Zero α]
    (nth_element : List (α × Int) → Nat → List (α × Int))
    (rng : Nat → List (α × Int) → Nat)
    (P : GenerationParams α) (E : Engine α H K) (steps : Int)
    (s : Nat) (c : List Int) (st : LoopState H K) (codec : List Int) (calls : Nat)
    (hinv : LoopInv steps s c st)
    (hcp : cpLoop nth_element rng P E st.current_past_hidden (kCodeGroups - 1) 0
        (List.replicate (kCodeGroups - 2) 0) (c.set 0 st.current_first_code) st.calls =
        .ok (codec, calls)) :
    codec.length = kCodeGroups ∧ codec.getD 0 0 = st.current_first_code ∧
      (∀ j, 1 ≤ j → j < kCodeGroups → 0 ≤ codec.getD j 0 ∧ codec.getD j 0 < kCpVocab) ∧
      (appendFrame st s codec calls).all_codes.length = kCodeGroups * (s + 1) ∧
      (appendFrame st s codec calls).prev_frame =
        frameAt (appendFrame st s codec calls).all_codes s ∧
      (appendFrame st s codec calls).prev_generated_first_code =
        (appendFrame st s codec calls).all_codes.getD (s * kCodeGroups) 0 ∧
      (appendFrame st s codec calls).same_frame_run =
        ((terminalRunOf (framesOf (appendFrame st s codec calls).all_codes) : Nat) : Int) ∧
      (appendFrame st s codec calls).same_first_code_run =
        ((terminalRun (frameFirstCodes (appendFrame st s codec calls).all_codes kCodeGroups) :
          Nat) : Int) := by
  obtain ⟨hc, hl, _, _, hf0, hf1, hz, hp⟩ := hinv
  obtain ⟨h1, _, h3, h4⟩ := cpLoop_ok_spec nth_element rng P E _ _ _ _ _ _ _ _ hcp
  rw [List.length_set] at h1 h4
  have hclen : codec.length = kCodeGroups := h1.trans hc
  have hc0 : codec.getD 0 0 = st.current_first_code := by
    rw [h3 0 (Or.inl (Nat.le_refl _)), getD_set_eq, if_pos ⟨rfl, by rw [hc]; decide⟩]
  have hall : (appendFrame st s codec calls).all_codes = st.all_codes ++ codec := rfl
  have hpf : (appendFrame st s codec calls).prev_frame = codec := rfl
  have hpg : (appendFrame st s codec calls).prev_generated_first_code = codec.getD 0 0 := rfl
  have hsf : (appendFrame st s codec calls).same_frame_run =
      if s > 0 ∧ codec = st.prev_frame then st.same_frame_run + 1 else 1 := rfl
  have hsc : (appendFrame st s codec calls).same_first_code_run =
      if codec.getD 0 0 = st.prev_generated_first_code then st.same_first_code_run + 1
      else 1 := rfl
  rw [hall, hpf, hpg, hsf, hsc, framesOf_append _ _ s hl hclen,
    frameFirstCodes_append _ _ s hl hclen, frameAt_append_right _ _ s hl hclen]
  have hterm : ∀ l : List Int, terminalRun l = terminalRunOf l := terminalRun_eq
  rw [hterm, terminalRunOf_concat, terminalRunOf_concat]
  refine ⟨hclen, hc0, ?_, ?_, rfl, ?_, ?_, ?_⟩
  · intro j hj1 hj2
    exact h4 j (by omega) (by unfold kCodeGroups at hj2 ⊢; omega) (by rw [hc]; exact hj2)
  · rw [List.length_append, hl, hclen]
    unfold kCodeGroups
    omega
  · rw [List.getD_append_right _ _ _ _ (by rw [hl, Nat.mul_comm])]
    congr 1
    rw [hl, Nat.mul_comm]
    omega
  · by_cases hs : 0 < s
    · obtain ⟨hp1, _, hp3, _⟩ := hp hs
      have hlast : (framesOf st.all_codes).getLast? = some st.prev_frame := by
        unfold framesOf
        rw [hp1, show st.all_codes.length / kCodeGroups = s by
          rw [hl]; unfold kCodeGroups; omega]
        exact getLast?_map_range _ s hs
      rw [hlast]
      by_cases he : codec = st.prev_frame
      · rw [if_pos ⟨hs, he⟩, if_pos (by rw [he]), hp3]
        push_cast
        rfl
      · rw [if_neg (fun h => he h.2), if_neg (fun h => he (Option.some.inj h).symm)]
        rfl
    · have hs0 : s = 0 := by omega
      have hnil : framesOf st.all_codes = [] := by
        unfold framesOf
        rw [hl, hs0]
        rfl
      rw [if_neg (fun h => hs h.1), hnil]
      rfl
  · by_cases hs : 0 < s
    · obtain ⟨_, hp2, _, hp4⟩ := hp hs
      have hlast : (frameFirstCodes st.all_codes kCodeGroups).getLast? =
          some st.prev_generated_first_code := by
        unfold frameFirstCodes
        rw [hp2, show st.all_codes.length / kCodeGroups = s by
          rw [hl]; unfold kCodeGroups; omega]
        exact getLast?_map_range _ s hs
      rw [hlast]
      by_cases he : codec.getD 0 0 = st.prev_generated_first_code
      · rw [if_pos he, if_pos (by rw [he]), hp4, hterm]
        push_cast
        rfl
      · rw [if_neg he, if_neg (fun h => he (Option.some.inj h).symm)]
        rfl
    · have hs0 : s = 0 := by omega
      have hnil : frameFirstCodes st.all_codes kCodeGroups = [] := by
        unfold frameFirstCodes
        rw [hl, hs0]
        rfl
      have hne : ¬ codec.getD 0 0 = st.prev_generated_first_code := by
        rw [hc0, hz hs0]
        unfold kInt64Min
        omega
      rw [if_neg hne, hnil]
      rfl

theorem LoopInv_init {α H K : Type} (E : Engine α H K) (steps : Int) (first_code : Int)
    (hsteps : 0 < steps) (h0 : 0 ≤ first_code) (h1 : first_code < kTalkerVocab) :
    LoopInv steps 0 (List.replicate kCodeGroups 1) (initState E first_code) :=
  ⟨List.length_replicate _ _, rfl, rfl, hsteps, h0, h1, fun _ => rfl,
    fun h => absurd h (Nat.lt_irrefl 0)⟩

theorem LoopInv_next {α H K : Type} [LinearOrder α] [Zero α]
    (nth_element : List (α × Int) → Nat → List (α × Int))
    (rng : Nat → List (α × Int) → Nat)
    (P : GenerationParams α) (E : Engine α H K) (steps : Int)
    (s : Nat) (c : List Int) (st : LoopState H K) (c1 : List Int) (st1 : LoopState H K)
    (hinv : LoopInv steps s c st)
    (h : loopStep nth_element rng P E steps s c st = .next c1 st1) :
    LoopInv steps (s + 1) c1 st1 := by
  obtain ⟨_, calls, code, hcp, hns, _, hr, rfl⟩ :=
    loopStep_next_inv nth_element rng P E steps s c st c1 st1 h
  obtain ⟨hclen, _, _, hlen, hpf, hpg, hsf, hsc⟩ :=
    appendFrame_runs nth_element rng P E steps s c st c1 calls hinv hcp
  obtain ⟨_, _, htr, hlt, _, _, _, _⟩ := hinv
  have hlast : ¬ (s : Int) = steps - 1 := fun h => hns (Or.inr (Or.inr h))
  have hcf : (nextState E st s c1 calls code).current_first_code = code := rfl
  refine ⟨hclen, hlen, ?_, by push_cast; omega, by rw [hcf]; omega, by rw [hcf]; omega,
    fun h => absurd h (Nat.succ_ne_zero s), fun _ => ⟨hpf, hpg, hsf, hsc⟩⟩
  show st.talker_runs + 1 = s + 1
  rw [htr]

theorem loopHead_succ_inv {α H K : Type} [LinearOrder α] [Zero α]
    (nth_element : List (α × Int) → Nat → List (α × Int))
    (rng : Nat → List (α × Int) → Nat)
    (P : GenerationParams α) (E : Engine α H K) (steps : Int) (st0 : LoopState H K)
    (s : Nat) (c1 : List Int) (st1 : LoopState H K)
    (h : loopHead nth_element rng P E steps st0 (s + 1) = some (c1, st1)) :
    ∃ c st, loopHead nth_element rng P E steps st0 s = some (c, st) ∧
      loopStep nth_element rng P E steps s c st = .next c1 st1 := by
  rw [loopHead] at h
  cases hh : loopHead nth_element rng P E steps st0 s with
  | none =>
    rw [hh] at h
    exact absurd h (by simp)
  | some r =>
    obtain ⟨c, st⟩ := r
    rw [hh] at h
    simp only [] at h
    cases hstep : loopStep nth_element rng P E steps s c st with
    | exit e =>
      rw [hstep] at h
      exact absurd h (by simp)
    | next c2 st2 =>
      rw [hstep] at h
      simp only [Option.some.injEq, Prod.mk.injEq] at h
      obtain ⟨rfl, rfl⟩ := h
      exact ⟨c, st, rfl, hstep⟩

theorem loopHead_inv {α H K : Type} [LinearOrder α] [Zero α]
    (nth_element : List (α × Int) → Nat → List (α × Int))
    (rng : Nat → List (α × Int) → Nat)
    (P : GenerationParams α) (E : Engine α H K) (steps : Int) (first_code : Int)
    (hsteps : 0 < steps) (h0 : 0 ≤ first_code) (h1 : first_code < kTalkerVocab) :
    ∀ (s : Nat) (c : List Int) (st : LoopState H K),
      loopHead nth_element rng P E steps (initState E first_code) s = some (c, st) →
      LoopInv steps s c st := by
  intro s
  induction s with
  | zero =>
    intro c st h
    rw [loopHead] at h
    simp only [Option.some.injEq, Prod.mk.injEq] at h
    obtain ⟨rfl, rfl⟩ := h
    exact LoopInv_init E steps first_code hsteps h0 h1
  | succ s ih =>
    intro c1 st1 h
    obtain ⟨c, st, hh, hstep⟩ :=
      loopHead_succ_inv nth_element rng P E steps _ s c1 st1 h
    exact LoopInv_next nth_element rng P E steps s c st c1 st1 (ih c st hh) hstep

end QWEN3TTS

namespace QWEN3TTSUTILS

end QWEN3TTSUTILS

namespace QWEN3TTS

open QWEN3TTSUTILS

end QWEN3TTS

namespace QWEN3TTS

open QWEN3TTSUTILS

theorem loopRun_exit {α H K : Type} [LinearOrder α] [Zero α]
    (nth_element : List (α × Int) → Nat → List (α × Int))
    (rng : Nat → List (α × Int) → Nat)
    (P : GenerationParams α) (E : Engine α H K) (steps : Int)
    (n s : Nat) (c : List Int) (st : LoopState H K) (e : LoopExit H K)
    (h : loopStep nth_element rng P E steps s c st = .exit e) :
    loopRun nth_element rng P E steps (n + 1) s c st = e := by
  rw [loopRun, h]

theorem loopRun_next {α H K : Type} [LinearOrder α] [Zero α]
    (nth_element : List (α × Int) → Nat → List (α × Int))
    (rng : Nat → List (α × Int) → Nat)
    (P : GenerationParams α) (E : Engine α H K) (steps : Int)
    (n s : Nat) (c : List Int) (st : LoopState H K) (c1 : List Int) (st1 : LoopState H K)
    (h : loopStep nth_element rng P E steps s c st = .next c1 st1) :
    loopRun nth_element rng P E steps (n + 1) s c st =
      loopRun nth_element rng P E steps n (s + 1) c1 st1 := by
  rw [loopRun, h]

theorem loopHead_next {α H K : Type} [LinearOrder α] [Zero α]
    (nth_element : List (α × Int) → Nat → List (α × Int))
    (rng : Nat → List (α × Int) → Nat)
    (P : GenerationParams α) (E : Engine α H K) (steps : Int) (st0 : LoopState H K)
    (s : Nat) (c : List Int) (st : LoopState H K) (c1 : List Int) (st1 : LoopState H K)
    (hh : loopHead nth_element rng P E steps st0 s = some (c, st))
    (h : loopStep nth_element rng P E steps s c st = .next c1 st1) :
    loopHead nth_element rng P E steps st0 (s + 1) = some (c1, st1) := by
  rw [loopHead, hh]
  simp only []
  rw [h]

theorem loopRun_from_head {α H K : Type} [LinearOrder α] [Zero α]
    (nth_element : List (α × Int) → Nat → List (α × Int))
    (rng : Nat → List (α × Int) → Nat)
    (P : GenerationParams α) (E : Engine α H K) (steps : Int) (st0 : LoopState H K) :
    ∀ (s : Nat) (c : List Int) (st : LoopState H K) (n : Nat),
      loopHead nth_element rng P E steps st0 s = some (c, st) →
      loopRun nth_element rng P E steps (s + n) 0 (List.replicate kCodeGroups 1) st0 =
        loopRun nth_element rng P E steps n s c st := by
  intro s
  induction s with
  | zero =>
    intro c st n h
    rw [loopHead] at h
    simp only [Option.some.injEq, Prod.mk.injEq] at h
    obtain ⟨rfl, rfl⟩ := h
    rw [Nat.zero_add]
  | succ s ih =>
    intro c1 st1 n h
    obtain ⟨c, st, hh, hstep⟩ := loopHead_succ_inv nth_element rng P E steps st0 s c1 st1 h
    rw [show s + 1 + n = s + (n + 1) by omega, ih c st (n + 1) hh,
      loopRun_next nth_element rng P E steps n s c st c1 st1 hstep]

theorem loopRun_bounds {α H K : Type} [LinearOrder α] [Zero α]
    (nth_element : List (α × Int) → Nat → List (α × Int))
    (rng : Nat → List (α × Int) → Nat)
    (P : GenerationParams α) (E : Engine α H K) (steps : Int) :
    ∀ (fuel s : Nat) (c : List Int) (st : LoopState H K), LoopInv steps s c st →
      ∃ n : Nat,
        (loopRun nth_element rng P E steps fuel s c st).state.all_codes.length =
          kCodeGroups * n ∧
        (n : Int) ≤ steps ∧
        ((loopRun nth_element rng P E steps fuel s c st).state.talker_runs : Int) ≤
          steps - 1 ∧
        (loopRun nth_element rng P E steps fuel s c st).state.talker_runs ≤ n ∧
        ∀ st1, loopRun nth_element rng P E steps fuel s c st = .stop st1 →
          st1.talker_runs + 1 = n := by
  intro fuel
  induction fuel with
  | zero =>
    intro s c st hinv
    obtain ⟨_, hl, htr, hlt, _⟩ := hinv
    refine ⟨s, hl, by omega, ?_, ?_, ?_⟩
    · show ((st.talker_runs : Nat) : Int) ≤ steps - 1
      omega
    · show st.talker_runs ≤ s
      omega
    · intro st1 h
      rw [loopRun] at h
      exact LoopExit.noConfusion h
  | succ fuel ih =>
    intro s c st hinv
    have hinv' := hinv
    obtain ⟨_, hl, htr, hlt, _⟩ := hinv'
    rcases loopStep_cases nth_element rng P E steps s c st with
      ⟨_, h1⟩ | ⟨_, ⟨a, _, h1⟩ | ⟨codec, calls, hcp, ⟨_, h1⟩ | ⟨hns, ⟨_, h1⟩ |
        ⟨code, _, ⟨_, h1⟩ | ⟨_, h1⟩⟩⟩⟩⟩
    · rw [loopRun_exit nth_element rng P E steps fuel s c st _ h1]
      refine ⟨s, hl, by omega, ?_, ?_, ?_⟩
      · show ((st.talker_runs : Nat) : Int) ≤ steps - 1
        omega
      · show st.talker_runs ≤ s
        omega
      · intro st1 h
        exact LoopExit.noConfusion h
    · rw [loopRun_exit nth_element rng P E steps fuel s c st _ h1]
      refine ⟨s, hl, by omega, ?_, ?_, ?_⟩
      · show ((st.talker_runs : Nat) : Int) ≤ steps - 1
        omega
      · show st.talker_runs ≤ s
        omega
      · intro st1 h
        exact LoopExit.noConfusion h
    · rw [loopRun_exit nth_element rng P E steps fuel s c st _ h1]
      obtain ⟨_, _, _, hlen, _⟩ :=
        appendFrame_runs nth_element rng P E steps s c st codec calls hinv hcp
      refine ⟨s + 1, hlen, by push_cast; omega, ?_, ?_, ?_⟩
      · show ((st.talker_runs : Nat) : Int) ≤ steps - 1
        omega
      · show st.talker_runs ≤ s + 1
        omega
      · intro st1 h
        injection h with h
        rw [← h]
        show st.talker_runs + 1 = s + 1
        omega
    · rw [loopRun_exit nth_element rng P E steps fuel s c st _ h1]
      obtain ⟨_, _, _, hlen, _⟩ :=
        appendFrame_runs nth_element rng P E steps s c st codec calls hinv hcp
      have hlast : ¬ (s : Int) = steps - 1 := fun h => hns (Or.inr (Or.inr h))
      refine ⟨s + 1, hlen, by push_cast; omega, ?_, ?_, ?_⟩
      · show ((st.talker_runs + 1 : Nat) : Int) ≤ steps - 1
        push_cast
        omega
      · show st.talker_runs + 1 ≤ s + 1
        omega
      · intro st1 h
        exact LoopExit.noConfusion h
    · rw [loopRun_exit nth_element rng P E steps fuel s c st _ h1]
      obtain ⟨_, _, _, hlen, _⟩ :=
        appendFrame_runs nth_element rng P E steps s c st codec calls hinv hcp
      have hlast : ¬ (s : Int) = steps - 1 := fun h => hns (Or.inr (Or.inr h))
      refine ⟨s + 1, hlen, by push_cast; omega, ?_, ?_, ?_⟩
      · show ((st.talker_runs + 1 : Nat) : Int) ≤ steps - 1
        push_cast
        omega
      · show st.talker_runs + 1 ≤ s + 1
        omega
      · intro st1 h
        exact LoopExit.noConfusion h
    · rw [loopRun_next nth_element rng P E steps fuel s c st _ _ h1]
      exact ih (s + 1) codec _
        (LoopInv_next nth_element rng P E steps s c st _ _ hinv h1)

theorem resolveSteps_pos {α : Type} (P : GenerationParams α) : 0 < resolveSteps P := by
  unfold resolveSteps
  by_cases h : P.steps ≤ 0
  · rw [if_pos h]
    by_cases h2 : P.max_steps > 0
    · rw [if_pos h2]; exact h2
    · rw [if_neg h2]; decide
  · rw [if_neg h]; omega

end QWEN3TTS

namespace QWEN3TTS

open QWEN3TTSUTILS

/-- C23: the step ceiling is `steps` if `steps > 0`, else `max_steps` if
`max_steps > 0`, else 2000, and it is positive; whatever the model does, the decode
loop started with that ceiling ends with `n` frames in `all_codes` (16 codes each),
`n` at most the ceiling, after at most ceiling - 1 executions of the talker step, and
a frame that ends the loop by a stop test (the ceiling among them) is not followed by
a talker execution; `decodeLoop` returns the variables of that run. -/
theorem step_ceiling {α H K : Type} [LinearOrder α] [Zero α]
    (nth_element : List (α × Int) → Nat → List (α × Int))
    (rng : Nat → List (α × Int) → Nat)
    (P : GenerationParams α) (E : Engine α H K) (first_code : Int)
    (h0 : 0 ≤ first_code) (h1 : first_code < kTalkerVocab) :
    resolveSteps P =
        (if P.steps > 0 then P.steps else if P.max_steps > 0 then P.max_steps else 2000) ∧
      0 < resolveSteps P ∧
      decodeLoop nth_element rng P E (resolveSteps P) (resolveSteps P).toNat 0
          (List.replicate kCodeGroups 1) (initState E first_code) =
        exitResult (loopRun nth_element rng P E (resolveSteps P) (resolveSteps P).toNat 0
          (List.replicate kCodeGroups 1) (initState E first_code)) ∧
      ∃ n : Nat,
        (loopRun nth_element rng P E (resolveSteps P) (resolveSteps P).toNat 0
          (List.replicate kCodeGroups 1) (initState E first_code)).state.all_codes.length =
            kCodeGroups * n ∧
        (n : Int) ≤ resolveSteps P ∧
        ((loopRun nth_element rng P E (resolveSteps P) (resolveSteps P).toNat 0
          (List.replicate kCodeGroups 1) (initState E first_code)).state.talker_runs : Int) ≤
            resolveSteps P - 1 ∧
        (loopRun nth_element rng P E (resolveSteps P) (resolveSteps P).toNat 0
          (List.replicate kCodeGroups 1) (initState E first_code)).state.talker_runs ≤ n ∧
        ∀ st1, loopRun nth_element rng P E (resolveSteps P) (resolveSteps P).toNat 0
            (List.replicate kCodeGroups 1) (initState E first_code) = .stop st1 →
          st1.talker_runs + 1 = n := by
  refine ⟨?_, resolveSteps_pos P, decodeLoop_eq_loopRun nth_element rng P E _ _ _ _ _,
    loopRun_bounds nth_element rng P E (resolveSteps P) _ 0 _ _
      (LoopInv_init E _ first_code (resolveSteps_pos P) h0 h1)⟩
  unfold resolveSteps
  by_cases h : P.steps ≤ 0
  · rw [if_pos h, if_neg (show ¬ P.steps > 0 by omega)]
  · rw [if_neg h, if_pos (show P.steps > 0 by omega)]

/-- C23 (witness): the default parameters with `steps = 2`. -/
theorem step_ceiling_witness :
    resolveSteps twoStepParams = 2 ∧ 0 < resolveSteps twoStepParams :=
  ⟨(step_ceiling nthElementSort (fun _ _ => 0) twoStepParams eosFirstEngine 2150
      (by decide) (by decide)).1.trans (by decide),
    (step_ceiling nthElementSort (fun _ _ => 0) twoStepParams eosFirstEngine 2150
      (by decide) (by decide)).2.1⟩

end QWEN3TTS

namespace QWEN3TTSUTILS

theorem ArgmaxTalkerFirstCode_peak_code (talker_vocab cp_vocab codec_eos_id : Int)
    (allow_eos : Bool) (p : Nat) (h1 : (p : Int) < talker_vocab) (h2 : (p : Int) < cp_vocab) :
    ArgmaxTalkerFirstCode (fun i => if i = p then (1 : Int) else 0) talker_vocab cp_vocab
      codec_eos_id allow_eos = (p : Int) := by
  have hse : isSuppressed cp_vocab codec_eos_id allow_eos p = false := by
    unfold isSuppressed
    have : ¬ cp_vocab ≤ (p : Int) := by omega
    simp [this]
  unfold ArgmaxTalkerFirstCode ArgmaxTalkerLoop
  rcases ArgmaxTalkerLoop_inv (fun i => if i = p then (1 : Int) else 0) cp_vocab codec_eos_id
      allow_eos talker_vocab.toNat with ⟨_, hall⟩ | ⟨r, hr, _, _, hmax, _⟩
  · have := hall p (by omega)
    rw [hse] at this
    exact absurd this (by simp)
  · rw [hr]
    have := hmax p (by omega) hse
    by_cases hre : r = p
    · rw [hre]; rfl
    · simp only [if_neg hre, if_true] at this
      omega

end QWEN3TTSUTILS

namespace QWEN3TTS

open QWEN3TTSUTILS

theorem SelectTalkerFirstCode_peak
    (nth_element : List (Int × Int) → Nat → List (Int × Int)) (p : Nat)
    (hp : (p : Int) < kCpVocab) (allow_eos : Bool)
    (temperature : Int) (top_k : Int) (rng : Option (List (Int × Int) → Nat)) :
    SelectTalkerFirstCode nth_element (fun i => if i = p then (1 : Int) else 0)
      kTalkerVocab kCpVocab kCodecEosId allow_eos false temperature top_k rng =
        some (p : Int) := by
  unfold SelectTalkerFirstCode
  rw [if_pos (Or.inl rfl)]
  exact congrArg some
    (ArgmaxTalkerFirstCode_peak_code kTalkerVocab kCpVocab kCodecEosId allow_eos p
      (by unfold kTalkerVocab; unfold kCpVocab at hp; omega) hp)

theorem cpLoop_zero {H K : Type}
    (nth_element : List (Int × Int) → Nat → List (Int × Int))
    (rng : Nat → List (Int × Int) → Nat)
    (P : GenerationParams Int) (E : Engine Int H K) (past_hidden : H)
    (hds : P.do_sample = false) (hE : E.cp = fun _ _ _ _ _ => 0)
    (first : Int) (codec_ids : List Int) (calls : Nat)
    (h : codec_ids = first :: List.replicate 15 (codec_ids.getD 1 0)) :
    cpLoop nth_element rng P E past_hidden 15 0 (List.replicate 14 0) codec_ids calls =
      .ok (first :: List.replicate 15 0, calls + 15) := by
  have hsel : ∀ (fc : Int) (prev : List Int) (g : Nat) (calls1 : Nat),
      SelectCpCode nth_element (E.cp past_hidden fc prev g) kCpVocab P.do_sample
        P.temperature P.top_k (some (rng calls1)) = some 0 := by
    intro fc prev g calls1
    rw [hE, hds]
    exact SelectCpCode_zero_logits _ _ _ _
  rw [h]
  iterate 15 rw [cpLoop_step nth_element rng P E past_hidden _ _ _ _ _ 0 (hsel _ _ _ _)
    (by decide)]
  rfl

theorem loopStep_next_of {α H K : Type} [LinearOrder α] [Zero α]
    (nth_element : List (α × Int) → Nat → List (α × Int))
    (rng : Nat → List (α × Int) → Nat)
    (P : GenerationParams α) (E : Engine α H K) (steps : Int)
    (s : Nat) (c : List Int) (st : LoopState H K)
    (codec_ids : List Int) (calls : Nat) (code : Int) (st1 : LoopState H K)
    (heos : ¬ (s > 0 ∧ st.current_first_code = kCodecEosId ∧ (s : Int) ≥ P.eos_min_steps))
    (hcp : cpLoop nth_element rng P E st.current_past_hidden (kCodeGroups - 1) 0
        (List.replicate (kCodeGroups - 2) 0) (c.set 0 st.current_first_code) st.calls =
        .ok (codec_ids, calls))
    (hstop : ¬ StopTest P steps s (appendFrame st s codec_ids calls))
    (hsel : SelectTalkerFirstCode nth_element
        (runTalker E (appendFrame st s codec_ids calls) s codec_ids).1
        kTalkerVocab kCpVocab kCodecEosId (decide (((s : Int) + 1) ≥ P.eos_min_steps))
        P.do_sample P.temperature P.top_k (some (rng calls)) = some code)
    (hr : ¬ (code < 0 ∨ code ≥ kTalkerVocab))
    (hst : nextState E st s codec_ids calls code = st1) :
    loopStep nth_element rng P E steps s c st = .next codec_ids st1 := by
  rcases loopStep_cases nth_element rng P E steps s c st with
    ⟨he, _⟩ | ⟨_, ⟨a, ha, _⟩ | ⟨codec1, calls1, hcp1, ⟨ht, _⟩ | ⟨_, ⟨hn, _⟩ |
      ⟨code1, hsel1, ⟨hr1, _⟩ | ⟨_, h2⟩⟩⟩⟩⟩
  · exact absurd he heos
  · rw [hcp] at ha
    exact Except.noConfusion ha
  all_goals
    rw [hcp] at hcp1
    injection hcp1 with hcp1
    injection hcp1 with e1 e2
    subst e1
    subst e2
  · exact absurd ht hstop
  · rw [hsel] at hn
    exact Option.noConfusion hn
  · rw [hsel] at hsel1
    injection hsel1 with e3
    subst e3
    exact absurd hr1 hr
  · rw [hsel] at hsel1
    injection hsel1 with e3
    subst e3
    rw [h2, hst]

theorem loopStep_stop_of {α H K : Type} [LinearOrder α] [Zero α]
    (nth_element : List (α × Int) → Nat → List (α × Int))
    (rng : Nat → List (α × Int) → Nat)
    (P : GenerationParams α) (E : Engine α H K) (steps : Int)
    (s : Nat) (c : List Int) (st : LoopState H K)
    (codec_ids : List Int) (calls : Nat) (st1 : LoopState H K)
    (heos : ¬ (s > 0 ∧ st.current_first_code = kCodecEosId ∧ (s : Int) ≥ P.eos_min_steps))
    (hcp : cpLoop nth_element rng P E st.current_past_hidden (kCodeGroups - 1) 0
        (List.replicate (kCodeGroups - 2) 0) (c.set 0 st.current_first_code) st.calls =
        .ok (codec_ids, calls))
    (hstop : StopTest P steps s (appendFrame st s codec_ids calls))
    (hst : appendFrame st s codec_ids calls = st1) :
    loopStep nth_element rng P E steps s c st = .exit (.stop st1) := by
  rcases loopStep_cases nth_element rng P E steps s c st with
    ⟨he, _⟩ | ⟨_, ⟨a, ha, _⟩ | ⟨codec1, calls1, hcp1, ⟨_, h2⟩ | ⟨hns, _⟩⟩⟩
  · exact absurd he heos
  · rw [hcp] at ha
    exact Except.noConfusion ha
  all_goals
    rw [hcp] at hcp1
    injection hcp1 with hcp1
    injection hcp1 with e1 e2
    subst e1
    subst e2
  · rw [h2, hst]
  · exact absurd hstop hns

end QWEN3TTS

namespace QWEN3TTS

open QWEN3TTSUTILS

theorem tailStop_not (m a r steps : Int) (ha : a ≤ 0) (s : Nat) (st1 : LoopState Unit Unit)
    (hrun : st1.same_frame_run < 3 ∨ (s : Int) + 1 < m) (hlast : ¬ (s : Int) = steps - 1) :
    ¬ StopTest (scenarioParams m a r) steps s st1 := by
  unfold StopTest
  have h3 : (scenarioParams m a r).tail_stop_repeat_frames = 3 := rfl
  have hm : (scenarioParams m a r).tail_stop_min_steps = m := rfl
  have ha1 : (scenarioParams m a r).auto_stop_first_code_run = a := rfl
  rw [h3, hm, ha1]
  rintro (h | h | h)
  · omega
  · omega
  · exact hlast h

theorem repeat_step (m a r : Int) (ha : a ≤ 0) (s : Nat) (code : Int) (p : Nat)
    (heos : (repeatState s).current_first_code ≠ kCodecEosId)
    (hc : (repeatCodec s).set 0 (repeatState s).current_first_code =
      (repeatState s).current_first_code ::
        List.replicate 15 (((repeatCodec s).set 0 (repeatState s).current_first_code).getD 1 0))
    (hframe : (repeatState s).current_first_code :: List.replicate 15 0 = repeatFrame (s + 1))
    (hrun : (appendFrame (repeatState s) s (repeatFrame (s + 1))
        ((repeatState s).calls + 15)).same_frame_run < 3 ∨ (s : Int) + 1 < m)
    (hlast : ¬ (s : Int) = 2000 - 1)
    (hp : (p : Int) < kCpVocab) (hcode : code = (p : Int))
    (hlog : (runTalker repeatFromFourEngine (appendFrame (repeatState s) s (repeatFrame (s + 1))
        ((repeatState s).calls + 15)) s (repeatFrame (s + 1))).1 =
      fun i => if i = p then (1 : Int) else 0)
    (hst : nextState repeatFromFourEngine (repeatState s) s (repeatFrame (s + 1))
        ((repeatState s).calls + 15) code = repeatState (s + 1)) :
    loopStep nthElementSort (fun _ _ => 0) (scenarioParams m a r) repeatFromFourEngine 2000 s
        (repeatCodec s) (repeatState s) =
      .next (repeatFrame (s + 1)) (repeatState (s + 1)) := by
  apply loopStep_next_of nthElementSort (fun _ _ => 0) (scenarioParams m a r)
    repeatFromFourEngine 2000 s (repeatCodec s) (repeatState s) (repeatFrame (s + 1))
    ((repeatState s).calls + 15) code (repeatState (s + 1))
  · exact fun h => heos h.2.1
  · rw [← hframe]
    exact cpLoop_zero nthElementSort (fun _ _ => 0) (scenarioParams m a r)
      repeatFromFourEngine _ rfl rfl _ _ _ hc
  · exact tailStop_not m a r 2000 ha s _ hrun hlast
  · rw [hlog, hcode]
    exact SelectTalkerFirstCode_peak nthElementSort p hp _ _ _ _
  · rw [hcode]
    unfold kTalkerVocab
    unfold kCpVocab at hp
    omega
  · exact hst

theorem repeat_heads (m a r : Int) (ha : a ≤ 0) :
    loopHead nthElementSort (fun _ _ => 0) (scenarioParams m a r) repeatFromFourEngine 2000
        (initState repeatFromFourEngine 1) 5 = some (repeatCodec 5, repeatState 5) := by
  have h0 : loopHead nthElementSort (fun _ _ => 0) (scenarioParams m a r)
      repeatFromFourEngine 2000 (initState repeatFromFourEngine 1) 0 =
        some (repeatCodec 0, repeatState 0) := rfl
  have h1 := loopHead_next nthElementSort (fun _ _ => 0) (scenarioParams m a r)
    repeatFromFourEngine 2000 (initState repeatFromFourEngine 1) 0 _ _ _ _ h0
    (repeat_step m a r ha 0 2 2 (by decide) rfl rfl (Or.inl (by decide)) (by decide)
      (by decide) rfl rfl rfl)
  have h2 := loopHead_next nthElementSort (fun _ _ => 0) (scenarioParams m a r)
    repeatFromFourEngine 2000 (initState repeatFromFourEngine 1) 1 _ _ _ _ h1
    (repeat_step m a r ha 1 3 3 (by decide) rfl rfl (Or.inl (by decide)) (by decide)
      (by decide) rfl rfl rfl)
  have h3 := loopHead_next nthElementSort (fun _ _ => 0) (scenarioParams m a r)
    repeatFromFourEngine 2000 (initState repeatFromFourEngine 1) 2 _ _ _ _ h2
    (repeat_step m a r ha 2 4 4 (by decide) rfl rfl (Or.inl (by decide)) (by decide)
      (by decide) rfl rfl rfl)
  have h4 := loopHead_next nthElementSort (fun _ _ => 0) (scenarioParams m a r)
    repeatFromFourEngine 2000 (initState repeatFromFourEngine 1) 3 _ _ _ _ h3
    (repeat_step m a r ha 3 4 4 (by decide) rfl rfl (Or.inl (by decide)) (by decide)
      (by decide) rfl rfl rfl)
  have h5 := loopHead_next nthElementSort (fun _ _ => 0) (scenarioParams m a r)
    repeatFromFourEngine 2000 (initState repeatFromFourEngine 1) 4 _ _ _ _ h4
    (repeat_step m a r ha 4 4 4 (by decide) rfl rfl (Or.inl (by decide)) (by decide)
      (by decide) rfl rfl rfl)
  exact h5

theorem tail_stop_run (m a r : Int) (ha : a ≤ 0) (h0 : 0 ≤ m) (h6 : m ≤ 6) :
    loopHead nthElementSort (fun _ _ => 0) (scenarioParams m a r) repeatFromFourEngine 2000
        (initState repeatFromFourEngine 1) 5 = some (repeatCodec 5, repeatState 5) ∧
      loopStep nthElementSort (fun _ _ => 0) (scenarioParams m a r) repeatFromFourEngine
          2000 5 (repeatCodec 5) (repeatState 5) =
        .exit (.stop (appendFrame (repeatState 5) 5 (repeatFrame 6)
          ((repeatState 5).calls + 15))) ∧
      (appendFrame (repeatState 5) 5 (repeatFrame 6) ((repeatState 5).calls + 15)).all_codes =
        repeatCodes 6 ∧
      loopRun nthElementSort (fun _ _ => 0) (scenarioParams m a r) repeatFromFourEngine 2000
          (resolveSteps (scenarioParams m a r)).toNat 0 (List.replicate kCodeGroups 1)
          (initState repeatFromFourEngine 1) =
        .stop (appendFrame (repeatState 5) 5 (repeatFrame 6) ((repeatState 5).calls + 15)) ∧
      generateVoice nthElementSort (fun _ _ => 0) true true (.ok ([1], [2]))
          (scenarioParams m a r) repeatFromFourEngine = .decoded (repeatCodes 6) 6 := by
  have h5 := repeat_heads m a r ha
  have hstop : StopTest (scenarioParams m a r) 2000 5
      (appendFrame (repeatState 5) 5 (repeatFrame 6) ((repeatState 5).calls + 15)) := by
    left
    exact ⟨show (3 : Int) > 0 by decide, show ((5 : Nat) : Int) + 1 ≥ m by push_cast; omega,
      show (3 : Int) ≥ 3 by decide⟩
  have s5 : loopStep nthElementSort (fun _ _ => 0) (scenarioParams m a r)
      repeatFromFourEngine 2000 5 (repeatCodec 5) (repeatState 5) =
        .exit (.stop (appendFrame (repeatState 5) 5 (repeatFrame 6)
          ((repeatState 5).calls + 15))) :=
    loopStep_stop_of nthElementSort (fun _ _ => 0) (scenarioParams m a r)
      repeatFromFourEngine 2000 5 (repeatCodec 5) (repeatState 5) (repeatFrame 6)
      ((repeatState 5).calls + 15) _
      (fun h => absurd h.2.1 (by decide))
      (cpLoop_zero nthElementSort (fun _ _ => 0) (scenarioParams m a r)
        repeatFromFourEngine _ rfl rfl 4 _ _ rfl)
      hstop rfl
  have hrun : loopRun nthElementSort (fun _ _ => 0) (scenarioParams m a r)
      repeatFromFourEngine 2000 (5 + (1994 + 1)) 0 (List.replicate kCodeGroups 1)
      (initState repeatFromFourEngine 1) =
        .stop (appendFrame (repeatState 5) 5 (repeatFrame 6) ((repeatState 5).calls + 15)) := by
    rw [loopRun_from_head nthElementSort (fun _ _ => 0) (scenarioParams m a r)
      repeatFromFourEngine 2000 _ 5 _ _ (1994 + 1) h5]
    exact loopRun_exit nthElementSort (fun _ _ => 0) (scenarioParams m a r)
      repeatFromFourEngine 2000 1994 5 _ _ _ s5
  refine ⟨h5, s5, rfl, hrun, ?_⟩
  rw [generateVoice_run nthElementSort (fun _ _ => 0) [1] [2] (scenarioParams m a r)
    repeatFromFourEngine 1 (5 + (1994 + 1)) (by decide) (by decide)
    (show ¬ (1 : Int) < 0 by decide) (show ¬ (0 : Int) < 0 by decide)
    (show ¬ (3 : Int) < 0 by decide) (not_lt.mpr h0) (show ¬ (0 : Int) < 0 by decide)
    (show ¬ (2000 : Int) ≤ 0 by decide)
    (SelectTalkerFirstCode_peak nthElementSort 1 (by decide) _ _ _ _) (by decide) rfl,
    decodeLoop_eq_loopRun]
  exact (congrArg (fun e => finishLoop (scenarioParams m a r) (exitResult e)) hrun).trans rfl

/-- C22 (counterexample): with `tail_stop_repeat_frames = 3` and every other
parameter at its default (`tail_stop_min_steps` is 32, the ceiling 2000), on a model
whose frames 1, 2, 3 differ and whose frames from step 4 on are identical, the loop
does not halt at step 6: it starts iteration 6 and emits the frame of step 7. -/
theorem tail_stop_default_min_steps :
    tailStopParams 32 = { defaultParams 1 with tail_stop_repeat_frames := 3 } ∧
      resolveSteps (tailStopParams 32) = 2000 ∧
      (repeatFrame 1 ≠ repeatFrame 2 ∧ repeatFrame 2 ≠ repeatFrame 3 ∧
        repeatFrame 3 ≠ repeatFrame 4 ∧ repeatFrame 1 ≠ repeatFrame 3 ∧
        repeatFrame 4 = repeatFrame 5 ∧ repeatFrame 5 = repeatFrame 6 ∧
        repeatFrame 6 = repeatFrame 7) ∧
      loopHead nthElementSort (fun _ _ => 0) (tailStopParams 32) repeatFromFourEngine 2000
          (initState repeatFromFourEngine 1) 6 = some (repeatCodec 6, repeatState 6) ∧
      (repeatState 6).all_codes = repeatCodes 6 ∧
      loopStep nthElementSort (fun _ _ => 0) (tailStopParams 32) repeatFromFourEngine 2000 6
          (repeatCodec 6) (repeatState 6) = .next (repeatFrame 7) (repeatState 7) ∧
      (repeatState 7).all_codes = repeatCodes 6 ++ repeatFrame 7 := by
  have h5 := repeat_heads 32 0 40 (by decide)
  have s5 := repeat_step 32 0 40 (by decide) 5 4 4 (by decide) rfl rfl (Or.inr (by decide))
    (by decide) (by decide) rfl rfl rfl
  have h6 := loopHead_next nthElementSort (fun _ _ => 0) (scenarioParams 32 0 40)
    repeatFromFourEngine 2000 (initState repeatFromFourEngine 1) 5 _ _ _ _ h5 s5
  have s6 := repeat_step 32 0 40 (by decide) 6 4 4 (by decide) rfl rfl (Or.inr (by decide))
    (by decide) (by decide) rfl rfl rfl
  exact ⟨rfl, rfl, by decide, h6, rfl, s6, rfl⟩

end QWEN3TTS

namespace QWEN3TTS

open QWEN3TTSUTILS

theorem cpLoop_error_codes {α H K : Type} [LinearOrder α] [Zero α]
    (nth_element : List (α × Int) → Nat → List (α × Int))
    (rng : Nat → List (α × Int) → Nat)
    (P : GenerationParams α) (E : Engine α H K) (past_hidden : H) (n : Nat) :
    ∀ (g : Nat) (prev_codes codec_ids : List Int) (calls : Nat) (a : Abort),
      cpLoop nth_element rng P E past_hidden n g prev_codes codec_ids calls = .error a →
        a = .fail (-1203) ∨ a = .exception := by
  induction n with
  | zero =>
    intro g prev_codes codec_ids calls a h
    exact absurd h (by unfold cpLoop; exact fun h => Except.noConfusion h)
  | succ n ih =>
    intro g prev_codes codec_ids calls a h
    unfold cpLoop at h
    cases hsel : SelectCpCode nth_element (E.cp past_hidden (codec_ids.getD 0 0) prev_codes g)
        kCpVocab P.do_sample P.temperature P.top_k (some (rng calls)) with
    | none =>
      rw [hsel] at h
      right
      injection h with h
      exact h.symm
    | some pred =>
      rw [hsel] at h
      dsimp only at h
      by_cases hr : pred < 0 ∨ pred ≥ kCpVocab
      · rw [if_pos hr] at h
        left
        injection h with h
        exact h.symm
      · rw [if_neg hr] at h
        exact ih _ _ _ _ a h

theorem loopStep_abort_codes {α H K : Type} [LinearOrder α] [Zero α]
    (nth_element : List (α × Int) → Nat → List (α × Int))
    (rng : Nat → List (α × Int) → Nat)
    (P : GenerationParams α) (E : Engine α H K) (steps : Int)
    (s : Nat) (c : List Int) (st : LoopState H K) (a : Abort) (st1 : LoopState H K)
    (h : loopStep nth_element rng P E steps s c st = .exit (.abort a st1)) :
    a = .fail (-1203) ∨ a = .exception ∨ a = .fail (-1204) := by
  rcases loopStep_cases nth_element rng P E steps s c st with
    ⟨_, he⟩ | ⟨_, ⟨b, hb, he⟩ | ⟨codec_ids, calls, _, ⟨_, he⟩ | ⟨_, ⟨_, he⟩ | ⟨code, _, ⟨_, he⟩ | ⟨_, he⟩⟩⟩⟩⟩
  · rw [he] at h
    injection h with h
    exact LoopExit.noConfusion h
  · rw [he] at h
    injection h with h
    injection h with h1 h2
    subst h1
    rcases cpLoop_error_codes nth_element rng P E _ _ _ _ _ _ _ hb with h | h
    · exact Or.inl h
    · exact Or.inr (Or.inl h)
  · rw [he] at h
    injection h with h
    exact LoopExit.noConfusion h
  · rw [he] at h
    injection h with h
    injection h with h1 h2
    exact Or.inr (Or.inl h1.symm)
  · rw [he] at h
    injection h with h
    injection h with h1 h2
    exact Or.inr (Or.inr h1.symm)
  · rw [he] at h
    exact StepResult.noConfusion h

theorem loopRun_abort_codes {α H K : Type} [LinearOrder α] [Zero α]
    (nth_element : List (α × Int) → Nat → List (α × Int))
    (rng : Nat → List (α × Int) → Nat)
    (P : GenerationParams α) (E : Engine α H K) (steps : Int) (fuel : Nat) :
    ∀ (s : Nat) (c : List Int) (st : LoopState H K) (a : Abort) (st1 : LoopState H K),
      loopRun nth_element rng P E steps fuel s c st = .abort a st1 →
        a = .fail (-1203) ∨ a = .exception ∨ a = .fail (-1204) := by
  induction fuel with
  | zero =>
    intro s c st a st1 h
    exact absurd h (by unfold loopRun; exact fun h => LoopExit.noConfusion h)
  | succ n ih =>
    intro s c st a st1 h
    unfold loopRun at h
    cases hstep : loopStep nth_element rng P E steps s c st with
    | exit e =>
      rw [hstep] at h
      dsimp only at h
      rw [h] at hstep
      exact loopStep_abort_codes nth_element rng P E steps s c st a st1 hstep
    | next codec_ids st2 =>
      rw [hstep] at h
      exact ih _ _ _ a st1 h

theorem finishGeneration_codes {α : Type} (P : GenerationParams α) (all_codes : List Int)
    (code : Int) (h : finishGeneration P all_codes = .abort (.fail code)) :
    code = -1201 ∨ code = -1202 := by
  unfold finishGeneration at h
  by_cases h1 : ((all_codes.length / kCodeGroups : Nat) : Int) ≤ 0
  · rw [if_pos h1] at h
    injection h with h
    injection h with h
    exact Or.inl h.symm
  · rw [if_neg h1] at h
    by_cases h2 : P.trim_tail_repeat_min > 0
    · rw [if_pos h2] at h
      by_cases h3 : (TrimRepeatingTailFrames all_codes (kCodeGroups : Int)
          P.trim_tail_repeat_min P.trim_tail_keep).1 ≤ 0
      · rw [if_pos h3] at h
        injection h with h
        injection h with h
        exact Or.inr h.symm
      · rw [if_neg h3] at h
        exact GenResult.noConfusion h
    · rw [if_neg h2] at h
      exact GenResult.noConfusion h

theorem finishLoop_codes {α H K : Type} [LinearOrder α] [Zero α]
    (nth_element : List (α × Int) → Nat → List (α × Int))
    (rng : Nat → List (α × Int) → Nat)
    (P : GenerationParams α) (E : Engine α H K) (steps : Int) (fuel : Nat)
    (c : List Int) (st : LoopState H K) (code : Int)
    (h : finishLoop P (decodeLoop nth_element rng P E steps fuel 0 c st) =
      .abort (.fail code)) :
    code = -1203 ∨ code = -1204 ∨ code = -1201 ∨ code = -1202 := by
  rw [decodeLoop_eq_loopRun] at h
  cases hrun : loopRun nth_element rng P E steps fuel 0 c st with
  | abort a st1 =>
    rw [hrun] at h
    have ha := loopRun_abort_codes nth_element rng P E steps fuel 0 c st a st1 hrun
    have h1 : GenResult.abort a = .abort (.fail code) := h
    injection h1 with h1
    subst h1
    rcases ha with ha | ha | ha
    · injection ha with ha
      exact Or.inl ha
    · exact Abort.noConfusion ha
    · injection ha with ha
      exact Or.inr (Or.inl ha)
  | done st1 =>
    rw [hrun] at h
    exact Or.inr (Or.inr (finishGeneration_codes P _ code h))
  | eos st1 =>
    rw [hrun] at h
    exact Or.inr (Or.inr (finishGeneration_codes P _ code h))
  | stop st1 =>
    rw [hrun] at h
    exact Or.inr (Or.inr (finishGeneration_codes P _ code h))

theorem generateVoice_not_1106 {α H K : Type} [LinearOrder α] [Zero α]
    (nth_element : List (α × Int) → Nat → List (α × Int))
    (rng : Nat → List (α × Int) → Nat)
    (loaded has_mi : Bool) (input_ids instruct_ids : List Int)
    (P : GenerationParams α) (E : Engine α H K) :
    generateVoice nth_element rng loaded has_mi (.ok (input_ids, instruct_ids)) P E ≠
      .abort (.fail (-1106)) := by
  intro h
  unfold generateVoice at h
  by_cases c1 : loaded = false
  · rw [if_pos c1] at h
    exact absurd h (by decide)
  rw [if_neg c1] at h
  by_cases c2 : has_mi = false
  · rw [if_pos c2] at h
    exact absurd h (by decide)
  rw [if_neg c2] at h
  dsimp only at h
  by_cases c3 : input_ids = [] ∨ instruct_ids = []
  · rw [if_pos c3] at h
    exact absurd h (by decide)
  rw [if_neg c3] at h
  by_cases c4 : P.temperature < 0
  · rw [if_pos c4] at h
    exact absurd h (by decide)
  rw [if_neg c4] at h
  by_cases c5 : P.top_k < 0
  · rw [if_pos c5] at h
    exact absurd h (by decide)
  rw [if_neg c5] at h
  by_cases c6 : P.tail_stop_repeat_frames < 0
  · rw [if_pos c6] at h
    exact absurd h (by decide)
  rw [if_neg c6] at h
  by_cases c7 : P.tail_stop_min_steps < 0
  · rw [if_pos c7] at h
    exact absurd h (by decide)
  rw [if_neg c7] at h
  by_cases c8 : P.eos_min_steps < 0
  · rw [if_pos c8] at h
    exact absurd h (by decide)
  rw [if_neg c8] at h
  rw [if_neg (not_le.mpr (resolveSteps_pos P))] at h
  cases hsel : SelectTalkerFirstCode nth_element E.prefill_logits kTalkerVocab kCpVocab
      kCodecEosId (decide ((0 : Int) ≥ P.eos_min_steps)) P.do_sample P.temperature
      P.top_k (some (rng 0)) with
  | none =>
    rw [hsel] at h
    exact absurd h (by simp)
  | some first_code =>
    rw [hsel] at h
    dsimp only at h
    by_cases c9 : first_code < 0 ∨ first_code ≥ kTalkerVocab
    · rw [if_pos c9] at h
      exact absurd h (by decide)
    rw [if_neg c9] at h
    have := finishLoop_codes nth_element rng P E _ _ _ _ _ h
    omega

end QWEN3TTS

namespace QWEN3TTS

open QWEN3TTSUTILS

theorem generateVoice_valid_codes {α H K : Type} [LinearOrder α] [Zero α]
    (nth_element : List (α × Int) → Nat → List (α × Int))
    (rng : Nat → List (α × Int) → Nat)
    (input_ids instruct_ids : List Int)
    (P : GenerationParams α) (E : Engine α H K)
    (c3 : ¬ (input_ids = [] ∨ instruct_ids = []))
    (c4 : ¬ P.temperature < 0) (c5 : ¬ P.top_k < 0) (c6 : ¬ P.tail_stop_repeat_frames < 0)
    (c7 : ¬ P.tail_stop_min_steps < 0) (c8 : ¬ P.eos_min_steps < 0) (code : Int)
    (h : generateVoice nth_element rng true true (.ok (input_ids, instruct_ids)) P E =
      .abort (.fail code)) :
    code = -1203 ∨ code = -1204 ∨ code = -1201 ∨ code = -1202 := by
  unfold generateVoice at h
  rw [if_neg (by decide), if_neg (by decide)] at h
  dsimp only at h
  rw [if_neg c3, if_neg c4, if_neg c5, if_neg c6, if_neg c7, if_neg c8,
    if_neg (not_le.mpr (resolveSteps_pos P))] at h
  cases hsel : SelectTalkerFirstCode nth_element E.prefill_logits kTalkerVocab kCpVocab
      kCodecEosId (decide ((0 : Int) ≥ P.eos_min_steps)) P.do_sample P.temperature
      P.top_k (some (rng 0)) with
  | none =>
    rw [hsel] at h
    exact absurd h (by simp)
  | some first_code =>
    rw [hsel] at h
    dsimp only at h
    by_cases c9 : first_code < 0 ∨ first_code ≥ kTalkerVocab
    · rw [if_pos c9] at h
      injection h with h
      injection h with h
      exact Or.inr (Or.inl h.symm)
    rw [if_neg c9] at h
    exact finishLoop_codes nth_element rng P E _ _ _ _ _ h

/-- C26 (counterexample): a request whose `auto_stop_first_code_run` and
`auto_stop_min_steps` are both negative, on a loaded runtime with non-empty ids, is
not rejected: the generation runs and hands 6 frames to the vocoder. -/
theorem negative_auto_stop_accepted :
    (scenarioParams 0 (-1) (-1)).auto_stop_first_code_run < 0 ∧
      (scenarioParams 0 (-1) (-1)).auto_stop_min_steps < 0 ∧
      generateVoice nthElementSort (fun _ _ => 0) true true (.ok ([1], [2]))
          (scenarioParams 0 (-1) (-1)) repeatFromFourEngine = .decoded (repeatCodes 6) 6 :=
  ⟨by decide, by decide,
    (tail_stop_run 0 (-1) (-1) (by decide) (by decide) (by decide)).2.2.2.2⟩

/-- C26 (amended): on a loaded runtime whose ids are not empty, `generateVoice`
returns -1102 when `temperature < 0`; otherwise -1103 when `top_k < 0`; otherwise
-1104 when `tail_stop_repeat_frames < 0` or `tail_stop_min_steps < 0`; otherwise
-1105 when `eos_min_steps < 0`; each of them whatever the model answers, so before
any model execution and any frame.  When none of these five parameters is negative
no error code between -1106 and -1102 is returned, whatever the values of
`auto_stop_first_code_run` and `auto_stop_min_steps`. -/
theorem parameter_validation {α H K : Type} [LinearOrder α] [Zero α]
    (nth_element : List (α × Int) → Nat → List (α × Int))
    (rng : Nat → List (α × Int) → Nat)
    (input_ids instruct_ids : List Int)
    (P : GenerationParams α) (E : Engine α H K)
    (hi : input_ids ≠ []) (hn : instruct_ids ≠ []) :
    (P.temperature < 0 →
        generateVoice nth_element rng true true (.ok (input_ids, instruct_ids)) P E =
          .abort (.fail (-1102))) ∧
      (¬ P.temperature < 0 → P.top_k < 0 →
        generateVoice nth_element rng true true (.ok (input_ids, instruct_ids)) P E =
          .abort (.fail (-1103))) ∧
      (¬ P.temperature < 0 → ¬ P.top_k < 0 →
        P.tail_stop_repeat_frames < 0 ∨ P.tail_stop_min_steps < 0 →
        generateVoice nth_element rng true true (.ok (input_ids, instruct_ids)) P E =
          .abort (.fail (-1104))) ∧
      (¬ P.temperature < 0 → ¬ P.top_k < 0 → ¬ P.tail_stop_repeat_frames < 0 →
        ¬ P.tail_stop_min_steps < 0 → P.eos_min_steps < 0 →
        generateVoice nth_element rng true true (.ok (input_ids, instruct_ids)) P E =
          .abort (.fail (-1105))) ∧
      (¬ P.temperature < 0 → ¬ P.top_k < 0 → ¬ P.tail_stop_repeat_frames < 0 →
        ¬ P.tail_stop_min_steps < 0 → ¬ P.eos_min_steps < 0 →
        ∀ code : Int, -1106 ≤ code → code ≤ -1102 →
          generateVoice nth_element rng true true (.ok (input_ids, instruct_ids)) P E ≠
            .abort (.fail code)) := by
  have c3 : ¬ (input_ids = [] ∨ instruct_ids = []) := fun h => h.elim hi hn
  have hgv : generateVoice nth_element rng true true (.ok (input_ids, instruct_ids)) P E =
      (if P.temperature < 0 then .abort (.fail (-1102))
      else if P.top_k < 0 then .abort (.fail (-1103))
      else if P.tail_stop_repeat_frames < 0 then .abort (.fail (-1104))
      else if P.tail_stop_min_steps < 0 then .abort (.fail (-1104))
      else if P.eos_min_steps < 0 then .abort (.fail (-1105))
      else generateVoice nth_element rng true true (.ok (input_ids, instruct_ids)) P E) := by
    by_cases c4 : P.temperature < 0
    · rw [if_pos c4]
      unfold generateVoice
      rw [if_neg (by decide), if_neg (by decide)]
      dsimp only
      rw [if_neg c3, if_pos c4]
    rw [if_neg c4]
    by_cases c5 : P.top_k < 0
    · rw [if_pos c5]
      unfold generateVoice
      rw [if_neg (by decide), if_neg (by decide)]
      dsimp only
      rw [if_neg c3, if_neg c4, if_pos c5]
    rw [if_neg c5]
    by_cases c6 : P.tail_stop_repeat_frames < 0
    · rw [if_pos c6]
      unfold generateVoice
      rw [if_neg (by decide), if_neg (by decide)]
      dsimp only
      rw [if_neg c3, if_neg c4, if_neg c5, if_pos c6]
    rw [if_neg c6]
    by_cases c7 : P.tail_stop_min_steps < 0
    · rw [if_pos c7]
      unfold generateVoice
      rw [if_neg (by decide), if_neg (by decide)]
      dsimp only
      rw [if_neg c3, if_neg c4, if_neg c5, if_neg c6, if_pos c7]
    rw [if_neg c7]
    by_cases c8 : P.eos_min_steps < 0
    · rw [if_pos c8]
      unfold generateVoice
      rw [if_neg (by decide), if_neg (by decide)]
      dsimp only
      rw [if_neg c3, if_neg c4, if_neg c5, if_neg c6, if_neg c7, if_pos c8]
    rw [if_neg c8]
  refine ⟨fun c4 => ?_, fun c4 c5 => ?_, fun c4 c5 c67 => ?_, fun c4 c5 c6 c7 c8 => ?_,
    fun c4 c5 c6 c7 c8 code h1 h2 h => ?_⟩
  · rw [hgv, if_pos c4]
  · rw [hgv, if_neg c4, if_pos c5]
  · rw [hgv, if_neg c4, if_neg c5]
    by_cases c6 : P.tail_stop_repeat_frames < 0
    · rw [if_pos c6]
    · rw [if_neg c6, if_pos (c67.resolve_left c6)]
  · rw [hgv, if_neg c4, if_neg c5, if_neg c6, if_neg c7, if_pos c8]
  · have := generateVoice_valid_codes nth_element rng input_ids instruct_ids P E c3 c4 c5 c6
      c7 c8 code h
    omega

/-- C26 (witness): the default parameters with `temperature = -1` are rejected with
-1102 on any model. -/
theorem parameter_validation_witness :
    generateVoice nthElementSort (fun _ _ => 0) true true (.ok ([1], [2]))
        { defaultParams (1 : Int) with temperature := -1 } repeatFromFourEngine =
      .abort (.fail (-1102)) :=
  (parameter_validation nthElementSort (fun _ _ => 0) [1] [2]
    { defaultParams (1 : Int) with temperature := -1 } repeatFromFourEngine
    (by decide) (by decide)).1 (by decide)

/-- C27 (counterexample): with `steps = 0` and `max_steps = 0` (the defaults) the
ceiling is 2000 and `generateVoice` generates: on the model whose frames repeat from
step 4 on it hands 6 frames to the vocoder instead of failing with -1106. -/
theorem steps_zero_generates :
    (tailStopParams 0).steps = 0 ∧ (tailStopParams 0).max_steps = 0 ∧
      resolveSteps (tailStopParams 0) = 2000 ∧
      generateVoice nthElementSort (fun _ _ => 0) true true (.ok ([1], [2]))
          (tailStopParams 0) repeatFromFourEngine = .decoded (repeatCodes 6) 6 :=
  ⟨rfl, rfl, rfl, (tail_stop_run 0 0 40 (by decide) (by decide) (by decide)).2.2.2.2⟩

/-- C27 (amended): when the caller supplies `steps <= 0` and `max_steps <= 0` the
step ceiling is 2000, and `generateVoice` does not return -1106; the ceiling is
positive for all parameters, so -1106 is never returned once the ids were built. -/
theorem steps_auto_ceiling {α H K : Type} [LinearOrder α] [Zero α]
    (nth_element : List (α × Int) → Nat → List (α × Int))
    (rng : Nat → List (α × Int) → Nat)
    (loaded has_mi : Bool) (input_ids instruct_ids : List Int)
    (P : GenerationParams α) (E : Engine α H K)
    (hs : P.steps ≤ 0) (hm : P.max_steps ≤ 0) :
    resolveSteps P = 2000 ∧
      generateVoice nth_element rng loaded has_mi (.ok (input_ids, instruct_ids)) P E ≠
        .abort (.fail (-1106)) ∧
      ∀ Q : GenerationParams α,
        0 < resolveSteps Q ∧
          generateVoice nth_element rng loaded has_mi (.ok (input_ids, instruct_ids)) Q E ≠
            .abort (.fail (-1106)) := by
  refine ⟨?_, generateVoice_not_1106 nth_element rng loaded has_mi input_ids instruct_ids P E,
    fun Q => ⟨resolveSteps_pos Q,
      generateVoice_not_1106 nth_element rng loaded has_mi input_ids instruct_ids Q E⟩⟩
  unfold resolveSteps
  rw [if_pos hs, if_neg (show ¬ P.max_steps > 0 by omega)]

/-- C27 (witness): the default parameters on the model whose prefill selects EOS. -/
theorem steps_auto_ceiling_witness :
    (defaultParams (1 : Int)).steps ≤ 0 ∧ (defaultParams (1 : Int)).max_steps ≤ 0 ∧
      resolveSteps (defaultParams (1 : Int)) = 2000 ∧
      generateVoice nthElementSort (fun _ _ => 0) true true (.ok ([1], [2]))
          (defaultParams (1 : Int)) eosFirstEngine ≠ .abort (.fail (-1106)) :=
  ⟨by decide, by decide,
    (steps_auto_ceiling nthElementSort (fun _ _ => 0) true true [1] [2]
      (defaultParams (1 : Int)) eosFirstEngine (by decide) (by decide)).1,
    (steps_auto_ceiling nthElementSort (fun _ _ => 0) true true [1] [2]
      (defaultParams (1 : Int)) eosFirstEngine (by decide) (by decide)).2.1⟩

end QWEN3TTS

namespace QWEN3TTSUTILS

theorem or_low_bits (i a b : Nat) (hb : b < 2 ^ i) : (a * 2 ^ i) ||| b = a * 2 ^ i + b := by
  rw [Nat.mul_comm]
  exact (Nat.mul_add_lt_is_or hb a).symm

theorem and_63 (x : Nat) : x &&& 0x3F = x % 64 := Nat.and_pow_two_sub_one_eq_mod x 6

theorem cont_byte (x : Nat) : (0x80 ||| (x &&& 0x3F)) % 256 = 0x80 + x % 64 := by
  rw [and_63, show 0x80 ||| x % 64 = 0x80 + x % 64 from
    or_low_bits 6 2 _ (Nat.mod_lt _ (by decide))]
  exact Nat.mod_eq_of_lt (by omega)

theorem AppendUtf8_bytes (cp : Nat) (out : List Nat) (hcp : cp < 0x200000) :
    AppendUtf8 cp out =
      out ++
        (if cp ≤ 0x7F then [cp]
        else if cp ≤ 0x7FF then [0xC0 + cp / 64, 0x80 + cp % 64]
        else if cp ≤ 0xFFFF then [0xE0 + cp / 4096, 0x80 + cp / 64 % 64, 0x80 + cp % 64]
        else [0xF0 + cp / 262144, 0x80 + cp / 4096 % 64, 0x80 + cp / 64 % 64,
          0x80 + cp % 64]) := by
  have hs6 : cp >>> 6 = cp / 64 := Nat.shiftRight_eq_div_pow cp 6
  have hs12 : cp >>> 12 = cp / 4096 := Nat.shiftRight_eq_div_pow cp 12
  have hs18 : cp >>> 18 = cp / 262144 := Nat.shiftRight_eq_div_pow cp 18
  unfold AppendUtf8
  simp only [cont_byte, hs6, hs12, hs18]
  by_cases h1 : cp ≤ 0x7F
  · rw [if_pos h1, if_pos h1, Nat.mod_eq_of_lt (by omega)]
  rw [if_neg h1, if_neg h1]
  by_cases h2 : cp ≤ 0x7FF
  · rw [if_pos h2, if_pos h2,
      show 0xC0 ||| cp / 64 = 0xC0 + cp / 64 from or_low_bits 5 6 _ (by omega),
      Nat.mod_eq_of_lt (by omega)]
  rw [if_neg h2, if_neg h2]
  by_cases h3 : cp ≤ 0xFFFF
  · rw [if_pos h3, if_pos h3,
      show 0xE0 ||| cp / 4096 = 0xE0 + cp / 4096 from or_low_bits 4 14 _ (by omega),
      Nat.mod_eq_of_lt (by omega)]
  rw [if_neg h3, if_neg h3,
    show 0xF0 ||| cp / 262144 = 0xF0 + cp / 262144 from or_low_bits 3 30 _ (by omega),
    Nat.mod_eq_of_lt (by omega)]

theorem byteAt_append_right (pre t : List Nat) (k : Nat) :
    byteAt (pre ++ t) (pre.length + k) = byteAt t k := by
  unfold byteAt
  rw [List.getD_append_right _ _ _ _ (by omega)]
  congr 1
  omega

theorem DecodeUtf8At_shift (pre t : List Nat) (i : Nat) :
    DecodeUtf8At (pre ++ t) (pre.length + i) =
      ((DecodeUtf8At t i).1, pre.length + (DecodeUtf8At t i).2) := by
  unfold DecodeUtf8At
  simp only [List.length_append, Nat.add_assoc, byteAt_append_right]
  by_cases h0 : t.length ≤ i
  · rw [if_pos h0, if_pos (by omega)]
  rw [if_neg h0, if_neg (by omega)]
  by_cases h1 : byteAt t i < 0x80
  · rw [if_pos h1, if_pos h1]
  rw [if_neg h1, if_neg h1]
  by_cases h2 : byteAt t i >>> 5 = 0x6 ∧ i + 1 < t.length
  · rw [if_pos h2, if_pos ⟨h2.1, by omega⟩]
  rw [if_neg h2, if_neg (fun h => h2 ⟨h.1, by omega⟩)]
  by_cases h3 : byteAt t i >>> 4 = 0xE ∧ i + 2 < t.length
  · rw [if_pos h3, if_pos ⟨h3.1, by omega⟩]
  rw [if_neg h3, if_neg (fun h => h3 ⟨h.1, by omega⟩)]
  by_cases h4 : byteAt t i >>> 3 = 0x1E ∧ i + 3 < t.length
  · rw [if_pos h4, if_pos ⟨h4.1, by omega⟩]
  rw [if_neg h4, if_neg (fun h => h4 ⟨h.1, by omega⟩)]

theorem decode2 (c0 c1 : Nat) :
    ((c0 &&& 0x1F) <<< 6) ||| (c1 &&& 0x3F) = c0 % 32 * 64 + c1 % 64 := by
  rw [show c0 &&& 0x1F = c0 % 32 from Nat.and_pow_two_sub_one_eq_mod c0 5, and_63,
    Nat.shiftLeft_eq, or_low_bits 6 _ _ (show c1 % 64 < 2 ^ 6 by omega)]
  omega

theorem decode3 (c0 c1 c2 : Nat) :
    ((c0 &&& 0x0F) <<< 12) ||| ((c1 &&& 0x3F) <<< 6) ||| (c2 &&& 0x3F) =
      c0 % 16 * 4096 + c1 % 64 * 64 + c2 % 64 := by
  rw [show c0 &&& 0x0F = c0 % 16 from Nat.and_pow_two_sub_one_eq_mod c0 4, and_63, and_63,
    Nat.shiftLeft_eq, Nat.shiftLeft_eq,
    or_low_bits 12 _ _ (show c1 % 64 * 2 ^ 6 < 2 ^ 12 by omega),
    show c0 % 16 * 2 ^ 12 + c1 % 64 * 2 ^ 6 = (c0 % 16 * 64 + c1 % 64) * 2 ^ 6 by omega,
    or_low_bits 6 _ _ (show c2 % 64 < 2 ^ 6 by omega)]
  omega

theorem decode4 (c0 c1 c2 c3 : Nat) :
    ((c0 &&& 0x07) <<< 18) ||| ((c1 &&& 0x3F) <<< 12) ||| ((c2 &&& 0x3F) <<< 6) |||
        (c3 &&& 0x3F) =
      c0 % 8 * 262144 + c1 % 64 * 4096 + c2 % 64 * 64 + c3 % 64 := by
  rw [show c0 &&& 0x07 = c0 % 8 from Nat.and_pow_two_sub_one_eq_mod c0 3, and_63, and_63,
    and_63, Nat.shiftLeft_eq, Nat.shiftLeft_eq, Nat.shiftLeft_eq,
    or_low_bits 18 _ _ (show c1 % 64 * 2 ^ 12 < 2 ^ 18 by omega),
    show c0 % 8 * 2 ^ 18 + c1 % 64 * 2 ^ 12 = (c0 % 8 * 64 + c1 % 64) * 2 ^ 12 by omega,
    or_low_bits 12 _ _ (show c2 % 64 * 2 ^ 6 < 2 ^ 12 by omega),
    show (c0 % 8 * 64 + c1 % 64) * 2 ^ 12 + c2 % 64 * 2 ^ 6 =
      ((c0 % 8 * 64 + c1 % 64) * 64 + c2 % 64) * 2 ^ 6 by omega,
    or_low_bits 6 _ _ (show c3 % 64 < 2 ^ 6 by omega)]
  omega

theorem DecodeUtf8At_encoded (cp : Nat) (hcp : cp < 0x200000) (rest : List Nat) :
    DecodeUtf8At (AppendUtf8 cp [] ++ rest) 0 = (cp, (AppendUtf8 cp []).length) := by
  rw [AppendUtf8_bytes cp [] hcp, List.nil_append]
  unfold DecodeUtf8At
  dsimp only
  by_cases h1 : cp ≤ 0x7F
  · rw [if_pos h1]
    have hb : byteAt ([cp] ++ rest) 0 = cp := rfl
    rw [if_neg (by simp), hb, if_pos (by omega)]
    rfl
  rw [if_neg h1]
  by_cases h2 : cp ≤ 0x7FF
  · rw [if_pos h2]
    have hb0 : byteAt ([0xC0 + cp / 64, 0x80 + cp % 64] ++ rest) 0 = 0xC0 + cp / 64 := rfl
    have hb1 : byteAt ([0xC0 + cp / 64, 0x80 + cp % 64] ++ rest) (0 + 1) = 0x80 + cp % 64 := rfl
    rw [if_neg (by simp), hb0, hb1, if_neg (by omega),
      if_pos ⟨by rw [Nat.shiftRight_eq_div_pow]; omega, by simp⟩, decode2]
    refine Prod.ext ?_ rfl
    show (0xC0 + cp / 64) % 32 * 64 + (0x80 + cp % 64) % 64 = cp
    omega
  rw [if_neg h2]
  by_cases h3 : cp ≤ 0xFFFF
  · rw [if_pos h3]
    have hb0 : byteAt ([0xE0 + cp / 4096, 0x80 + cp / 64 % 64, 0x80 + cp % 64] ++ rest) 0 =
      0xE0 + cp / 4096 := rfl
    have hb1 : byteAt ([0xE0 + cp / 4096, 0x80 + cp / 64 % 64, 0x80 + cp % 64] ++ rest)
      (0 + 1) = 0x80 + cp / 64 % 64 := rfl
    have hb2 : byteAt ([0xE0 + cp / 4096, 0x80 + cp / 64 % 64, 0x80 + cp % 64] ++ rest)
      (0 + 2) = 0x80 + cp % 64 := rfl
    rw [if_neg (by simp), hb0, hb1, hb2, if_neg (by omega),
      if_neg (fun h => absurd h.1 (by rw [Nat.shiftRight_eq_div_pow]; omega)),
      if_pos ⟨by rw [Nat.shiftRight_eq_div_pow]; omega, by simp⟩, decode3]
    refine Prod.ext ?_ rfl
    show (0xE0 + cp / 4096) % 16 * 4096 + (0x80 + cp / 64 % 64) % 64 * 64 +
      (0x80 + cp % 64) % 64 = cp
    omega
  rw [if_neg h3]
  have hb0 : byteAt ([0xF0 + cp / 262144, 0x80 + cp / 4096 % 64, 0x80 + cp / 64 % 64,
      0x80 + cp % 64] ++ rest) 0 = 0xF0 + cp / 262144 := rfl
  have hb1 : byteAt ([0xF0 + cp / 262144, 0x80 + cp / 4096 % 64, 0x80 + cp / 64 % 64,
      0x80 + cp % 64] ++ rest) (0 + 1) = 0x80 + cp / 4096 % 64 := rfl
  have hb2 : byteAt ([0xF0 + cp / 262144, 0x80 + cp / 4096 % 64, 0x80 + cp / 64 % 64,
      0x80 + cp % 64] ++ rest) (0 + 2) = 0x80 + cp / 64 % 64 := rfl
  have hb3 : byteAt ([0xF0 + cp / 262144, 0x80 + cp / 4096 % 64, 0x80 + cp / 64 % 64,
      0x80 + cp % 64] ++ rest) (0 + 3) = 0x80 + cp % 64 := rfl
  rw [if_neg (by simp), hb0, hb1, hb2, hb3, if_neg (by omega),
    if_neg (fun h => absurd h.1 (by rw [Nat.shiftRight_eq_div_pow]; omega)),
    if_neg (fun h => absurd h.1 (by rw [Nat.shiftRight_eq_div_pow]; omega)),
    if_pos ⟨by rw [Nat.shiftRight_eq_div_pow]; omega, by simp⟩, decode4]
  refine Prod.ext ?_ rfl
  show (0xF0 + cp / 262144) % 8 * 262144 + (0x80 + cp / 4096 % 64) % 64 * 4096 +
    (0x80 + cp / 64 % 64) % 64 * 64 + (0x80 + cp % 64) % 64 = cp
  omega

theorem AppendUtf8_append (cp : Nat) (out : List Nat) :
    AppendUtf8 cp out = out ++ AppendUtf8 cp [] := by
  unfold AppendUtf8
  by_cases h1 : cp ≤ 0x7F
  · rw [if_pos h1, if_pos h1]; rfl
  rw [if_neg h1, if_neg h1]
  by_cases h2 : cp ≤ 0x7FF
  · rw [if_pos h2, if_pos h2]; rfl
  rw [if_neg h2, if_neg h2]
  by_cases h3 : cp ≤ 0xFFFF
  · rw [if_pos h3, if_pos h3]; rfl
  rw [if_neg h3, if_neg h3]; rfl

theorem AppendUtf8_length (cp : Nat) :
    (AppendUtf8 cp []).length =
      if cp ≤ 0x7F then 1 else if cp ≤ 0x7FF then 2 else if cp ≤ 0xFFFF then 3 else 4 := by
  unfold AppendUtf8
  by_cases h1 : cp ≤ 0x7F
  · rw [if_pos h1, if_pos h1]; rfl
  rw [if_neg h1, if_neg h1]
  by_cases h2 : cp ≤ 0x7FF
  · rw [if_pos h2, if_pos h2]; rfl
  rw [if_neg h2, if_neg h2]
  by_cases h3 : cp ≤ 0xFFFF
  · rw [if_pos h3, if_pos h3]; rfl
  rw [if_neg h3, if_neg h3]; rfl

theorem DecodeUtf8At_le4 (s : List Nat) (i : Nat) (h : i < s.length) :
    (DecodeUtf8At s i).2 ≤ i + 4 := by
  unfold DecodeUtf8At
  rw [if_neg (by omega)]
  dsimp only
  by_cases h1 : byteAt s i < 0x80
  · rw [if_pos h1]; show i + 1 ≤ i + 4; omega
  rw [if_neg h1]
  by_cases h2 : byteAt s i >>> 5 = 0x6 ∧ i + 1 < s.length
  · rw [if_pos h2]; show i + 2 ≤ i + 4; omega
  rw [if_neg h2]
  by_cases h3 : byteAt s i >>> 4 = 0xE ∧ i + 2 < s.length
  · rw [if_pos h3]; show i + 3 ≤ i + 4; omega
  rw [if_neg h3]
  by_cases h4 : byteAt s i >>> 3 = 0x1E ∧ i + 3 < s.length
  · rw [if_pos h4]
  rw [if_neg h4]; show i + 1 ≤ i + 4; omega

/-- C40: for every codepoint `cp < 0x200000`, every string `out` to which `AppendUtf8`
appends and every continuation `rest`, `DecodeUtf8At` at the index where the appended
bytes start returns `cp` and stores the index right after them; the number of appended
bytes is 1, 2, 3 or 4 according to the range of `cp`.  For every string `s` and every
`i < |s|`, the stored index is above `i` and at most `min (i + 4) |s|`. -/
theorem utf8_round_trip (cp : Nat) (hcp : cp < 0x200000) (out rest : List Nat) :
    DecodeUtf8At (AppendUtf8 cp out ++ rest) out.length =
        (cp, (AppendUtf8 cp out).length) ∧
      DecodeUtf8At (AppendUtf8 cp [] ++ rest) 0 = (cp, (AppendUtf8 cp []).length) ∧
      (AppendUtf8 cp out).length =
        out.length +
          (if cp ≤ 0x7F then 1 else if cp ≤ 0x7FF then 2 else if cp ≤ 0xFFFF then 3 else 4) ∧
      ∀ (s : List Nat) (i : Nat), i < s.length →
        i < (DecodeUtf8At s i).2 ∧ (DecodeUtf8At s i).2 ≤ min (i + 4) s.length := by
  refine ⟨?_, DecodeUtf8At_encoded cp hcp rest, ?_, fun s i h => ?_⟩
  · have h := DecodeUtf8At_shift out (AppendUtf8 cp [] ++ rest) 0
    rw [AppendUtf8_append, List.append_assoc, List.length_append]
    rw [Nat.add_zero] at h
    rw [h, DecodeUtf8At_encoded cp hcp rest]
  · rw [AppendUtf8_append, List.length_append, AppendUtf8_length]
  · exact ⟨(QWEN3TTS.DecodeUtf8At_next s i h).1,
      Nat.le_min.mpr ⟨DecodeUtf8At_le4 s i h, (QWEN3TTS.DecodeUtf8At_next s i h).2⟩⟩

/-- C40 (witness): the euro sign U+20AC appended to `A` and followed by `B`. -/
theorem utf8_round_trip_witness :
    AppendUtf8 0x20AC [65] = [65, 0xE2, 0x82, 0xAC] ∧
      DecodeUtf8At ([65, 0xE2, 0x82, 0xAC] ++ [66]) 1 = (0x20AC, 4) :=
  ⟨by decide, (utf8_round_trip 0x20AC (by decide) [65] [66]).1⟩

end QWEN3TTSUTILS

namespace QWEN3TTS

open QWEN3TTSUTILS

theorem utf8String_cons (cp : Nat) (cps : List Nat) :
    utf8String (cp :: cps) = AppendUtf8 cp [] ++ utf8String cps := rfl

theorem AppendUtf8_ne_nil (cp : Nat) : 0 < (AppendUtf8 cp []).length := by
  rw [AppendUtf8_length]
  split_ifs <;> omega

theorem utf8String_ascii (w : List Nat) (h : ∀ b ∈ w, b < 128) : utf8String w = w := by
  induction w with
  | nil => rfl
  | cons b t ih =>
    have hb : b < 128 := h b (List.mem_cons_self _ _)
    rw [utf8String_cons, ih (fun x hx => h x (List.mem_cons_of_mem _ hx)),
      AppendUtf8_bytes b [] (by omega), if_pos (by omega)]
    rfl

theorem DecodeUtf8At_head (pre rest : List Nat) (cp : Nat) (hcp : cp < 0x200000) :
    DecodeUtf8At (pre ++ (AppendUtf8 cp [] ++ rest)) pre.length =
      (cp, pre.length + (AppendUtf8 cp []).length) := by
  have h := DecodeUtf8At_shift pre (AppendUtf8 cp [] ++ rest) 0
  rw [Nat.add_zero] at h
  rw [h, DecodeUtf8At_encoded cp hcp rest]

theorem DecodeUtf8At_rest (pre rest : List Nat) :
    (DecodeUtf8At (pre ++ rest) pre.length).1 = (DecodeUtf8At rest 0).1 := by
  have h := DecodeUtf8At_shift pre rest 0
  rw [Nat.add_zero] at h
  rw [h]

theorem scanWhile_stop (p : Nat → Bool) (s : List Nat) (fuel e : Nat)
    (h : s.length ≤ e ∨ (0 < fuel ∧ p (DecodeUtf8At s e).1 = false)) :
    scanWhile p s fuel e = some e := by
  cases fuel with
  | zero =>
    unfold scanWhile
    rcases h with h | h
    · rw [if_neg (by omega)]
    · omega
  | succ f =>
    unfold scanWhile
    rcases h with h | h
    · rw [if_neg (by omega)]
    · by_cases he : e < s.length
      · rw [if_pos he, h.2]
        rfl
      · rw [if_neg he]

theorem scanWhile_step (p : Nat → Bool) (s : List Nat) (fuel e : Nat) (he : e < s.length)
    (h : p (DecodeUtf8At s e).1 = true) :
    scanWhile p s (fuel + 1) e = scanWhile p s fuel (DecodeUtf8At s e).2 := by
  rw [scanWhile, if_pos he, if_pos h]

theorem scanWhile_run (p : Nat → Bool) (rest : List Nat)
    (hrest : rest = [] ∨ p (DecodeUtf8At rest 0).1 = false) :
    ∀ (cps pre : List Nat) (fuel : Nat), (∀ cp ∈ cps, p cp = true ∧ cp < 0x200000) →
      (utf8String cps ++ rest).length ≤ fuel →
      scanWhile p (pre ++ (utf8String cps ++ rest)) fuel pre.length =
        some (pre.length + (utf8String cps).length) := by
  intro cps
  induction cps with
  | nil =>
    intro pre fuel _ hf
    have hu : utf8String [] = [] := rfl
    rw [hu, List.nil_append, List.length_nil, Nat.add_zero]
    apply scanWhile_stop
    by_cases hr : rest = []
    · left
      rw [hr, List.append_nil]
    · right
      rw [hu, List.nil_append] at hf
      have hl : 0 < rest.length := List.length_pos.mpr hr
      refine ⟨by omega, ?_⟩
      rw [DecodeUtf8At_rest]
      exact hrest.resolve_left hr
  | cons cp cps ih =>
    intro pre fuel hp hf
    have hcp := hp cp (List.mem_cons_self _ _)
    have hlen := AppendUtf8_ne_nil cp
    rw [utf8String_cons, List.append_assoc] at hf ⊢
    rw [List.length_append] at hf
    obtain ⟨f, rfl⟩ : ∃ f, fuel = f + 1 := ⟨fuel - 1, by omega⟩
    have hdec := DecodeUtf8At_head pre (utf8String cps ++ rest) cp hcp.2
    rw [scanWhile_step p _ f pre.length (by simp only [List.length_append]; omega)
      (by rw [hdec]; exact hcp.1), hdec]
    have h := ih (pre ++ AppendUtf8 cp []) f
      (fun x hx => hp x (List.mem_cons_of_mem _ hx)) (by omega)
    rw [List.length_append, List.append_assoc] at h
    rw [h, List.length_append, Nat.add_assoc]

theorem ws_class (b : Nat) (h : IsWhitespaceNonNewline b = true) :
    b < 128 ∧ IsLetter b = false ∧ IsNumber b = false ∧ IsNewline b = false ∧
      toLowerByte b ≠ 39 := by
  unfold IsWhitespaceNonNewline at h
  simp only [Bool.or_eq_true, decide_eq_true_eq] at h
  rcases h with ((rfl | rfl) | rfl) | rfl <;> decide

theorem nl_class (b : Nat) (h : IsNewline b = true) :
    b < 128 ∧ IsLetter b = false ∧ IsNumber b = false ∧ IsWhitespaceNonNewline b = false ∧
      toLowerByte b ≠ 39 := by
  unfold IsNewline at h
  simp only [Bool.or_eq_true, decide_eq_true_eq] at h
  rcases h with rfl | rfl <;> decide

theorem letter_class (cp : Nat) (h : IsLetter cp = true) :
    IsNewline cp = false ∧ IsWhitespaceNonNewline cp = false ∧ IsNumber cp = false ∧
      IsOther cp = false := by
  unfold IsOther
  rw [h]
  unfold IsLetter IsAsciiLetter at h
  unfold IsNewline IsWhitespaceNonNewline IsNumber IsAsciiDigit
  by_cases hc : cp < 128
  · rw [if_pos hc] at h
    simp only [Bool.or_eq_true, Bool.and_eq_true, decide_eq_true_eq] at h
    simp only [Bool.or_eq_false_iff, Bool.and_eq_false_iff, decide_eq_false_iff_not,
      Bool.or_true, Bool.true_or, Bool.not_true, and_true]
    omega
  · simp only [Bool.or_eq_false_iff, Bool.and_eq_false_iff, decide_eq_false_iff_not,
      Bool.or_true, Bool.true_or, Bool.not_true, and_true]
    omega

theorem splitStep_contraction (s : List Nat) (i n : Nat) (hc : contraction_len s i = n)
    (hn : 0 < n) : splitStep s i = some (substr s i n, i + n) := by
  unfold splitStep
  dsimp only
  rw [hc, if_pos hn]

theorem splitStep_glue (s : List Nat) (i cp j e : Nat) (hc : contraction_len s i = 0)
    (hdec : DecodeUtf8At s i = (cp, j)) (hnl : IsNewline cp = false)
    (hl : IsLetter cp = false) (hn : IsNumber cp = false) (hj : j < s.length)
    (hl2 : IsLetter (DecodeUtf8At s j).1 = true)
    (hscan : scanWhile IsLetter s s.length (DecodeUtf8At s j).2 = some e) :
    splitStep s i = some (substr s i (e - i), e) := by
  unfold splitStep
  dsimp only
  rw [hc, hdec]
  dsimp only
  rw [if_neg (by omega), hnl, hl, hn, hl2, decide_eq_true hj, hscan]
  rfl

theorem splitStep_letter (s : List Nat) (i cp j e : Nat) (hc : contraction_len s i = 0)
    (hdec : DecodeUtf8At s i = (cp, j)) (hl : IsLetter cp = true)
    (hscan : scanWhile IsLetter s s.length j = some e) :
    splitStep s i = some (substr s i (e - i), e) := by
  unfold splitStep
  dsimp only
  rw [hc, hdec]
  dsimp only
  rw [if_neg (by omega), hl, hscan]
  simp only [Bool.not_true, Bool.and_false, Bool.false_and, Bool.false_eq_true, if_false,
    if_true]
  rfl

theorem splitStep_newline (s : List Nat) (i cp j e : Nat) (hc : contraction_len s i = 0)
    (hdec : DecodeUtf8At s i = (cp, j)) (hnl : IsNewline cp = true)
    (hscan : scanWhile IsNewline s s.length j = some e) :
    splitStep s i = some (substr s i (e - i), e) := by
  obtain ⟨_, hl, hn, hws, _⟩ := nl_class cp hnl
  unfold splitStep
  dsimp only
  rw [hc, hdec]
  dsimp only
  rw [if_neg (by omega), hnl, hl, hn, hws, hscan]
  simp only [Bool.not_true, Bool.false_and, Bool.false_eq_true, if_false, Bool.or_true,
    if_true]
  rfl

theorem splitStep_ws (s : List Nat) (i cp j e : Nat) (hc : contraction_len s i = 0)
    (hdec : DecodeUtf8At s i = (cp, j)) (hws : IsWhitespaceNonNewline cp = true)
    (hg : ¬ (j < s.length ∧ IsLetter (DecodeUtf8At s j).1 = true))
    (hscan : scanWhile IsWhitespaceNonNewline s s.length j = some e) :
    splitStep s i =
      if decide (e < s.length) && IsNewline (DecodeUtf8At s e).1 then
        (scanWhile IsNewline s s.length (DecodeUtf8At s e).2).map
          (fun nle => (substr s i (nle - i), nle))
      else if decide (e < s.length) &&
          (IsLetter (DecodeUtf8At s e).1 || (!IsNewline (DecodeUtf8At s e).1 &&
            !IsLetter (DecodeUtf8At s e).1 && !IsNumber (DecodeUtf8At s e).1 &&
            !IsWhitespaceNonNewline (DecodeUtf8At s e).1)) && decide (1 < e - i) then
        some (substr s i ((e - i) - 1), e - 1)
      else some (substr s i (e - i), e) := by
  obtain ⟨_, hl, hn, hnl, _⟩ := ws_class cp hws
  have hg2 : (decide (j < s.length) && IsLetter (DecodeUtf8At s j).1) = false := by
    by_cases hj : j < s.length
    · have : IsLetter (DecodeUtf8At s j).1 = false := by
        cases hx : IsLetter (DecodeUtf8At s j).1 with
        | false => rfl
        | true => exact absurd ⟨hj, hx⟩ hg
      rw [this, Bool.and_false]
    · rw [decide_eq_false hj, Bool.false_and]
  unfold splitStep
  dsimp only
  rw [hc, hdec]
  dsimp only
  rw [if_neg (by omega), hnl, hl, hn, hws, Bool.and_assoc, hg2, hscan]
  simp only [Bool.not_false, Bool.and_false, Bool.false_eq_true, if_false, Bool.true_or,
    if_true]
  rfl

theorem splitStep_other (s : List Nat) (i cp j e1 e : Nat) (hc : contraction_len s i = 0)
    (hdec : DecodeUtf8At s i = (cp, j)) (ho : IsOther cp = true)
    (hg : ¬ (j < s.length ∧ IsLetter (DecodeUtf8At s j).1 = true))
    (hscan1 : scanWhile IsOther s s.length j = some e1)
    (hscan : scanWhile IsNewline s s.length e1 = some e) :
    splitStep s i = some (substr s i (e - i), e) := by
  unfold IsOther at ho
  simp only [Bool.not_eq_true', Bool.or_eq_false_iff] at ho
  obtain ⟨⟨⟨hnl, hws⟩, hl⟩, hn⟩ := ho
  have hg2 : (decide (j < s.length) && IsLetter (DecodeUtf8At s j).1) = false := by
    by_cases hj : j < s.length
    · have : IsLetter (DecodeUtf8At s j).1 = false := by
        cases hx : IsLetter (DecodeUtf8At s j).1 with
        | false => rfl
        | true => exact absurd ⟨hj, hx⟩ hg
      rw [this, Bool.and_false]
    · rw [decide_eq_false hj, Bool.false_and]
  unfold splitStep
  dsimp only
  rw [hc, hdec]
  dsimp only
  rw [if_neg (by omega), hnl, hl, hn, hws, Bool.and_assoc, hg2, hscan1]
  simp only [Bool.not_false, Bool.and_false, Bool.false_eq_true, if_false, Bool.or_false]
  rw [Option.some_bind, hscan]
  rfl

theorem byteAt_substr (s : List Nat) (i n k : Nat) (hk : k < (substr s i n).length) :
    byteAt s (i + k) = (substr s i n).getD k 0 := by
  unfold substr at hk ⊢
  unfold byteAt
  rw [List.length_take, List.length_drop] at hk
  rw [List.getD_eq_getElem?_getD, List.getD_eq_getElem?_getD, List.getElem?_take_of_lt (by omega),
    List.getElem?_drop]

theorem contraction_len_match (s : List Nat) (i : Nat) (e : List Nat)
    (he : e ∈ contractionTable) (hlen : i + e.length ≤ s.length)
    (hm : ∀ k, k < e.length → toLowerByte (byteAt s (i + k)) = e.getD k 0) :
    contraction_len s i = e.length := by
  unfold contractionTable at he
  simp only [List.mem_cons, List.mem_singleton, List.not_mem_nil, or_false] at he
  rcases he with rfl | rfl | rfl | rfl | rfl | rfl | rfl
  all_goals
    have h0 := hm 0 (by decide)
    have h1 := hm 1 (by decide)
    have hlen2 := hlen
    simp only [Nat.add_zero, List.getD_cons_zero, List.getD_cons_succ] at h0 h1
    simp only [List.length_cons, List.length_nil] at hlen2
    first
    | (have h2 := hm 2 (by decide)
       simp only [List.getD_cons_zero, List.getD_cons_succ] at h2
       simp [contraction_len, contractionTable, List.find?, List.range_succ, h0, h1, h2, hlen2])
    | simp [contraction_len, contractionTable, List.find?, List.range_succ, h0, h1, hlen2]

theorem contraction_len_pos (s : List Nat) (i : Nat) (h : 0 < contraction_len s i) :
    ∃ e, e ∈ contractionTable ∧ i + e.length ≤ s.length ∧
      (∀ k, k < e.length → toLowerByte (byteAt s (i + k)) = e.getD k 0) ∧
      contraction_len s i = e.length := by
  unfold contraction_len at h ⊢
  cases hf : contractionTable.find? (fun c =>
      decide (i + c.length ≤ s.length) &&
        (List.range c.length).all (fun k => toLowerByte (byteAt s (i + k)) == c.getD k 0)) with
  | none =>
    rw [hf] at h
    exact absurd h (by decide)
  | some e =>
    have hp := List.find?_some hf
    have hmem := List.mem_of_find?_eq_some hf
    simp only [Bool.and_eq_true, decide_eq_true_eq, List.all_eq_true, List.mem_range,
      beq_iff_eq] at hp
    exact ⟨e, hmem, hp.1, hp.2, rfl⟩

theorem IsContraction_of_match (s : List Nat) (i : Nat) (e : List Nat)
    (hlen : i + e.length ≤ s.length)
    (hm : ∀ k, k < e.length → toLowerByte (byteAt s (i + k)) = e.getD k 0) :
    (substr s i e.length).map toLowerByte = e := by
  have hl : (substr s i e.length).length = e.length := by
    unfold substr
    rw [List.length_take, List.length_drop]
    omega
  apply List.ext_getElem
  · rw [List.length_map, hl]
  · intro k h1 h2
    rw [List.getElem_map]
    have hk : k < (substr s i e.length).length := by rw [hl]; exact h2
    have hb := byteAt_substr s i e.length k hk
    have := hm k h2
    rw [hb, List.getD_eq_getElem?_getD, List.getD_eq_getElem?_getD,
      List.getElem?_eq_getElem hk, List.getElem?_eq_getElem h2] at this
    exact this

theorem contraction_len_of_contraction (s : List Nat) (i : Nat) (c : List Nat)
    (hc : IsContraction c) (hs : substr s i c.length = c) :
    contraction_len s i = c.length := by
  have hl : (c.map toLowerByte).length = c.length := List.length_map _ _
  have h2 : 2 ≤ c.length := by
    rw [← hl]
    unfold IsContraction contractionTable at hc
    simp only [List.mem_cons, List.mem_singleton, List.not_mem_nil, or_false] at hc
    rcases hc with h | h | h | h | h | h | h <;> rw [h] <;> decide
  have hlen : i + c.length ≤ s.length := by
    have := congrArg List.length hs
    unfold substr at this
    rw [List.length_take, List.length_drop] at this
    omega
  rw [← hl]
  apply contraction_len_match s i (c.map toLowerByte) hc (by rw [hl]; exact hlen)
  intro k hk
  rw [hl] at hk
  have hb := byteAt_substr s i c.length k (by rw [hs]; exact hk)
  rw [hb, hs]
  exact (List.getD_map (f := toLowerByte) (l := c) (n := k) (d := 0)).symm

end QWEN3TTS

namespace QWEN3TTS

open QWEN3TTSUTILS

theorem RegexLikeSplitLoop_step (s : List Nat) (fuel i : Nat) (out : List (List Nat))
    (chunk : List Nat) (i' : Nat) (hi : i < s.length)
    (h : splitStep s i = some (chunk, i')) :
    RegexLikeSplitLoop s (fuel + 1) i out = RegexLikeSplitLoop s fuel i' (out ++ [chunk]) := by
  rw [RegexLikeSplitLoop, if_pos hi, h]

theorem RegexLikeSplitLoop_end (s : List Nat) (fuel i : Nat) (out : List (List Nat))
    (hi : s.length ≤ i) : RegexLikeSplitLoop s fuel i out = some out := by
  cases fuel with
  | zero => rw [RegexLikeSplitLoop, if_neg (by omega)]
  | succ f => rw [RegexLikeSplitLoop, if_neg (by omega)]

theorem substr_prefix (pre x rest : List Nat) :
    substr (pre ++ (x ++ rest)) pre.length (pre.length + x.length - pre.length) = x := by
  rw [Nat.add_sub_cancel_left]
  exact substr_middle pre x rest

theorem toLowerByte_letter (b : Nat) (h : toLowerByte b = 39) : b = 39 := by
  unfold toLowerByte at h
  split_ifs at h <;> omega

theorem letter_first_byte (cp : Nat) (hl : IsLetter cp = true) (hcp : cp < 0x200000)
    (pre t : List Nat) :
    toLowerByte (byteAt (pre ++ (AppendUtf8 cp [] ++ t)) pre.length) ≠ 39 := by
  intro h
  have h39 := toLowerByte_letter _ h
  have hb := byteAt_append_right pre (AppendUtf8 cp [] ++ t) 0
  rw [Nat.add_zero] at hb
  rw [hb, AppendUtf8_bytes cp [] hcp, List.nil_append] at h39
  unfold IsLetter IsAsciiLetter at hl
  by_cases h1 : cp ≤ 0x7F
  · rw [if_pos h1] at h39
    have : cp = 39 := h39
    rw [if_pos (by omega)] at hl
    simp only [Bool.or_eq_true, Bool.and_eq_true, decide_eq_true_eq] at hl
    omega
  rw [if_neg h1] at h39
  by_cases h2 : cp ≤ 0x7FF
  · rw [if_pos h2] at h39
    have : 0xC0 + cp / 64 = 39 := h39
    omega
  rw [if_neg h2] at h39
  by_cases h3 : cp ≤ 0xFFFF
  · rw [if_pos h3] at h39
    have : 0xE0 + cp / 4096 = 39 := h39
    omega
  rw [if_neg h3] at h39
  have : 0xF0 + cp / 262144 = 39 := h39
  omega

theorem letter_run_step (pre cps rest : List Nat) (hne : cps ≠ [])
    (hp : ∀ cp ∈ cps, IsLetter cp = true ∧ cp < 0x200000)
    (hrest : rest = [] ∨ IsLetter (DecodeUtf8At rest 0).1 = false) :
    splitStep (pre ++ (utf8String cps ++ rest)) pre.length =
      some (utf8String cps, pre.length + (utf8String cps).length) := by
  obtain ⟨cp, cps1, rfl⟩ := List.exists_cons_of_ne_nil hne
  have hcp := hp cp (List.mem_cons_self _ _)
  have hscan := scanWhile_run IsLetter rest hrest cps1 (pre ++ AppendUtf8 cp [])
    (pre ++ (AppendUtf8 cp [] ++ (utf8String cps1 ++ rest))).length
    (fun x hx => hp x (List.mem_cons_of_mem _ hx))
    (by simp only [List.length_append]; omega)
  have he : (pre ++ AppendUtf8 cp []).length + (utf8String cps1).length =
      pre.length + (AppendUtf8 cp [] ++ utf8String cps1).length := by
    simp only [List.length_append]
    omega
  rw [List.append_assoc, he, List.length_append pre (AppendUtf8 cp [])] at hscan
  have h := splitStep_letter (pre ++ (AppendUtf8 cp [] ++ (utf8String cps1 ++ rest)))
    pre.length cp (pre.length + (AppendUtf8 cp []).length)
    (pre.length + (AppendUtf8 cp [] ++ utf8String cps1).length)
    (contraction_len_of_not_apostrophe _ _ (letter_first_byte cp hcp.1 hcp.2 pre _))
    (DecodeUtf8At_head pre _ cp hcp.2) hcp.1 hscan
  rw [utf8String_cons, List.append_assoc, h, ← List.append_assoc (AppendUtf8 cp []),
    substr_prefix]

theorem contraction_first (c : List Nat) (hc : IsContraction c) :
    2 ≤ c.length ∧ byteAt c 0 = 39 := by
  have hl : (c.map toLowerByte).length = c.length := List.length_map _ _
  have h0 : toLowerByte (c.getD 0 0) = (c.map toLowerByte).getD 0 0 :=
    (List.getD_map (f := toLowerByte) (l := c) (n := 0) (d := 0)).symm
  unfold IsContraction contractionTable at hc
  simp only [List.mem_cons, List.mem_singleton, List.not_mem_nil, or_false] at hc
  rcases hc with h | h | h | h | h | h | h <;> rw [h] at hl h0 <;>
    exact ⟨by rw [← hl]; decide, toLowerByte_letter _ h0⟩

theorem contraction_not_letter (c rest : List Nat) (hc : IsContraction c) :
    IsLetter (DecodeUtf8At (c ++ rest) 0).1 = false := by
  obtain ⟨h2, h0⟩ := contraction_first c hc
  have hb : byteAt (c ++ rest) 0 = 39 := by
    unfold byteAt at h0 ⊢
    rw [List.getD_append _ _ _ _ (by omega)]
    exact h0
  unfold DecodeUtf8At
  rw [if_neg (by rw [List.length_append]; omega)]
  dsimp only
  rw [hb, if_pos (by decide)]
  rfl

/-- C31: for every non-empty run of letters (codepoints below 0x200000 that `IsLetter`
accepts, written in UTF-8) followed by a string `c` that is one of the seven contraction
suffixes up to letter case, `RegexLikeSplit` returns the two chunks `[w, c]`; and at
every position of every text at which the text begins with such a suffix, the chunk
produced there is exactly the suffix, before any other rule is tried. -/
theorem contraction_rule (cps c : List Nat) (hne : cps ≠ [])
    (hp : ∀ cp ∈ cps, IsLetter cp = true ∧ cp < 0x200000) (hc : IsContraction c) :
    RegexLikeSplit (utf8String cps ++ c) = some [utf8String cps, c] ∧
      ∀ (s : List Nat) (i : Nat), substr s i c.length = c →
        contraction_len s i = c.length ∧ splitStep s i = some (c, i + c.length) := by
  have hgen : ∀ (s : List Nat) (i : Nat), substr s i c.length = c →
      contraction_len s i = c.length ∧ splitStep s i = some (c, i + c.length) := by
    intro s i hs
    have hl := contraction_len_of_contraction s i c hc hs
    have hstep := splitStep_contraction s i c.length hl (by have := (contraction_first c hc).1; omega)
    rw [hs] at hstep
    exact ⟨hl, hstep⟩
  refine ⟨?_, hgen⟩
  have h2 := (contraction_first c hc).1
  have hw : 0 < (utf8String cps).length := by
    obtain ⟨cp, cps1, rfl⟩ := List.exists_cons_of_ne_nil hne
    rw [utf8String_cons, List.length_append]
    have := AppendUtf8_ne_nil cp
    omega
  have s1 := letter_run_step [] cps c hne hp (Or.inr (by
    have := contraction_not_letter c [] hc
    rw [List.append_nil] at this
    exact this))
  rw [List.nil_append, List.length_nil, Nat.zero_add] at s1
  have s2 := (hgen (utf8String cps ++ c) (utf8String cps).length (by
    have := substr_middle (utf8String cps) c []
    rw [List.append_nil] at this
    exact this)).2
  unfold RegexLikeSplit
  obtain ⟨f, hf⟩ : ∃ f, (utf8String cps ++ c).length = f + 2 :=
    ⟨(utf8String cps ++ c).length - 2, by rw [List.length_append]; omega⟩
  rw [hf, RegexLikeSplitLoop_step _ (f + 1) 0 [] _ _ (by rw [List.length_append]; omega) s1,
    RegexLikeSplitLoop_step _ f _ _ _ _ (by rw [List.length_append]; omega) s2,
    RegexLikeSplitLoop_end _ _ _ _ (by rw [List.length_append])]
  rfl

/-- C31 (witness): the text `don'T`. -/
theorem contraction_rule_witness :
    RegexLikeSplit [100, 111, 110, 39, 84] = some [[100, 111, 110], [39, 84]] :=
  (contraction_rule [100, 111, 110] [39, 84] (by decide) (by decide) (by decide)).1

end QWEN3TTS

namespace QWEN3TTS

open QWEN3TTSUTILS

theorem AppendUtf8_ascii (g : Nat) (h : g < 128) : AppendUtf8 g [] = [g] := by
  rw [AppendUtf8_bytes g [] (by omega), if_pos (by omega)]
  rfl

theorem not_letter_ascii (g : Nat) (h : IsLetter g = false) : g < 128 := by
  unfold IsLetter at h
  by_cases hg : g < 128
  · exact hg
  · rw [if_neg hg] at h
    exact absurd h (by decide)

theorem DecodeUtf8At_ascii (s : List Nat) (i : Nat) (hi : i < s.length)
    (hb : byteAt s i < 128) : DecodeUtf8At s i = (byteAt s i, i + 1) := by
  unfold DecodeUtf8At
  rw [if_neg (by omega)]
  dsimp only
  rw [if_pos hb]

theorem table_facts (e : List Nat) (he : e ∈ contractionTable) :
    2 ≤ e.length ∧ e.length ≤ 3 ∧ (97 ≤ e.getD 1 0 ∧ e.getD 1 0 ≤ 122) ∧
      (e.length = 3 → 97 ≤ e.getD 2 0 ∧ e.getD 2 0 ≤ 122) := by
  unfold contractionTable at he
  simp only [List.mem_cons, List.mem_singleton, List.not_mem_nil, or_false] at he
  rcases he with rfl | rfl | rfl | rfl | rfl | rfl | rfl <;> decide

theorem lower_is_letter (b : Nat) (h1 : 97 ≤ toLowerByte b) (h2 : toLowerByte b ≤ 122) :
    b < 128 ∧ IsLetter b = true := by
  unfold toLowerByte at h1 h2
  unfold IsLetter IsAsciiLetter
  split_ifs at h1 h2 with hb
  · refine ⟨by omega, ?_⟩
    rw [if_pos (by omega)]
    simp only [Bool.or_eq_true, Bool.and_eq_true, decide_eq_true_eq]
    omega
  · refine ⟨by omega, ?_⟩
    rw [if_pos (by omega)]
    simp only [Bool.or_eq_true, Bool.and_eq_true, decide_eq_true_eq]
    omega

theorem run_head (p : Nat → Bool) (pre rest : List Nat) (cp : Nat) (cps : List Nat)
    (hp : ∀ x ∈ cp :: cps, p x = true ∧ x < 0x200000)
    (hrest : rest = [] ∨ p (DecodeUtf8At rest 0).1 = false) :
    pre.length < (pre ++ (utf8String (cp :: cps) ++ rest)).length ∧
      DecodeUtf8At (pre ++ (utf8String (cp :: cps) ++ rest)) pre.length =
        (cp, pre.length + (AppendUtf8 cp []).length) ∧
      scanWhile p (pre ++ (utf8String (cp :: cps) ++ rest))
          (pre ++ (utf8String (cp :: cps) ++ rest)).length
          (pre.length + (AppendUtf8 cp []).length) =
        some (pre.length + (utf8String (cp :: cps)).length) := by
  have hcp := hp cp (List.mem_cons_self _ _)
  have hpos := AppendUtf8_ne_nil cp
  have hscan := scanWhile_run p rest hrest cps (pre ++ AppendUtf8 cp [])
    (pre ++ (AppendUtf8 cp [] ++ (utf8String cps ++ rest))).length
    (fun x hx => hp x (List.mem_cons_of_mem _ hx))
    (by simp only [List.length_append]; omega)
  have he : (pre ++ AppendUtf8 cp []).length + (utf8String cps).length =
      pre.length + (AppendUtf8 cp [] ++ utf8String cps).length := by
    simp only [List.length_append]
    omega
  rw [List.append_assoc, he, List.length_append pre (AppendUtf8 cp [])] at hscan
  rw [utf8String_cons, List.append_assoc]
  refine ⟨?_, DecodeUtf8At_head pre _ cp hcp.2, ?_⟩
  · simp only [List.length_append]
    omega
  · rw [← List.append_assoc (AppendUtf8 cp []), List.append_assoc (AppendUtf8 cp [])]
    exact hscan

theorem glue_step (pre L rest : List Nat) (g : Nat) (hl : IsLetter g = false)
    (hn : IsNumber g = false) (hnl : IsNewline g = false) (hne : L ≠ [])
    (hp : ∀ cp ∈ L, IsLetter cp = true ∧ cp < 0x200000)
    (hrest : rest = [] ∨ IsLetter (DecodeUtf8At rest 0).1 = false)
    (hc : contraction_len (pre ++ ([g] ++ (utf8String L ++ rest))) pre.length = 0) :
    splitStep (pre ++ ([g] ++ (utf8String L ++ rest))) pre.length =
      some ([g] ++ utf8String L, pre.length + 1 + (utf8String L).length) := by
  obtain ⟨cp, cps1, rfl⟩ := List.exists_cons_of_ne_nil hne
  have hg := not_letter_ascii g hl
  obtain ⟨h1, h2, h3⟩ := run_head IsLetter (pre ++ [g]) rest cp cps1 hp hrest
  have hPl : (pre ++ [g]).length = pre.length + 1 := by
    rw [List.length_append, List.length_singleton]
  rw [List.append_assoc, hPl] at h1 h2 h3
  have hd0 := DecodeUtf8At_head pre (utf8String (cp :: cps1) ++ rest) g (by omega)
  rw [AppendUtf8_ascii g hg, List.length_singleton] at hd0
  have h := splitStep_glue (pre ++ ([g] ++ (utf8String (cp :: cps1) ++ rest))) pre.length g
    (pre.length + 1) (pre.length + 1 + (utf8String (cp :: cps1)).length) hc hd0 hnl hl hn h1
    (by rw [h2]; exact (hp cp (List.mem_cons_self _ _)).1) (by rw [h2]; exact h3)
  rw [h, ← List.append_assoc [g], show pre.length + 1 + (utf8String (cp :: cps1)).length =
    pre.length + ([g] ++ utf8String (cp :: cps1)).length by
      rw [List.length_append, List.length_singleton]; omega, substr_prefix]

theorem glue_no_contraction (pre L rest : List Nat) (g : Nat) (hne : L ≠ [])
    (hrest : rest = [] ∨ IsLetter (DecodeUtf8At rest 0).1 = false)
    (hnc : ∀ c, IsContraction c → ¬ c <+: ([g] ++ utf8String L)) :
    contraction_len (pre ++ ([g] ++ (utf8String L ++ rest))) pre.length = 0 := by
  by_contra hne0
  obtain ⟨e, hmem, hlen, hm, _⟩ := contraction_len_pos _ _ (Nat.pos_of_ne_zero hne0)
  obtain ⟨t2, t3, t1, t4⟩ := table_facts e hmem
  have hcon : IsContraction
      (substr (pre ++ ([g] ++ (utf8String L ++ rest))) pre.length e.length) := by
    unfold IsContraction
    rw [IsContraction_of_match _ _ e hlen hm]
    exact hmem
  have hL : 0 < (utf8String L).length := by
    obtain ⟨cp, cps1, rfl⟩ := List.exists_cons_of_ne_nil hne
    rw [utf8String_cons, List.length_append]
    have := AppendUtf8_ne_nil cp
    omega
  have hsub : substr (pre ++ ([g] ++ (utf8String L ++ rest))) pre.length e.length =
      (([g] ++ utf8String L) ++ rest).take e.length := by
    unfold substr
    rw [List.drop_left, List.append_assoc]
  by_cases hle : e.length ≤ ([g] ++ utf8String L).length
  · apply hnc _ hcon
    rw [hsub, List.take_append_of_le_length hle]
    exact List.take_prefix _ _
  · rw [List.length_append, List.length_singleton] at hle
    have he3 : e.length = 3 := by omega
    have hu1 : (utf8String L).length = 1 := by omega
    simp only [List.length_append, List.length_singleton] at hlen
    have hr : 0 < rest.length := by omega
    have h2 := hm 2 (by omega)
    have hb : byteAt (pre ++ ([g] ++ (utf8String L ++ rest))) (pre.length + 2) =
        byteAt rest 0 := by
      rw [byteAt_append_right]
      have := byteAt_append_right ([g] ++ utf8String L) rest 0
      rw [List.length_append, List.length_singleton, hu1, List.append_assoc] at this
      exact this
    rw [hb] at h2
    obtain ⟨hlt, hlet⟩ := lower_is_letter (byteAt rest 0) (by rw [h2]; exact (t4 he3).1)
      (by rw [h2]; exact (t4 he3).2)
    rcases hrest with h | h
    · rw [h] at hr
      exact absurd hr (by decide)
    · rw [DecodeUtf8At_ascii rest 0 hr hlt, hlet] at h
      exact absurd h (by decide)

end QWEN3TTS

namespace QWEN3TTS

open QWEN3TTSUTILS

theorem scan_two (p : Nat → Bool) (s : List Nat) (i g2 : Nat) (h2 : i + 2 < s.length)
    (hd2 : DecodeUtf8At s (i + 1) = (g2, i + 2))
    (hpL : p (DecodeUtf8At s (i + 2)).1 = false) :
    scanWhile p s s.length (i + 1) = some (if p g2 = true then i + 2 else i + 1) ∧
      scanWhile p s s.length (i + 2) = some (i + 2) := by
  obtain ⟨f, hf⟩ : ∃ f, s.length = f + 2 := ⟨s.length - 2, by omega⟩
  refine ⟨?_, scanWhile_stop p s _ _ (Or.inr ⟨by omega, hpL⟩)⟩
  by_cases hp : p g2 = true
  · rw [if_pos hp, hf, scanWhile_step p s (f + 1) (i + 1) (by omega) (by rw [hd2]; exact hp),
      hd2]
    exact scanWhile_stop p s _ _ (Or.inr ⟨by omega, hpL⟩)
  · rw [if_neg hp]
    exact scanWhile_stop p s _ _ (Or.inr ⟨by omega, by rw [hd2]; simpa using hp⟩)

theorem two_nonletters (s : List Nat) (i : Nat) (h2 : i + 2 < s.length)
    (hb1 : byteAt s i < 128) (hb2 : byteAt s (i + 1) < 128)
    (hl1 : IsLetter (byteAt s i) = false) (hl2 : IsLetter (byteAt s (i + 1)) = false)
    (hL : IsLetter (DecodeUtf8At s (i + 2)).1 = true) :
    ∃ chunk i', splitStep s i = some (chunk, i') ∧ i' ≤ i + 2 := by
  have hd1 := DecodeUtf8At_ascii s i (by omega) hb1
  have hd2 : DecodeUtf8At s (i + 1) = (byteAt s (i + 1), i + 2) :=
    DecodeUtf8At_ascii s (i + 1) (by omega) hb2
  obtain ⟨cnl, cws, cn, co⟩ := letter_class _ hL
  have hc : contraction_len s i = 0 := by
    by_contra hne0
    obtain ⟨e, hmem, hlen, hm, _⟩ := contraction_len_pos _ _ (Nat.pos_of_ne_zero hne0)
    obtain ⟨t2, _, t1, _⟩ := table_facts e hmem
    have h1 := hm 1 (by omega)
    have := (lower_is_letter (byteAt s (i + 1)) (by rw [h1]; exact t1.1)
      (by rw [h1]; exact t1.2)).2
    rw [hl2] at this
    exact absurd this (by decide)
  have hg : ¬ (i + 1 < s.length ∧ IsLetter (DecodeUtf8At s (i + 1)).1 = true) := by
    rw [hd2, hl2]
    exact fun h => absurd h.2 (by decide)
  have snl := scan_two IsNewline s i _ h2 hd2 cnl
  have sws := scan_two IsWhitespaceNonNewline s i _ h2 hd2 cws
  have so := scan_two IsOther s i _ h2 hd2 co
  by_cases c1 : IsNumber (byteAt s i) = true
  · exact ⟨_, _, splitStep_digit s i (by omega) c1, by omega⟩
  by_cases c2 : IsNewline (byteAt s i) = true
  · refine ⟨_, _, splitStep_newline s i _ _ _ hc hd1 c2 snl.1, ?_⟩
    split_ifs <;> omega
  by_cases c3 : IsWhitespaceNonNewline (byteAt s i) = true
  · rw [splitStep_ws s i _ _ _ hc hd1 c3 hg sws.1]
    by_cases w2 : IsWhitespaceNonNewline (byteAt s (i + 1)) = true
    · rw [if_pos w2, decide_eq_true h2, cnl, hL]
      refine ⟨substr s i (i + 2 - i - 1), i + 2 - 1, ?_, by omega⟩
      rw [if_neg (by decide), if_pos (by
        rw [Bool.true_or, Bool.true_and, decide_eq_true (show 1 < i + 2 - i by omega)]
        rfl)]
    · rw [if_neg w2, hd2]
      dsimp only
      by_cases n2 : IsNewline (byteAt s (i + 1)) = true
      · refine ⟨substr s i (i + 2 - i), i + 2, ?_, Nat.le_refl _⟩
        rw [n2, decide_eq_true (show i + 1 < s.length by omega), if_pos (by decide), snl.2]
        rfl
      · refine ⟨substr s i (i + 1 - i), i + 1, ?_, by omega⟩
        rw [Bool.not_eq_true] at n2
        rw [n2, Bool.and_false, if_neg (by decide), if_neg (by
          rw [decide_eq_false (show ¬ 1 < i + 1 - i by omega), Bool.and_false]
          decide)]
  · have ho : IsOther (byteAt s i) = true := by
      unfold IsOther
      rw [Bool.not_eq_true] at c1 c2 c3
      rw [c1, c2, c3, hl1]
      rfl
    by_cases o2 : IsOther (byteAt s (i + 1)) = true
    · have hs1 := so.1
      rw [if_pos o2] at hs1
      exact ⟨_, _, splitStep_other s i _ _ _ _ hc hd1 ho hg hs1 snl.2, Nat.le_refl _⟩
    · have hs1 := so.1
      rw [if_neg o2] at hs1
      refine ⟨_, _, splitStep_other s i _ _ _ _ hc hd1 ho hg hs1 snl.1, ?_⟩
      split_ifs <;> omega

/-- C32: (1) for every codepoint `g` that is no letter, digit or newline, followed by a
non-empty maximal run `L` of letters (codepoints below 0x200000 that `IsLetter` accepts,
ended by the end of the text or by a non-letter) such that `g ++ L` does not begin with
a contraction suffix, the chunk starting at `g` is exactly `g ++ L`; (2) the chunk
starting at the first letter of such a run is exactly the run; (3) at most one glue
character is attached: when two codepoints that are no letters precede a letter, the
chunk starting at the first of them ends before the letter. -/
theorem letter_glue_rule (pre L rest : List Nat) (g : Nat) (hne : L ≠ [])
    (hp : ∀ cp ∈ L, IsLetter cp = true ∧ cp < 0x200000)
    (hrest : rest = [] ∨ IsLetter (DecodeUtf8At rest 0).1 = false) :
    (IsLetter g = false → IsNumber g = false → IsNewline g = false →
        (∀ c, IsContraction c → ¬ c <+: (AppendUtf8 g [] ++ utf8String L)) →
        splitStep (pre ++ (AppendUtf8 g [] ++ (utf8String L ++ rest))) pre.length =
          some (AppendUtf8 g [] ++ utf8String L,
            pre.length + (AppendUtf8 g [] ++ utf8String L).length)) ∧
      splitStep (pre ++ (utf8String L ++ rest)) pre.length =
        some (utf8String L, pre.length + (utf8String L).length) ∧
      ∀ (s : List Nat) (i : Nat), i + 2 < s.length →
        byteAt s i < 128 → byteAt s (i + 1) < 128 →
        IsLetter (byteAt s i) = false → IsLetter (byteAt s (i + 1)) = false →
        IsLetter (DecodeUtf8At s (i + 2)).1 = true →
        ∃ chunk i', splitStep s i = some (chunk, i') ∧ i' ≤ i + 2 := by
  refine ⟨fun hl hn hnl hnc => ?_, letter_run_step pre L rest hne hp hrest,
    fun s i h2 hb1 hb2 hl1 hl2 hL => two_nonletters s i h2 hb1 hb2 hl1 hl2 hL⟩
  rw [AppendUtf8_ascii g (not_letter_ascii g hl)] at hnc ⊢
  rw [glue_step pre L rest g hl hn hnl hne hp hrest
    (glue_no_contraction pre L rest g hne hrest hnc), List.length_append,
    List.length_singleton]
  congr 2
  omega

/-- C32 (witness): the text `x ab1` read from the space: the chunk is the space and the
two letters. -/
theorem letter_glue_rule_witness :
    splitStep [120, 32, 97, 98, 49] 1 = some ([32, 97, 98], 4) :=
  (letter_glue_rule [120] [97, 98] [49] 32 (by decide) (by decide) (Or.inr (by decide))).1
    (by decide) (by decide) (by decide) (by
      intro c hc hpre
      have h2 := (contraction_first c hc).2
      obtain ⟨t, ht⟩ := hpre
      have : byteAt (c ++ t) 0 = 39 := by
        unfold byteAt at h2 ⊢
        rw [List.getD_append _ _ _ _ (by have := (contraction_first c hc).1; omega)]
        exact h2
      rw [ht] at this
      exact absurd this (by decide))

end QWEN3TTS

namespace QWEN3TTS

open QWEN3TTSUTILS

theorem number_class (cp : Nat) (h : IsNumber cp = true) :
    cp < 128 ∧ IsLetter cp = false ∧ IsNewline cp = false ∧
      IsWhitespaceNonNewline cp = false := by
  unfold IsNumber IsAsciiDigit at h
  simp only [Bool.and_eq_true, decide_eq_true_eq] at h
  unfold IsLetter IsAsciiLetter IsNewline IsWhitespaceNonNewline
  refine ⟨by omega, ?_, ?_, ?_⟩
  · rw [if_pos (by omega)]
    simp only [Bool.or_eq_false_iff, Bool.and_eq_false_iff, decide_eq_false_iff_not]
    omega
  · simp only [Bool.or_eq_false_iff, decide_eq_false_iff_not]
    omega
  · simp only [Bool.or_eq_false_iff, decide_eq_false_iff_not]
    omega

theorem DecodeUtf8At_after (pre x rest : List Nat) :
    DecodeUtf8At (pre ++ (x ++ rest)) (pre.length + x.length) =
      ((DecodeUtf8At rest 0).1, pre.length + x.length + (DecodeUtf8At rest 0).2) := by
  have h := DecodeUtf8At_shift (pre ++ x) rest 0
  rw [Nat.add_zero, List.append_assoc, List.length_append] at h
  exact h

theorem substr_take (pre x rest : List Nat) (k : Nat) (hk : k ≤ x.length) :
    substr (pre ++ (x ++ rest)) pre.length k = x.take k := by
  unfold substr
  rw [List.drop_left, List.take_append_of_le_length hk]

theorem ws_branch (pre rest : List Nat) (b : Nat) (w1 : List Nat)
    (hw : ∀ x ∈ b :: w1, IsWhitespaceNonNewline x = true)
    (hrest : rest = [] ∨ IsWhitespaceNonNewline (DecodeUtf8At rest 0).1 = false)
    (hg : w1 ≠ [] ∨ rest = [] ∨ IsLetter (DecodeUtf8At rest 0).1 = false) :
    splitStep (pre ++ (b :: w1 ++ rest)) pre.length =
      if decide (0 < rest.length) && IsNewline (DecodeUtf8At rest 0).1 then
        (scanWhile IsNewline (pre ++ (b :: w1 ++ rest)) (pre ++ (b :: w1 ++ rest)).length
          (pre.length + (b :: w1).length + (DecodeUtf8At rest 0).2)).map
          (fun nle => (substr (pre ++ (b :: w1 ++ rest)) pre.length (nle - pre.length), nle))
      else if decide (0 < rest.length) &&
          (IsLetter (DecodeUtf8At rest 0).1 || IsOther (DecodeUtf8At rest 0).1) &&
          decide (w1 ≠ []) then
        some ((b :: w1).take w1.length, pre.length + w1.length)
      else some (b :: w1, pre.length + (b :: w1).length) := by
  have hb := ws_class b (hw b (List.mem_cons_self _ _))
  have hw128 : ∀ x ∈ b :: w1, x < 128 := fun x hx => (ws_class x (hw x hx)).1
  have hu := utf8String_ascii (b :: w1) hw128
  obtain ⟨h1, h2, h3⟩ := run_head IsWhitespaceNonNewline pre rest b w1
    (fun x hx => ⟨hw x hx, by have := hw128 x hx; omega⟩) hrest
  rw [hu] at h1 h2 h3
  rw [AppendUtf8_ascii b hb.1, List.length_singleton] at h2 h3
  have hgl : ¬ (pre.length + 1 < (pre ++ (b :: w1 ++ rest)).length ∧
      IsLetter (DecodeUtf8At (pre ++ (b :: w1 ++ rest)) (pre.length + 1)).1 = true) := by
    intro hh
    have hd := DecodeUtf8At_after pre [b] (w1 ++ rest)
    rw [List.length_singleton] at hd
    have heq : pre ++ ([b] ++ (w1 ++ rest)) = pre ++ (b :: w1 ++ rest) := rfl
    rw [heq] at hd
    rw [hd] at hh
    have hlet := hh.2
    dsimp only at hlet
    cases w1 with
    | nil =>
      rw [List.nil_append] at hlet
      rcases hg with h | h | h
      · exact h rfl
      · have := hh.1
        rw [h] at this
        simp at this
      · rw [h] at hlet
        exact absurd hlet (by decide)
    | cons b2 w2 =>
      have hb2 := ws_class b2 (hw b2 (List.mem_cons_of_mem _ (List.mem_cons_self _ _)))
      have : DecodeUtf8At (b2 :: w2 ++ rest) 0 = (b2, 1) :=
        DecodeUtf8At_ascii (b2 :: w2 ++ rest) 0 (by simp) hb2.1
      rw [this] at hlet
      dsimp only at hlet
      rw [hb2.2.1] at hlet
      exact absurd hlet (by decide)
  rw [splitStep_ws _ pre.length b (pre.length + 1) (pre.length + (b :: w1).length)
    (contraction_len_of_not_apostrophe _ _ (by
      have hbb := byteAt_append_right pre (b :: w1 ++ rest) 0
      rw [Nat.add_zero] at hbb
      rw [hbb]
      exact hb.2.2.2.2)) h2 (hw b (List.mem_cons_self _ _)) hgl h3,
    DecodeUtf8At_after pre (b :: w1) rest]
  dsimp only
  have hlen : (pre ++ (b :: w1 ++ rest)).length = pre.length + (b :: w1).length + rest.length := by
    simp only [List.length_append]
    omega
  have hdec : decide (pre.length + (b :: w1).length < (pre ++ (b :: w1 ++ rest)).length) =
      decide (0 < rest.length) := by
    rw [hlen]
    apply decide_eq_decide.mpr
    omega
  have hother : (IsLetter (DecodeUtf8At rest 0).1 || (!IsNewline (DecodeUtf8At rest 0).1 &&
      !IsLetter (DecodeUtf8At rest 0).1 && !IsNumber (DecodeUtf8At rest 0).1 &&
      !IsWhitespaceNonNewline (DecodeUtf8At rest 0).1)) =
      (IsLetter (DecodeUtf8At rest 0).1 || IsOther (DecodeUtf8At rest 0).1) := by
    unfold IsOther
    cases IsLetter (DecodeUtf8At rest 0).1 <;> cases IsNewline (DecodeUtf8At rest 0).1 <;>
      cases IsNumber (DecodeUtf8At rest 0).1 <;>
      cases IsWhitespaceNonNewline (DecodeUtf8At rest 0).1 <;> rfl
  have hd1 : decide (1 < pre.length + (b :: w1).length - pre.length) = decide (w1 ≠ []) := by
    apply decide_eq_decide.mpr
    rw [Nat.add_sub_cancel_left, List.length_cons]
    constructor
    · intro h hn
      rw [hn] at h
      exact absurd h (by decide)
    · intro h
      have := List.length_pos.mpr h
      omega
  rw [hdec, hother, hd1, Nat.add_sub_cancel_left, substr_take pre (b :: w1) rest _ (by simp),
    substr_take pre (b :: w1) rest _ (Nat.le_refl _), List.take_length]
  simp only [List.length_cons, Nat.add_sub_cancel]
  rw [show pre.length + (w1.length + 1) - 1 = pre.length + w1.length by omega]

end QWEN3TTS

namespace QWEN3TTS

open QWEN3TTSUTILS

theorem newline_run (pre rest : List Nat) (n0 : Nat) (nl1 : List Nat)
    (hnl : ∀ x ∈ n0 :: nl1, IsNewline x = true)
    (hrest : rest = [] ∨ IsNewline (DecodeUtf8At rest 0).1 = false) :
    DecodeUtf8At (pre ++ (n0 :: nl1 ++ rest)) pre.length = (n0, pre.length + 1) ∧
      scanWhile IsNewline (pre ++ (n0 :: nl1 ++ rest)) (pre ++ (n0 :: nl1 ++ rest)).length
          (pre.length + 1) = some (pre.length + (n0 :: nl1).length) := by
  have h128 : ∀ x ∈ n0 :: nl1, x < 128 := fun x hx => (nl_class x (hnl x hx)).1
  have hu := utf8String_ascii (n0 :: nl1) h128
  obtain ⟨_, h2, h3⟩ := run_head IsNewline pre rest n0 nl1
    (fun x hx => ⟨hnl x hx, by have := h128 x hx; omega⟩) hrest
  rw [hu] at h2 h3
  rw [AppendUtf8_ascii n0 (h128 n0 (List.mem_cons_self _ _)), List.length_singleton] at h2 h3
  exact ⟨h2, h3⟩

/-- C33: for every (possibly empty) run `w` of non-newline whitespace followed by a
non-empty maximal run `nl` of line feeds and carriage returns (ended by the end of the
text or by a codepoint that is no newline), the chunk starting at `w` is exactly
`w ++ nl`. -/
theorem whitespace_newline_merge (pre w nl rest : List Nat)
    (hw : ∀ x ∈ w, IsWhitespaceNonNewline x = true) (hnl : ∀ x ∈ nl, IsNewline x = true)
    (hne : nl ≠ []) (hrest : rest = [] ∨ IsNewline (DecodeUtf8At rest 0).1 = false) :
    splitStep (pre ++ (w ++ (nl ++ rest))) pre.length =
      some (w ++ nl, pre.length + (w ++ nl).length) := by
  obtain ⟨n0, nl1, rfl⟩ := List.exists_cons_of_ne_nil hne
  have hn0 := nl_class n0 (hnl n0 (List.mem_cons_self _ _))
  have hd0 : DecodeUtf8At (n0 :: nl1 ++ rest) 0 = (n0, 1) :=
    DecodeUtf8At_ascii (n0 :: nl1 ++ rest) 0 (by simp) hn0.1
  cases w with
  | nil =>
    obtain ⟨h2, h3⟩ := newline_run pre rest n0 nl1 hnl hrest
    rw [List.nil_append, List.nil_append,
      splitStep_newline _ pre.length n0 (pre.length + 1) _
        (contraction_len_of_not_apostrophe _ _ (by
          have hbb := byteAt_append_right pre (n0 :: nl1 ++ rest) 0
          rw [Nat.add_zero] at hbb
          rw [hbb]
          exact hn0.2.2.2.2)) h2 (hnl n0 (List.mem_cons_self _ _)) h3,
      substr_prefix]
  | cons b w1 =>
    obtain ⟨_, h3⟩ := newline_run (pre ++ (b :: w1)) rest n0 nl1 hnl hrest
    have hPl : (pre ++ (b :: w1)).length = pre.length + (b :: w1).length :=
      List.length_append _ _
    rw [List.append_assoc, hPl] at h3
    rw [ws_branch pre (n0 :: nl1 ++ rest) b w1 hw
      (Or.inr (by rw [hd0]; exact hn0.2.2.2.1)) (Or.inr (Or.inr (by rw [hd0]; exact hn0.2.1))),
      hd0]
    dsimp only
    rw [if_pos (by
      rw [hnl n0 (List.mem_cons_self _ _), Bool.and_true]
      exact decide_eq_true (by simp)), h3]
    dsimp only [Option.map]
    rw [show pre.length + (b :: w1).length + (n0 :: nl1).length =
      pre.length + (b :: w1 ++ n0 :: nl1).length by rw [List.length_append]; omega,
      ← List.append_assoc (b :: w1), substr_prefix]

/-- C33 (witness): two blanks and `\r\n` before a letter, read after one letter. -/
theorem whitespace_newline_merge_witness :
    splitStep [97, 32, 9, 13, 10, 98] 1 = some ([32, 9, 13, 10], 5) :=
  whitespace_newline_merge [97] [32, 9] [13, 10] [98] (by decide) (by decide) (by decide)
    (Or.inr (by decide))

end QWEN3TTS

namespace QWEN3TTS

open QWEN3TTSUTILS

theorem other_class (cp : Nat) (h : IsOther cp = true) :
    IsNewline cp = false ∧ IsWhitespaceNonNewline cp = false ∧ IsLetter cp = false ∧
      IsNumber cp = false := by
  unfold IsOther at h
  simp only [Bool.not_eq_true', Bool.or_eq_false_iff] at h
  exact ⟨h.1.1.1, h.1.1.2, h.1.2, h.2⟩

/-- C34: for every maximal run `w0 ++ [b]` of at least two non-newline whitespace
characters at a chunk start: (1) when the run is followed by a codepoint that is a
letter or an other codepoint (no whitespace, newline, letter or digit), the chunk is
`w0`, the run without its last character, and the next chunk starts at that last
character `b`; (2) when the run is followed by a non-empty maximal run `L` of letters,
that next chunk is `b` followed by the whole letter run; (3) when the run is followed
by a digit or ends the input, the chunk is the whole run. -/
theorem whitespace_ceding (pre w0 rest : List Nat) (b : Nat) (hw0 : w0 ≠ [])
    (hw : ∀ x ∈ w0 ++ [b], IsWhitespaceNonNewline x = true) :
    (rest ≠ [] →
        IsLetter (DecodeUtf8At rest 0).1 = true ∨ IsOther (DecodeUtf8At rest 0).1 = true →
        splitStep (pre ++ ((w0 ++ [b]) ++ rest)) pre.length =
          some (w0, pre.length + w0.length)) ∧
      (∀ L rest2 : List Nat, L ≠ [] → (∀ cp ∈ L, IsLetter cp = true ∧ cp < 0x200000) →
        (rest2 = [] ∨ IsLetter (DecodeUtf8At rest2 0).1 = false) →
        rest = utf8String L ++ rest2 →
        splitStep (pre ++ ((w0 ++ [b]) ++ rest)) pre.length =
            some (w0, pre.length + w0.length) ∧
          splitStep (pre ++ ((w0 ++ [b]) ++ rest)) (pre.length + w0.length) =
            some ([b] ++ utf8String L, pre.length + w0.length + 1 + (utf8String L).length)) ∧
      (rest = [] ∨ IsNumber (DecodeUtf8At rest 0).1 = true →
        splitStep (pre ++ ((w0 ++ [b]) ++ rest)) pre.length =
          some (w0 ++ [b], pre.length + (w0 ++ [b]).length)) := by
  obtain ⟨a, w2, rfl⟩ := List.exists_cons_of_ne_nil hw0
  have hw' : ∀ x ∈ a :: (w2 ++ [b]), IsWhitespaceNonNewline x = true := hw
  have hne1 : w2 ++ [b] ≠ [] := by simp
  have htake : (a :: (w2 ++ [b])).take (w2 ++ [b]).length = a :: w2 := by
    rw [List.length_append, List.length_singleton, List.take_succ_cons, List.take_left]
  have hlen1 : pre.length + (w2 ++ [b]).length = pre.length + (a :: w2).length := by
    simp only [List.length_append, List.length_cons, List.length_nil]
  have part1 : rest ≠ [] →
      IsLetter (DecodeUtf8At rest 0).1 = true ∨ IsOther (DecodeUtf8At rest 0).1 = true →
      splitStep (pre ++ ((a :: w2 ++ [b]) ++ rest)) pre.length =
        some (a :: w2, pre.length + (a :: w2).length) := by
    intro hr hx
    have hws : IsWhitespaceNonNewline (DecodeUtf8At rest 0).1 = false := by
      rcases hx with h | h
      · exact (letter_class _ h).2.1
      · exact (other_class _ h).2.1
    have hnl : IsNewline (DecodeUtf8At rest 0).1 = false := by
      rcases hx with h | h
      · exact (letter_class _ h).1
      · exact (other_class _ h).1
    have hlo : (IsLetter (DecodeUtf8At rest 0).1 || IsOther (DecodeUtf8At rest 0).1) = true := by
      rcases hx with h | h
      · rw [h, Bool.true_or]
      · rw [h, Bool.or_true]
    have hb := ws_branch pre rest a (w2 ++ [b]) hw' (Or.inr hws) (Or.inl hne1)
    rw [hnl, hlo, Bool.and_false, if_neg (by decide),
      decide_eq_true (List.length_pos.mpr hr), decide_eq_true hne1, if_pos (by decide),
      htake, hlen1] at hb
    exact hb
  refine ⟨part1, ?_, ?_⟩
  · intro L rest2 hL hp hrest2 hrest
    obtain ⟨cp, cps1, rfl⟩ := List.exists_cons_of_ne_nil hL
    have hcp := hp cp (List.mem_cons_self _ _)
    have hd : DecodeUtf8At rest 0 = (cp, (AppendUtf8 cp []).length) := by
      rw [hrest, utf8String_cons, List.append_assoc]
      exact DecodeUtf8At_encoded cp hcp.2 _
    have hr : rest ≠ [] := by
      rw [hrest, utf8String_cons]
      intro h
      have := congrArg List.length h
      simp only [List.length_append, List.length_nil] at this
      have := AppendUtf8_ne_nil cp
      omega
    refine ⟨part1 hr (Or.inl (by rw [hd]; exact hcp.1)), ?_⟩
    have hbws := ws_class b (hw b (by simp))
    have hg := glue_step (pre ++ (a :: w2)) (cp :: cps1) rest2 b hbws.2.1 hbws.2.2.1
      hbws.2.2.2.1 hL hp hrest2
      (contraction_len_of_not_apostrophe _ _ (by
        have hbb := byteAt_append_right (pre ++ (a :: w2))
          ([b] ++ (utf8String (cp :: cps1) ++ rest2)) 0
        rw [Nat.add_zero] at hbb
        rw [hbb]
        exact hbws.2.2.2.2))
    rw [List.append_assoc, List.length_append] at hg
    rw [hrest]
    rw [show pre ++ ((a :: w2 ++ [b]) ++ (utf8String (cp :: cps1) ++ rest2)) =
      pre ++ (a :: w2 ++ ([b] ++ (utf8String (cp :: cps1) ++ rest2))) by
        rw [List.append_assoc]]
    exact hg
  · intro hx
    have hws : rest = [] ∨ IsWhitespaceNonNewline (DecodeUtf8At rest 0).1 = false := by
      rcases hx with h | h
      · exact Or.inl h
      · exact Or.inr (number_class _ h).2.2.2
    have hb := ws_branch pre rest a (w2 ++ [b]) hw' hws (Or.inl hne1)
    rcases hx with h | h
    · rw [h] at hb ⊢
      rw [if_neg (by decide), if_neg (by simp)] at hb
      exact hb
    · obtain ⟨_, hl, hnl, _⟩ := number_class _ h
      have ho : IsOther (DecodeUtf8At rest 0).1 = false := by
        unfold IsOther
        rw [h]
        simp
      rw [hnl, hl, ho, Bool.and_false, if_neg (by decide), if_neg (by simp)] at hb
      exact hb

/-- C34 (witness): three blanks before letters: the chunk is the first two blanks, the
next chunk is the third blank with the letters. -/
theorem whitespace_ceding_witness :
    splitStep [120, 32, 32, 32, 97, 98, 33] 1 = some ([32, 32], 3) ∧
      splitStep [120, 32, 32, 32, 97, 98, 33] 3 = some ([32, 97, 98], 6) :=
  (whitespace_ceding [120] [32, 32] [97, 98, 33] 32 (by decide) (by decide)).2.1
    [97, 98] [33] (by decide) (by decide) (Or.inr (by decide)) (by decide)

end QWEN3TTS

namespace QWEN3TTS

open QWEN3TTSUTILS

theorem bestPair_spec (ranks : List (List Nat × Int)) (word : List (List Nat)) :
    ((bestPair ranks word).2 = -1 ∧
        ∀ i, i + 1 < word.length → ∀ r, pairRank ranks word i = some r → 2147483647 ≤ r) ∨
      ∃ k : Nat, (bestPair ranks word).2 = (k : Int) ∧ k + 1 < word.length ∧
        pairRank ranks word k = some (bestPair ranks word).1 ∧
        (bestPair ranks word).1 < 2147483647 ∧
        ∀ i, i + 1 < word.length → ∀ r, pairRank ranks word i = some r →
          (bestPair ranks word).1 ≤ r ∧ (r = (bestPair ranks word).1 → k ≤ i) := by
  have key : ∀ n : Nat,
      (((List.range n).foldl (fun (st : Int × Int) i =>
            match ranks.lookup (pairKey (word.getD i []) (word.getD (i + 1) [])) with
            | some r => if r < st.1 then (r, (i : Int)) else st
            | none => st) (2147483647, -1)).2 = -1 ∧
          ((List.range n).foldl (fun (st : Int × Int) i =>
            match ranks.lookup (pairKey (word.getD i []) (word.getD (i + 1) [])) with
            | some r => if r < st.1 then (r, (i : Int)) else st
            | none => st) (2147483647, -1)).1 = 2147483647 ∧
          ∀ i, i < n → ∀ r, pairRank ranks word i = some r → 2147483647 ≤ r) ∨
        ∃ k : Nat, ((List.range n).foldl (fun (st : Int × Int) i =>
            match ranks.lookup (pairKey (word.getD i []) (word.getD (i + 1) [])) with
            | some r => if r < st.1 then (r, (i : Int)) else st
            | none => st) (2147483647, -1)).2 = (k : Int) ∧ k < n ∧
          pairRank ranks word k = some ((List.range n).foldl (fun (st : Int × Int) i =>
            match ranks.lookup (pairKey (word.getD i []) (word.getD (i + 1) [])) with
            | some r => if r < st.1 then (r, (i : Int)) else st
            | none => st) (2147483647, -1)).1 ∧
          ((List.range n).foldl (fun (st : Int × Int) i =>
            match ranks.lookup (pairKey (word.getD i []) (word.getD (i + 1) [])) with
            | some r => if r < st.1 then (r, (i : Int)) else st
            | none => st) (2147483647, -1)).1 < 2147483647 ∧
          ∀ i, i < n → ∀ r, pairRank ranks word i = some r →
            ((List.range n).foldl (fun (st : Int × Int) i =>
              match ranks.lookup (pairKey (word.getD i []) (word.getD (i + 1) [])) with
              | some r => if r < st.1 then (r, (i : Int)) else st
              | none => st) (2147483647, -1)).1 ≤ r ∧
            (r = ((List.range n).foldl (fun (st : Int × Int) i =>
              match ranks.lookup (pairKey (word.getD i []) (word.getD (i + 1) [])) with
              | some r => if r < st.1 then (r, (i : Int)) else st
              | none => st) (2147483647, -1)).1 → k ≤ i) := by
    intro n
    induction n with
    | zero =>
      left
      exact ⟨rfl, rfl, fun i hi => absurd hi (Nat.not_lt_zero _)⟩
    | succ n ih =>
      rw [List.range_succ, List.foldl_append, List.foldl_cons, List.foldl_nil]
      generalize (List.range n).foldl (fun (st : Int × Int) i =>
            match ranks.lookup (pairKey (word.getD i []) (word.getD (i + 1) [])) with
            | some r => if r < st.1 then (r, (i : Int)) else st
            | none => st) (2147483647, -1) = st at ih ⊢
      have hpr : pairRank ranks word n =
          ranks.lookup (pairKey (word.getD n []) (word.getD (n + 1) [])) := rfl
      cases hlk : ranks.lookup (pairKey (word.getD n []) (word.getD (n + 1) [])) with
      | none =>
        rw [hlk] at hpr
        simp only []
        rcases ih with ⟨h1, h2, h3⟩ | ⟨k, h1, h2, h3, h4, h5⟩
        · left
          refine ⟨h1, h2, fun i hi r hr => ?_⟩
          rcases Nat.lt_succ_iff_lt_or_eq.mp hi with hlt | heq
          · exact h3 i hlt r hr
          · rw [heq, hpr] at hr
            exact Option.noConfusion hr
        · right
          refine ⟨k, h1, by omega, h3, h4, fun i hi r hr => ?_⟩
          rcases Nat.lt_succ_iff_lt_or_eq.mp hi with hlt | heq
          · exact h5 i hlt r hr
          · rw [heq, hpr] at hr
            exact Option.noConfusion hr
      | some r0 =>
        rw [hlk] at hpr
        simp only []
        by_cases hr0 : r0 < st.1
        · rw [if_pos hr0]
          right
          have hst : st.1 ≤ 2147483647 := by
            rcases ih with ⟨_, h2, _⟩ | ⟨_, _, _, _, h4, _⟩
            · omega
            · omega
          refine ⟨n, rfl, by omega, hpr, by show r0 < 2147483647; omega, fun i hi r hr => ?_⟩
          show r0 ≤ r ∧ (r = r0 → n ≤ i)
          rcases Nat.lt_succ_iff_lt_or_eq.mp hi with hlt | heq
          · have hge : st.1 ≤ r := by
              rcases ih with ⟨_, h2, h3⟩ | ⟨_, _, _, _, _, h5⟩
              · have := h3 i hlt r hr
                omega
              · exact (h5 i hlt r hr).1
            exact ⟨by omega, fun h => by omega⟩
          · rw [heq, hpr] at hr
            injection hr with hr
            exact ⟨by omega, fun _ => by omega⟩
        · rw [if_neg hr0]
          rcases ih with ⟨h1, h2, h3⟩ | ⟨k, h1, h2, h3, h4, h5⟩
          · left
            refine ⟨h1, h2, fun i hi r hr => ?_⟩
            rcases Nat.lt_succ_iff_lt_or_eq.mp hi with hlt | heq
            · exact h3 i hlt r hr
            · rw [heq, hpr] at hr
              injection hr with hr
              omega
          · right
            refine ⟨k, h1, by omega, h3, h4, fun i hi r hr => ?_⟩
            rcases Nat.lt_succ_iff_lt_or_eq.mp hi with hlt | heq
            · exact h5 i hlt r hr
            · rw [heq, hpr] at hr
              injection hr with hr
              exact ⟨by omega, fun _ => by omega⟩
  have h := key (word.length - 1)
  have hb : bestPair ranks word = (List.range (word.length - 1)).foldl (fun (st : Int × Int) i =>
      match ranks.lookup (pairKey (word.getD i []) (word.getD (i + 1) [])) with
      | some r => if r < st.1 then (r, (i : Int)) else st
      | none => st) (2147483647, -1) := rfl
  rw [← hb] at h
  rcases h with ⟨h1, _, h3⟩ | ⟨k, h1, h2, h3, h4, h5⟩
  · left
    exact ⟨h1, fun i hi r hr => h3 i (by omega) r hr⟩
  · right
    exact ⟨k, h1, by omega, h3, h4, fun i hi r hr => h5 i (by omega) r hr⟩

end QWEN3TTS

namespace QWEN3TTS

open QWEN3TTSUTILS

theorem mergeAt_after (b : Int) : ∀ (r : List (List Nat)) (j : Nat), b < (j : Int) →
    mergeAt b j r = r := by
  intro r
  induction r with
  | nil => intro j _; rfl
  | cons x r ihr =>
    intro j hj
    match r with
    | [] => rfl
    | y :: r' =>
      unfold mergeAt
      rw [if_neg (by omega), ihr (j + 1) (by push_cast; omega)]

theorem mergeAt_spec (k : Nat) :
    ∀ (l : List (List Nat)) (i : Nat), i ≤ k → k + 1 < i + l.length →
      mergeAt (k : Int) i l =
        l.take (k - i) ++ [l.getD (k - i) [] ++ l.getD (k - i + 1) []] ++ l.drop (k - i + 2) := by
  intro l
  induction l with
  | nil => intro i _ h2; simp at h2; omega
  | cons a l ih =>
    intro i h1 h2
    match l with
    | [] => simp at h2; omega
    | c :: rest =>
      unfold mergeAt
      by_cases hb : ((i : Nat) : Int) = (k : Int)
      · have hik : i = k := by omega
        rw [if_pos hb, mergeAt_after (k : Int) rest (i + 2) (by push_cast; omega), hik,
          Nat.sub_self]
        rfl
      · rw [if_neg hb]
        have hik : i < k := by omega
        have h := ih (i + 1) (by omega) (by simp only [List.length_cons] at h2 ⊢; omega)
        rw [h]
        obtain ⟨d, hd⟩ : ∃ d, k - i = d + 1 := ⟨k - i - 1, by omega⟩
        have hd2 : k - (i + 1) = d := by omega
        rw [hd, hd2]
        rfl

theorem mergeAt_flatten (b : Int) : ∀ (n : Nat) (l : List (List Nat)) (i : Nat),
    l.length ≤ n → (mergeAt b i l).flatten = l.flatten := by
  intro n
  induction n with
  | zero =>
    intro l i hl
    have : l = [] := List.length_eq_zero.mp (by omega)
    rw [this]
    rfl
  | succ n ih =>
    intro l i hl
    match l with
    | [] => rfl
    | [a] => rfl
    | a :: c :: rest =>
      unfold mergeAt
      simp only [List.length_cons] at hl
      by_cases hb : (i : Int) = b
      · rw [if_pos hb, List.flatten_cons, ih rest (i + 2) (by omega)]
        simp
      · rw [if_neg hb, List.flatten_cons, ih (c :: rest) (i + 1) (by simp; omega)]
        simp

theorem mergeAt_all (Q : List Nat → Prop) (hQ : ∀ a c, Q a → Q c → Q (a ++ c)) (b : Int) :
    ∀ (n : Nat) (l : List (List Nat)) (i : Nat), l.length ≤ n → (∀ u ∈ l, Q u) →
      ∀ u ∈ mergeAt b i l, Q u := by
  intro n
  induction n with
  | zero =>
    intro l i hl _ u hu
    have : l = [] := List.length_eq_zero.mp (by omega)
    rw [this] at hu
    exact absurd hu (List.not_mem_nil _)
  | succ n ih =>
    intro l i hl hall u hu
    match l with
    | [] => exact absurd hu (List.not_mem_nil _)
    | [a] => exact hall u hu
    | a :: c :: rest =>
      unfold mergeAt at hu
      simp only [List.length_cons] at hl
      have ha := hall a (List.mem_cons_self _ _)
      have hc := hall c (List.mem_cons_of_mem _ (List.mem_cons_self _ _))
      by_cases hb : (i : Int) = b
      · rw [if_pos hb] at hu
        rcases List.mem_cons.mp hu with h | h
        · rw [h]
          exact hQ a c ha hc
        · exact ih rest (i + 2) (by omega)
            (fun x hx => hall x (List.mem_cons_of_mem _ (List.mem_cons_of_mem _ hx))) u h
      · rw [if_neg hb] at hu
        rcases List.mem_cons.mp hu with h | h
        · rw [h]
          exact ha
        · exact ih (c :: rest) (i + 1) (by simp; omega)
            (fun x hx => hall x (List.mem_cons_of_mem _ hx)) u h

theorem BpeLoop_iter (ranks : List (List Nat × Int)) :
    ∀ (fuel : Nat) (word : List (List Nat)), word.length < fuel →
      ∃ n, n ≤ word.length - 1 ∧
        BpeLoop ranks fuel word = some ((bpeStep ranks)^[n] word) ∧
        (bestPair ranks ((bpeStep ranks)^[n] word)).2 < 0 ∧
        ((bpeStep ranks)^[n] word).length + n = word.length ∧
        ∀ m, m < n → 0 ≤ (bestPair ranks ((bpeStep ranks)^[m] word)).2 := by
  intro fuel
  induction fuel with
  | zero => intro word h; omega
  | succ f ih =>
    intro word h
    unfold BpeLoop
    by_cases hb : (bestPair ranks word).2 < 0
    · rw [if_pos hb]
      exact ⟨0, Nat.zero_le _, rfl, hb, rfl, fun m hm => absurd hm (Nat.not_lt_zero _)⟩
    · rw [if_neg hb]
      rcases bestPair_bounds ranks word with h1 | ⟨h1, h2⟩
      · omega
      · have hlen := mergeAt_length (bestPair ranks word).2 word.length 0 word (le_refl _)
          (by simpa using h1) (by simpa using h2)
        have hstep : mergeAt (bestPair ranks word).2 0 word = bpeStep ranks word := rfl
        rw [hstep] at hlen ⊢
        by_cases h1' : (bpeStep ranks word).length = 1
        · rw [if_pos h1']
          refine ⟨1, by omega, rfl, ?_, by
            rw [Function.iterate_one]; omega, fun m hm => ?_⟩
          · rw [Function.iterate_one]
            rcases bestPair_bounds ranks (bpeStep ranks word) with h3 | ⟨h3, h4⟩
            · omega
            · rw [h1'] at h4; omega
          · have : m = 0 := by omega
            rw [this]
            exact not_lt.mp hb
        · rw [if_neg h1']
          obtain ⟨n, hn1, hn2, hn3, hn4, hn5⟩ := ih (bpeStep ranks word) (by omega)
          refine ⟨n + 1, by omega, ?_, ?_, ?_, fun m hm => ?_⟩
          · rw [Function.iterate_succ_apply]
            exact hn2
          · rw [Function.iterate_succ_apply]
            exact hn3
          · rw [Function.iterate_succ_apply]
            omega
          · cases m with
            | zero => exact not_lt.mp hb
            | succ m =>
              rw [Function.iterate_succ_apply]
              exact hn5 m (by omega)

theorem no_ranked_pair (ranks : List (List Nat × Int)) (hr : RanksBelowMax ranks)
    (word : List (List Nat)) (h : (bestPair ranks word).2 < 0) :
    ∀ i, i + 1 < word.length → pairRank ranks word i = none := by
  intro i hi
  rcases bestPair_spec ranks word with ⟨_, h2⟩ | ⟨k, h1, _⟩
  · cases hp : pairRank ranks word i with
    | none => rfl
    | some r =>
      have := h2 i hi r hp
      have := hr _ r hp
      omega
  · omega

end QWEN3TTS

namespace QWEN3TTS

open QWEN3TTSUTILS

theorem SplitUtf8CharsLoop_spec (s : List Nat) :
    ∀ (fuel i : Nat) (out : List (List Nat)), i ≤ s.length → s.length - i ≤ fuel →
      out.flatten = s.take i → (∀ c ∈ out, c ≠ []) →
      ∃ w, SplitUtf8CharsLoop s fuel i out = some w ∧ (∀ c ∈ w, c ≠ []) ∧ w.flatten = s := by
  intro fuel
  induction fuel with
  | zero =>
    intro i out hi hf hj hne
    have hi' : i = s.length := by omega
    refine ⟨out, by simp [SplitUtf8CharsLoop, hi'], hne, ?_⟩
    rw [hj, hi', List.take_length]
  | succ f ih =>
    intro i out hi hf hj hne
    unfold SplitUtf8CharsLoop
    by_cases hlt : i < s.length
    · rw [if_pos hlt]
      obtain ⟨h1, h2⟩ := DecodeUtf8At_next s i hlt
      obtain ⟨hn, ht⟩ := substr_step s i _ h1 h2
      apply ih _ _ h2 (by omega)
      · rw [List.flatten_append, hj]
        simpa using ht
      · intro c hcm
        rcases List.mem_append.mp hcm with hcm | hcm
        · exact hne c hcm
        · rw [List.mem_singleton.mp hcm]
          exact hn
    · rw [if_neg hlt]
      have hi' : i = s.length := by omega
      refine ⟨out, rfl, hne, ?_⟩
      rw [hj, hi', List.take_length]

theorem SplitUtf8Chars_spec (s : List Nat) :
    ∃ w, SplitUtf8Chars s = some w ∧ (∀ c ∈ w, c ≠ []) ∧ w.flatten = s :=
  SplitUtf8CharsLoop_spec s s.length 0 [] (Nat.zero_le _) (by omega) (by simp) (by simp)

theorem BpeUncached_units (ranks : List (List Nat × Int)) (token : List Nat) :
    ∃ word units, SplitUtf8Chars token = some word ∧
      BpeUnitsOf ranks token = some units ∧ BpeUnits ranks word = some units ∧
      BpeUncached ranks token = some (joinUnits units) ∧ (bestPair ranks units).2 < 0 := by
  obtain ⟨w, hw, _, hfl⟩ := SplitUtf8Chars_spec token
  unfold BpeUnitsOf BpeUncached
  rw [hw]
  dsimp only
  by_cases h1 : w.length = 1
  · rw [if_pos h1, if_pos h1]
    match w, h1, hfl with
    | [u], _, hfl =>
      have hu : u = token := by simpa using hfl
      refine ⟨[u], [u], rfl, rfl, rfl, ?_, show ((-1 : Int) < 0) by decide⟩
      rw [hu]
      rfl
  · rw [if_neg h1, if_neg h1]
    obtain ⟨r, hr, hb⟩ := BpeUnits_some ranks w
    rw [hr]
    exact ⟨w, r, rfl, rfl, hr, rfl, hb⟩

/-- C35: for a rank table whose ranks are below `INT_MAX`: (1) on a unit list with at
least one adjacent pair present in the table, a pass of the loop body selects the
position `k` of the leftmost pair of minimal rank, and the new list is the old one with
exactly the units `k` and `k + 1` replaced by their concatenation (every other unit is
kept, later occurrences of the same pair included), one unit shorter; (2) the loop
makes `n` such passes, `n` at most the number of units minus one, every one of them on
a list with a ranked adjacent pair, and stops at the first list without a ranked
adjacent pair (a single unit has none). -/
theorem bpe_merge_step (ranks : List (List Nat × Int)) (word : List (List Nat))
    (hr : RanksBelowMax ranks) :
    ((∃ i, i + 1 < word.length ∧ pairRank ranks word i ≠ none) →
        ∃ (k : Nat) (r : Int), bestPair ranks word = (r, (k : Int)) ∧ k + 1 < word.length ∧
          pairRank ranks word k = some r ∧
          (∀ i r', i + 1 < word.length → pairRank ranks word i = some r' →
            r ≤ r' ∧ (r' = r → k ≤ i)) ∧
          bpeStep ranks word =
            word.take k ++ [word.getD k [] ++ word.getD (k + 1) []] ++ word.drop (k + 2) ∧
          (bpeStep ranks word).length + 1 = word.length) ∧
      ∃ n, n ≤ word.length - 1 ∧
        BpeUnits ranks word = some ((bpeStep ranks)^[n] word) ∧
        (∀ i, i + 1 < ((bpeStep ranks)^[n] word).length →
          pairRank ranks ((bpeStep ranks)^[n] word) i = none) ∧
        ((bpeStep ranks)^[n] word).length + n = word.length ∧
        ∀ m, m < n → ∃ i, i + 1 < ((bpeStep ranks)^[m] word).length ∧
          pairRank ranks ((bpeStep ranks)^[m] word) i ≠ none := by
  constructor
  · rintro ⟨i, hi, hp⟩
    rcases bestPair_spec ranks word with ⟨_, h2⟩ | ⟨k, h1, h2, h3, h4, h5⟩
    · cases hpi : pairRank ranks word i with
      | none => exact absurd hpi hp
      | some r =>
        have := h2 i hi r hpi
        have := hr _ r hpi
        omega
    · refine ⟨k, (bestPair ranks word).1, Prod.ext rfl h1, h2, h3,
        fun i r' hi hr' => h5 i hi r' hr', ?_, ?_⟩
      · unfold bpeStep
        rw [h1, mergeAt_spec k word 0 (Nat.zero_le _) (by omega), Nat.sub_zero]
      · unfold bpeStep
        exact mergeAt_length _ word.length 0 word (le_refl _) (by rw [h1]; simp)
          (by rw [h1]; push_cast; omega)
  · obtain ⟨n, hn1, hn2, hn3, hn4, hn5⟩ :=
      BpeLoop_iter ranks (word.length + 1) word (Nat.lt_succ_self _)
    refine ⟨n, hn1, hn2, no_ranked_pair ranks hr _ hn3, hn4, fun m hm => ?_⟩
    rcases bestPair_spec ranks ((bpeStep ranks)^[m] word) with ⟨h1, _⟩ | ⟨k, _, h2, h3, _⟩
    · have := hn5 m hm
      omega
    · exact ⟨k, h2, by rw [h3]; exact Option.noConfusion⟩

/-- C35 (witness): with the single merge `a b`, the list `a b a b` becomes `ab a b`. -/
theorem bpe_merge_step_witness :
    ∃ (k : Nat) (r : Int),
      bestPair [(pairKey [97] [98], 0)] [[97], [98], [97], [98]] = (r, (k : Int)) ∧
        k + 1 < [[97], [98], [97], [98]].length ∧
        pairRank [(pairKey [97] [98], 0)] [[97], [98], [97], [98]] k = some r ∧
        (∀ i r', i + 1 < [[97], [98], [97], [98]].length →
          pairRank [(pairKey [97] [98], 0)] [[97], [98], [97], [98]] i = some r' →
          r ≤ r' ∧ (r' = r → k ≤ i)) ∧
        bpeStep [(pairKey [97] [98], 0)] [[97], [98], [97], [98]] =
          [[97], [98], [97], [98]].take k ++
            [[[97], [98], [97], [98]].getD k [] ++ [[97], [98], [97], [98]].getD (k + 1) []] ++
            [[97], [98], [97], [98]].drop (k + 2) ∧
        (bpeStep [(pairKey [97] [98], 0)] [[97], [98], [97], [98]]).length + 1 =
          [[97], [98], [97], [98]].length :=
  (bpe_merge_step [(pairKey [97] [98], 0)] [[97], [98], [97], [98]] (by
    intro k r h
    rw [List.lookup_cons] at h
    split at h
    · injection h with h
      rw [← h]
      decide
    · exact Option.noConfusion h)).1 ⟨0, by decide, by decide⟩

/-- C37: for a rank table whose ranks are below `INT_MAX` and a cache that holds
results of the algorithm, `Bpe` returns for every token the units of `BpeUnitsOf`
joined by spaces, and no adjacent pair of these units is present in the rank table. -/
theorem bpe_fixed_point (t : VoiceTokenizer) (token : List Nat)
    (hr : RanksBelowMax t.bpe_ranks_) (hc : CacheOk t.bpe_ranks_ t.bpe_cache_) :
    ∃ units v t', BpeUnitsOf t.bpe_ranks_ token = some units ∧
      Bpe t token = some (v, t') ∧ v = joinUnits units ∧
      ∀ i, i + 1 < units.length → pairRank t.bpe_ranks_ units i = none := by
  obtain ⟨v, t', h1, h2, _⟩ := Bpe_spec t token hc
  obtain ⟨_, units, _, hu1, _, hu2, hu3⟩ := BpeUncached_units t.bpe_ranks_ token
  rw [h2] at hu2
  injection hu2 with hu2
  exact ⟨units, v, t', hu1, h1, hu2, no_ranked_pair t.bpe_ranks_ hr units hu3⟩

/-- C37 (witness): the token `abab` with the single merge `a b`: the units are `ab ab`,
and the pair `ab ab` has no rank. -/
theorem bpe_fixed_point_witness :
    ∃ units v t',
      BpeUnitsOf ({ plainTokenizer with bpe_ranks_ := [(pairKey [97] [98], 0)] }).bpe_ranks_
        [97, 98, 97, 98] = some units ∧
      Bpe { plainTokenizer with bpe_ranks_ := [(pairKey [97] [98], 0)] } [97, 98, 97, 98] =
        some (v, t') ∧ v = joinUnits units ∧
      ∀ i, i + 1 < units.length →
        pairRank ({ plainTokenizer with bpe_ranks_ := [(pairKey [97] [98], 0)] }).bpe_ranks_
          units i = none :=
  bpe_fixed_point { plainTokenizer with bpe_ranks_ := [(pairKey [97] [98], 0)] }
    [97, 98, 97, 98] (by
      intro k r h
      have h' : List.lookup k [(pairKey [97] [98], (0 : Int))] = some r := h
      rw [List.lookup_cons] at h'
      split at h'
      · injection h' with h'
        rw [← h']
        decide
      · exact Option.noConfusion h') (CacheOk_nil _)

end QWEN3TTS

namespace QWEN3TTS

open QWEN3TTSUTILS

theorem join_fold : ∀ (l p : List (List Nat)) (out : List Nat), p ≠ [] →
    (List.range' p.length l.length).foldl
        (fun out i => (if i ≠ 0 then out ++ [32] else out) ++ (p ++ l).getD i []) out =
      out ++ l.flatMap (fun x => 32 :: x) := by
  intro l
  induction l with
  | nil =>
    intro p out _
    simp
  | cons x l ih =>
    intro p out hp
    have hk : p.length ≠ 0 := fun h => hp (List.length_eq_zero.mp h)
    have hg : (p ++ x :: l).getD p.length [] = x := by
      rw [List.getD_append_right _ _ _ _ (Nat.le_refl _), Nat.sub_self]
      rfl
    have h := ih (p ++ [x]) (out ++ [32] ++ x) (by simp)
    rw [List.length_append, List.length_singleton, List.append_assoc, List.singleton_append]
      at h
    rw [List.length_cons, List.range'_succ, List.foldl_cons, if_pos hk, hg, h,
      List.flatMap_cons]
    simp

theorem joinUnits_cons (u : List Nat) (us : List (List Nat)) :
    joinUnits (u :: us) = u ++ us.flatMap (fun x => 32 :: x) := by
  unfold joinUnits
  have h := join_fold us [u] u (by simp)
  rw [List.length_singleton, List.singleton_append] at h
  rw [List.length_cons, List.range_eq_range', List.range'_succ, List.foldl_cons, ← h]
  rfl

theorem PiecesLoop_end (bpe : List Nat) (fuel i : Nat) (hi : bpe.length ≤ i) :
    PiecesLoop bpe fuel i = some [] := by
  cases fuel with
  | zero => rw [PiecesLoop, if_neg (by omega)]
  | succ f => rw [PiecesLoop, if_neg (by omega)]

theorem PiecesLoop_join : ∀ (us : List (List Nat)) (pre u : List Nat) (fuel : Nat),
    u ≠ [] ∧ 32 ∉ u → (∀ x ∈ us, x ≠ [] ∧ 32 ∉ x) →
    (u ++ us.flatMap (fun x => 32 :: x)).length ≤ fuel →
    PiecesLoop (pre ++ (u ++ us.flatMap (fun x => 32 :: x))) fuel pre.length =
      some (u :: us) := by
  intro us
  induction us with
  | nil =>
    intro pre u fuel hu _ hf
    have hul : 0 < u.length := List.length_pos.mpr hu.1
    simp only [List.flatMap_nil, List.append_nil] at hf ⊢
    obtain ⟨f, rfl⟩ : ∃ f, fuel = f + 1 := ⟨fuel - 1, by omega⟩
    have hfs : findSpace (pre ++ u) pre.length = pre.length + u.length := by
      unfold findSpace
      rw [List.drop_left, List.indexOf_eq_length.mpr hu.2]
    have hsub := substr_prefix pre u []
    rw [List.append_nil] at hsub
    rw [PiecesLoop, if_pos (by rw [List.length_append]; omega), hfs, hsub,
      PiecesLoop_end (pre ++ u) f (pre.length + u.length + 1)
        (by rw [List.length_append]; omega)]
    rfl
  | cons v vs ih =>
    intro pre u fuel hu hall hf
    have hul : 0 < u.length := List.length_pos.mpr hu.1
    rw [List.flatMap_cons] at hf ⊢
    have hf1 : 1 ≤ fuel := by
      simp only [List.length_append, List.length_cons] at hf
      omega
    obtain ⟨f, rfl⟩ : ∃ f, fuel = f + 1 := ⟨fuel - 1, by omega⟩
    have hfs : findSpace (pre ++ (u ++ (32 :: v ++ vs.flatMap (fun x => 32 :: x))))
        pre.length = pre.length + u.length := by
      unfold findSpace
      rw [List.drop_left, List.indexOf_append_of_not_mem hu.2, List.cons_append,
        List.indexOf_cons_self, Nat.add_zero]
    have hih := ih (pre ++ u ++ [32]) v f (hall v (List.mem_cons_self _ _))
      (fun x hx => hall x (List.mem_cons_of_mem _ hx))
      (by simp only [List.length_append, List.length_cons] at hf ⊢; omega)
    have heq : pre ++ u ++ [32] ++ (v ++ vs.flatMap (fun x => 32 :: x)) =
        pre ++ (u ++ (32 :: v ++ vs.flatMap (fun x => 32 :: x))) := by
      simp
    have hl : (pre ++ u ++ [32]).length = pre.length + u.length + 1 := by
      simp only [List.length_append, List.length_singleton]
    rw [heq, hl] at hih
    rw [PiecesLoop, if_pos (by simp only [List.length_append]; omega), hfs, hih, substr_prefix]
    rfl

theorem BpePieces_join (units : List (List Nat)) (h : ∀ x ∈ units, x ≠ [] ∧ 32 ∉ x) :
    BpePieces (joinUnits units) = some units := by
  cases units with
  | nil => rfl
  | cons u us =>
    unfold BpePieces
    rw [joinUnits_cons]
    exact PiecesLoop_join us [] u _ (h u (List.mem_cons_self _ _))
      (fun x hx => h x (List.mem_cons_of_mem _ hx)) (Nat.le_refl _)

theorem iterate_units (ranks : List (List Nat × Int)) (Q : List Nat → Prop)
    (hQ : ∀ a c, Q a → Q c → Q (a ++ c)) :
    ∀ (n : Nat) (word : List (List Nat)), (∀ u ∈ word, Q u) →
      (∀ u ∈ (bpeStep ranks)^[n] word, Q u) ∧
        ((bpeStep ranks)^[n] word).flatten = word.flatten := by
  intro n
  induction n with
  | zero => intro word h; exact ⟨h, rfl⟩
  | succ n ih =>
    intro word h
    rw [Function.iterate_succ_apply]
    have h1 : ∀ u ∈ bpeStep ranks word, Q u :=
      mergeAt_all Q hQ _ word.length word 0 (Nat.le_refl _) h
    have h2 : (bpeStep ranks word).flatten = word.flatten :=
      mergeAt_flatten _ word.length word 0 (Nat.le_refl _)
    obtain ⟨h3, h4⟩ := ih (bpeStep ranks word) h1
    exact ⟨h3, h4.trans h2⟩

theorem BpeUnits_units (ranks : List (List Nat × Int)) (word units : List (List Nat))
    (h : BpeUnits ranks word = some units) (hw : ∀ u ∈ word, u ≠ [] ∧ 32 ∉ u) :
    (∀ u ∈ units, u ≠ [] ∧ 32 ∉ u) ∧ units.flatten = word.flatten := by
  obtain ⟨n, _, hn, _⟩ := BpeLoop_iter ranks (word.length + 1) word (Nat.lt_succ_self _)
  have hn' : BpeUnits ranks word = some ((bpeStep ranks)^[n] word) := hn
  rw [h] at hn'
  injection hn' with hn'
  rw [hn']
  apply iterate_units ranks (fun u => u ≠ [] ∧ 32 ∉ u) _ n word hw
  intro a c ha hc
  refine ⟨fun h => ha.1 (List.append_eq_nil.mp h).1, fun h => ?_⟩
  rcases List.mem_append.mp h with h | h
  · exact ha.2 h
  · exact hc.2 h

end QWEN3TTS

namespace QWEN3TTS

open QWEN3TTSUTILS

set_option maxRecDepth 100000 in
theorem displayTable_no_space : ∀ b, b < 256 → 32 ∉ displayTable.getD b [] := by
  decide!

theorem encoded_no_space (chunk : List Nat) : 32 ∉ ByteEncodeToken displayTable chunk := by
  rw [ByteEncodeToken_eq_flatMap]
  intro h
  obtain ⟨b, _, hb⟩ := List.mem_flatMap.mp h
  by_cases hlt : b < 256
  · exact displayTable_no_space b hlt hb
  · rw [List.getD_eq_default _ _ (by rw [displayTable_length]; omega)] at hb
    exact absurd hb (List.not_mem_nil _)

theorem EncodeLoop_join (units : List (List Nat)) (hq : ∀ u ∈ units, u ≠ [] ∧ 32 ∉ u)
    (vocab : List (List Nat × Int)) (eot : Int) (ids : List Int) :
    ((0 ≤ eot ∨ AllInVocab vocab units) →
        EncodeLoop vocab eot (joinUnits units) (joinUnits units).length 0 ids =
          some (some (ids ++ units.map (pieceId vocab eot)))) ∧
      (¬ (0 ≤ eot ∨ AllInVocab vocab units) →
        EncodeLoop vocab eot (joinUnits units) (joinUnits units).length 0 ids = some none) := by
  obtain ⟨ps, hps, h1, h2⟩ :=
    EncodeLoop_spec vocab eot (joinUnits units) (joinUnits units).length 0 ids (by omega)
  have hj : PiecesLoop (joinUnits units) (joinUnits units).length 0 = some units :=
    BpePieces_join units hq
  rw [hj] at hps
  injection hps with hps
  rw [← hps] at h1 h2
  exact ⟨h1, h2⟩

/-- C36: with the byte table that `InitByteEncoder` builds, for every chunk the string
`ByteEncodeToken(chunk)` contains no byte 0x20; the units from which `Bpe` builds its
result are non-empty and free of 0x20 and their concatenation is
`ByteEncodeToken(chunk)`; `Bpe` returns them joined by single spaces; the inner loop of
`Encode`, run on that result, pushes exactly one id per unit, in order, namely the
vocabulary id of the unit (the end-of-text id on a miss), or returns early when a unit
is out of vocabulary and there is no end-of-text id; the iteration of the chunk loop
of `Encode` on the chunk continues with exactly these ids appended, and so does
`Encode` on a text whose first chunk it is. -/
theorem space_delimiter (enc0 : List (List Nat)) (h : enc0.length = 256)
    (ranks : List (List Nat × Int)) (chunk : List Nat) :
    32 ∉ ByteEncodeToken (InitByteEncoder enc0) chunk ∧
      ∃ units,
        BpeUnitsOf ranks (ByteEncodeToken (InitByteEncoder enc0) chunk) = some units ∧
        BpeUncached ranks (ByteEncodeToken (InitByteEncoder enc0) chunk) =
          some (joinUnits units) ∧
        (∀ u ∈ units, u ≠ [] ∧ 32 ∉ u) ∧
        units.flatten = ByteEncodeToken (InitByteEncoder enc0) chunk ∧
        (∀ (vocab : List (List Nat × Int)) (eot : Int) (ids : List Int),
          ((0 ≤ eot ∨ AllInVocab vocab units) →
            EncodeLoop vocab eot (joinUnits units) (joinUnits units).length 0 ids =
              some (some (ids ++ units.map (pieceId vocab eot)))) ∧
          (¬ (0 ≤ eot ∨ AllInVocab vocab units) →
            EncodeLoop vocab eot (joinUnits units) (joinUnits units).length 0 ids =
              some none)) ∧
        (∀ (t : VoiceTokenizer) (rest : List (List Nat)) (ids : List Int),
          t.bpe_ranks_ = ranks → t.byte_encoder_ = InitByteEncoder enc0 →
          CacheOk t.bpe_ranks_ t.bpe_cache_ →
          ∃ t1, Bpe t (ByteEncodeToken (InitByteEncoder enc0) chunk) =
              some (joinUnits units, t1) ∧
            ((0 ≤ t.endoftext_id_ ∨ AllInVocab t.vocab_ units) →
              EncodeChunks t (chunk :: rest) ids =
                  EncodeChunks t1 rest
                    (ids ++ units.map (pieceId t.vocab_ t.endoftext_id_)) ∧
                ∀ text, RegexLikeSplit text = some (chunk :: rest) →
                  Encode t text =
                    EncodeChunks t1 rest (units.map (pieceId t.vocab_ t.endoftext_id_))) ∧
            (¬ (0 ≤ t.endoftext_id_ ∨ AllInVocab t.vocab_ units) →
              EncodeChunks t (chunk :: rest) ids =
                  some ([], { t1 with last_error_ := "Tokenizer OOV and no unk token id" }) ∧
                ∀ text, RegexLikeSplit text = some (chunk :: rest) →
                  Encode t text =
                    some ([],
                      { t1 with last_error_ := "Tokenizer OOV and no unk token id" }))) := by
  rw [InitByteEncoder_eq_displayTable enc0 h]
  have hns := encoded_no_space chunk
  refine ⟨hns, ?_⟩
  obtain ⟨word, units, hw, hu1, hu2, hu3, _⟩ :=
    BpeUncached_units ranks (ByteEncodeToken displayTable chunk)
  obtain ⟨w, hw2, hne, hfl⟩ := SplitUtf8Chars_spec (ByteEncodeToken displayTable chunk)
  rw [hw] at hw2
  injection hw2 with hw2
  rw [← hw2] at hne hfl
  have hword : ∀ u ∈ word, u ≠ [] ∧ 32 ∉ u := by
    intro u hu
    refine ⟨hne u hu, fun h32 => hns ?_⟩
    rw [← hfl]
    exact List.mem_flatten.mpr ⟨u, hu, h32⟩
  obtain ⟨hq, hflat⟩ := BpeUnits_units ranks word units hu2 hword
  refine ⟨units, hu1, hu3, hq, hflat.trans hfl,
    fun vocab eot ids => EncodeLoop_join units hq vocab eot ids, fun t rest ids ht hb hc => ?_⟩
  obtain ⟨v, t1, h1, h2, hs, _, _⟩ := Bpe_spec t (ByteEncodeToken displayTable chunk) hc
  rw [ht, hu3] at h2
  injection h2 with h2
  rw [← h2] at h1
  obtain ⟨s1, _, _, _, _, s6, _⟩ := hs
  have step : ∀ ids0 : List Int,
      ((0 ≤ t.endoftext_id_ ∨ AllInVocab t.vocab_ units) →
        EncodeChunks t (chunk :: rest) ids0 =
          EncodeChunks t1 rest (ids0 ++ units.map (pieceId t.vocab_ t.endoftext_id_))) ∧
      (¬ (0 ≤ t.endoftext_id_ ∨ AllInVocab t.vocab_ units) →
        EncodeChunks t (chunk :: rest) ids0 =
          some ([], { t1 with last_error_ := "Tokenizer OOV and no unk token id" })) := by
    intro ids0
    obtain ⟨e1, e2⟩ := EncodeLoop_join units hq t1.vocab_ t1.endoftext_id_ ids0
    rw [s1, s6] at e1 e2
    refine ⟨fun hok => ?_, fun hno => ?_⟩
    · rw [EncodeChunks, hb, h1]
      dsimp only
      rw [s1, s6, e1 hok]
    · rw [EncodeChunks, hb, h1]
      dsimp only
      rw [s1, s6, e2 hno]
  refine ⟨t1, h1, fun hok => ⟨(step ids).1 hok, fun text htext => ?_⟩,
    fun hno => ⟨(step ids).2 hno, fun text htext => ?_⟩⟩
  · unfold Encode
    rw [htext]
    dsimp only
    rw [(step []).1 hok, List.nil_append]
  · unfold Encode
    rw [htext]
    dsimp only
    rw [(step []).2 hno]

/-- C36 (witness): the chunk `a b` with a space byte, no merge rule and the vocabulary
`a ↦ 5` with end-of-text id 9: the encoding has no byte 0x20, the units are the three
display characters, and the inner loop of `Encode` pushes the ids 5, 9, 9. -/
theorem space_delimiter_witness :
    32 ∉ ByteEncodeToken (InitByteEncoder (List.replicate 256 [])) [97, 32, 98] ∧
      BpeUnitsOf [] (ByteEncodeToken (InitByteEncoder (List.replicate 256 [])) [97, 32, 98]) =
        some [[97], [196, 160], [98]] ∧
      joinUnits [[97], [196, 160], [98]] = [97, 32, 196, 160, 32, 98] ∧
      EncodeLoop [([97], 5)] 9 [97, 32, 196, 160, 32, 98] 6 0 [] = some (some [5, 9, 9]) ∧
      EncodeLoop [([97], 5)] (-1) [97, 32, 196, 160, 32, 98] 6 0 [] = some none := by
  obtain ⟨h1, units, h2, _, _, _, h6, _⟩ :=
    space_delimiter (List.replicate 256 []) (List.length_replicate _ _) [] [97, 32, 98]
  have hu : BpeUnitsOf [] (ByteEncodeToken (InitByteEncoder (List.replicate 256 []))
      [97, 32, 98]) = some [[97], [196, 160], [98]] := by
    rw [InitByteEncoder_eq_displayTable _ (List.length_replicate _ _)]
    decide!
  rw [hu] at h2
  injection h2 with h2
  rw [← h2] at h6
  have hj : joinUnits [[97], [196, 160], [98]] = [97, 32, 196, 160, 32, 98] := by decide!
  rw [hj] at h6
  refine ⟨h1, hu, hj, ?_, ?_⟩
  · exact (h6 [([97], 5)] 9 []).1 (Or.inl (by decide))
  · refine (h6 [([97], 5)] (-1) []).2 ?_
    intro hh
    rcases hh with hh | hh
    · exact absurd hh (by decide)
    · exact hh [98] (by simp) (by decide)

end QWEN3TTS

namespace QWEN3TTSUTILS

theorem TrimRepeatingTailFrames_min (codes : List Int) (groups steps : Nat)
    (min_repeat keep_last : Int) (hg : 0 < groups) (hlen : codes.length = steps * groups) :
    ((min steps 8 : Nat) : Int) ≤
      (TrimRepeatingTailFrames codes (groups : Int) min_repeat keep_last).1 := by
  have hdiv : codes.length / groups = steps := by
    rw [hlen]; exact Nat.mul_div_cancel _ hg
  have hfc : (frameFirstCodes codes groups).length = steps := by
    simp [frameFirstCodes, hdiv]
  have hrun_le := terminalRun_le (frameFirstCodes codes groups)
  rw [hfc] at hrun_le
  have hk8 : (8 : Int) ≤ max keep_last 8 := le_max_right _ _
  have hm1 : ((min steps 8 : Nat) : Int) ≤ 8 := by
    have := Nat.min_le_right steps 8
    omega
  have hm2 : ((min steps 8 : Nat) : Int) ≤ (steps : Int) := by
    have := Nat.min_le_left steps 8
    omega
  rw [TrimRepeatingTailFrames_char codes groups steps min_repeat keep_last hg hlen]
  split_ifs with h
  · show ((min steps 8 : Nat) : Int) ≤
      (steps : Int) - (((terminalRun (frameFirstCodes codes groups) : Nat) : Int) -
        max keep_last 8)
    omega
  · exact hm2

end QWEN3TTSUTILS

namespace QWEN3TTS

open QWEN3TTSUTILS

theorem loopRun_nonempty {α H K : Type} [LinearOrder α] [Zero α]
    (nth_element : List (α × Int) → Nat → List (α × Int))
    (rng : Nat → List (α × Int) → Nat)
    (P : GenerationParams α) (E : Engine α H K) (steps : Int) :
    ∀ (fuel s : Nat) (c : List Int) (st : LoopState H K), LoopInv steps s c st →
      0 < s ∨ 0 < fuel →
      ∀ st1, exitResult (loopRun nth_element rng P E steps fuel s c st) = .ok st1 →
        ∃ n : Nat, 1 ≤ n ∧ st1.all_codes.length = kCodeGroups * n := by
  intro fuel
  induction fuel with
  | zero =>
    intro s c st hinv hpos st1 h
    rw [loopRun] at h
    injection h with h
    rw [← h]
    exact ⟨s, by omega, hinv.2.1⟩
  | succ fuel ih =>
    intro s c st hinv _ st1 h
    rcases loopStep_cases nth_element rng P E steps s c st with
      ⟨he, h1⟩ | ⟨_, ⟨a, _, h1⟩ | ⟨codec, calls, hcp, ⟨_, h1⟩ | ⟨hns, ⟨_, h1⟩ |
        ⟨code, _, ⟨_, h1⟩ | ⟨_, h1⟩⟩⟩⟩⟩
    · rw [loopRun_exit nth_element rng P E steps fuel s c st _ h1] at h
      injection h with h
      rw [← h]
      exact ⟨s, he.1, hinv.2.1⟩
    · rw [loopRun_exit nth_element rng P E steps fuel s c st _ h1] at h
      exact Except.noConfusion h
    · rw [loopRun_exit nth_element rng P E steps fuel s c st _ h1] at h
      injection h with h
      rw [← h]
      obtain ⟨_, _, _, hlen, _⟩ :=
        appendFrame_runs nth_element rng P E steps s c st codec calls hinv hcp
      exact ⟨s + 1, by omega, hlen⟩
    · rw [loopRun_exit nth_element rng P E steps fuel s c st _ h1] at h
      exact Except.noConfusion h
    · rw [loopRun_exit nth_element rng P E steps fuel s c st _ h1] at h
      exact Except.noConfusion h
    · rw [loopRun_next nth_element rng P E steps fuel s c st _ _ h1] at h
      exact ih (s + 1) codec _ (LoopInv_next nth_element rng P E steps s c st _ _ hinv h1)
        (Or.inl (Nat.succ_pos s)) st1 h

theorem finishGeneration_decoded {α : Type} (P : GenerationParams α) (all_codes : List Int)
    (n : Nat) (hl : all_codes.length = kCodeGroups * n) (hn : 1 ≤ n) :
    ∃ codes k, finishGeneration P all_codes = .decoded codes k ∧ 1 ≤ k := by
  have hdiv : all_codes.length / kCodeGroups = n := by
    rw [hl]; exact Nat.mul_div_cancel_left _ (by decide)
  unfold finishGeneration
  rw [hdiv, if_neg (by omega)]
  by_cases h2 : P.trim_tail_repeat_min > 0
  · rw [if_pos h2]
    have hmin := TrimRepeatingTailFrames_min all_codes kCodeGroups n P.trim_tail_repeat_min
      P.trim_tail_keep (by decide) (by rw [hl, Nat.mul_comm])
    have hm : (1 : Int) ≤ ((min n 8 : Nat) : Int) := by
      have : 1 ≤ min n 8 := Nat.le_min.mpr ⟨hn, by decide⟩
      omega
    rw [if_neg (by omega)]
    exact ⟨_, _, rfl, by omega⟩
  · rw [if_neg h2]
    exact ⟨_, _, rfl, by omega⟩

theorem generateVoice_fail_codes {α H K : Type} [LinearOrder α] [Zero α]
    (nth_element : List (α × Int) → Nat → List (α × Int))
    (rng : Nat → List (α × Int) → Nat)
    (loaded has_mi : Bool) (input_ids instruct_ids : List Int)
    (P : GenerationParams α) (E : Engine α H K) (code : Int)
    (h : generateVoice nth_element rng loaded has_mi (.ok (input_ids, instruct_ids)) P E =
      .abort (.fail code)) :
    code = -1001 ∨ code = -1002 ∨ code = -1101 ∨ code = -1102 ∨ code = -1103 ∨
      code = -1104 ∨ code = -1105 ∨ code = -1203 ∨ code = -1204 := by
  unfold generateVoice at h
  by_cases c1 : loaded = false
  · rw [if_pos c1] at h
    injection h with h; injection h with h; omega
  rw [if_neg c1] at h
  by_cases c2 : has_mi = false
  · rw [if_pos c2] at h
    injection h with h; injection h with h; omega
  rw [if_neg c2] at h
  dsimp only at h
  by_cases c3 : input_ids = [] ∨ instruct_ids = []
  · rw [if_pos c3] at h
    injection h with h; injection h with h; omega
  rw [if_neg c3] at h
  by_cases c4 : P.temperature < 0
  · rw [if_pos c4] at h
    injection h with h; injection h with h; omega
  rw [if_neg c4] at h
  by_cases c5 : P.top_k < 0
  · rw [if_pos c5] at h
    injection h with h; injection h with h; omega
  rw [if_neg c5] at h
  by_cases c6 : P.tail_stop_repeat_frames < 0
  · rw [if_pos c6] at h
    injection h with h; injection h with h; omega
  rw [if_neg c6] at h
  by_cases c7 : P.tail_stop_min_steps < 0
  · rw [if_pos c7] at h
    injection h with h; injection h with h; omega
  rw [if_neg c7] at h
  by_cases c8 : P.eos_min_steps < 0
  · rw [if_pos c8] at h
    injection h with h; injection h with h; omega
  rw [if_neg c8] at h
  have hpos := resolveSteps_pos P
  rw [if_neg (not_le.mpr hpos)] at h
  cases hsel : SelectTalkerFirstCode nth_element E.prefill_logits kTalkerVocab kCpVocab
      kCodecEosId (decide ((0 : Int) ≥ P.eos_min_steps)) P.do_sample P.temperature
      P.top_k (some (rng 0)) with
  | none =>
    rw [hsel] at h
    exact absurd h (by simp)
  | some first_code =>
    rw [hsel] at h
    dsimp only at h
    by_cases c9 : first_code < 0 ∨ first_code ≥ kTalkerVocab
    · rw [if_pos c9] at h
      injection h with h; injection h with h; omega
    rw [if_neg c9] at h
    have hinit : LoopInv (resolveSteps P) 0 (List.replicate kCodeGroups 1)
        (initState E first_code) :=
      LoopInv_init E (resolveSteps P) first_code hpos (by omega) (by omega)
    have h' : finishLoop P (decodeLoop nth_element rng P E (resolveSteps P)
        (resolveSteps P).toNat 0 (List.replicate kCodeGroups 1) (initState E first_code)) =
        .abort (.fail code) := h
    rcases finishLoop_codes nth_element rng P E _ _ _ _ _ h' with hc | hc | hc
    · omega
    · omega
    · exfalso
      rw [decodeLoop_eq_loopRun] at h'
      cases hres : exitResult (loopRun nth_element rng P E (resolveSteps P)
          (resolveSteps P).toNat 0 (List.replicate kCodeGroups 1)
          (initState E first_code)) with
      | error a =>
        rw [hres] at h'
        have ha : GenResult.abort a = .abort (.fail code) := h'
        injection ha with ha
        cases hrun : loopRun nth_element rng P E (resolveSteps P) (resolveSteps P).toNat 0
            (List.replicate kCodeGroups 1) (initState E first_code) with
        | abort a1 st1 =>
          rw [hrun] at hres
          injection hres with hres
          have := loopRun_abort_codes nth_element rng P E _ _ _ _ _ a1 st1 hrun
          rw [hres, ha] at this
          rcases this with h3 | h3 | h3
          · injection h3 with h3; omega
          · exact Abort.noConfusion h3
          · injection h3 with h3; omega
        | done st1 => rw [hrun] at hres; exact Except.noConfusion hres
        | eos st1 => rw [hrun] at hres; exact Except.noConfusion hres
        | stop st1 => rw [hrun] at hres; exact Except.noConfusion hres
      | ok st1 =>
        obtain ⟨n, hn, hl⟩ := loopRun_nonempty nth_element rng P E (resolveSteps P)
          (resolveSteps P).toNat 0 _ _ hinit (Or.inr (by omega)) st1 hres
        obtain ⟨codes, k, hd, _⟩ := finishGeneration_decoded P st1.all_codes n hl hn
        rw [hres] at h'
        have hf : finishGeneration P st1.all_codes = .abort (.fail code) := h'
        rw [hd] at hf
        exact GenResult.noConfusion hf

end QWEN3TTS

namespace QWEN3TTS

open QWEN3TTSUTILS

/-- C38: for every step ceiling of at least 1, every first code in range and every
model: (1) iteration 0 never leaves by the EOS test: it aborts, or stops or goes on with
exactly frame 0 in `all_codes`; (2) when the loop ends without a failure, `all_codes`
holds `n >= 1` whole frames, so `generated_steps >= 1`; (3) once the ids were built,
`generateVoice` never returns -1201, for any parameters. -/
theorem first_frame_emitted {α H K : Type} [LinearOrder α] [Zero α]
    (nth_element : List (α × Int) → Nat → List (α × Int))
    (rng : Nat → List (α × Int) → Nat)
    (P : GenerationParams α) (E : Engine α H K) (steps : Int) (first_code : Int)
    (hsteps : 1 ≤ steps) (h0 : 0 ≤ first_code) (h1 : first_code < kTalkerVocab) :
    ((∃ a st, loopStep nth_element rng P E steps 0 (List.replicate kCodeGroups 1)
          (initState E first_code) = .exit (.abort a st)) ∨
        (∃ st, loopStep nth_element rng P E steps 0 (List.replicate kCodeGroups 1)
          (initState E first_code) = .exit (.stop st) ∧
          st.all_codes.length = kCodeGroups) ∨
        ∃ c1 st, loopStep nth_element rng P E steps 0 (List.replicate kCodeGroups 1)
          (initState E first_code) = .next c1 st ∧ st.all_codes.length = kCodeGroups) ∧
      (∀ st1, decodeLoop nth_element rng P E steps steps.toNat 0
          (List.replicate kCodeGroups 1) (initState E first_code) = .ok st1 →
        ∃ n : Nat, 1 ≤ n ∧ st1.all_codes.length = kCodeGroups * n ∧
          (1 : Int) ≤ ((st1.all_codes.length / kCodeGroups : Nat) : Int)) ∧
      ∀ (loaded has_mi : Bool) (input_ids instruct_ids : List Int) (Q : GenerationParams α),
        1 ≤ resolveSteps Q ∧
          generateVoice nth_element rng loaded has_mi (.ok (input_ids, instruct_ids)) Q E ≠
            .abort (.fail (-1201)) := by
  have hinit : LoopInv steps 0 (List.replicate kCodeGroups 1) (initState E first_code) :=
    LoopInv_init E steps first_code (by omega) h0 h1
  refine ⟨?_, fun st1 h => ?_, fun loaded has_mi input_ids instruct_ids Q => ⟨?_, fun h => ?_⟩⟩
  · rcases loopStep_cases nth_element rng P E steps 0 (List.replicate kCodeGroups 1)
        (initState E first_code) with
      ⟨he, _⟩ | ⟨_, ⟨a, _, h2⟩ | ⟨codec, calls, hcp, ⟨_, h2⟩ | ⟨_, ⟨_, h2⟩ |
        ⟨code, _, ⟨_, h2⟩ | ⟨_, h2⟩⟩⟩⟩⟩
    · exact absurd he.1 (Nat.lt_irrefl 0)
    · exact Or.inl ⟨a, _, h2⟩
    · obtain ⟨_, _, _, hlen, _⟩ := appendFrame_runs nth_element rng P E steps 0 _ _ codec
        calls hinit hcp
      exact Or.inr (Or.inl ⟨_, h2, hlen⟩)
    · exact Or.inl ⟨_, _, h2⟩
    · exact Or.inl ⟨_, _, h2⟩
    · obtain ⟨_, _, _, hlen, _⟩ := appendFrame_runs nth_element rng P E steps 0 _ _ codec
        calls hinit hcp
      exact Or.inr (Or.inr ⟨_, _, h2, hlen⟩)
  · rw [decodeLoop_eq_loopRun] at h
    obtain ⟨n, hn, hl⟩ := loopRun_nonempty nth_element rng P E steps steps.toNat 0 _ _ hinit
      (Or.inr (by omega)) st1 h
    refine ⟨n, hn, hl, ?_⟩
    rw [hl, Nat.mul_div_cancel_left _ (by decide)]
    omega
  · have := resolveSteps_pos Q
    omega
  · have := generateVoice_fail_codes nth_element rng loaded has_mi input_ids instruct_ids Q E
      _ h
    omega

/-- C38 (witness): the default parameters with `steps = 2` and a model whose prefill
selects the EOS id: `generateVoice` does not return -1201. -/
theorem first_frame_emitted_witness :
    (1 : Int) ≤ resolveSteps twoStepParams ∧
      generateVoice nthElementSort (fun _ _ => 0) true true (.ok ([1], [2])) twoStepParams
        eosFirstEngine ≠ .abort (.fail (-1201)) :=
  (first_frame_emitted nthElementSort (fun _ _ => 0) twoStepParams eosFirstEngine 2 2150
    (by decide) (by decide) (by decide)).2.2 true true [1] [2] twoStepParams

/-- C39: for `groups > 0` and a code vector of `steps >= 1` whole frames,
`TrimRepeatingTailFrames` returns at least `min (steps, 8)`, hence at least 1, for all
`min_repeat` and `keep_last`; and once the ids were built `generateVoice` never
returns -1202, for any parameters and any model. -/
theorem trim_never_empties (codes : List Int) (groups steps : Nat)
    (min_repeat keep_last : Int) (hg : 0 < groups) (hlen : codes.length = steps * groups)
    (hs : 1 ≤ steps) :
    ((min steps 8 : Nat) : Int) ≤
        (TrimRepeatingTailFrames codes (groups : Int) min_repeat keep_last).1 ∧
      1 ≤ (TrimRepeatingTailFrames codes (groups : Int) min_repeat keep_last).1 ∧
      ∀ {α H K : Type} [LinearOrder α] [Zero α]
        (nth_element : List (α × Int) → Nat → List (α × Int))
        (rng : Nat → List (α × Int) → Nat) (loaded has_mi : Bool)
        (input_ids instruct_ids : List Int) (P : GenerationParams α) (E : Engine α H K),
        generateVoice nth_element rng loaded has_mi (.ok (input_ids, instruct_ids)) P E ≠
          .abort (.fail (-1202)) := by
  have hmin := TrimRepeatingTailFrames_min codes groups steps min_repeat keep_last hg hlen
  have hm : (1 : Int) ≤ ((min steps 8 : Nat) : Int) := by
    have : 1 ≤ min steps 8 := Nat.le_min.mpr ⟨hs, by decide⟩
    omega
  refine ⟨hmin, by omega, ?_⟩
  intro α H K _ _ nth_element rng loaded has_mi input_ids instruct_ids P E h
  have := generateVoice_fail_codes nth_element rng loaded has_mi input_ids instruct_ids P E
    _ h
  omega

/-- C39 (witness): twelve frames of two codes whose last ten first codes repeat, with
`min_repeat = 3` and `keep_last = 1`: at least 8 frames are kept. -/
theorem trim_never_empties_witness :
    ((min 12 8 : Nat) : Int) ≤
      (TrimRepeatingTailFrames
        [(1 : Int), 0, 2, 0, 3, 0, 3, 0, 3, 0, 3, 0, 3, 0, 3, 0, 3, 0, 3, 0, 3, 0, 3, 0]
        ((2 : Nat) : Int) 3 1).1 :=
  (trim_never_empties
    [(1 : Int), 0, 2, 0, 3, 0, 3, 0, 3, 0, 3, 0, 3, 0, 3, 0, 3, 0, 3, 0, 3, 0, 3, 0]
    2 12 3 1 (by decide) (by decide) (by decide)).1

end QWEN3TTS

namespace QWEN3TTS

open QWEN3TTSUTILS

theorem appendFrame_first_code {α H K : Type} [LinearOrder α] [Zero α]
    (nth_element : List (α × Int) → Nat → List (α × Int))
    (rng : Nat → List (α × Int) → Nat)
    (P : GenerationParams α) (E : Engine α H K) (steps : Int) (x : Int)
    (s : Nat) (c : List Int) (st : LoopState H K) (codec : List Int) (calls : Nat)
    (hinv : LoopInv steps s c st)
    (h0 : s = 0 → st.current_first_code = x) (h1 : 0 < s → st.all_codes.getD 0 0 = x)
    (hcp : cpLoop nth_element rng P E st.current_past_hidden (kCodeGroups - 1) 0
        (List.replicate (kCodeGroups - 2) 0) (c.set 0 st.current_first_code) st.calls =
        .ok (codec, calls)) :
    (appendFrame st s codec calls).all_codes.getD 0 0 = x := by
  obtain ⟨_, hfc, _⟩ := appendFrame_runs nth_element rng P E steps s c st codec calls hinv hcp
  have hl : st.all_codes.length = kCodeGroups * s := hinv.2.1
  show (st.all_codes ++ codec).getD 0 0 = x
  by_cases hs : s = 0
  · have hnil : st.all_codes = [] := by
      apply List.eq_nil_of_length_eq_zero
      rw [hl, hs]
      rfl
    rw [hnil, List.nil_append, hfc]
    exact h0 hs
  · have hk : kCodeGroups = 16 := rfl
    rw [List.getD_append _ _ _ _ (by rw [hl, hk]; omega)]
    exact h1 (by omega)

theorem loopRun_first_code {α H K : Type} [LinearOrder α] [Zero α]
    (nth_element : List (α × Int) → Nat → List (α × Int))
    (rng : Nat → List (α × Int) → Nat)
    (P : GenerationParams α) (E : Engine α H K) (steps : Int) (x : Int) :
    ∀ (fuel s : Nat) (c : List Int) (st : LoopState H K), LoopInv steps s c st →
      (s = 0 → st.current_first_code = x) → (0 < s → st.all_codes.getD 0 0 = x) →
      0 < s ∨ 0 < fuel →
      ∀ st1, exitResult (loopRun nth_element rng P E steps fuel s c st) = .ok st1 →
        st1.all_codes.getD 0 0 = x := by
  intro fuel
  induction fuel with
  | zero =>
    intro s c st _ _ h1 hpos st1 h
    rw [loopRun] at h
    injection h with h
    rw [← h]
    exact h1 (by omega)
  | succ fuel ih =>
    intro s c st hinv h0 h1 _ st1 h
    rcases loopStep_cases nth_element rng P E steps s c st with
      ⟨he, h2⟩ | ⟨_, ⟨a, _, h2⟩ | ⟨codec, calls, hcp, ⟨_, h2⟩ | ⟨hns, ⟨_, h2⟩ |
        ⟨code, _, ⟨_, h2⟩ | ⟨_, h2⟩⟩⟩⟩⟩
    · rw [loopRun_exit nth_element rng P E steps fuel s c st _ h2] at h
      injection h with h
      rw [← h]
      exact h1 he.1
    · rw [loopRun_exit nth_element rng P E steps fuel s c st _ h2] at h
      exact Except.noConfusion h
    · rw [loopRun_exit nth_element rng P E steps fuel s c st _ h2] at h
      injection h with h
      rw [← h]
      exact appendFrame_first_code nth_element rng P E steps x s c st codec calls hinv h0 h1
        hcp
    · rw [loopRun_exit nth_element rng P E steps fuel s c st _ h2] at h
      exact Except.noConfusion h
    · rw [loopRun_exit nth_element rng P E steps fuel s c st _ h2] at h
      exact Except.noConfusion h
    · rw [loopRun_next nth_element rng P E steps fuel s c st _ _ h2] at h
      exact ih (s + 1) codec _ (LoopInv_next nth_element rng P E steps s c st _ _ hinv h2)
        (fun h => absurd h (Nat.succ_ne_zero s))
        (fun _ => appendFrame_first_code nth_element rng P E steps x s c st codec calls hinv
          h0 h1 hcp)
        (Or.inl (Nat.succ_pos s)) st1 h

theorem finishGeneration_first_code {α : Type} (P : GenerationParams α)
    (all_codes : List Int) (n : Nat) (hl : all_codes.length = kCodeGroups * n) (hn : 1 ≤ n)
    (codes : List Int) (k : Int) (h : finishGeneration P all_codes = .decoded codes k) :
    1 ≤ k ∧ codes.getD 0 0 = all_codes.getD 0 0 := by
  have hdiv : all_codes.length / kCodeGroups = n := by
    rw [hl]; exact Nat.mul_div_cancel_left _ (by decide)
  unfold finishGeneration at h
  rw [hdiv, if_neg (by omega)] at h
  by_cases h2 : P.trim_tail_repeat_min > 0
  · rw [if_pos h2] at h
    have hmin := TrimRepeatingTailFrames_min all_codes kCodeGroups n P.trim_tail_repeat_min
      P.trim_tail_keep (by decide) (by rw [hl, Nat.mul_comm])
    have hm : (1 : Int) ≤ ((min n 8 : Nat) : Int) := by
      have : 1 ≤ min n 8 := Nat.le_min.mpr ⟨hn, by decide⟩
      omega
    rw [if_neg (by omega)] at h
    injection h with hc hk
    rw [← hk, ← hc]
    refine ⟨by omega, ?_⟩
    have hchar := TrimRepeatingTailFrames_char all_codes kCodeGroups n P.trim_tail_repeat_min
      P.trim_tail_keep (by decide) (by rw [hl, Nat.mul_comm])
    rw [hchar] at hmin ⊢
    split
    · rename_i hcond
      rw [if_pos hcond] at hmin
      dsimp only at hmin ⊢
      rw [List.getD_eq_getElem?_getD, List.getD_eq_getElem?_getD, List.getElem?_take_of_lt]
      exact Nat.mul_pos (by omega) (by decide)
    · rfl
  · rw [if_neg h2] at h
    injection h with hc hk
    rw [← hk, ← hc]
    exact ⟨by omega, rfl⟩

/-- C20 (amended): for every model, selection and parameters that pass validation with
`eos_min_steps = 0`, when the prefill logits select the EOS first code 2150:
(1) iteration 0 of the decode loop does not leave by the EOS test: it aborts, or frame
0, whose first code is 2150, is appended; (2) `generateVoice` does not return -1201;
(3) when the loop ends without a failure the codes handed to the trimmer hold at least
one whole frame and begin with 2150; (4) when `generateVoice` reaches the vocoder, it
hands over at least one frame and the first code of the first frame is 2150. -/
theorem eos_at_prefill_emits_frame {α H K : Type} [LinearOrder α] [Zero α]
    (nth_element : List (α × Int) → Nat → List (α × Int))
    (rng : Nat → List (α × Int) → Nat)
    (input_ids instruct_ids : List Int) (P : GenerationParams α) (E : Engine α H K)
    (hi : input_ids ≠ []) (hn : instruct_ids ≠ []) (ht : ¬ P.temperature < 0)
    (hk : ¬ P.top_k < 0) (h1 : ¬ P.tail_stop_repeat_frames < 0)
    (h2 : ¬ P.tail_stop_min_steps < 0) (h3 : P.eos_min_steps = 0)
    (hsel : SelectTalkerFirstCode nth_element E.prefill_logits kTalkerVocab kCpVocab
        kCodecEosId (decide ((0 : Int) ≥ P.eos_min_steps)) P.do_sample P.temperature
        P.top_k (some (rng 0)) = some kCodecEosId) :
    ((∃ a st, loopStep nth_element rng P E (resolveSteps P) 0 (List.replicate kCodeGroups 1)
          (initState E kCodecEosId) = .exit (.abort a st)) ∨
        (∃ st, loopStep nth_element rng P E (resolveSteps P) 0 (List.replicate kCodeGroups 1)
          (initState E kCodecEosId) = .exit (.stop st) ∧
          st.all_codes.length = kCodeGroups ∧ st.all_codes.getD 0 0 = kCodecEosId) ∨
        ∃ c1 st, loopStep nth_element rng P E (resolveSteps P) 0
          (List.replicate kCodeGroups 1) (initState E kCodecEosId) = .next c1 st ∧
          st.all_codes.length = kCodeGroups ∧ st.all_codes.getD 0 0 = kCodecEosId) ∧
      generateVoice nth_element rng true true (.ok (input_ids, instruct_ids)) P E ≠
        .abort (.fail (-1201)) ∧
      generateVoice nth_element rng true true (.ok (input_ids, instruct_ids)) P E =
        finishLoop P
          (decodeLoop nth_element rng P E (resolveSteps P) (resolveSteps P).toNat 0
            (List.replicate kCodeGroups 1) (initState E kCodecEosId)) ∧
      (∀ st1, decodeLoop nth_element rng P E (resolveSteps P) (resolveSteps P).toNat 0
          (List.replicate kCodeGroups 1) (initState E kCodecEosId) = .ok st1 →
        ∃ n : Nat, 1 ≤ n ∧ st1.all_codes.length = kCodeGroups * n ∧
          st1.all_codes.getD 0 0 = kCodecEosId) ∧
      ∀ codes k,
        generateVoice nth_element rng true true (.ok (input_ids, instruct_ids)) P E =
          .decoded codes k →
        1 ≤ k ∧ codes.getD 0 0 = kCodecEosId := by
  have hpos := resolveSteps_pos P
  have hinit : LoopInv (resolveSteps P) 0 (List.replicate kCodeGroups 1)
      (initState E kCodecEosId) :=
    LoopInv_init E (resolveSteps P) kCodecEosId (by omega) (by decide) (by decide)
  have hrun : generateVoice nth_element rng true true (.ok (input_ids, instruct_ids)) P E =
      finishLoop P
        (decodeLoop nth_element rng P E (resolveSteps P) (resolveSteps P).toNat 0
          (List.replicate kCodeGroups 1) (initState E kCodecEosId)) :=
    generateVoice_run nth_element rng input_ids instruct_ids P E kCodecEosId
      (resolveSteps P).toNat hi hn ht hk h1 h2 (by omega) (by omega) hsel (by decide) rfl
  have hloop : ∀ st1, decodeLoop nth_element rng P E (resolveSteps P) (resolveSteps P).toNat 0
      (List.replicate kCodeGroups 1) (initState E kCodecEosId) = .ok st1 →
      ∃ n : Nat, 1 ≤ n ∧ st1.all_codes.length = kCodeGroups * n ∧
        st1.all_codes.getD 0 0 = kCodecEosId := by
    intro st1 h
    rw [decodeLoop_eq_loopRun] at h
    obtain ⟨n, hn1, hl⟩ := loopRun_nonempty nth_element rng P E (resolveSteps P)
      (resolveSteps P).toNat 0 _ _ hinit (Or.inr (by omega)) st1 h
    exact ⟨n, hn1, hl, loopRun_first_code nth_element rng P E (resolveSteps P) kCodecEosId
      (resolveSteps P).toNat 0 _ _ hinit (fun _ => rfl)
      (fun h => absurd h (Nat.lt_irrefl 0)) (Or.inr (by omega)) st1 h⟩
  refine ⟨?_, fun h => ?_, hrun, hloop, fun codes k h => ?_⟩
  · rcases loopStep_cases nth_element rng P E (resolveSteps P) 0
        (List.replicate kCodeGroups 1) (initState E kCodecEosId) with
      ⟨he, _⟩ | ⟨_, ⟨a, _, h2⟩ | ⟨codec, calls, hcp, ⟨_, h2⟩ | ⟨_, ⟨_, h2⟩ |
        ⟨code, _, ⟨_, h2⟩ | ⟨_, h2⟩⟩⟩⟩⟩
    · exact absurd he.1 (Nat.lt_irrefl 0)
    · exact Or.inl ⟨a, _, h2⟩
    · obtain ⟨_, _, _, hlen, _⟩ := appendFrame_runs nth_element rng P E (resolveSteps P) 0 _
        _ codec calls hinit hcp
      exact Or.inr (Or.inl ⟨_, h2, hlen,
        appendFrame_first_code nth_element rng P E (resolveSteps P) kCodecEosId 0 _ _ codec
          calls hinit (fun _ => rfl) (fun h => absurd h (Nat.lt_irrefl 0)) hcp⟩)
    · exact Or.inl ⟨_, _, h2⟩
    · exact Or.inl ⟨_, _, h2⟩
    · obtain ⟨_, _, _, hlen, _⟩ := appendFrame_runs nth_element rng P E (resolveSteps P) 0 _
        _ codec calls hinit hcp
      exact Or.inr (Or.inr ⟨_, _, h2, hlen,
        appendFrame_first_code nth_element rng P E (resolveSteps P) kCodecEosId 0 _ _ codec
          calls hinit (fun _ => rfl) (fun h => absurd h (Nat.lt_irrefl 0)) hcp⟩)
  · have := generateVoice_fail_codes nth_element rng true true input_ids instruct_ids P E
      _ h
    omega
  · rw [hrun] at h
    cases hd : decodeLoop nth_element rng P E (resolveSteps P) (resolveSteps P).toNat 0
        (List.replicate kCodeGroups 1) (initState E kCodecEosId) with
    | error a =>
      rw [hd] at h
      exact GenResult.noConfusion h
    | ok st1 =>
      rw [hd] at h
      obtain ⟨n, hn1, hl, hf⟩ := hloop st1 hd
      obtain ⟨hk1, hc⟩ := finishGeneration_first_code P st1.all_codes n hl hn1 codes k h
      exact ⟨hk1, hc.trans hf⟩

/-- C20 (witness): the default parameters with `steps = 2` and the model whose prefill
logits peak at the EOS id: the first code handed to the vocoder is 2150. -/
theorem eos_at_prefill_emits_frame_witness :
    twoStepParams.eos_min_steps = 0 ∧
      generateVoice nthElementSort (fun _ _ => 0) true true (.ok ([1], [2])) twoStepParams
        eosFirstEngine ≠ .abort (.fail (-1201)) ∧
      ∀ codes k,
        generateVoice nthElementSort (fun _ _ => 0) true true (.ok ([1], [2])) twoStepParams
          eosFirstEngine = .decoded codes k →
        1 ≤ k ∧ codes.getD 0 0 = kCodecEosId :=
  have h := eos_at_prefill_emits_frame nthElementSort (fun _ _ => 0) [1] [2] twoStepParams
    eosFirstEngine (by decide) (by decide) (by decide) (by decide) (by decide) (by decide) rfl
    (SelectTalkerFirstCode_eos_logits _ _ _ _)
  ⟨rfl, h.2.1, h.2.2.2.2⟩

theorem decodeLoop_exit {α H K : Type} [LinearOrder α] [Zero α]
    (nth_element : List (α × Int) → Nat → List (α × Int))
    (rng : Nat → List (α × Int) → Nat)
    (P : GenerationParams α) (E : Engine α H K) (steps : Int)
    (n s : Nat) (c : List Int) (st : LoopState H K) (e : LoopExit H K)
    (h : loopStep nth_element rng P E steps s c st = .exit e) :
    decodeLoop nth_element rng P E steps (n + 1) s c st = exitResult e := by
  rw [decodeLoop_eq_loopRun, loopRun_exit nth_element rng P E steps n s c st e h]

theorem decodeLoop_next {α H K : Type} [LinearOrder α] [Zero α]
    (nth_element : List (α × Int) → Nat → List (α × Int))
    (rng : Nat → List (α × Int) → Nat)
    (P : GenerationParams α) (E : Engine α H K) (steps : Int)
    (n s : Nat) (c : List Int) (st : LoopState H K) (c1 : List Int) (st1 : LoopState H K)
    (h : loopStep nth_element rng P E steps s c st = .next c1 st1) :
    decodeLoop nth_element rng P E steps (n + 1) s c st =
      decodeLoop nth_element rng P E steps n (s + 1) c1 st1 := by
  rw [decodeLoop_eq_loopRun, loopRun_next nth_element rng P E steps n s c st c1 st1 h,
    ← decodeLoop_eq_loopRun]

theorem decodeLoop_from_head {α H K : Type} [LinearOrder α] [Zero α]
    (nth_element : List (α × Int) → Nat → List (α × Int))
    (rng : Nat → List (α × Int) → Nat)
    (P : GenerationParams α) (E : Engine α H K) (steps : Int) (st0 : LoopState H K)
    (s : Nat) (c : List Int) (st : LoopState H K) (n : Nat)
    (h : loopHead nth_element rng P E steps st0 s = some (c, st)) :
    decodeLoop nth_element rng P E steps (s + n) 0 (List.replicate kCodeGroups 1) st0 =
      decodeLoop nth_element rng P E steps n s c st := by
  rw [decodeLoop_eq_loopRun, loopRun_from_head nth_element rng P E steps st0 s c st n h,
    ← decodeLoop_eq_loopRun]

/-- C21: let the decode loop, started from the prefill variables, get to iteration `s`
without leaving by the EOS test there, and let `codec` be the frame of that iteration
(the `n`-th frame, `n = s + 1`).  Then (1) `decodeLoop` run from the start is
`decodeLoop` run from iteration `s`; (2) once the frame is appended, `same_frame_run` is
the terminal run of identical frames of `all_codes` and `same_first_code_run` the
terminal run of equal first codes; (3) the iteration leaves by a stop test exactly
when (`tail_stop_repeat_frames > 0`, `n >= tail_stop_min_steps` and the frame run is at
least `tail_stop_repeat_frames`) or (`auto_stop_first_code_run > 0`,
`n >= auto_stop_min_steps` and the first-code run is at least
`auto_stop_first_code_run`) or `n` is the step ceiling; (4) in that case `decodeLoop`
returns the variables with exactly that frame appended last, and `generateVoice`
finishes on these codes; (5) otherwise `decodeLoop` runs the talker step: it fails on
a selection error and else goes on with iteration `s + 1`. -/
theorem decode_stop_predicate {α H K : Type} [LinearOrder α] [Zero α]
    (nth_element : List (α × Int) → Nat → List (α × Int))
    (rng : Nat → List (α × Int) → Nat)
    (P : GenerationParams α) (E : Engine α H K) (steps : Int) (first_code : Int)
    (s : Nat) (c : List Int) (st : LoopState H K) (codec : List Int) (calls : Nat)
    (hsteps : 0 < steps) (h0 : 0 ≤ first_code) (h1 : first_code < kTalkerVocab)
    (hhead : loopHead nth_element rng P E steps (initState E first_code) s = some (c, st))
    (heos : ¬ (s > 0 ∧ st.current_first_code = kCodecEosId ∧ (s : Int) ≥ P.eos_min_steps))
    (hcp : cpLoop nth_element rng P E st.current_past_hidden (kCodeGroups - 1) 0
        (List.replicate (kCodeGroups - 2) 0) (c.set 0 st.current_first_code) st.calls =
        .ok (codec, calls)) :
    (∀ n, decodeLoop nth_element rng P E steps (s + n) 0 (List.replicate kCodeGroups 1)
          (initState E first_code) =
        decodeLoop nth_element rng P E steps n s c st) ∧
      (appendFrame st s codec calls).all_codes = st.all_codes ++ codec ∧
      (appendFrame st s codec calls).all_codes.length = kCodeGroups * (s + 1) ∧
      (appendFrame st s codec calls).same_frame_run =
        ((terminalRunOf (framesOf (appendFrame st s codec calls).all_codes) : Nat) : Int) ∧
      (appendFrame st s codec calls).same_first_code_run =
        ((terminalRun (frameFirstCodes (appendFrame st s codec calls).all_codes kCodeGroups) :
          Nat) : Int) ∧
      (loopStep nth_element rng P E steps s c st =
          .exit (.stop (appendFrame st s codec calls)) ↔
        ((P.tail_stop_repeat_frames > 0 ∧ ((s : Int) + 1) ≥ P.tail_stop_min_steps ∧
            ((terminalRunOf (framesOf (appendFrame st s codec calls).all_codes) : Nat) : Int) ≥
              P.tail_stop_repeat_frames) ∨
          (P.auto_stop_first_code_run > 0 ∧ ((s : Int) + 1) ≥ P.auto_stop_min_steps ∧
            ((terminalRun
                (frameFirstCodes (appendFrame st s codec calls).all_codes kCodeGroups) :
              Nat) : Int) ≥ P.auto_stop_first_code_run) ∨
          (s : Int) + 1 = steps)) ∧
      (loopStep nth_element rng P E steps s c st ≠
          .exit (.stop (appendFrame st s codec calls)) →
        ∀ st1, loopStep nth_element rng P E steps s c st ≠ .exit (.stop st1) ∧
          loopStep nth_element rng P E steps s c st ≠ .exit (.eos st1) ∧
          loopStep nth_element rng P E steps s c st ≠ .exit (.done st1)) ∧
      (((P.tail_stop_repeat_frames > 0 ∧ ((s : Int) + 1) ≥ P.tail_stop_min_steps ∧
            ((terminalRunOf (framesOf (appendFrame st s codec calls).all_codes) : Nat) : Int) ≥
              P.tail_stop_repeat_frames) ∨
          (P.auto_stop_first_code_run > 0 ∧ ((s : Int) + 1) ≥ P.auto_stop_min_steps ∧
            ((terminalRun
                (frameFirstCodes (appendFrame st s codec calls).all_codes kCodeGroups) :
              Nat) : Int) ≥ P.auto_stop_first_code_run) ∨
          (s : Int) + 1 = steps) →
        (∀ n, decodeLoop nth_element rng P E steps (s + (n + 1)) 0
            (List.replicate kCodeGroups 1) (initState E first_code) =
          .ok (appendFrame st s codec calls)) ∧
        ∀ input_ids instruct_ids : List Int,
          input_ids ≠ [] → instruct_ids ≠ [] → ¬ P.temperature < 0 → ¬ P.top_k < 0 →
          ¬ P.tail_stop_repeat_frames < 0 → ¬ P.tail_stop_min_steps < 0 →
          ¬ P.eos_min_steps < 0 → steps = resolveSteps P →
          SelectTalkerFirstCode nth_element E.prefill_logits kTalkerVocab kCpVocab
            kCodecEosId (decide ((0 : Int) ≥ P.eos_min_steps)) P.do_sample P.temperature
            P.top_k (some (rng 0)) = some first_code →
          generateVoice nth_element rng true true (.ok (input_ids, instruct_ids)) P E =
            finishGeneration P (st.all_codes ++ codec)) ∧
      (¬ ((P.tail_stop_repeat_frames > 0 ∧ ((s : Int) + 1) ≥ P.tail_stop_min_steps ∧
            ((terminalRunOf (framesOf (appendFrame st s codec calls).all_codes) : Nat) : Int) ≥
              P.tail_stop_repeat_frames) ∨
          (P.auto_stop_first_code_run > 0 ∧ ((s : Int) + 1) ≥ P.auto_stop_min_steps ∧
            ((terminalRun
                (frameFirstCodes (appendFrame st s codec calls).all_codes kCodeGroups) :
              Nat) : Int) ≥ P.auto_stop_first_code_run) ∨
          (s : Int) + 1 = steps) →
        ∀ n,
          (SelectTalkerFirstCode nth_element
              (runTalker E (appendFrame st s codec calls) s codec).1
              kTalkerVocab kCpVocab kCodecEosId (decide (((s : Int) + 1) ≥ P.eos_min_steps))
              P.do_sample P.temperature P.top_k (some (rng calls)) = none →
            decodeLoop nth_element rng P E steps (s + (n + 1)) 0
              (List.replicate kCodeGroups 1) (initState E first_code) = .error .exception) ∧
          ∀ code,
            SelectTalkerFirstCode nth_element
              (runTalker E (appendFrame st s codec calls) s codec).1
              kTalkerVocab kCpVocab kCodecEosId (decide (((s : Int) + 1) ≥ P.eos_min_steps))
              P.do_sample P.temperature P.top_k (some (rng calls)) = some code →
            ((code < 0 ∨ code ≥ kTalkerVocab) →
              decodeLoop nth_element rng P E steps (s + (n + 1)) 0
                (List.replicate kCodeGroups 1) (initState E first_code) =
                  .error (.fail (-1204))) ∧
            (¬ (code < 0 ∨ code ≥ kTalkerVocab) →
              decodeLoop nth_element rng P E steps (s + (n + 1)) 0
                (List.replicate kCodeGroups 1) (initState E first_code) =
                  decodeLoop nth_element rng P E steps n (s + 1) codec
                    (nextState E st s codec calls code))) := by
  have hinv := loopHead_inv nth_element rng P E steps first_code hsteps h0 h1 s c st hhead
  obtain ⟨_, _, _, hlen, _, _, hsf, hsc⟩ :=
    appendFrame_runs nth_element rng P E steps s c st codec calls hinv hcp
  have hst : StopTest P steps s (appendFrame st s codec calls) ↔
      ((P.tail_stop_repeat_frames > 0 ∧ ((s : Int) + 1) ≥ P.tail_stop_min_steps ∧
          ((terminalRunOf (framesOf (appendFrame st s codec calls).all_codes) : Nat) : Int) ≥
            P.tail_stop_repeat_frames) ∨
        (P.auto_stop_first_code_run > 0 ∧ ((s : Int) + 1) ≥ P.auto_stop_min_steps ∧
          ((terminalRun
              (frameFirstCodes (appendFrame st s codec calls).all_codes kCodeGroups) :
            Nat) : Int) ≥ P.auto_stop_first_code_run) ∨
        (s : Int) + 1 = steps) := by
    unfold StopTest
    rw [hsf, hsc]
    constructor
    · rintro (h | h | h)
      · exact Or.inl h
      · exact Or.inr (Or.inl h)
      · exact Or.inr (Or.inr (by omega))
    · rintro (h | h | h)
      · exact Or.inl h
      · exact Or.inr (Or.inl h)
      · exact Or.inr (Or.inr (by omega))
  have hfrom : ∀ n, decodeLoop nth_element rng P E steps (s + n) 0
      (List.replicate kCodeGroups 1) (initState E first_code) =
        decodeLoop nth_element rng P E steps n s c st :=
    fun n => decodeLoop_from_head nth_element rng P E steps _ s c st n hhead
  refine ⟨hfrom, rfl, hlen, hsf, hsc, ?_, ?_, ?_, ?_⟩
  · rw [← hst]
    rcases loopStep_cases nth_element rng P E steps s c st with
      ⟨he, _⟩ | ⟨_, ⟨a, ha, _⟩ | ⟨codec1, calls1, hcp1, ⟨ht, h2⟩ | ⟨hns, ⟨_, h2⟩ |
        ⟨code, _, ⟨_, h2⟩ | ⟨_, h2⟩⟩⟩⟩⟩
    · exact absurd he heos
    · rw [hcp] at ha
      exact Except.noConfusion ha
    all_goals
      rw [hcp] at hcp1
      injection hcp1 with hcp1
      injection hcp1 with e1 e2
      subst e1
      subst e2
    · exact ⟨fun _ => ht, fun _ => h2⟩
    · rw [h2]
      exact ⟨fun h => by injection h with h; exact LoopExit.noConfusion h,
        fun h => absurd h hns⟩
    · rw [h2]
      exact ⟨fun h => by injection h with h; exact LoopExit.noConfusion h,
        fun h => absurd h hns⟩
    · rw [h2]
      exact ⟨fun h => StepResult.noConfusion h, fun h => absurd h hns⟩
  · intro hne st1
    rcases loopStep_cases nth_element rng P E steps s c st with
      ⟨he, _⟩ | ⟨_, ⟨a, ha, _⟩ | ⟨codec1, calls1, hcp1, ⟨ht, h2⟩ | ⟨hns, ⟨_, h2⟩ |
        ⟨code, _, ⟨_, h2⟩ | ⟨_, h2⟩⟩⟩⟩⟩
    · exact absurd he heos
    · rw [hcp] at ha
      exact Except.noConfusion ha
    all_goals
      rw [hcp] at hcp1
      injection hcp1 with hcp1
      injection hcp1 with e1 e2
      subst e1
      subst e2
    · exact absurd h2 hne
    · rw [h2]
      refine ⟨fun h => ?_, fun h => ?_, fun h => ?_⟩ <;>
        (injection h with h; exact LoopExit.noConfusion h)
    · rw [h2]
      refine ⟨fun h => ?_, fun h => ?_, fun h => ?_⟩ <;>
        (injection h with h; exact LoopExit.noConfusion h)
    · rw [h2]
      exact ⟨fun h => StepResult.noConfusion h, fun h => StepResult.noConfusion h,
        fun h => StepResult.noConfusion h⟩
  · intro hcond
    have hstop : loopStep nth_element rng P E steps s c st =
        .exit (.stop (appendFrame st s codec calls)) :=
      loopStep_stop_of nth_element rng P E steps s c st codec calls _ heos hcp
        (hst.mpr hcond) rfl
    have hdec : ∀ n, decodeLoop nth_element rng P E steps (s + (n + 1)) 0
        (List.replicate kCodeGroups 1) (initState E first_code) =
          .ok (appendFrame st s codec calls) := by
      intro n
      rw [hfrom (n + 1), decodeLoop_exit nth_element rng P E steps n s c st _ hstop]
      rfl
    refine ⟨hdec, ?_⟩
    intro input_ids instruct_ids hi hn ht hk ht1 ht2 he hres hsel
    have hlt : (s : Int) < steps := hinv.2.2.2.1
    have hfuel : (resolveSteps P).toNat = s + ((steps.toNat - s - 1) + 1) := by
      rw [← hres]
      omega
    have hrun : generateVoice nth_element rng true true (.ok (input_ids, instruct_ids)) P E =
        finishLoop P
          (decodeLoop nth_element rng P E (resolveSteps P) (s + ((steps.toNat - s - 1) + 1)) 0
            (List.replicate kCodeGroups 1) (initState E first_code)) :=
      generateVoice_run nth_element rng input_ids instruct_ids P E first_code
        (s + ((steps.toNat - s - 1) + 1)) hi hn ht hk ht1 ht2 he
        (by rw [← hres]; omega) hsel (by omega) hfuel
    rw [hrun, ← hres, hdec]
    rfl
  · intro hcond n
    have hns : ¬ StopTest P steps s (appendFrame st s codec calls) :=
      fun h => hcond (hst.mp h)
    refine ⟨fun hsel => ?_, fun code hsel => ⟨fun hr => ?_, fun hr => ?_⟩⟩
    all_goals
      rw [hfrom (n + 1)]
      rcases loopStep_cases nth_element rng P E steps s c st with
        ⟨he, _⟩ | ⟨_, ⟨a, ha, _⟩ | ⟨codec1, calls1, hcp1, ⟨ht, h2⟩ | ⟨_, ⟨hsel1, h2⟩ |
          ⟨code1, hsel1, ⟨hr1, h2⟩ | ⟨hr1, h2⟩⟩⟩⟩⟩
      · exact absurd he heos
      · rw [hcp] at ha
        exact Except.noConfusion ha
      all_goals
        rw [hcp] at hcp1
        injection hcp1 with hcp1
        injection hcp1 with e1 e2
        subst e1
        subst e2
      · exact absurd ht hns
    · rw [decodeLoop_exit nth_element rng P E steps n s c st _ h2]
      rfl
    · rw [hsel] at hsel1
      exact Option.noConfusion hsel1
    · rw [hsel] at hsel1
      exact Option.noConfusion hsel1
    · rw [hsel] at hsel1
      exact Option.noConfusion hsel1
    · rw [decodeLoop_exit nth_element rng P E steps n s c st _ h2]
      rfl
    · rw [hsel] at hsel1
      injection hsel1 with e3
      subst e3
      exact absurd hr hr1
    · rw [hsel] at hsel1
      exact Option.noConfusion hsel1
    · rw [hsel] at hsel1
      injection hsel1 with e3
      subst e3
      exact absurd hr1 hr
    · rw [hsel] at hsel1
      injection hsel1 with e3
      subst e3
      exact decodeLoop_next nth_element rng P E steps n s c st _ _ h2

/-- C21 (witness): `tail_stop_repeat_frames = 3`, `tail_stop_min_steps = 0` and a model
whose frames repeat from step 4 on: at iteration 5 the frame of step 6 is the third of
three identical frames, the frame run is 3, and `decodeLoop`, run from the start with
the ceiling 2000, returns with that frame appended last. -/
theorem decode_stop_predicate_witness :
    (appendFrame (repeatState 5) 5 (repeatFrame 6) ((repeatState 5).calls + 15)).same_frame_run =
        3 ∧
      ((terminalRunOf (framesOf (appendFrame (repeatState 5) 5 (repeatFrame 6)
        ((repeatState 5).calls + 15)).all_codes) : Nat) : Int) = 3 ∧
      decodeLoop nthElementSort (fun _ _ => 0) (scenarioParams 0 0 40) repeatFromFourEngine
          2000 (5 + (1994 + 1)) 0 (List.replicate kCodeGroups 1)
          (initState repeatFromFourEngine 1) =
        .ok (appendFrame (repeatState 5) 5 (repeatFrame 6) ((repeatState 5).calls + 15)) :=
  have h := decode_stop_predicate nthElementSort (fun _ _ => 0) (scenarioParams 0 0 40)
    repeatFromFourEngine 2000 1 5 (repeatCodec 5) (repeatState 5) (repeatFrame 6)
    ((repeatState 5).calls + 15) (by decide) (by decide) (by decide)
    (repeat_heads 0 0 40 (by decide)) (fun h => absurd h.2.1 (by decide))
    (cpLoop_zero nthElementSort (fun _ _ => 0) (scenarioParams 0 0 40)
      repeatFromFourEngine _ rfl rfl 4 _ _ rfl)
  have h3 : (appendFrame (repeatState 5) 5 (repeatFrame 6)
      ((repeatState 5).calls + 15)).same_frame_run = 3 := by decide
  ⟨h3, h.2.2.2.1.symm.trans h3,
    (h.2.2.2.2.2.2.2.1 (Or.inl ⟨by decide, by decide, by
      rw [← h.2.2.2.1, h3]
      decide⟩)).1 1994⟩

theorem cpLoop_params {α H K : Type} [LinearOrder α] [Zero α]
    (nth_element : List (α × Int) → Nat → List (α × Int))
    (rng : Nat → List (α × Int) → Nat)
    (P Q : GenerationParams α) (E : Engine α H K) (past_hidden : H)
    (hd : P.do_sample = Q.do_sample) (ht : P.temperature = Q.temperature)
    (hk : P.top_k = Q.top_k) :
    ∀ (n g : Nat) (prev_codes codec_ids : List Int) (calls : Nat),
      cpLoop nth_element rng P E past_hidden n g prev_codes codec_ids calls =
        cpLoop nth_element rng Q E past_hidden n g prev_codes codec_ids calls := by
  intro n
  induction n with
  | zero => intro g prev codec calls; rfl
  | succ n ih =>
    intro g prev codec calls
    rw [cpLoop, cpLoop, hd, ht, hk]
    cases hsel : SelectCpCode nth_element (E.cp past_hidden (codec.getD 0 0) prev g)
        kCpVocab Q.do_sample Q.temperature Q.top_k (some (rng calls)) with
    | none => rfl
    | some pred =>
      simp only []
      by_cases hr : pred < 0 ∨ pred ≥ kCpVocab
      · rw [if_pos hr, if_pos hr]
      · rw [if_neg hr, if_neg hr]
        exact ih _ _ _ _

theorem loopStep_transfer {α H K : Type} [LinearOrder α] [Zero α]
    (nth_element : List (α × Int) → Nat → List (α × Int))
    (rng : Nat → List (α × Int) → Nat)
    (P Q : GenerationParams α) (E : Engine α H K) (steps : Int)
    (hd : P.do_sample = Q.do_sample) (ht : P.temperature = Q.temperature)
    (hk : P.top_k = Q.top_k) (he : P.eos_min_steps = Q.eos_min_steps)
    (s : Nat) (c : List Int) (st : LoopState H K) (c1 : List Int) (st1 : LoopState H K)
    (h : loopStep nth_element rng Q E steps s c st = .next c1 st1) :
    ∃ calls,
      st1.same_frame_run = (appendFrame st s c1 calls).same_frame_run ∧
      st1.prev_frame = c1 ∧ st1.all_codes = st.all_codes ++ c1 ∧
      (appendFrame st s c1 calls).all_codes = st1.all_codes ∧
      (appendFrame st s c1 calls).talker_runs = st.talker_runs ∧
      (¬ StopTest P steps s (appendFrame st s c1 calls) →
        loopStep nth_element rng P E steps s c st = .next c1 st1) ∧
      (StopTest P steps s (appendFrame st s c1 calls) →
        loopStep nth_element rng P E steps s c st =
          .exit (.stop (appendFrame st s c1 calls))) := by
  obtain ⟨hne, calls, code, hcp, _, hsel, hr, hst⟩ :=
    loopStep_next_inv nth_element rng Q E steps s c st c1 st1 h
  rw [← cpLoop_params nth_element rng P Q E _ hd ht hk] at hcp
  rw [← hd, ← ht, ← hk, ← he] at hsel
  rw [← he] at hne
  refine ⟨calls, by rw [hst]; rfl, by rw [hst]; rfl, by rw [hst]; rfl, by rw [hst]; rfl, rfl,
    fun hns => ?_, fun hs => ?_⟩
  · exact loopStep_next_of nth_element rng P E steps s c st c1 calls code st1 hne hcp hns
      hsel hr hst.symm
  · exact loopStep_stop_of nth_element rng P E steps s c st c1 calls _ hne hcp hs rfl

theorem loopHead_codec {α H K : Type} [LinearOrder α] [Zero α]
    (nth_element : List (α × Int) → Nat → List (α × Int))
    (rng : Nat → List (α × Int) → Nat)
    (P : GenerationParams α) (E : Engine α H K) (steps : Int) (first_code : Int)
    (hsteps : 0 < steps) (h0 : 0 ≤ first_code) (h1 : first_code < kTalkerVocab)
    (s : Nat) (c : List Int) (st : LoopState H K)
    (h : loopHead nth_element rng P E steps (initState E first_code) (s + 1) = some (c, st)) :
    frameAt st.all_codes s = c := by
  obtain ⟨c0, st0, hh, hstep⟩ := loopHead_succ_inv nth_element rng P E steps _ s c st h
  have hinv := loopHead_inv nth_element rng P E steps first_code hsteps h0 h1 s c0 st0 hh
  obtain ⟨_, calls, code, hcp, _, _, _, hst⟩ :=
    loopStep_next_inv nth_element rng P E steps s c0 st0 c st hstep
  obtain ⟨hclen, _⟩ := appendFrame_runs nth_element rng P E steps s c0 st0 c calls hinv hcp
  rw [hst]
  exact frameAt_append_right st0.all_codes c s hinv.2.1 hclen

theorem loopHead_frames {α H K : Type} [LinearOrder α] [Zero α]
    (nth_element : List (α × Int) → Nat → List (α × Int))
    (rng : Nat → List (α × Int) → Nat)
    (P : GenerationParams α) (E : Engine α H K) (steps : Int) (first_code : Int)
    (hsteps : 0 < steps) (h0 : 0 ≤ first_code) (h1 : first_code < kTalkerVocab) :
    ∀ (n s : Nat) (c : List Int) (st : LoopState H K) (c1 : List Int) (st1 : LoopState H K),
      loopHead nth_element rng P E steps (initState E first_code) (s + 1) = some (c, st) →
      loopHead nth_element rng P E steps (initState E first_code) (s + 1 + n) =
        some (c1, st1) →
      frameAt st1.all_codes s = c := by
  intro n
  induction n with
  | zero =>
    intro s c st c1 st1 h hn
    rw [Nat.add_zero, h] at hn
    injection hn with hn
    injection hn with e1 e2
    rw [← e2]
    exact loopHead_codec nth_element rng P E steps first_code hsteps h0 h1 s c st h
  | succ n ih =>
    intro s c st c1 st1 h hn
    obtain ⟨c0, st0, hh, hstep⟩ :=
      loopHead_succ_inv nth_element rng P E steps _ (s + 1 + n) c1 st1 hn
    have hinv := loopHead_inv nth_element rng P E steps first_code hsteps h0 h1 _ c0 st0 hh
    obtain ⟨_, calls, code, _, _, _, _, hst⟩ :=
      loopStep_next_inv nth_element rng P E steps _ c0 st0 c1 st1 hstep
    rw [hst]
    show frameAt (st0.all_codes ++ c1) s = c
    rw [frameAt_append_left st0.all_codes c1 (s + 1 + n) s hinv.2.1 (by omega)]
    exact ih s c st c0 st0 h hh

theorem finishGeneration_short {α : Type} (P : GenerationParams α) (all_codes : List Int)
    (n : Nat) (hl : all_codes.length = kCodeGroups * n) (h1 : 1 ≤ n) (h8 : n ≤ 8) :
    finishGeneration P all_codes = .decoded all_codes (n : Int) := by
  have hdiv : all_codes.length / kCodeGroups = n := by
    rw [hl]; exact Nat.mul_div_cancel_left _ (by decide)
  have hchar := TrimRepeatingTailFrames_char all_codes kCodeGroups n P.trim_tail_repeat_min
    P.trim_tail_keep (by decide) (by rw [hl, Nat.mul_comm])
  have hrun := terminalRun_le (frameFirstCodes all_codes kCodeGroups)
  have hfc : (frameFirstCodes all_codes kCodeGroups).length = n := by
    simp [frameFirstCodes, hdiv]
  rw [hfc] at hrun
  have hk8 : (8 : Int) ≤ max P.trim_tail_keep 8 := le_max_right _ _
  rw [if_neg (by omega)] at hchar
  unfold finishGeneration
  rw [hdiv, if_neg (by omega), hchar]
  by_cases h2 : P.trim_tail_repeat_min > 0
  · rw [if_pos h2, if_neg (by dsimp only; omega)]
  · rw [if_neg h2]

/-- C22 (amended): for every model, selection and parameters with
`tail_stop_repeat_frames = 3`, `tail_stop_min_steps` between 0 and 6, the auto stop off
(its default) and a step ceiling of at least 7 (the default ceiling is 2000): if the
generation with the tail stop switched off emits at least six frames, of which frames
2, 3 and 4 each differ from the frame before and frames 4, 5, 6 are identical, then
with the tail stop on the loop reaches the iteration of step 6 with the same variables,
leaves by the stop test right after the frame of step 6 is appended, with frame run 3,
six frames and no talker execution after the fifth, `decodeLoop` returns these
variables, and `generateVoice` hands exactly those six frames to the vocoder. -/
theorem tail_stop_scenario {α H K : Type} [LinearOrder α] [Zero α]
    (nth_element : List (α × Int) → Nat → List (α × Int))
    (rng : Nat → List (α × Int) → Nat)
    (input_ids instruct_ids : List Int) (P : GenerationParams α) (E : Engine α H K)
    (first_code : Int) (c6 : List Int) (st6 : LoopState H K)
    (h3 : P.tail_stop_repeat_frames = 3) (hm0 : 0 ≤ P.tail_stop_min_steps)
    (hm6 : P.tail_stop_min_steps ≤ 6) (ha : P.auto_stop_first_code_run ≤ 0)
    (hS : 7 ≤ resolveSteps P)
    (hi : input_ids ≠ []) (hn : instruct_ids ≠ []) (ht : ¬ P.temperature < 0)
    (hk : ¬ P.top_k < 0) (he : ¬ P.eos_min_steps < 0)
    (hsel : SelectTalkerFirstCode nth_element E.prefill_logits kTalkerVocab kCpVocab
        kCodecEosId (decide ((0 : Int) ≥ P.eos_min_steps)) P.do_sample P.temperature
        P.top_k (some (rng 0)) = some first_code)
    (hr : ¬ (first_code < 0 ∨ first_code ≥ kTalkerVocab))
    (hfree : loopHead nth_element rng (withoutTailStop P) E (resolveSteps P)
        (initState E first_code) 6 = some (c6, st6))
    (hdiff : frameAt st6.all_codes 0 ≠ frameAt st6.all_codes 1 ∧
      frameAt st6.all_codes 1 ≠ frameAt st6.all_codes 2 ∧
      frameAt st6.all_codes 2 ≠ frameAt st6.all_codes 3)
    (hsame : frameAt st6.all_codes 3 = frameAt st6.all_codes 4 ∧
      frameAt st6.all_codes 4 = frameAt st6.all_codes 5) :
    loopHead nth_element rng P E (resolveSteps P) (initState E first_code) 5 =
        loopHead nth_element rng (withoutTailStop P) E (resolveSteps P)
          (initState E first_code) 5 ∧
      ∃ st : LoopState H K,
        loopRun nth_element rng P E (resolveSteps P) (resolveSteps P).toNat 0
          (List.replicate kCodeGroups 1) (initState E first_code) = .stop st ∧
        decodeLoop nth_element rng P E (resolveSteps P) (resolveSteps P).toNat 0
          (List.replicate kCodeGroups 1) (initState E first_code) = .ok st ∧
        st.all_codes = st6.all_codes ∧ st.all_codes.length = kCodeGroups * 6 ∧
        st.same_frame_run = 3 ∧ st.talker_runs = 5 ∧
        generateVoice nth_element rng true true (.ok (input_ids, instruct_ids)) P E =
          .decoded st6.all_codes 6 := by
  have hpos : 0 < resolveSteps P := by omega
  have hf0 : 0 ≤ first_code := by omega
  have hf1 : first_code < kTalkerVocab := by omega
  obtain ⟨c5, st5, hh5, hs5⟩ := loopHead_succ_inv nth_element rng _ E _ _ 5 c6 st6 hfree
  obtain ⟨c4, st4, hh4, hs4⟩ := loopHead_succ_inv nth_element rng _ E _ _ 4 c5 st5 hh5
  obtain ⟨c3, st3, hh3, hs3⟩ := loopHead_succ_inv nth_element rng _ E _ _ 3 c4 st4 hh4
  obtain ⟨c2, st2, hh2, hs2⟩ := loopHead_succ_inv nth_element rng _ E _ _ 2 c3 st3 hh3
  obtain ⟨c1, st1, hh1, hs1⟩ := loopHead_succ_inv nth_element rng _ E _ _ 1 c2 st2 hh2
  obtain ⟨c0, st0, hh0, hs0⟩ := loopHead_succ_inv nth_element rng _ E _ _ 0 c1 st1 hh1
  have hfr := loopHead_frames nth_element rng (withoutTailStop P) E (resolveSteps P)
    first_code hpos hf0 hf1
  have e1 : frameAt st6.all_codes 0 = c1 := hfr 5 0 c1 st1 c6 st6 hh1 hfree
  have e2 : frameAt st6.all_codes 1 = c2 := hfr 4 1 c2 st2 c6 st6 hh2 hfree
  have e3 : frameAt st6.all_codes 2 = c3 := hfr 3 2 c3 st3 c6 st6 hh3 hfree
  have e4 : frameAt st6.all_codes 3 = c4 := hfr 2 3 c4 st4 c6 st6 hh4 hfree
  have e5 : frameAt st6.all_codes 4 = c5 := hfr 1 4 c5 st5 c6 st6 hh5 hfree
  have e6 : frameAt st6.all_codes 5 = c6 := hfr 0 5 c6 st6 c6 st6 hfree hfree
  rw [e1, e2, e3, e4] at hdiff
  rw [e4, e5, e6] at hsame
  obtain ⟨d12, d23, d34⟩ := hdiff
  obtain ⟨s45, s56⟩ := hsame
  have hinv6 := loopHead_inv nth_element rng (withoutTailStop P) E (resolveSteps P)
    first_code hpos hf0 hf1 6 c6 st6 hfree
  have hinv5 := loopHead_inv nth_element rng (withoutTailStop P) E (resolveSteps P)
    first_code hpos hf0 hf1 5 c5 st5 hh5
  obtain ⟨k0, r0, p0, _, _, _, n0, _⟩ := loopStep_transfer nth_element rng P
    (withoutTailStop P) E (resolveSteps P) rfl rfl rfl rfl 0 c0 st0 c1 st1 hs0
  obtain ⟨k1, r1, p1, _, _, _, n1, _⟩ := loopStep_transfer nth_element rng P
    (withoutTailStop P) E (resolveSteps P) rfl rfl rfl rfl 1 c1 st1 c2 st2 hs1
  obtain ⟨k2, r2, p2, _, _, _, n2, _⟩ := loopStep_transfer nth_element rng P
    (withoutTailStop P) E (resolveSteps P) rfl rfl rfl rfl 2 c2 st2 c3 st3 hs2
  obtain ⟨k3, r3, p3, _, _, _, n3, _⟩ := loopStep_transfer nth_element rng P
    (withoutTailStop P) E (resolveSteps P) rfl rfl rfl rfl 3 c3 st3 c4 st4 hs3
  obtain ⟨k4, r4, p4, _, _, _, n4, _⟩ := loopStep_transfer nth_element rng P
    (withoutTailStop P) E (resolveSteps P) rfl rfl rfl rfl 4 c4 st4 c5 st5 hs4
  obtain ⟨k5, r5, _, _, a5, t5, _, x5⟩ := loopStep_transfer nth_element rng P
    (withoutTailStop P) E (resolveSteps P) rfl rfl rfl rfl 5 c5 st5 c6 st6 hs5
  have q0 : (appendFrame st0 0 c1 k0).same_frame_run = 1 := by
    show (if 0 > 0 ∧ c1 = st0.prev_frame then st0.same_frame_run + 1 else 1) = 1
    rw [if_neg (fun h => Nat.lt_irrefl 0 h.1)]
  have q1 : (appendFrame st1 1 c2 k1).same_frame_run = 1 := by
    show (if 1 > 0 ∧ c2 = st1.prev_frame then st1.same_frame_run + 1 else 1) = 1
    rw [p0, if_neg (fun h => d12 h.2.symm)]
  have q2 : (appendFrame st2 2 c3 k2).same_frame_run = 1 := by
    show (if 2 > 0 ∧ c3 = st2.prev_frame then st2.same_frame_run + 1 else 1) = 1
    rw [p1, if_neg (fun h => d23 h.2.symm)]
  have q3 : (appendFrame st3 3 c4 k3).same_frame_run = 1 := by
    show (if 3 > 0 ∧ c4 = st3.prev_frame then st3.same_frame_run + 1 else 1) = 1
    rw [p2, if_neg (fun h => d34 h.2.symm)]
  have q4 : (appendFrame st4 4 c5 k4).same_frame_run = 2 := by
    show (if 4 > 0 ∧ c5 = st4.prev_frame then st4.same_frame_run + 1 else 1) = 2
    rw [p3, if_pos ⟨by decide, s45.symm⟩, r3, q3]
    rfl
  have q5 : (appendFrame st5 5 c6 k5).same_frame_run = 3 := by
    show (if 5 > 0 ∧ c6 = st5.prev_frame then st5.same_frame_run + 1 else 1) = 3
    rw [p4, if_pos ⟨by decide, s56.symm⟩, r4, q4]
    rfl
  have hnot : ∀ (s : Nat) (st : LoopState H K), s ≤ 4 → st.same_frame_run ≤ 2 →
      ¬ StopTest P (resolveSteps P) s st := by
    intro s st hs hrun
    unfold StopTest
    rintro (h | h | h)
    · omega
    · omega
    · omega
  have g0 : loopHead nth_element rng P E (resolveSteps P) (initState E first_code) 0 =
      some (c0, st0) := hh0
  have g1 := loopHead_next nth_element rng P E (resolveSteps P) _ 0 c0 st0 c1 st1 g0
    (n0 (hnot 0 _ (by decide) (by rw [q0]; decide)))
  have g2 := loopHead_next nth_element rng P E (resolveSteps P) _ 1 c1 st1 c2 st2 g1
    (n1 (hnot 1 _ (by decide) (by rw [q1]; decide)))
  have g3 := loopHead_next nth_element rng P E (resolveSteps P) _ 2 c2 st2 c3 st3 g2
    (n2 (hnot 2 _ (by decide) (by rw [q2]; decide)))
  have g4 := loopHead_next nth_element rng P E (resolveSteps P) _ 3 c3 st3 c4 st4 g3
    (n3 (hnot 3 _ (by decide) (by rw [q3]; decide)))
  have g5 := loopHead_next nth_element rng P E (resolveSteps P) _ 4 c4 st4 c5 st5 g4
    (n4 (hnot 4 _ (by decide) (le_of_eq q4)))
  have hstop : loopStep nth_element rng P E (resolveSteps P) 5 c5 st5 =
      .exit (.stop (appendFrame st5 5 c6 k5)) := by
    apply x5
    left
    refine ⟨by omega, ?_, by rw [q5, h3]⟩
    push_cast
    omega
  have hfuel : (resolveSteps P).toNat = 5 + (((resolveSteps P).toNat - 6) + 1) := by omega
  have hrun : loopRun nth_element rng P E (resolveSteps P) (resolveSteps P).toNat 0
      (List.replicate kCodeGroups 1) (initState E first_code) =
        .stop (appendFrame st5 5 c6 k5) := by
    rw [hfuel, loopRun_from_head nth_element rng P E (resolveSteps P) _ 5 c5 st5 _ g5]
    exact loopRun_exit nth_element rng P E (resolveSteps P) _ 5 c5 st5 _ hstop
  have hdec : decodeLoop nth_element rng P E (resolveSteps P) (resolveSteps P).toNat 0
      (List.replicate kCodeGroups 1) (initState E first_code) =
        .ok (appendFrame st5 5 c6 k5) := by
    rw [decodeLoop_eq_loopRun, hrun]
    rfl
  have hlen : st6.all_codes.length = kCodeGroups * 6 := hinv6.2.1
  refine ⟨g5.trans hh5.symm, appendFrame st5 5 c6 k5, hrun, hdec, a5, by rw [a5, hlen], q5,
    by rw [t5]; exact hinv5.2.2.1, ?_⟩
  have hgen : generateVoice nth_element rng true true (.ok (input_ids, instruct_ids)) P E =
      finishLoop P
        (decodeLoop nth_element rng P E (resolveSteps P) (resolveSteps P).toNat 0
          (List.replicate kCodeGroups 1) (initState E first_code)) :=
    generateVoice_run nth_element rng input_ids instruct_ids P E first_code
      (resolveSteps P).toNat hi hn ht hk (by omega) (by omega) he (by omega) hsel hr rfl
  rw [hgen, hdec]
  show finishGeneration P (appendFrame st5 5 c6 k5).all_codes = _
  rw [a5]
  exact finishGeneration_short P st6.all_codes 6 hlen (by decide) (by decide)

theorem repeat_free_step (s : Nat) (code : Int) (p : Nat)
    (heos : (repeatState s).current_first_code ≠ kCodecEosId)
    (hc : (repeatCodec s).set 0 (repeatState s).current_first_code =
      (repeatState s).current_first_code ::
        List.replicate 15 (((repeatCodec s).set 0 (repeatState s).current_first_code).getD 1 0))
    (hframe : (repeatState s).current_first_code :: List.replicate 15 0 = repeatFrame (s + 1))
    (hlast : ¬ (s : Int) = 2000 - 1)
    (hp : (p : Int) < kCpVocab) (hcode : code = (p : Int))
    (hlog : (runTalker repeatFromFourEngine (appendFrame (repeatState s) s (repeatFrame (s + 1))
        ((repeatState s).calls + 15)) s (repeatFrame (s + 1))).1 =
      fun i => if i = p then (1 : Int) else 0)
    (hst : nextState repeatFromFourEngine (repeatState s) s (repeatFrame (s + 1))
        ((repeatState s).calls + 15) code = repeatState (s + 1)) :
    loopStep nthElementSort (fun _ _ => 0) (withoutTailStop (tailStopParams 0))
        repeatFromFourEngine 2000 s (repeatCodec s) (repeatState s) =
      .next (repeatFrame (s + 1)) (repeatState (s + 1)) := by
  apply loopStep_next_of nthElementSort (fun _ _ => 0) (withoutTailStop (tailStopParams 0))
    repeatFromFourEngine 2000 s (repeatCodec s) (repeatState s) (repeatFrame (s + 1))
    ((repeatState s).calls + 15) code (repeatState (s + 1))
  · exact fun h => heos h.2.1
  · rw [← hframe]
    exact cpLoop_zero nthElementSort (fun _ _ => 0) (withoutTailStop (tailStopParams 0))
      repeatFromFourEngine _ rfl rfl _ _ _ hc
  · unfold StopTest
    rintro (h | h | h)
    · exact absurd h.1 (by decide)
    · exact absurd h.1 (by decide)
    · exact hlast h
  · rw [hlog, hcode]
    exact SelectTalkerFirstCode_peak nthElementSort p hp _ _ _ _
  · rw [hcode]
    unfold kTalkerVocab
    unfold kCpVocab at hp
    omega
  · exact hst

theorem repeat_free_heads :
    loopHead nthElementSort (fun _ _ => 0) (withoutTailStop (tailStopParams 0))
        repeatFromFourEngine 2000 (initState repeatFromFourEngine 1) 6 =
      some (repeatCodec 6, repeatState 6) := by
  have h0 : loopHead nthElementSort (fun _ _ => 0) (withoutTailStop (tailStopParams 0))
      repeatFromFourEngine 2000 (initState repeatFromFourEngine 1) 0 =
        some (repeatCodec 0, repeatState 0) := rfl
  have h1 := loopHead_next nthElementSort (fun _ _ => 0) (withoutTailStop (tailStopParams 0))
    repeatFromFourEngine 2000 (initState repeatFromFourEngine 1) 0 _ _ _ _ h0
    (repeat_free_step 0 2 2 (by decide) rfl rfl (by decide) (by decide) rfl rfl rfl)
  have h2 := loopHead_next nthElementSort (fun _ _ => 0) (withoutTailStop (tailStopParams 0))
    repeatFromFourEngine 2000 (initState repeatFromFourEngine 1) 1 _ _ _ _ h1
    (repeat_free_step 1 3 3 (by decide) rfl rfl (by decide) (by decide) rfl rfl rfl)
  have h3 := loopHead_next nthElementSort (fun _ _ => 0) (withoutTailStop (tailStopParams 0))
    repeatFromFourEngine 2000 (initState repeatFromFourEngine 1) 2 _ _ _ _ h2
    (repeat_free_step 2 4 4 (by decide) rfl rfl (by decide) (by decide) rfl rfl rfl)
  have h4 := loopHead_next nthElementSort (fun _ _ => 0) (withoutTailStop (tailStopParams 0))
    repeatFromFourEngine 2000 (initState repeatFromFourEngine 1) 3 _ _ _ _ h3
    (repeat_free_step 3 4 4 (by decide) rfl rfl (by decide) (by decide) rfl rfl rfl)
  have h5 := loopHead_next nthElementSort (fun _ _ => 0) (withoutTailStop (tailStopParams 0))
    repeatFromFourEngine 2000 (initState repeatFromFourEngine 1) 4 _ _ _ _ h4
    (repeat_free_step 4 4 4 (by decide) rfl rfl (by decide) (by decide) rfl rfl rfl)
  have h6 := loopHead_next nthElementSort (fun _ _ => 0) (withoutTailStop (tailStopParams 0))
    repeatFromFourEngine 2000 (initState repeatFromFourEngine 1) 5 _ _ _ _ h5
    (repeat_free_step 5 4 4 (by decide) rfl rfl (by decide) (by decide) rfl rfl rfl)
  exact h6

/-- C22 (witness): `tail_stop_min_steps = 0`, the default ceiling 2000, greedy selection
and the model whose first code at step `n` is `min n 4` with all group codes 0: the
loop stops with the six frames of steps 1 to 6 and `generateVoice` hands them on. -/
theorem tail_stop_scenario_witness :
    (frameAt (repeatState 6).all_codes 3 = frameAt (repeatState 6).all_codes 4 ∧
        frameAt (repeatState 6).all_codes 4 = frameAt (repeatState 6).all_codes 5) ∧
      ∃ st : LoopState Unit Unit,
        loopRun nthElementSort (fun _ _ => 0) (tailStopParams 0) repeatFromFourEngine
          (resolveSteps (tailStopParams 0)) (resolveSteps (tailStopParams 0)).toNat 0
          (List.replicate kCodeGroups 1) (initState repeatFromFourEngine 1) = .stop st ∧
        decodeLoop nthElementSort (fun _ _ => 0) (tailStopParams 0) repeatFromFourEngine
          (resolveSteps (tailStopParams 0)) (resolveSteps (tailStopParams 0)).toNat 0
          (List.replicate kCodeGroups 1) (initState repeatFromFourEngine 1) = .ok st ∧
        st.all_codes = (repeatState 6).all_codes ∧ st.all_codes.length = kCodeGroups * 6 ∧
        st.same_frame_run = 3 ∧ st.talker_runs = 5 ∧
        generateVoice nthElementSort (fun _ _ => 0) true true (.ok ([1], [2]))
          (tailStopParams 0) repeatFromFourEngine = .decoded (repeatState 6).all_codes 6 :=
  ⟨by decide,
    (tail_stop_scenario nthElementSort (fun _ _ => 0) [1] [2] (tailStopParams 0)
      repeatFromFourEngine 1 (repeatCodec 6) (repeatState 6) rfl (by decide) (by decide)
      (by decide) (by decide) (by decide) (by decide) (by decide) (by decide) (by decide)
      (SelectTalkerFirstCode_peak nthElementSort 1 (by decide) _ _ _ _) (by decide)
      repeat_free_heads (by decide) (by decide)).2⟩

end QWEN3TTS
